import Mathlib

/-!
# xnu-uboot-arm32: the Mach-O loader, the boot-stream interpreter and the JSDT front-end

A shallow embedding of `src/mach-o/macho.c`, `src/mach-o/macho_util.c`,
`src/main/loader.c`, `src/main/mach_boot.c`, `src/main/memory.c`, `src/image3/image3.c`,
`src/compressed/lzss.c`, `src/serialize/jsmn.c`, `src/main/strol.c` and
`src/main/JS_device_tree.c`.

Conventions of the embedding:

* the target is a 32-bit little-endian ARM: `uint32_t`, `uintptr_t`, `unsigned long`
  and pointers are naturals below `2^32`, every C operation that can overflow is
  reduced with `u32`;
* memory is one byte map `Mem`, addressed by naturals;
* the C structures that the code reads through a pointer cast (Mach-O header, load
  commands, sections, relocation tables, symbol tables) are taken decoded, as Lean
  structures: their declarations live in headers that are not part of the sources, so
  no byte layout is assumed for them. Where the code writes to memory between two reads
  of the image (`mach_file_map`, and `load_macho` through it), the structures are decoded
  again from the memory at each read, through a `macho_reader`;
* a C pointer that the code tests against `NULL` is an `Option`, the other pointers
  into decoded structures are the structure they point to.
-/

namespace XnuUboot

/-! ## Machine arithmetic and memory -/

/-- Reduction of a natural to a 32-bit unsigned word. -/
def u32 (x : Nat) : Nat := x % 4294967296

/-- Subtraction of two 32-bit unsigned words, wrapping as in C. -/
def sub32 (a b : Nat) : Nat := (a % 4294967296 + (4294967296 - b % 4294967296)) % 4294967296

/-- Modelled from the spec: `add_ptr2` is defined in `bootkit/runtime.h`, which is not
among the sources; the spec writes these sums as `src+fileoff` and `dst+actual_vmaddr`.
The sum of a pointer and an offset, in 32-bit pointer arithmetic. -/
def add_ptr2 (a b : Nat) : Nat := u32 (a + b)

/-- Modelled from the spec: `add_ptr3` is defined in `bootkit/runtime.h`, which is not
among the sources. The sum of a pointer and two offsets, in 32-bit pointer arithmetic. -/
def add_ptr3 (a b c : Nat) : Nat := u32 (a + b + c)

/-- Modelled from the spec: `align_up` is defined in `bootkit/runtime.h`, which is not
among the sources; the spec says "page-aligned up". Rounds `x` up to the next multiple
of `a` in 32-bit arithmetic (`a` a power of two in every use). -/
def align_up (x a : Nat) : Nat := u32 ((x + (a - 1)) / a * a)

/-- Byte-addressed memory. -/
abbrev Mem := Nat → Nat

/-- Modelled from the spec: `bcopy` is the C library routine (`copy filesize bytes from
src+fileoff to dst+actual_vmaddr`); it copies `n` bytes from `src` to `dst` and is safe
on overlapping ranges, so every byte read is a byte of the memory before the call. -/
def bcopy (m : Mem) (src dst n : Nat) : Mem :=
  fun a => if dst ≤ a ∧ a < dst + n then m (src + (a - dst)) else m a

/-- Modelled from the spec: `bzero` is the C library routine (`zero the vmsize - filesize
remainder`); it clears `n` bytes at `dst`. -/
def bzero (m : Mem) (dst n : Nat) : Mem :=
  fun a => if dst ≤ a ∧ a < dst + n then 0 else m a

/-- Little-endian load of the 32-bit word at address `a`. -/
def read32 (m : Mem) (a : Nat) : Nat :=
  m a % 256 + 256 * (m (a + 1) % 256) + 65536 * (m (a + 2) % 256) + 16777216 * (m (a + 3) % 256)

/-- Little-endian store of the 32-bit word `v` at address `a`. -/
def write32 (m : Mem) (a v : Nat) : Mem :=
  fun x =>
    if x = a then v % 256
    else if x = a + 1 then v / 256 % 256
    else if x = a + 2 then v / 65536 % 256
    else if x = a + 3 then v / 16777216 % 256
    else m x

/-- Modelled from the spec: `strncmp` is the C library routine; the strings are given
without their terminating NUL. The result is zero exactly when the first `n` characters
(terminator included) agree. -/
def strncmp_eq (a b : List Nat) (n : Nat) : Bool := a.take n == b.take n

/-! ## Mach-O structures (`bootkit/mach-o/macho.h`, decoded) -/

/-- Modelled from the spec: the enumeration `loader_return_t` is declared in
`bootkit/mach-o/macho_loader.h`, which is not among the sources; the spec lists its tags
(section 7). -/
inductive loader_return_t
  | LOADER_SUCCESS
  | LOADER_BADMAGIC
  | LOADER_BADFILETYPE
  | LOADER_MALFORMED
  | LOADER_NOSYMTAB
  | LOADER_EXEC_UNSUPPORTED
  | LOADER_EXEC_NONCONTIGIOUS
  | LOADER_EXEC_UNEXPECTED_SEG
  | LOADER_OBJECT_BADSEGMENT
  | LOADER_BADRELOC
  | LOADER_OUTOFBOUNDS
  | LOADER_SYMBOL_NOT_FOUND
  deriving DecidableEq, Repr

open loader_return_t

/-- Modelled from the spec: `MH_MAGIC`, from the absent `bootkit/mach-o/macho.h`; the
magic of a 32-bit Mach-O header, with the value of the Mach-O format. -/
def MH_MAGIC : Nat := 0xfeedface
/-- Modelled from the spec: `MH_OBJECT`, from the absent header; the file type of a
relocatable object. -/
def MH_OBJECT : Nat := 1
/-- Modelled from the spec: `MH_EXECUTE`, from the absent header; the file type of an
executable. -/
def MH_EXECUTE : Nat := 2
/-- Modelled from the spec: `SECTION_TYPE`, from the absent header; the mask of the
section type in the flags of a section. -/
def SECTION_TYPE : Nat := 0xff
/-- Modelled from the spec: `S_ZEROFILL`, from the absent header; the section type of a
zero-filled section. -/
def S_ZEROFILL : Nat := 1
/-- Modelled from the spec: `R_SCATTERED`, from the absent header; the high bit of
`r_address`, which marks a scattered relocation. -/
def R_SCATTERED : Nat := 0x80000000
/-- Modelled from the spec: `R_ABS`, from the absent header; the symbol number of an
absolute relocation. -/
def R_ABS : Nat := 0
/-- Modelled from the spec: `GENERIC_RELOC_VANILLA`, from the absent header; the plain
relocation type. -/
def GENERIC_RELOC_VANILLA : Nat := 0
/-- Modelled from the spec: `kPrelinkInfoSegment`, from the absent header; the segment
name `__PRELINK_INFO`. -/
def kPrelinkInfoSegment : List Nat :=
  [95, 95, 80, 82, 69, 76, 73, 78, 75, 95, 73, 78, 70, 79]

/-- Modelled from the spec: `struct relocation_info`, from the absent header; one record
of a relocation table, with the fields that the spec names (section 4.3). -/
structure relocation_info where
  r_address : Nat
  r_symbolnum : Nat
  r_pcrel : Nat
  r_length : Nat
  r_extern : Nat
  r_type : Nat
  deriving DecidableEq, Repr

/-- Modelled from the spec: `struct section`, from the absent header; a section header
with the fields that the code reads, and the `nreloc` relocation records that the file
holds at `reloff`. -/
structure macho_section where
  sectname : List Nat
  addr : Nat
  size : Nat
  offset : Nat
  reloff : Nat
  relocs : List relocation_info
  flags : Nat
  deriving DecidableEq, Repr

/-- Modelled from the spec: `struct segment_command`, from the absent header; a segment
load command with the fields that the code reads, and its `nsects` section headers. -/
structure segment_command where
  segname : List Nat
  vmaddr : Nat
  vmsize : Nat
  fileoff : Nat
  filesize : Nat
  sects : List macho_section
  deriving DecidableEq, Repr

/-- Modelled from the spec: `struct nlist`, from the absent header; a symbol table
entry. -/
structure nlist where
  n_strx : Nat
  n_type : Nat
  n_sect : Nat
  n_desc : Nat
  n_value : Nat
  deriving DecidableEq, Repr

/-- A symbol table entry with every field zero. -/
def zero_nlist : nlist := { n_strx := 0, n_type := 0, n_sect := 0, n_desc := 0, n_value := 0 }

/-- Modelled from the spec: `struct symtab_command`, from the absent header; the symbol
table load command with the two tables it locates in the file, the `nsyms` symbols at
`symoff` and the string pool at `stroff`. -/
structure symtab_command where
  symoff : Nat
  stroff : Nat
  symbols : List nlist
  strings : List Nat
  deriving DecidableEq, Repr

/-- Modelled from the spec: `struct dysymtab_command`, from the absent header; the
dynamic symbol table load command with the fields that the code reads, and the `nlocrel`
local relocation records that the file holds at `locreloff`. -/
structure dysymtab_command where
  iextdefsym : Nat
  nextdefsym : Nat
  tocoff : Nat
  locreloff : Nat
  locrel : List relocation_info
  deriving DecidableEq, Repr

/-- Modelled from the spec: `struct load_command` and the `LC_` constants, from the
absent header; a load command, by the value of its `cmd` field, with the fields that
the code reads for that value (`pc` is `state.pc` of the thread command). -/
inductive load_command
  | LC_SEGMENT (cmd : segment_command)
  | LC_SYMTAB (cmd : symtab_command)
  | LC_UNIXTHREAD (pc : Nat)
  | LC_DYSYMTAB (cmd : dysymtab_command)
  | LC_DYLD_INFO
  | LC_DYLD_INFO_ONLY
  | LC_OTHER (cmd : Nat)
  deriving DecidableEq, Repr

/-- Modelled from the spec: `mach_header_t`, from the absent header; the Mach-O header
with the fields that the code reads, and the `ncmds` load commands that follow it. -/
structure mach_header_t where
  magic : Nat
  filetype : Nat
  cmds : List load_command
  deriving DecidableEq, Repr

/-- Modelled from the spec: `mach_loader_context_t`, from the absent
`bootkit/mach-o/macho_loader.h`; the loader context with the fields that the code uses
(spec, section 3). `file` and `base` are addresses, `head` is the decoded header found
at `file`, `loader_bias` is kept as its 32-bit pattern. -/
structure mach_loader_context_t where
  file : Nat
  head : mach_header_t
  base : Nat
  vmsize : Nat
  filetype : Nat
  vm_bias : Nat
  loader_bias : Nat
  symtab : Option symtab_command
  dsymtab : Option dysymtab_command
  string_base : Option (List Nat)
  symbol_base : Nat → nlist
  entry_point : Nat
  compressed : Nat
  is_prelinked : Bool
  first_segment : segment_command

/-- A segment command with every field zero. -/
def empty_segment : segment_command :=
  { segname := [], vmaddr := 0, vmsize := 0, fileoff := 0, filesize := 0, sects := [] }

/-! ## Reading the Mach-O structures from memory -/

/-- Modelled from the spec: the reads that the code makes through its pointers into the
image, for the structures of the absent `bootkit/mach-o/macho.h` (spec, section 3: a
header `{magic, cputype, cpusubtype, filetype, ncmds, sizeofcmds, flags}` followed by
`ncmds` load commands, each `{cmd, cmdsize, ...}`). Every read is made on the memory as
it is at the time of the read:

* `magic m head`, `filetype m head` and `ncmds m head` are `head->magic`,
  `head->filetype` and `head->ncmds` for the header at address `head`;
* `first_lc head` is `(struct load_command*)(head+1)`, the address that follows the
  header;
* `cmdsize m lcp` is `lcp->cmdsize` for the load command at address `lcp`;
* `lc m lcp` is the load command at address `lcp`, by the value of `lcp->cmd`, with the
  fields that the code reads for that value;
* `seg m lcp` is what the memory holds at `lcp` read through a
  `struct segment_command*`, with the `nsects` section headers that follow it. -/
structure macho_reader where
  magic : Mem → Nat → Nat
  filetype : Mem → Nat → Nat
  ncmds : Mem → Nat → Nat
  first_lc : Nat → Nat
  cmdsize : Mem → Nat → Nat
  lc : Mem → Nat → load_command
  seg : Mem → Nat → segment_command

/-- The load command that the memory `m` holds at address `lcp`, decoded; the fields of
a segment command are those read through the `struct segment_command*`. -/
def read_lc (rd : macho_reader) (m : Mem) (lcp : Nat) : load_command :=
  match rd.lc m lcp with
  | load_command.LC_SEGMENT _ => load_command.LC_SEGMENT (rd.seg m lcp)
  | lc => lc

/-- The addresses of the `n` load commands that `for_each_lc` visits from `lcp` on over
the memory `m`: each one at the address of the one before plus its `cmdsize`. -/
def lc_addrs (rd : macho_reader) (m : Mem) : Nat → Nat → List Nat
  | 0, _ => []
  | n + 1, lcp => lcp :: lc_addrs rd m n (add_ptr2 lcp (rd.cmdsize m lcp))

/-- The header and the `ncmds` load commands that the memory `m` holds at address
`head`, decoded. -/
def read_header (rd : macho_reader) (m : Mem) (head : Nat) : mach_header_t :=
  { magic := rd.magic m head
    filetype := rd.filetype m head
    cmds := (lc_addrs rd m (u32 (rd.ncmds m head)) (rd.first_lc head)).map (read_lc rd m) }

/-! ## `macho.c`: size, mapping -/

/-- The body of the `for_each_section` loop of `mach_file_vmsize`. -/
def vmsize_sections (sc : Nat) : List macho_section → Nat
  | [] => sc
  | sect :: rest => vmsize_sections (u32 (sc + sect.size)) rest

/-- The `for_each_lc` loop of `mach_file_vmsize`; the state is `sc`, `seg_count` and
`has_symtab`. An early `return` is the left alternative. -/
def mach_file_vmsize_loop (filetype : Nat) :
    List load_command → Nat → Nat → Bool → loader_return_t ⊕ (Nat × Nat × Bool)
  | [], sc, seg_count, has_symtab => Sum.inr (sc, seg_count, has_symtab)
  | load_command.LC_SEGMENT cmd :: rest, sc, seg_count, has_symtab =>
    if filetype = MH_EXECUTE then
      mach_file_vmsize_loop filetype rest (u32 (sc + cmd.vmsize)) seg_count has_symtab
    else if filetype = MH_OBJECT then
      if seg_count ≠ 0 then Sum.inl LOADER_OBJECT_BADSEGMENT
      else mach_file_vmsize_loop filetype rest (vmsize_sections sc cmd.sects)
        (seg_count + 1) has_symtab
    else Sum.inl LOADER_BADFILETYPE
  | load_command.LC_SYMTAB _ :: rest, sc, seg_count, _ =>
    mach_file_vmsize_loop filetype rest sc seg_count true
  | _ :: rest, sc, seg_count, has_symtab =>
    mach_file_vmsize_loop filetype rest sc seg_count has_symtab

/-- The function `mach_file_vmsize`: the return code and, on success, the value stored
through `sz`. -/
def mach_file_vmsize (file : mach_loader_context_t) : loader_return_t × Option Nat :=
  match mach_file_vmsize_loop file.filetype file.head.cmds 0 0 false with
  | Sum.inl e => (e, none)
  | Sum.inr (sc, _, has_symtab) =>
    if file.filetype = MH_OBJECT ∧ has_symtab = false then (LOADER_NOSYMTAB, none)
    else (LOADER_SUCCESS, some sc)

/-- The function `_map_section`. -/
def _map_section (file : mach_loader_context_t) (sect : macho_section) (load_addr : Nat)
    (m : Mem) : Mem :=
  let va := add_ptr2 load_addr sect.addr
  if sect.flags &&& SECTION_TYPE = S_ZEROFILL then
    bzero m va sect.size
  else
    bcopy m (add_ptr2 file.file sect.offset) va sect.size

/-- The `for_each_section` loop of the object branch of `mach_file_map`, on the segment
command at address `seg`. The test `XXi < seg->nsects` and the section header `sect` are
read from the memory that the sections mapped so far have left. The first argument
counts the values that the 32-bit counter `XXi` can still take; the second is `XXi`.
`seg->nsects` is below `2^32`, so the test fails before the counter runs out
(`map_sections_fuel`). -/
def map_sections (rd : macho_reader) (file : mach_loader_context_t) (seg load_addr : Nat) :
    Nat → Nat → Mem → Mem
  | 0, _, m => m
  | n + 1, i, m =>
    match (rd.seg m seg).sects[i]? with
    | none => m
    | some sect => map_sections rd file seg load_addr n (i + 1) (_map_section file sect load_addr m)

/-- The executable branch of `mach_file_map` past the `vm_bias` test, on the segment
command at address `lcp`: copy the file part of the segment, zero the rest. `delta`,
`actual_vmaddr` and the arguments of `bcopy` are read before the copy; the test
`cmd->vmsize > cmd->filesize` and the `cmd->filesize` of the `bzero` target are read from
the memory that the copy has left. -/
def map_exec_segment (rd : macho_reader) (file : mach_loader_context_t) (lcp load_addr : Nat)
    (m : Mem) : Mem :=
  let cmd := rd.seg m lcp
  let delta := sub32 cmd.vmsize cmd.filesize
  let actual_vmaddr := sub32 cmd.vmaddr file.vm_bias
  let m1 :=
    if cmd.filesize ≠ 0 then
      bcopy m (add_ptr2 file.file cmd.fileoff) (add_ptr2 load_addr actual_vmaddr) cmd.filesize
    else m
  let cmd1 := rd.seg m1 lcp
  if delta ≠ 0 ∧ cmd1.vmsize > cmd1.filesize then
    bzero m1 (add_ptr3 load_addr actual_vmaddr cmd1.filesize) delta
  else m1

/-- The state threaded through the `for_each_lc` loop of `mach_file_map`. -/
structure map_state where
  file : mach_loader_context_t
  seg_count : Nat
  mem : Mem

/-- One iteration of the `for_each_lc` loop of `mach_file_map`, on the load command at
address `lcp`, read from the memory as it is when the iteration starts. In the
executable branch `cmd->segname` and `cmd->vmsize` of the prelink test are read from the
memory that the copy and the zeroing have left; the empty `for_each_section` loop that
follows has no effect. A pointer that the code stores in the context (`first_segment`,
`dsymtab`, `symtab`) is the structure read at that moment. The left alternative is an
early `return`, with the state at that point. -/
def mach_file_map_lc (rd : macho_reader) (load_addr lcp : Nat) (s : map_state) :
    (loader_return_t × map_state) ⊕ map_state :=
  match rd.lc s.mem lcp with
  | load_command.LC_SEGMENT _ =>
    let cmd := rd.seg s.mem lcp
    if s.file.filetype = MH_EXECUTE then
      if s.file.vm_bias = 0 ∧ s.seg_count = 0 ∧ cmd.vmaddr ≠ 0 then
        Sum.inl (LOADER_EXEC_UNSUPPORTED, s)
      else
        let m1 := map_exec_segment rd s.file lcp load_addr s.mem
        let cmd1 := rd.seg m1 lcp
        let file1 :=
          if strncmp_eq cmd1.segname kPrelinkInfoSegment 15 then
            if cmd1.vmsize ≠ 0 then { s.file with is_prelinked := true } else s.file
          else s.file
        Sum.inr { file := file1, seg_count := s.seg_count + 1, mem := m1 }
    else if s.file.filetype = MH_OBJECT then
      if s.seg_count ≠ 0 then Sum.inl (LOADER_OBJECT_BADSEGMENT, s)
      else
        let file1 := { s.file with first_segment := cmd }
        Sum.inr { file := file1, seg_count := s.seg_count + 1,
                  mem := map_sections rd file1 lcp load_addr 4294967296 0 s.mem }
    else Sum.inl (LOADER_BADFILETYPE, s)
  | load_command.LC_UNIXTHREAD pc =>
    Sum.inr { s with file := { s.file with entry_point := pc } }
  | load_command.LC_DYSYMTAB cmd =>
    Sum.inr { s with file := { s.file with dsymtab := some cmd } }
  | load_command.LC_DYLD_INFO =>
    Sum.inl (LOADER_EXEC_UNSUPPORTED, { s with file := { s.file with compressed := 1 } })
  | load_command.LC_DYLD_INFO_ONLY =>
    Sum.inl (LOADER_EXEC_UNSUPPORTED, { s with file := { s.file with compressed := 1 } })
  | load_command.LC_SYMTAB cmd =>
    Sum.inr { s with file := { s.file with symtab := some cmd,
                                           string_base := some cmd.strings,
                                           symbol_base := fun i => cmd.symbols.getD i zero_nlist } }
  | load_command.LC_OTHER _ => Sum.inr s

/-- The `for_each_lc` loop of `mach_file_map` over the header at address `head`. The
test `XXi < head->ncmds`, the load command at `lcp` and the `lcp->cmdsize` of the step to
the next command are read from the memory that the commands mapped so far have left, so
a copy that lands on the header or on the load commands changes the rest of the walk.
The first argument counts the values that the 32-bit counter `XXi` can still take; the
second is `XXi`. `head->ncmds` is below `2^32`, so the test fails before the counter
runs out (`mach_file_map_loop_fuel`). -/
def mach_file_map_loop (rd : macho_reader) (head load_addr : Nat) :
    Nat → Nat → Nat → map_state → (loader_return_t × map_state) ⊕ map_state
  | 0, _, _, s => Sum.inr s
  | n + 1, i, lcp, s =>
    if i < u32 (rd.ncmds s.mem head) then
      match mach_file_map_lc rd load_addr lcp s with
      | Sum.inl r => Sum.inl r
      | Sum.inr s1 =>
        mach_file_map_loop rd head load_addr n (i + 1) (add_ptr2 lcp (rd.cmdsize s1.mem lcp)) s1
    else Sum.inr s

/-- The function `mach_file_map`: the return code, the context and the memory it
leaves. The header `fhead(file)` and the load commands are read through `rd` from the
memory as the mapping changes it. -/
def mach_file_map (rd : macho_reader) (file : mach_loader_context_t) (load_addr vmsize : Nat)
    (m : Mem) : loader_return_t × mach_loader_context_t × Mem :=
  match mach_file_map_loop rd file.file load_addr 4294967296 0 (rd.first_lc file.file)
      { file := file, seg_count := 0, mem := m } with
  | Sum.inl (e, s) => (e, s.file, s.mem)
  | Sum.inr s => (LOADER_SUCCESS, { s.file with base := load_addr, vmsize := vmsize }, s.mem)

/-- The destination address of a segment of an executable: `load_addr + actual_vmaddr`
with `actual_vmaddr = vmaddr - vm_bias`. -/
def seg_dst (vm_bias load_addr : Nat) (cmd : segment_command) : Nat :=
  add_ptr2 load_addr (sub32 cmd.vmaddr vm_bias)

/-- The source address of a segment: `file + fileoff`. -/
def seg_src (file : Nat) (cmd : segment_command) : Nat := add_ptr2 file cmd.fileoff

/-- The addresses that the executable branch of `mach_file_map` writes for one segment:
the `bcopy` target and the `bzero` target. -/
def seg_writes (vm_bias load_addr : Nat) (cmd : segment_command) (a : Nat) : Prop :=
  (cmd.filesize ≠ 0 ∧ seg_dst vm_bias load_addr cmd ≤ a ∧
      a < seg_dst vm_bias load_addr cmd + cmd.filesize) ∨
  ((sub32 cmd.vmsize cmd.filesize ≠ 0 ∧ cmd.vmsize > cmd.filesize) ∧
      add_ptr3 load_addr (sub32 cmd.vmaddr vm_bias) cmd.filesize ≤ a ∧
      a < add_ptr3 load_addr (sub32 cmd.vmaddr vm_bias) cmd.filesize +
        sub32 cmd.vmsize cmd.filesize)


/-! ## `macho.c`: relocation -/

/-- The test `is_bad_addr(file, addr)`. -/
def is_bad_addr (file : mach_loader_context_t) (addr : Nat) : Bool :=
  decide (addr < file.base) || decide (addr > add_ptr2 file.base file.vmsize)

/-- The statement `*entry += (uint32_t)file->loader_bias`: the 32-bit word at `entry`
is incremented by the loader bias, modulo `2^32`. The bias is kept as its 32-bit
pattern. -/
def patch_word (m : Mem) (entry loader_bias : Nat) : Mem :=
  write32 m entry (u32 (read32 m entry + loader_bias))

/-- The patch address of a record of a section of an object file:
`add_ptr3(rinfo->r_address, sect->addr, file->base)`. -/
def sect_entry (file : mach_loader_context_t) (sect : macho_section) (rinfo : relocation_info) :
    Nat :=
  add_ptr3 rinfo.r_address sect.addr file.base

/-- One iteration of the relocation loop of `_relocate_sect`. The left alternative is
an early `return`; `continue` and the patch are the right alternative. -/
def relocate_sect_record (file : mach_loader_context_t) (sect : macho_section)
    (rinfo : relocation_info) (m : Mem) : loader_return_t ⊕ Mem :=
  if rinfo.r_address &&& R_SCATTERED ≠ 0 then Sum.inl LOADER_BADRELOC
  else if rinfo.r_length ≠ 2 then Sum.inl LOADER_BADRELOC
  else if rinfo.r_type ≠ GENERIC_RELOC_VANILLA then
    if rinfo.r_pcrel ≠ 0 then Sum.inr m else Sum.inl LOADER_BADRELOC
  else
    let entry := sect_entry file sect rinfo
    if is_bad_addr file entry then Sum.inl LOADER_OUTOFBOUNDS
    else if rinfo.r_extern ≠ 0 then Sum.inl LOADER_BADRELOC
    else if rinfo.r_symbolnum = R_ABS then Sum.inl LOADER_BADRELOC
    else Sum.inr (patch_word m entry file.loader_bias)

/-- The relocation loop of `_relocate_sect` over the records of the section. -/
def relocate_sect_loop (file : mach_loader_context_t) (sect : macho_section) :
    List relocation_info → Mem → loader_return_t × Mem
  | [], m => (LOADER_SUCCESS, m)
  | rinfo :: rest, m =>
    match relocate_sect_record file sect rinfo m with
    | Sum.inl e => (e, m)
    | Sum.inr m1 => relocate_sect_loop file sect rest m1

/-- The function `_relocate_sect`, on the section that `_sect_by_ordinal` finds. -/
def _relocate_sect (file : mach_loader_context_t) (sect : macho_section) (m : Mem) :
    loader_return_t × Mem :=
  relocate_sect_loop file sect sect.relocs m

/-- The loop of `mach_file_relocate_object` over the ordinals `1 .. nsects`. -/
def relocate_object_loop (file : mach_loader_context_t) :
    List macho_section → Mem → loader_return_t × Mem
  | [], m => (LOADER_SUCCESS, m)
  | sect :: rest, m =>
    match _relocate_sect file sect m with
    | (LOADER_SUCCESS, m1) => relocate_object_loop file rest m1
    | (ret, m1) => (ret, m1)

/-- The function `mach_file_relocate_object`: the return code and the memory it
leaves. -/
def mach_file_relocate_object (file : mach_loader_context_t) (m : Mem) :
    loader_return_t × Mem :=
  if file.filetype ≠ MH_OBJECT then (LOADER_BADFILETYPE, m)
  else relocate_object_loop file file.first_segment.sects m

/-- One iteration of the relocation loop of `mach_file_relocate_executable`. -/
def relocate_exec_record (file : mach_loader_context_t) (rinfo : relocation_info) (m : Mem) :
    loader_return_t ⊕ Mem :=
  if rinfo.r_address &&& R_SCATTERED ≠ 0 then Sum.inl LOADER_BADRELOC
  else if rinfo.r_length ≠ 2 then Sum.inl LOADER_BADRELOC
  else if rinfo.r_type ≠ GENERIC_RELOC_VANILLA then Sum.inl LOADER_BADRELOC
  else if rinfo.r_symbolnum = R_ABS then Sum.inl LOADER_BADRELOC
  else
    let pp := add_ptr2 file.base rinfo.r_address
    if is_bad_addr file pp then Sum.inl LOADER_OUTOFBOUNDS
    else Sum.inr (patch_word m pp file.loader_bias)

/-- The relocation loop of `mach_file_relocate_executable`. -/
def relocate_exec_loop (file : mach_loader_context_t) :
    List relocation_info → Mem → loader_return_t × Mem
  | [], m => (LOADER_SUCCESS, m)
  | rinfo :: rest, m =>
    match relocate_exec_record file rinfo m with
    | Sum.inl e => (e, m)
    | Sum.inr m1 => relocate_exec_loop file rest m1

/-- The function `mach_file_relocate_executable`: the return code and the memory it
leaves. -/
def mach_file_relocate_executable (file : mach_loader_context_t) (m : Mem) :
    loader_return_t × Mem :=
  if file.filetype ≠ MH_EXECUTE then (LOADER_BADFILETYPE, m)
  else
    match file.dsymtab with
    | none => (LOADER_EXEC_UNSUPPORTED, m)
    | some dsymtab => relocate_exec_loop file dsymtab.locrel m

/-- Two 32-bit words at addresses `a` and `b` share no byte. -/
def words_apart (a b : Nat) : Prop := a + 4 ≤ b ∨ b + 4 ≤ a

/-! ## `macho_util.c`: symbol lookup -/

/-- Modelled from the spec: `strcmp` is the C library routine (`a classic binary search
by strcmp`); the strings are given without their terminating NUL and compared as
unsigned bytes. Only the sign of the result is used: negative, zero or positive. -/
def strcmp : List Nat → List Nat → Int
  | [], [] => 0
  | [], _ :: _ => -1
  | _ :: _, [] => 1
  | a :: as, b :: bs => if a < b then -1 else if b < a then 1 else strcmp as bs

/-- The C string `&stringPool[n_strx]`: the bytes of the pool from `n_strx` up to the
first NUL. -/
def cstr_at (stringPool : List Nat) (n_strx : Nat) : List Nat :=
  (stringPool.drop n_strx).takeWhile (fun c => c ≠ 0)

/-- The loop of `binary_search`, with `base` an index into `symbols` and `n` the loop
variable. The first argument bounds the number of turns; `n` is at least halved by
every turn, so `n` turns are enough (`binary_search_loop_fuel`). The result is the
index of the entry returned, `none` for `NULL`. -/
def binary_search_loop (key stringPool : List Nat) (symbols : Nat → nlist) :
    Nat → Nat → Nat → Option Nat
  | 0, _, _ => none
  | fuel + 1, base, n =>
    if n = 0 then none
    else
      let pivot := base + n / 2
      let cmp := strcmp key (cstr_at stringPool (symbols pivot).n_strx)
      if cmp = 0 then some pivot
      else if cmp > 0 then binary_search_loop key stringPool symbols fuel (pivot + 1) ((n - 1) / 2)
      else binary_search_loop key stringPool symbols fuel base (n / 2)

/-- The function `binary_search`: the index in `symbols` of the entry returned, `none`
for `NULL`. -/
def binary_search (key stringPool : List Nat) (symbols : Nat → nlist) (symbolCount : Nat) :
    Option Nat :=
  binary_search_loop key stringPool symbols symbolCount 0 symbolCount

/-- The name of the symbol of index `i`, read through `n_strx` in the string pool. -/
def sym_name (stringPool : List Nat) (symbols : Nat → nlist) (i : Nat) : List Nat :=
  cstr_at stringPool (symbols i).n_strx

/-- The function `mach_file_find_symbol`: the return code and the value stored through
`sym`, `none` when nothing is stored. -/
def mach_file_find_symbol (file : mach_loader_context_t) (name : List Nat) :
    loader_return_t × Option Nat :=
  if file.filetype ≠ MH_EXECUTE then (LOADER_BADFILETYPE, none)
  else
    match file.dsymtab with
    | none => (LOADER_EXEC_UNSUPPORTED, none)
    | some dsymtab =>
      match file.string_base, file.symtab with
      | some string_base, some _ =>
        if dsymtab.tocoff = 0 then
          match binary_search name string_base
              (fun i => file.symbol_base (dsymtab.iextdefsym + i)) dsymtab.nextdefsym with
          | none => (LOADER_SYMBOL_NOT_FOUND, none)
          | some i =>
            (LOADER_SUCCESS,
              some (u32 ((file.symbol_base (dsymtab.iextdefsym + i)).n_value + file.loader_bias)))
        else (LOADER_EXEC_UNSUPPORTED, none)
      | _, _ => (LOADER_MALFORMED, none)


/-! ## `strol.c`: `strtoul` -/

/-- Modelled from the spec: `ULONG_MAX`, from the C library headers; the largest
`unsigned long` of the 32-bit target. -/
def ULONG_MAX : Nat := 4294967295

/-- The function `isupper`. -/
def isupper (c : Nat) : Bool := decide (65 ≤ c ∧ c ≤ 90)

/-- The function `isalpha`. -/
def isalpha (c : Nat) : Bool := decide ((65 ≤ c ∧ c ≤ 90) ∨ (97 ≤ c ∧ c ≤ 122))

/-- The function `isspace` of `strol.c`: blank, tab and newline (`'\n'` and `'\12'` are
the same character). -/
def isspace (c : Nat) : Bool := decide (c = 32 ∨ c = 9 ∨ c = 10 ∨ c = 10)

/-- The function `isdigit`. -/
def isdigit (c : Nat) : Bool := decide (48 ≤ c ∧ c ≤ 57)

/-- The loop `do c = *s++; while (isspace(c))` of `strtoul`: the index of the first
character that is not white space. The first argument bounds the number of turns. -/
def strtoul_skip (s : Nat → Nat) : Nat → Nat → Option Nat
  | 0, _ => none
  | fuel + 1, i => if isspace (s i) then strtoul_skip s fuel (i + 1) else some i

/-- The state of the digit loop of `strtoul`. -/
structure strtoul_state where
  acc : Nat
  any : Int

/-- The digit loop of `strtoul`; `c` is the current character and `i` the index of the
next one. The first argument bounds the number of turns. -/
def strtoul_digits (s : Nat → Nat) (base : Nat) :
    Nat → Nat → Nat → strtoul_state → Option strtoul_state
  | 0, _, _, _ => none
  | fuel + 1, c, i, st =>
    let d : Option Nat :=
      if isdigit c then some (c - 48)
      else if isalpha c then some (c - (if isupper c then 65 - 10 else 97 - 10))
      else none
    match d with
    | none => some st
    | some d =>
      if d ≥ base then some st
      else
        let cutoff := ULONG_MAX / base
        let cutlim := ULONG_MAX % base
        let st1 : strtoul_state :=
          if st.any < 0 ∨ st.acc > cutoff ∨ (st.acc = cutoff ∧ d > cutlim) then
            { st with any := -1 }
          else { acc := st.acc * base + d, any := 1 }
        strtoul_digits s base fuel (s i) (i + 1) st1

/-- The function `strtoul(nptr, NULL, base)` on the characters `s 0, s 1, ...`; the
first argument bounds the number of characters read, `none` when it is exceeded. -/
def strtoul (fuel : Nat) (s : Nat → Nat) (base : Nat) : Option Nat :=
  match strtoul_skip s fuel 0 with
  | none => none
  | some i0 =>
    let c0 := s i0
    let i1 := i0 + 1
    let neg := decide (c0 = 45)
    let c1 := if c0 = 45 ∨ c0 = 43 then s i1 else c0
    let i2 := if c0 = 45 ∨ c0 = 43 then i1 + 1 else i1
    let hex := (base = 0 ∨ base = 16) ∧ c1 = 48 ∧ (s i2 = 120 ∨ s i2 = 88)
    let bin := (base = 0 ∨ base = 2) ∧ c1 = 48 ∧ (s i2 = 98 ∨ s i2 = 66)
    let c2 := if hex then s (i2 + 1) else if bin then s (i2 + 1) else c1
    let i3 := if hex then i2 + 2 else if bin then i2 + 2 else i2
    let base1 := if hex then 16 else if bin then 2 else base
    let base2 := if base1 = 0 then (if c2 = 48 then 8 else 10) else base1
    match strtoul_digits s base2 fuel c2 i3 { acc := 0, any := 0 } with
    | none => none
    | some st =>
      if st.any < 0 then some ULONG_MAX
      else if neg then some (sub32 0 st.acc)
      else some st.acc

/-! ## `jsmn.c`: the tokenizer -/

/-- The token types (`jsmntype_t`, as listed in the header of `jsmn.c`). -/
inductive jsmntype_t
  | JSMN_PRIMITIVE
  | JSMN_OBJECT
  | JSMN_ARRAY
  | JSMN_STRING
  | JSMN_CHILDREN_TOKEN
  deriving DecidableEq, Repr

/-- Modelled from the spec: `jsmnerr_t`, declared in `jsmn.h`, which is not among the
sources; the result codes of the tokenizer that `jsmn.c` returns. -/
inductive jsmnerr_t
  | JSMN_SUCCESS
  | JSMN_ERROR_NOMEM
  | JSMN_ERROR_INVAL
  | JSMN_ERROR_PART
  deriving DecidableEq, Repr

open jsmntype_t jsmnerr_t

/-- Modelled from the spec: `jsmntok_t`, declared in the absent `jsmn.h`; a token
`{type, start, end, size}` (spec, section 4.7); `end_` is the field `end`. -/
structure jsmntok_t where
  type : jsmntype_t
  start : Int
  end_ : Int
  size : Nat
  deriving DecidableEq, Repr

/-- Modelled from the spec: the structure `jsmn_parser`, declared in the absent
`jsmn.h`; the parser state, with the three fields that `jsmn.c` uses. -/
structure jsmn_parser_state where
  pos : Nat
  toknext : Nat
  toksuper : Int
  deriving DecidableEq, Repr

/-- The token array: the tokens allocated so far, `tokens[0 .. toknext)`. -/
abbrev jsmn_tokens := List jsmntok_t

/-- The function `jsmn_init`. -/
def jsmn_init : jsmn_parser_state := { pos := 0, toknext := 0, toksuper := -1 }

/-- The function `jsmn_alloc_token`: `none` when the pool is exhausted, else the parser,
the array with the fresh token and the index of that token. The type of a fresh token is
whatever the buffer held; every caller sets it. -/
def jsmn_alloc_token (parser : jsmn_parser_state) (tokens : jsmn_tokens) (num_tokens : Nat) :
    Option (jsmn_parser_state × jsmn_tokens × Nat) :=
  if parser.toknext ≥ num_tokens then none
  else
    some ({ parser with toknext := parser.toknext + 1 },
      tokens.take parser.toknext ++ [{ type := JSMN_PRIMITIVE, start := -1, end_ := -1, size := 0 }],
      parser.toknext)

/-- The function `jsmn_fill_token` applied to the token of index `i`. -/
def jsmn_fill_token (tokens : jsmn_tokens) (i : Nat) (type : jsmntype_t) (start end_ : Int) :
    jsmn_tokens :=
  tokens.modify (fun _ => { type := type, start := start, end_ := end_, size := 0 }) i

/-- The statement `if (parser->toksuper != -1) tokens[parser->toksuper].size++`. -/
def jsmn_super_size (parser : jsmn_parser_state) (tokens : jsmn_tokens) : jsmn_tokens :=
  if parser.toksuper ≠ -1 then
    tokens.modify (fun t => { t with size := t.size + 1 }) parser.toksuper.toNat
  else tokens

/-- The scan of `jsmn_parse_primitive`: the position of the character that ends the
primitive (`found`), or `none` for an invalid character. The first argument bounds the
number of turns, whose exhaustion is the outer `none`. -/
def jsmn_primitive_scan (js : Nat → Nat) : Nat → Nat → Option (Option Nat)
  | 0, _ => none
  | fuel + 1, pos =>
    let c := js pos
    if c = 0 then some (some pos)
    else if c = 58 ∨ c = 9 ∨ c = 13 ∨ c = 10 ∨ c = 32 ∨ c = 44 ∨ c = 93 ∨ c = 125 then
      some (some pos)
    else if c < 32 ∨ c ≥ 127 then some none
    else jsmn_primitive_scan js fuel (pos + 1)

/-- The function `jsmn_parse_primitive` (non-strict mode). -/
def jsmn_parse_primitive (fuel : Nat) (parser : jsmn_parser_state) (js : Nat → Nat)
    (tokens : jsmn_tokens) (num_tokens : Nat) : Option (jsmnerr_t × jsmn_parser_state × jsmn_tokens) :=
  let start := parser.pos
  match jsmn_primitive_scan js fuel parser.pos with
  | none => none
  | some none => some (JSMN_ERROR_INVAL, { parser with pos := start }, tokens)
  | some (some pos) =>
    match jsmn_alloc_token { parser with pos := pos } tokens num_tokens with
    | none => some (JSMN_ERROR_NOMEM, { parser with pos := start }, tokens)
    | some (parser1, tokens1, i) =>
      some (JSMN_SUCCESS, { parser1 with pos := parser1.pos - 1 },
        jsmn_fill_token tokens1 i JSMN_PRIMITIVE start pos)

/-- The scan of `jsmn_parse_string` from `pos` for the delimiter: the position of the
closing quote, `JSMN_ERROR_INVAL` for a bad escape, `JSMN_ERROR_PART` at the end of the
input. The first argument bounds the number of turns. -/
def jsmn_string_scan (js : Nat → Nat) (delim : Nat) : Nat → Nat → Option (jsmnerr_t ⊕ Nat)
  | 0, _ => none
  | fuel + 1, pos =>
    let c := js pos
    if c = 0 then some (Sum.inl JSMN_ERROR_PART)
    else if c = delim then some (Sum.inr pos)
    else if c = 92 then
      let e := js (pos + 1)
      if e = 34 ∨ e = 39 ∨ e = 47 ∨ e = 92 ∨ e = 98 ∨ e = 102 ∨ e = 114 ∨ e = 110 ∨ e = 116
          ∨ e = 117 then
        jsmn_string_scan js delim fuel (pos + 2)
      else some (Sum.inl JSMN_ERROR_INVAL)
    else jsmn_string_scan js delim fuel (pos + 1)

/-- The function `jsmn_parse_string`. -/
def jsmn_parse_string (fuel : Nat) (parser : jsmn_parser_state) (js : Nat → Nat)
    (tokens : jsmn_tokens) (num_tokens delim : Nat) :
    Option (jsmnerr_t × jsmn_parser_state × jsmn_tokens) :=
  let start := parser.pos
  match jsmn_string_scan js delim fuel (parser.pos + 1) with
  | none => none
  | some (Sum.inl e) => some (e, { parser with pos := start }, tokens)
  | some (Sum.inr pos) =>
    match jsmn_alloc_token { parser with pos := pos } tokens num_tokens with
    | none => some (JSMN_ERROR_NOMEM, { parser with pos := start }, tokens)
    | some (parser1, tokens1, i) =>
      some (JSMN_SUCCESS, parser1, jsmn_fill_token tokens1 i JSMN_STRING (start + 1) pos)

/-- The loop of `jsmn_comment_length`: the first `len` from which the characters `*`
and `/` follow each other. The first argument bounds the number of turns. -/
def jsmn_comment_scan (comment_ptr : Nat → Nat) : Nat → Nat → Option Nat
  | 0, _ => none
  | fuel + 1, len =>
    if comment_ptr len = 42 ∧ comment_ptr (len + 1) = 47 then some len
    else jsmn_comment_scan comment_ptr fuel (len + 1)

/-- The function `jsmn_comment_length`. -/
def jsmn_comment_length (fuel : Nat) (comment_ptr : Nat → Nat) : Option Nat :=
  match jsmn_comment_scan comment_ptr fuel 0 with
  | none => none
  | some len => some (len + 1)

/-- The token is open: `start != -1 && end == -1`. -/
def jsmn_is_open (t : jsmntok_t) : Bool := decide (t.start ≠ -1) && decide (t.end_ = -1)

/-- The downward search `for (; i >= 0; i--)` for an open token among the indices below
`n`: the index found, `none` when the loop ends with `i = -1`. -/
def jsmn_find_open (tokens : jsmn_tokens) : Nat → Option Nat
  | 0 => none
  | n + 1 =>
    match tokens.get? n with
    | some t => if jsmn_is_open t then some n else jsmn_find_open tokens n
    | none => jsmn_find_open tokens n

/-- The case of a closing bracket in `jsmn_parse` (without `JSMN_PARENT_LINKS`). -/
def jsmn_close (parser : jsmn_parser_state) (tokens : jsmn_tokens) (type : jsmntype_t) :
    jsmnerr_t × jsmn_parser_state × jsmn_tokens :=
  match jsmn_find_open tokens parser.toknext with
  | none => (JSMN_ERROR_INVAL, parser, tokens)
  | some i =>
    match tokens.get? i with
    | none => (JSMN_ERROR_INVAL, parser, tokens)
    | some token =>
      if token.type ≠ type then (JSMN_ERROR_INVAL, parser, tokens)
      else
        let tokens1 := tokens.modify (fun t => { t with end_ := (parser.pos : Int) + 1 }) i
        let parser1 := { parser with toksuper := -1 }
        match jsmn_find_open tokens1 (i + 1) with
        | none => (JSMN_SUCCESS, parser1, tokens1)
        | some j => (JSMN_SUCCESS, { parser1 with toksuper := (j : Int) }, tokens1)

/-- One turn of the main loop of `jsmn_parse`, on the character `c = js[parser->pos]`:
the body of the `switch`, without the `parser->pos++` that follows it. -/
def jsmn_parse_char (fuel : Nat) (parser : jsmn_parser_state) (js : Nat → Nat)
    (tokens : jsmn_tokens) (num_tokens : Nat) (c : Nat) :
    Option (jsmnerr_t × jsmn_parser_state × jsmn_tokens) :=
  if c = 47 then
    match jsmn_comment_length fuel (fun i => js (parser.pos + i)) with
    | none => none
    | some comment_len => some (JSMN_SUCCESS, { parser with pos := parser.pos + comment_len }, tokens)
  else if c = 64 then
    match jsmn_alloc_token parser tokens num_tokens with
    | none => some (JSMN_ERROR_NOMEM, parser, tokens)
    | some (parser1, tokens1, i) =>
      let tokens2 := tokens1.modify
        (fun t => { t with type := JSMN_CHILDREN_TOKEN, start := parser.pos, end_ := parser.pos }) i
      some (JSMN_SUCCESS, parser1, jsmn_super_size parser1 tokens2)
  else if c = 123 ∨ c = 91 then
    match jsmn_alloc_token parser tokens num_tokens with
    | none => some (JSMN_ERROR_NOMEM, parser, tokens)
    | some (parser1, tokens1, i) =>
      let tokens2 := jsmn_super_size parser1 tokens1
      let tokens3 := tokens2.modify
        (fun t => { t with type := if c = 123 then JSMN_OBJECT else JSMN_ARRAY,
                           start := parser.pos }) i
      some (JSMN_SUCCESS, { parser1 with toksuper := (parser1.toknext : Int) - 1 }, tokens3)
  else if c = 125 ∨ c = 93 then
    some (jsmn_close parser tokens (if c = 125 then JSMN_OBJECT else JSMN_ARRAY))
  else if c = 39 ∨ c = 34 then
    match jsmn_parse_string fuel parser js tokens num_tokens c with
    | none => none
    | some (JSMN_SUCCESS, parser1, tokens1) =>
      some (JSMN_SUCCESS, parser1, jsmn_super_size parser1 tokens1)
    | some r => some r
  else if c = 9 ∨ c = 13 ∨ c = 10 ∨ c = 58 ∨ c = 44 ∨ c = 32 then
    some (JSMN_SUCCESS, parser, tokens)
  else
    match jsmn_parse_primitive fuel parser js tokens num_tokens with
    | none => none
    | some (JSMN_SUCCESS, parser1, tokens1) =>
      some (JSMN_SUCCESS, parser1, jsmn_super_size parser1 tokens1)
    | some r => some r

/-- The main loop of `jsmn_parse`. The first argument bounds the number of turns (and
of the scans inside a turn); `none` when it is exceeded. -/
def jsmn_parse_loop (js : Nat → Nat) (num_tokens : Nat) :
    Nat → jsmn_parser_state → jsmn_tokens → Option (jsmnerr_t × jsmn_parser_state × jsmn_tokens)
  | 0, _, _ => none
  | fuel + 1, parser, tokens =>
    if js parser.pos = 0 then some (JSMN_SUCCESS, parser, tokens)
    else
      match jsmn_parse_char fuel parser js tokens num_tokens (js parser.pos) with
      | none => none
      | some (JSMN_SUCCESS, parser1, tokens1) =>
        jsmn_parse_loop js num_tokens fuel { parser1 with pos := parser1.pos + 1 } tokens1
      | some r => some r

/-- The function `jsmn_parse`: the main loop, then the search for a token left open. -/
def jsmn_parse (fuel : Nat) (parser : jsmn_parser_state) (js : Nat → Nat) (tokens : jsmn_tokens)
    (num_tokens : Nat) : Option (jsmnerr_t × jsmn_parser_state × jsmn_tokens) :=
  match jsmn_parse_loop js num_tokens fuel parser tokens with
  | none => none
  | some (JSMN_SUCCESS, parser1, tokens1) =>
    match jsmn_find_open tokens1 parser1.toknext with
    | some _ => some (JSMN_ERROR_PART, parser1, tokens1)
    | none => some (JSMN_SUCCESS, parser1, tokens1)
  | some r => some r

/-! ## The device-tree builder (`bootkit/device_tree.h`) -/

/-- Modelled from the spec: the device-tree builder is not among the sources. A property
is `(name, length, data)`. -/
structure Property where
  name : List Nat
  length : Nat
  value : List Nat
  deriving DecidableEq, Repr

/-- Modelled from the spec: the device-tree builder is not among the sources. A node
has an optional name, a list of properties and a list of child nodes, both in the order
of insertion. -/
inductive Node where
  | mk (name : Option (List Nat)) (properties : List Property) (children : List Node)

/-- The name given to `DT__AddChild` for the node, `none` for `NULL`. -/
def Node.name : Node → Option (List Nat)
  | Node.mk n _ _ => n

/-- The properties of a node, in the order of insertion. -/
def Node.properties : Node → List Property
  | Node.mk _ p _ => p

/-- The children of a node, in the order of insertion. -/
def Node.children : Node → List Node
  | Node.mk _ _ c => c

/-- Modelled from the spec: `DT__Initialize` followed by `DT__RootNode`, not among the
sources: the root of a fresh tree. -/
def DT__RootNode : Node := Node.mk none [] []

/-- Modelled from the spec: `DT__AddChild(parent, name)`, not among the sources, at the
moment of the call: a new node without property nor child. -/
def DT__NewChild (name : Option (List Nat)) : Node := Node.mk name [] []

/-- Modelled from the spec: the effect of `DT__AddChild` on the parent, not among the
sources. The C code fills the child in place after the call; the model appends the child
once filled, at the place `DT__AddChild` gave it. -/
def DT__AddChild (parent child : Node) : Node :=
  Node.mk parent.name parent.properties (parent.children ++ [child])

/-- Modelled from the spec: `DT__AddProperty(node, name, length, data)`, not among the
sources: the property is appended to the node. The name is the C string `name`. -/
def DT__AddProperty (node : Node) (name : List Nat) (length : Nat) (value : List Nat) : Node :=
  Node.mk node.name (node.properties ++ [{ name := name, length := length, value := value }])
    node.children

/-! ## `JS_device_tree.c`: the JSDT front-end -/

/-- The outcome of a routine of the tree builder: the number of tokens to skip (the C
return value), `PARSER_ERROR`, the read of a token that the tokenizer did not produce
(an index at or past `toknext`), or the exhaustion of the bound on the turns. -/
inductive jsdt_result
  | skip (n : Nat)
  | PARSER_ERROR
  | bad_token
  | out_of_fuel
  deriving DecidableEq, Repr

/-- The size of `DT_INT` (`unsigned long`) on the 32-bit target. -/
def sizeof_DT_INT : Nat := 4

/-- The bytes of a 32-bit word, least significant first. -/
def le32 (v : Nat) : List Nat := [v % 256, v / 256 % 256, v / 65536 % 256, v / 16777216 % 256]

/-- The function `token_to_string`: the characters of the token followed by a NUL; the
length stored through `out_len` is the length of this list. -/
def token_to_string (raw : Nat → Nat) (token : jsmntok_t) : List Nat :=
  (List.range (token.end_ - token.start).toNat).map (fun k => raw (token.start.toNat + k)) ++ [0]

/-- The function `token_to_integer_data`: the four bytes of `strtoul(&raw[start], NULL,
0)`; `none` when the bound on the characters read by `strtoul` is exceeded. -/
def token_to_integer_data (fuel : Nat) (raw : Nat → Nat) (token : jsmntok_t) :
    Option (List Nat) :=
  match strtoul fuel (fun k => raw (token.start.toNat + k)) 0 with
  | none => none
  | some value => some (le32 value)

/-- The first loop of `parse_data_array`, which counts the bytes: the tokens of the
array start at index `t`, `i` is the loop index and `nested` the number of elements
left. -/
def parse_data_array_count (tokens : jsmn_tokens) (t : Nat) :
    Nat → Int → Nat → Nat → jsdt_result
  | 0, _, _, _ => jsdt_result.out_of_fuel
  | fuel + 1, nested, i, cnt =>
    if nested = 0 then jsdt_result.skip cnt
    else
      match tokens.get? (t + i) with
      | none => jsdt_result.bad_token
      | some token =>
        if token.type = JSMN_STRING then
          parse_data_array_count tokens t fuel (nested - 1) (i + 1)
            (u32 (cnt + (token.end_ - token.start + 1).toNat))
        else if token.type = JSMN_PRIMITIVE then
          parse_data_array_count tokens t fuel (nested - 1) (i + 1) (u32 (cnt + sizeof_DT_INT))
        else jsdt_result.PARSER_ERROR

/-- The second loop of `parse_data_array`, which fills the buffer: the result is the
outcome (the final `i` on success) and the bytes written. -/
def parse_data_array_fill (raw : Nat → Nat) (tokens : jsmn_tokens) (t : Nat) :
    Nat → Int → Nat → List Nat → jsdt_result × List Nat
  | 0, _, _, buf => (jsdt_result.out_of_fuel, buf)
  | fuel + 1, nested, i, buf =>
    if nested = 0 then (jsdt_result.skip i, buf)
    else
      match tokens.get? (t + i) with
      | none => (jsdt_result.bad_token, buf)
      | some token =>
        if token.type = JSMN_STRING then
          parse_data_array_fill raw tokens t fuel (nested - 1) (i + 1)
            (buf ++ token_to_string raw token)
        else if token.type = JSMN_PRIMITIVE then
          match token_to_integer_data fuel raw token with
          | none => (jsdt_result.out_of_fuel, buf)
          | some bytes => parse_data_array_fill raw tokens t fuel (nested - 1) (i + 1) (buf ++ bytes)
        else (jsdt_result.PARSER_ERROR, buf)

/-- The function `parse_data_array` on the array token of index `t`: the outcome and
the buffer; the length stored through `out_len` is the length of the buffer. -/
def parse_data_array (fuel : Nat) (raw : Nat → Nat) (tokens : jsmn_tokens) (t : Nat) :
    jsdt_result × List Nat :=
  match tokens.get? t with
  | none => (jsdt_result.bad_token, [])
  | some tok0 =>
    match parse_data_array_count tokens t fuel tok0.size 1 0 with
    | jsdt_result.skip _ => parse_data_array_fill raw tokens t fuel tok0.size 1 []
    | r => (r, [])

/-- The state that the tree builder threads: the node being filled and the counter
`ctx->node_count`. -/
structure jsdt_state where
  node : Node
  node_count : Nat

mutual

/-- The function `parse_in_node_token` on the key token of index `t`. -/
def parse_in_node_token (raw : Nat → Nat) (tokens : jsmn_tokens) :
    Nat → Nat → jsdt_state → jsdt_result × jsdt_state
  | 0, _, s => (jsdt_result.out_of_fuel, s)
  | fuel + 1, t, s =>
    match tokens.get? t with
    | none => (jsdt_result.bad_token, s)
    | some key =>
      if key.type = JSMN_STRING then
        let keystr := cstr_at (token_to_string raw key) 0
        match tokens.get? (t + 1) with
        | none => (jsdt_result.bad_token, s)
        | some value =>
          if value.type = JSMN_STRING then
            let blobdata := token_to_string raw value
            (jsdt_result.skip 2,
              { s with node := DT__AddProperty s.node keystr blobdata.length blobdata })
          else if value.type = JSMN_PRIMITIVE then
            match token_to_integer_data fuel raw value with
            | none => (jsdt_result.out_of_fuel, s)
            | some blobdata =>
              (jsdt_result.skip 2,
                { s with node := DT__AddProperty s.node keystr sizeof_DT_INT blobdata })
          else if value.type = JSMN_ARRAY then
            match parse_data_array fuel raw tokens (t + 1) with
            | (jsdt_result.skip ret, blobdata) =>
              (jsdt_result.skip (ret + 1),
                { s with node := DT__AddProperty s.node keystr blobdata.length blobdata })
            | (r, _) => (r, s)
          else (jsdt_result.PARSER_ERROR, s)
      else if key.type = JSMN_CHILDREN_TOKEN then
        match tokens.get? (t + 1) with
        | none => (jsdt_result.bad_token, s)
        | some value =>
          if value.type = JSMN_ARRAY then
            match walk_children_loop raw tokens fuel (t + 1) value.size 1 s with
            | (jsdt_result.skip ret, s1) => (jsdt_result.skip (ret + 1), s1)
            | r => r
          else (jsdt_result.PARSER_ERROR, s)
      else (jsdt_result.PARSER_ERROR, s)
termination_by structural fuel => fuel

/-- The loop of `walk_children` on the array token of index `t`: `nested` children are
left and `i` is the loop index. -/
def walk_children_loop (raw : Nat → Nat) (tokens : jsmn_tokens) :
    Nat → Nat → Int → Nat → jsdt_state → jsdt_result × jsdt_state
  | 0, _, _, _, s => (jsdt_result.out_of_fuel, s)
  | fuel + 1, t, nested, i, s =>
    if nested = 0 then (jsdt_result.skip i, s)
    else
      match build_node raw tokens fuel (t + i)
          { node := DT__NewChild none, node_count := s.node_count } with
      | (jsdt_result.skip skip, s1) =>
        walk_children_loop raw tokens fuel t (nested - 1) (i + skip)
          { node := DT__AddChild s.node s1.node, node_count := s1.node_count }
      | (r, s1) => (r, { node := DT__AddChild s.node s1.node, node_count := s1.node_count })
termination_by structural fuel => fuel

/-- The loop of `build_node` on the object token of index `t`: `nested` counts the
tokens left and `i` is the loop index. -/
def build_node_loop (raw : Nat → Nat) (tokens : jsmn_tokens) :
    Nat → Nat → Int → Nat → jsdt_state → jsdt_result × jsdt_state
  | 0, _, _, _, s => (jsdt_result.out_of_fuel, s)
  | fuel + 1, t, nested, i, s =>
    if nested = 0 then (jsdt_result.skip i, { s with node_count := s.node_count + 1 })
    else
      match parse_in_node_token raw tokens fuel (t + i) s with
      | (jsdt_result.skip skip, s1) => build_node_loop raw tokens fuel t (nested - 2) (i + skip) s1
      | r => r
termination_by structural fuel => fuel

/-- The function `build_node` on the token of index `t`, for the node `me`. -/
def build_node (raw : Nat → Nat) (tokens : jsmn_tokens) :
    Nat → Nat → jsdt_state → jsdt_result × jsdt_state
  | 0, _, s => (jsdt_result.out_of_fuel, s)
  | fuel + 1, t, s =>
    match tokens.get? t with
    | none => (jsdt_result.bad_token, s)
    | some tok0 =>
      if tok0.type ≠ JSMN_OBJECT then (jsdt_result.PARSER_ERROR, s)
      else build_node_loop raw tokens fuel t tok0.size 1 s
termination_by structural fuel => fuel

end

/-- The function `walk_children`. -/
def walk_children (fuel : Nat) (raw : Nat → Nat) (tokens : jsmn_tokens) (t : Nat)
    (s : jsdt_state) : jsdt_result × jsdt_state :=
  match tokens.get? t with
  | none => (jsdt_result.bad_token, s)
  | some tok0 => walk_children_loop raw tokens fuel t tok0.size 1 s

/-- The function `build_device_tree`: 1 and the tree on success, 0 on `PARSER_ERROR`;
`none` when the builder reads a token that was not produced or exceeds the bound on the
turns. -/
def build_device_tree (fuel : Nat) (raw : Nat → Nat) (tokens : jsmn_tokens) :
    Option (Nat × jsdt_state) :=
  match build_node raw tokens fuel 0 { node := DT__RootNode, node_count := 0 } with
  | (jsdt_result.skip _, s) => some (1, s)
  | (jsdt_result.PARSER_ERROR, s) => some (0, s)
  | _ => none

/-- The loop `parse_again` of `parse_jsdt_device_tree`: the tokenizer is run again with
100 more tokens as long as it returns `JSMN_ERROR_NOMEM`. The first argument bounds the
number of runs. -/
def parse_again (fuel : Nat) (raw : Nat → Nat) :
    Nat → Nat → Option (jsmnerr_t × jsmn_tokens)
  | 0, _ => none
  | tries + 1, token_cnt =>
    match jsmn_parse fuel jsmn_init raw [] token_cnt with
    | none => none
    | some (JSMN_ERROR_NOMEM, _, _) => parse_again fuel raw tries (token_cnt + 100)
    | some (err, _, tokens) => some (err, tokens)

/-- The function `parse_jsdt_device_tree` on the text `raw`: the return value (1 for
success, 0 for failure) and the tree that the builder holds afterwards (`none` when
`DT__Initialize` was not reached). The outer `none` is the exhaustion of the bound
`fuel` on the turns of the loops, or the read of a token that was not produced. -/
def parse_jsdt_device_tree (fuel : Nat) (raw : Nat → Nat) : Option (Nat × Option jsdt_state) :=
  match parse_again fuel raw fuel 40 with
  | none => none
  | some (JSMN_SUCCESS, tokens) =>
    match build_device_tree fuel raw tokens with
    | none => none
    | some (ret, s) => some (ret, some s)
  | some (_, _) => some (0, none)

/-! ## `macho.c`: context set-up and entry point -/

/-- The function `mach_file_init`, on the header `head` decoded at `fbase`. -/
def mach_file_init (file : mach_loader_context_t) (head : mach_header_t) (fbase : Nat) :
    loader_return_t × mach_loader_context_t :=
  if head.magic ≠ MH_MAGIC then (LOADER_BADMAGIC, file)
  else if head.filetype ≠ MH_EXECUTE ∧ head.filetype ≠ MH_OBJECT then (LOADER_BADFILETYPE, file)
  else
    (LOADER_SUCCESS,
      { file with filetype := head.filetype, file := fbase, head := head, vm_bias := 0,
                  is_prelinked := false })

/-- The function `mach_file_set_vm_bias`. -/
def mach_file_set_vm_bias (file : mach_loader_context_t) (loader_bias : Nat) :
    mach_loader_context_t :=
  { file with vm_bias := loader_bias }

/-- The function `mach_file_get_entry_point`: the return code and the value stored
through `entry`. -/
def mach_file_get_entry_point (file : mach_loader_context_t) : loader_return_t × Option Nat :=
  if file.filetype ≠ MH_EXECUTE then (LOADER_BADFILETYPE, none)
  else (LOADER_SUCCESS, some file.entry_point)

/-! ## `loader.c`: the boot-stream interpreter -/

/-- Modelled from the spec: `memory_range_t`, declared in `bootkit/runtime.h`, which is
not among the sources; a memory range, base and size. -/
structure memory_range_t where
  base : Nat
  size : Nat
  deriving DecidableEq, Repr

/-- Modelled from the spec: `ZERO_RANGE`, defined in the absent `bootkit/runtime.h`; the
range that the teardown leaves (`zero ranges`). -/
def ZERO_RANGE : memory_range_t := { base := 0, size := 0 }

/-- The length of the name of a command and of a driver. -/
def NAME_LEN : Nat := 64

/-- The pad in front of a driver image. -/
def DRIVER_PAD_START : Nat := 256

/-- The size of `command_macho_t`: six 32-bit words and the name. -/
def sizeof_command_macho_t : Nat := 88

/-- The size of `command_t` and of `table_of_contents_t`: two 32-bit words. -/
def sizeof_command_t : Nat := 8

/-- The magic `'CfoT'`. -/
def kTableOfContentsMagic : Nat := 0x43666f54
/-- The magic `'hcaM'`. -/
def kCommandMachO : Nat := 0x6863614d
/-- The magic `'TD-X'`. -/
def kCommandXMLDeviceTree : Nat := 0x54442d58
/-- The magic `'TDSJ'`. -/
def kCommandJSDeviceTree : Nat := 0x5444534a

/-- The driver bit of the flags of a Mach-O command. -/
def kMachDriver : Nat := 0x1
/-- The kernel bit of the flags of a Mach-O command. -/
def kMachKernel : Nat := 0x2
/-- The flag of an LZSS payload. -/
def kCommandMachOFlags_CompressedLZSS : Nat := 0x100
/-- The flag of a driver with an Info.plist. -/
def kCommandMachOFlags_HasInfoPlist : Nat := 0x200
/-- The flag of a QuickLZ payload. -/
def kCommandMachOFlags_CompressedQLZ : Nat := 0x400
/-- The flag of a driver without executable. -/
def kCommandMachOFlags_NoExec : Nat := 0x800

/-- An entry of the list of loaded drivers (`loaded_driver_image_t`); the link `next`
is the tail of the list that holds the entry. -/
structure loaded_driver_image_t where
  range : memory_range_t
  info_offset : Nat
  has_exec : Bool
  name : List Nat
  deriving DecidableEq, Repr

/-- The global variables of `loader.c`; `gLoadedDriverImages` is the linked list from
its head. -/
structure loader_state where
  gLoadedDriverImages : List loaded_driver_image_t
  gKernelMemoryRange : memory_range_t
  gRAMDiskRange : memory_range_t
  gKernelEntryPoint : Nat
  gKernelMemoryTop : Nat
  gKernelVirtualBase : Nat
  gKernelPhysicalBase : Nat
  gHasDeviceTree : Bool
  deriving DecidableEq, Repr

/-- The state of the machine: the global variables of the loader, the memory and the
tree held by the device-tree builder (`none` before `DT__Initialize` and after
`DT__Finalize`). -/
structure machine where
  g : loader_state
  mem : Mem
  dt : Option Node

/-- The values of the global variables at start-up. -/
def initial_loader_state : loader_state :=
  { gLoadedDriverImages := []
    gKernelMemoryRange := { base := 0, size := 0 }
    gRAMDiskRange := { base := 0, size := 0 }
    gKernelEntryPoint := 0
    gKernelMemoryTop := 0
    gKernelVirtualBase := 0
    gKernelPhysicalBase := 0
    gHasDeviceTree := false }

/-- What `loader.c` takes from outside: the board, the definitions of
`bootkit/runtime.h` that are not among the sources, the decompressors, the allocator and
the device-tree parsers that it calls through `extern` declarations.

* `dram_start` is `gd->bd->bi_dram[0].start`;
* `RANGE_IS_NULL` is the test of that name;
* `reader` gives the reads of the Mach-O header and load commands of an image, on the
  memory as it is at the time of the read;
* `stack_context` is the content of the local `ctx` of `load_macho` before
  `mach_file_init`, which C leaves indeterminate;
* `qlz_state_malloc` tells whether `malloc` gave the QuickLZ state;
* the parsers give their return value and the tree that the builder holds afterwards. -/
structure Env where
  dram_start : Nat
  CONFIG_NR_DRAM_BANKS : Nat
  RANGE_IS_NULL : memory_range_t → Bool
  reader : macho_reader
  stack_context : mach_loader_context_t
  decompress_lzss : Mem → Nat → Nat → Nat → Mem
  qlz_size_decompressed : Mem → Nat → Nat
  qlz_decompress : Mem → Nat → Nat → Mem
  qlz_state_malloc : Bool
  parse_xml_device_tree : Mem → Nat → Bool × Option Node
  parse_jsdt_device_tree : Mem → Nat → Bool × Option Node

/-- The Mach-O header and load commands that the memory `m` holds at address `a`,
decoded through the reader of the environment. -/
def Env.mach_header_at (env : Env) (m : Mem) (a : Nat) : mach_header_t :=
  read_header env.reader m a

/-- The function `load_macho`: on success the values stored through `out_entry_point`
and `out_size`; the memory it leaves in both cases. `mach_file_init` and
`mach_file_vmsize` read the image before anything is written; `mach_file_map` reads it
again from the memory as the mapping changes it, so an image that the destination
overlaps can lose commands and leave `entry_point` as the stack had it. -/
def load_macho (env : Env) (m : Mem) (image_address load_bias load_address : Nat) :
    Option (Nat × Nat) × Mem :=
  match mach_file_init env.stack_context (env.mach_header_at m image_address) image_address with
  | (LOADER_SUCCESS, ctx1) =>
    match mach_file_vmsize ctx1 with
    | (LOADER_SUCCESS, sz) =>
      let full_size := sz.getD 0
      let ctx2 := mach_file_set_vm_bias ctx1 load_bias
      match mach_file_map env.reader ctx2 load_address full_size m with
      | (LOADER_SUCCESS, ctx3, m1) =>
        match mach_file_get_entry_point ctx3 with
        | (LOADER_SUCCESS, some entry_point) => (some (entry_point, full_size), m1)
        | _ => (none, m1)
      | (_, _, m1) => (none, m1)
    | _ => (none, m)
  | _ => (none, m)

/-- The function `assert_kernel_load`. -/
def assert_kernel_load (env : Env) (g : loader_state) : Bool :=
  !(env.RANGE_IS_NULL g.gKernelMemoryRange)

/-- The function `teardown_old_loader_context` (with `teardown_loaded_driver_images`),
on the global variables and the tree of the builder. -/
def teardown_old_loader_context (s : machine) : machine :=
  { s with
    g := { s.g with
            gHasDeviceTree := false
            gKernelMemoryTop := 0
            gKernelPhysicalBase := 0
            gKernelVirtualBase := 0
            gKernelMemoryRange := ZERO_RANGE
            gRAMDiskRange := ZERO_RANGE
            gLoadedDriverImages := [] }
    dt := if s.g.gHasDeviceTree then none else s.dt }

/-- The function `increment_kernel_memory`; the copy of the new top into the
environment variable `KernelMemoryTop` is not modelled. -/
def increment_kernel_memory (g : loader_state) (by_ : Nat) : loader_state :=
  { g with gKernelMemoryTop := u32 (g.gKernelMemoryTop + align_up by_ 0x1000) }

/-- The field `size` of the command at address `command`. -/
def command_size (m : Mem) (command : Nat) : Nat := read32 m (command + 4)
/-- The field `decomp_size` of the Mach-O command at address `command`. -/
def command_decomp_size (m : Mem) (command : Nat) : Nat := read32 m (command + 8)
/-- The field `info_offset` of the Mach-O command at address `command`. -/
def command_info_offset (m : Mem) (command : Nat) : Nat := read32 m (command + 12)
/-- The field `load_address` of the Mach-O command at address `command`. -/
def command_load_address (m : Mem) (command : Nat) : Nat := read32 m (command + 16)
/-- The field `flags` of the Mach-O command at address `command`. -/
def command_flags (m : Mem) (command : Nat) : Nat := read32 m (command + 20)
/-- The field `name` of the Mach-O command at address `command`. -/
def command_name (m : Mem) (command : Nat) : List Nat :=
  (List.range NAME_LEN).map (fun i => m (command + 24 + i) % 256)

/-- The first part of `load_macho_from_command`: the name is terminated, then for a
kernel the old context is torn down and the memory pointer and the bases are set, and
for the rest a kernel must be loaded. The left alternative is an early `return`. -/
def load_macho_setup (env : Env) (command flags : Nat) (s : machine) :
    (Nat × machine) ⊕ machine :=
  let s0 : machine :=
    if s.mem (command + 24 + (NAME_LEN - 1)) % 256 ≠ 0 then
      { s with mem := fun a => if a = command + 24 + (NAME_LEN - 1) then 0 else s.mem a }
    else s
  if flags &&& kMachKernel ≠ 0 then
    let slide := command_load_address s0.mem command &&& 0xfffff
    let s1 :=
      if !(env.RANGE_IS_NULL s0.g.gKernelMemoryRange) then teardown_old_loader_context s0
      else s0
    if env.CONFIG_NR_DRAM_BANKS < 1 then Sum.inl (1, s1)
    else
      Sum.inr { s1 with
        g := { s1.g with
                gKernelMemoryTop := u32 (env.dram_start + slide)
                gKernelVirtualBase := command_load_address s0.mem command &&& 0xfff00000
                gKernelPhysicalBase := env.dram_start } }
  else if !(assert_kernel_load env s0.g) then Sum.inl (1, s0)
  else Sum.inr s0

/-- The second part of `load_macho_from_command`: a compressed payload is decompressed.
The result is the address and the size of the image and the memory; the left alternative
is an early `return`. -/
def load_macho_decompress (env : Env) (command flags image_address blob_size raw_image_dest : Nat)
    (m : Mem) : Mem ⊕ (Nat × Nat × Mem) :=
  if flags &&& (kCommandMachOFlags_CompressedLZSS ||| kCommandMachOFlags_CompressedQLZ) ≠ 0 then
    let decomp_image :=
      if flags &&& kMachDriver ≠ 0 then raw_image_dest
      else u32 (raw_image_dest + u32 (command_decomp_size m command * 4))
    if flags &&& kCommandMachOFlags_CompressedLZSS ≠ 0 then
      let m1 := env.decompress_lzss m decomp_image image_address blob_size
      Sum.inr (decomp_image, command_decomp_size m1 command, m1)
    else if flags &&& kCommandMachOFlags_CompressedQLZ ≠ 0 then
      if env.qlz_size_decompressed m image_address ≠ command_decomp_size m command then Sum.inl m
      else if !env.qlz_state_malloc then Sum.inl m
      else
        let m1 := env.qlz_decompress m image_address decomp_image
        Sum.inr (decomp_image, command_decomp_size m1 command, m1)
    else Sum.inl m
  else Sum.inr (image_address, blob_size, m)

/-- The driver branch of `load_macho_from_command`. The run goes on only when `malloc`
gives the entry (`assert(this)`), which the model takes for granted. -/
def load_macho_driver (command flags image_address image_size raw_image_dest : Nat)
    (is_compressed : Bool) (s : machine) : Nat × machine :=
  if command_info_offset s.mem command > image_size then (1, s)
  else
    let m1 := if !is_compressed then bcopy s.mem image_address raw_image_dest image_size else s.mem
    let s1 := { s with mem := m1 }
    let range : memory_range_t :=
      { base := s.g.gKernelMemoryTop, size := u32 (image_size + DRIVER_PAD_START) }
    let has_exec := decide (flags &&& kCommandMachOFlags_NoExec = 0)
    let name := command_name m1 command
    if flags &&& kCommandMachOFlags_HasInfoPlist = 0 ∧ flags &&& kCommandMachOFlags_NoExec ≠ 0 then
      (1, s1)
    else
      let info_offset :=
        if flags &&& kCommandMachOFlags_HasInfoPlist ≠ 0 then command_info_offset m1 command
        else 0
      let this : loaded_driver_image_t :=
        { range := range, info_offset := info_offset, has_exec := has_exec, name := name }
      (0, { s1 with
            g := increment_kernel_memory
              { s1.g with gLoadedDriverImages := this :: s1.g.gLoadedDriverImages } range.size })

/-- The kernel branch of `load_macho_from_command`. -/
def load_macho_kernel (env : Env) (command image_address : Nat) (s : machine) : Nat × machine :=
  match load_macho env s.mem image_address (command_load_address s.mem command)
      s.g.gKernelMemoryTop with
  | (none, m1) => (1, { s with mem := m1 })
  | (some (entry_point, size), m1) =>
    (0, { s with
          mem := m1
          g := increment_kernel_memory
            { s.g with
              gKernelMemoryRange := { base := s.g.gKernelMemoryTop, size := size }
              gKernelEntryPoint := entry_point } size })

/-- The function `load_macho_from_command` on the command at address `command`: the
return value and the state it leaves. -/
def load_macho_from_command (env : Env) (command : Nat) (s : machine) : Nat × machine :=
  let image_address := u32 (command + sizeof_command_macho_t)
  let blob_size := sub32 (command_size s.mem command) sizeof_command_macho_t
  let flags := command_flags s.mem command
  let is_compressed :=
    decide (flags &&& (kCommandMachOFlags_CompressedLZSS ||| kCommandMachOFlags_CompressedQLZ) ≠ 0)
  match load_macho_setup env command flags s with
  | Sum.inl r => r
  | Sum.inr s1 =>
    let raw_image_dest :=
      if flags &&& kMachDriver ≠ 0 then u32 (s1.g.gKernelMemoryTop + DRIVER_PAD_START)
      else s1.g.gKernelMemoryTop
    match load_macho_decompress env command flags image_address blob_size raw_image_dest s1.mem with
    | Sum.inl m1 => (1, { s1 with mem := m1 })
    | Sum.inr (image_address1, image_size, m1) =>
      let s2 := { s1 with mem := m1 }
      if flags &&& kMachDriver ≠ 0 then
        load_macho_driver command flags image_address1 image_size raw_image_dest is_compressed s2
      else if flags &&& kMachKernel ≠ 0 then
        load_macho_kernel env command image_address1 s2
      else (1, s2)

/-- The functions `parse_xdt_command` and `parse_jsdt_command`, which differ by the
parser they call. -/
def parse_dt_command (env : Env) (parser : Mem → Nat → Bool × Option Node) (cmd : Nat)
    (s : machine) : Nat × machine :=
  let base := u32 (cmd + sizeof_command_t)
  if s.g.gHasDeviceTree then (0, s)
  else if !(assert_kernel_load env s.g) then (1, s)
  else
    match parser s.mem base with
    | (false, dt) => (1, { s with dt := dt })
    | (true, dt) => (0, { s with dt := dt, g := { s.g with gHasDeviceTree := true } })

/-- The function `parse_xdt_command`. -/
def parse_xdt_command (env : Env) (cmd : Nat) (s : machine) : Nat × machine :=
  parse_dt_command env env.parse_xml_device_tree cmd s

/-- The function `parse_jsdt_command`. -/
def parse_jsdt_command (env : Env) (cmd : Nat) (s : machine) : Nat × machine :=
  parse_dt_command env env.parse_jsdt_device_tree cmd s

/-- The dispatch on the magic of a command inside a table of contents. -/
def toc_command (env : Env) (cmd : Nat) (s : machine) : Nat × machine :=
  let magic := read32 s.mem cmd
  if magic = kTableOfContentsMagic then (1, s)
  else if magic = kCommandMachO then load_macho_from_command env cmd s
  else if magic = kCommandXMLDeviceTree then parse_xdt_command env cmd s
  else if magic = kCommandJSDeviceTree then parse_jsdt_command env cmd s
  else (1, s)

/-- The loop `while (left_cmds--)` of `parse_table_of_contents`: the return value and
the state it leaves. -/
def toc_loop (env : Env) : Nat → Nat → machine → Nat × machine
  | 0, _, s => (0, s)
  | left_cmds + 1, cmd, s =>
    match toc_command env cmd s with
    | (0, s1) => toc_loop env left_cmds (u32 (cmd + command_size s1.mem cmd)) s1
    | (ret, s1) => (ret, s1)

/-- The function `parse_table_of_contents`. -/
def parse_table_of_contents (env : Env) (toc : Nat) (s : machine) : Nat × machine :=
  toc_loop env (read32 s.mem (toc + 4)) (u32 (toc + sizeof_command_t)) s

/-- The function `load_general_image` on the image at `image_address`. -/
def load_general_image (env : Env) (image_address : Nat) (s : machine) : Nat × machine :=
  let image_magic := read32 s.mem image_address
  if image_magic = kCommandMachO then load_macho_from_command env image_address s
  else if image_magic = kCommandXMLDeviceTree then parse_xdt_command env image_address s
  else if image_magic = kCommandJSDeviceTree then parse_jsdt_command env image_address s
  else if image_magic = kTableOfContentsMagic then parse_table_of_contents env image_address s
  else (1, s)

/-- The signature of an HFS volume, `BD`. -/
def kHFSSigWord : Nat := 0x4244
/-- The signature of an HFS Plus volume, `H+`. -/
def kHFSPlusSigWord : Nat := 0x482b
/-- The size of `struct HFSPlusVolumeHeader` as declared in `hfs_header.h`. -/
def sizeof_HFSPlusVolumeHeader : Nat := 112

/-- The function `do_rdx`; `addr` and `size` are the values of the environment
variables `fileaddr` and `filesize`, read by `last_fileaddr` and `last_filesize`. -/
def do_rdx (addr size : Nat) (s : machine) : Nat × machine :=
  if addr = 0 then (1, s)
  else if size = 0 then (1, s)
  else if addr ≠ s.g.gKernelMemoryTop then (1, s)
  else if size < 1024 + sizeof_HFSPlusVolumeHeader then (1, s)
  else
    let signature := s.mem (addr + 1024) % 256 * 256 + s.mem (addr + 1025) % 256
    if signature ≠ kHFSPlusSigWord ∧ signature ≠ kHFSSigWord then (1, s)
    else
      (0, { s with
            g := increment_kernel_memory
              { s.g with gRAMDiskRange := { base := addr, size := size } } size })

/-- One step of the loader: an image handed to `load_general_image` (the verb `imgx`)
or a call of `do_rdx` (the verb `rdx`). -/
inductive loader_step
  | imgx (env : Env) (image_address : Nat)
  | rdx (addr size : Nat)

/-- The state after one step of the loader, whatever its return value. -/
def run_step (step : loader_step) (s : machine) : machine :=
  match step with
  | loader_step.imgx env image_address => (load_general_image env image_address s).2
  | loader_step.rdx addr size => (do_rdx addr size s).2

/-- The state after a sequence of steps, from the state at start-up over the memory
`m`. -/
def run_steps (m : Mem) (steps : List loader_step) : machine :=
  steps.foldl (fun s step => run_step step s)
    { g := initial_loader_state, mem := m, dt := none }

/-- The parser of `JS_device_tree.c` as a device-tree parser of `Env`: the text is the
C string at `base`, the bound on the turns is the size of the address space, and a run
that exceeds it or reads a token that was not produced counts as a failure. -/
def jsdt_front_end (m : Mem) (base : Nat) : Bool × Option Node :=
  match parse_jsdt_device_tree 4294967296 (fun i => m (base + i) % 256) with
  | some (ret, st) => (decide (ret ≠ 0), st.map (fun x => x.node))
  | none => (false, none)
/-! ## `image3.c`: the Image-3 container -/

/-- Modelled from the spec: `sizeof(img3_header_t)`; the structure is declared in the
absent `bootkit/image3.h` (`a 20-byte header {magic, full_size, unpacked_size, sig_area,
ident}`): five 32-bit words in that order. -/
def sizeof_img3_header_t : Nat := 20

/-- Modelled from the spec: `sizeof(img3_tag_t)`; the structure is declared in the absent
`bootkit/image3.h` (`{type, total_length, data_length, data[data_length],
pad[total_length - data_length - 12]}`): three 32-bit words before the data. -/
def sizeof_img3_tag_t : Nat := 12

/-- Modelled from the spec: `IMG3_MAGIC`, defined in the absent `bootkit/image3.h`
(`magic = 'Img3'`). -/
def IMG3_MAGIC : Nat := 0x496d6733

/-- Modelled from the spec: the structure `img3_context_t`, declared in the absent
`bootkit/image3.h`; `image3.c` uses its members `head` and `dynamic`. The member `head`
is kept as the memory seen from that pointer: `head a` is the byte at `ctx->head + a`,
inside the allocated block or past its end. A pointer into the container is its offset
from `ctx->head`. -/
structure img3_context_t where
  dynamic : Bool
  head : Mem

/-- The member `magic` of the header. -/
def img3_magic (head : Mem) : Nat := read32 head 0

/-- The member `full_size` of the header. -/
def img3_full_size (head : Mem) : Nat := read32 head 4

/-- The member `unpacked_size` of the header. -/
def img3_unpacked_size (head : Mem) : Nat := read32 head 8

/-- The member `sig_area` of the header. -/
def img3_sig_area (head : Mem) : Nat := read32 head 12

/-- The member `ident` of the header. -/
def img3_ident (head : Mem) : Nat := read32 head 16

/-- The member `type` of the tag at offset `tag`. -/
def tag_type (head : Mem) (tag : Nat) : Nat := read32 head tag

/-- The member `total_length` of the tag at offset `tag`. -/
def tag_total_length (head : Mem) (tag : Nat) : Nat := read32 head (tag + 4)

/-- The member `data_length` of the tag at offset `tag`. -/
def tag_data_length (head : Mem) (tag : Nat) : Nat := read32 head (tag + 8)

/-- The function `image3_sz`. -/
def image3_sz (ctx : img3_context_t) : Nat := img3_full_size ctx.head

/-- The function `image3_off`, on a pointer given by its offset from `ctx->head`: the
difference of the two pointers as a 32-bit word. -/
def image3_off (_ctx : img3_context_t) (off : Nat) : Nat := u32 off

/-- Modelled from the spec: the C library `realloc` when it succeeds (`the backing buffer
is reallocated`). The new block keeps the first `min old size` bytes of the old block of
`old` bytes; every other byte seen from the new pointer is the byte of `fresh`. -/
def realloc (head : Mem) (old size : Nat) (fresh : Mem) : Mem :=
  fun a => if a < min old size then head a else fresh a

/-- The function `image3_reserve_tag`: the returned pointer (`none` for `NULL`) and the
context it leaves. `fresh` is what the heap holds where `realloc` puts the block; the
block being reallocated has `full_size` bytes, as `image3_new` and this function leave
it. A `realloc` that fails ends in `abort()`: the model covers the runs that go on. The
tag pointer `add_ptr2(ctx->head, image3_sz(ctx))` is kept as its offset. -/
def image3_reserve_tag (ctx : img3_context_t) (type data_length : Nat) (fresh : Mem) :
    Option Nat × img3_context_t :=
  if !ctx.dynamic then (none, ctx)
  else
    let len := u32 (data_length + sizeof_img3_tag_t)
    let size := u32 (image3_sz ctx + len)
    let head := realloc ctx.head (image3_sz ctx) size fresh
    let tag := u32 (img3_full_size head)
    let h1 := write32 head (tag + 8) data_length
    let h2 := write32 h1 (tag + 4) len
    let h3 := write32 h2 tag type
    let h4 := write32 h3 4 size
    let h5 := write32 h4 8 (u32 (img3_unpacked_size h4 + len))
    (some (u32 (tag + sizeof_img3_tag_t)), { ctx with head := h5 })

/-- The function `image3_new`: `none` is `NULL`. `head_block` is what `malloc` returns
for the header (`none` when it fails, else the heap bytes seen from the block), and
`ctx_block` tells whether the second `malloc` succeeds. -/
def image3_new (type : Nat) (head_block : Option Mem) (ctx_block : Bool) :
    Option img3_context_t :=
  match head_block with
  | none => none
  | some fresh =>
    if !ctx_block then none
    else
      let h1 := write32 fresh 4 sizeof_img3_header_t
      let h2 := write32 h1 0 IMG3_MAGIC
      let h3 := write32 h2 16 type
      let h4 := write32 h3 12 0
      let h5 := write32 h4 8 0
      some { dynamic := true, head := h5 }

/-- The loop of `image3_find_tag` from the tag pointer `tag`. The outer `none` means
that the loop is still running when the fuel is used up; `some none` is `NULL`. -/
def image3_find_tag_loop (ctx : img3_context_t) (type : Nat) : Nat → Nat → Option (Option Nat)
  | 0, _ => none
  | fuel + 1, tag =>
    if tag_type ctx.head tag = type then some (some tag)
    else
      let next := add_ptr2 tag (tag_total_length ctx.head tag)
      if image3_off ctx next > img3_full_size ctx.head then some none
      else image3_find_tag_loop ctx type fuel next

/-- The function `image3_find_tag`; the first tag pointer is `ctx->head + 1`. -/
def image3_find_tag (fuel : Nat) (ctx : img3_context_t) (type : Nat) : Option (Option Nat) :=
  image3_find_tag_loop ctx type fuel sizeof_img3_header_t

/-- The function `image3_tag_present`. -/
def image3_tag_present (fuel : Nat) (ctx : img3_context_t) (type : Nat) : Option Bool :=
  (image3_find_tag fuel ctx type).map Option.isSome

/-- The function `image3_get_tag_data`: `some (some (data, size))` when it returns true
with these two values stored through `data` and `size`, `some none` when it returns
false. -/
def image3_get_tag_data (fuel : Nat) (ctx : img3_context_t) (type : Nat) :
    Option (Option (Nat × Nat)) :=
  (image3_find_tag fuel ctx type).map
    (fun r => r.map (fun tag => (u32 (tag + sizeof_img3_tag_t), tag_data_length ctx.head tag)))

/-- A run of `image3_reserve_tag` calls, each given by the type, the data length and the
heap bytes that its `realloc` finds. -/
def image3_reserve_tags (ctx : img3_context_t) : List (Nat × Nat × Mem) → img3_context_t
  | [] => ctx
  | call :: rest =>
    image3_reserve_tags (image3_reserve_tag ctx call.1 call.2.1 call.2.2).2 rest

/-- The tags at the offsets `tags` tile the bytes from `off` to `full`: each tag starts
where the one before ends, holds at least its own 12-byte header, and the last one ends
at `full`. -/
def tags_tile (head : Mem) (full : Nat) : Nat → List Nat → Prop
  | off, [] => off = full
  | off, t :: rest =>
    t = off ∧ sizeof_img3_tag_t ≤ tag_total_length head off ∧
      off + tag_total_length head off ≤ full ∧
      tags_tile head full (off + tag_total_length head off) rest

instance tags_tile_decidable (head : Mem) (full : Nat) :
    (off : Nat) → (tags : List Nat) → Decidable (tags_tile head full off tags)
  | off, [] => inferInstanceAs (Decidable (off = full))
  | off, t :: rest =>
    have := tags_tile_decidable head full (off + tag_total_length head off) rest
    inferInstanceAs (Decidable (t = off ∧ sizeof_img3_tag_t ≤ tag_total_length head off ∧
      off + tag_total_length head off ≤ full ∧
      tags_tile head full (off + tag_total_length head off) rest))

/-- The sum of the members `total_length` of the tags at the offsets `tags`. -/
def tags_total (head : Mem) (tags : List Nat) : Nat :=
  (tags.map (tag_total_length head)).sum

/-! ## `memory.c`: the bump allocator -/

/-- Modelled from the spec: the structure `memory_region_t`, declared in the absent
`bootkit/runtime.h` (`a base, a current cursor pos, and a direction flag`); `memory.c`
uses its members `base`, `pos` and `down`. -/
structure memory_region_t where
  base : Nat
  pos : Nat
  down : Bool
  deriving DecidableEq, Repr

/-- Modelled from the spec: `align_down` is defined in `bootkit/runtime.h`, which is not
among the sources (`round the cursor down to align`). Rounds `x` down to a multiple of
`a`. -/
def align_down (x a : Nat) : Nat := x / a * a

/-- The function `memory_reserve`: the address it returns and the region it leaves. -/
def memory_reserve (region : memory_region_t) (size align_boundary : Nat) :
    Nat × memory_region_t :=
  if region.down then
    let pos1 := sub32 region.pos size
    let pos2 := if align_boundary ≠ 0 then align_down pos1 align_boundary else pos1
    (pos2, { region with pos := pos2 })
  else
    let pos1 := if align_boundary ≠ 0 then align_up region.pos align_boundary else region.pos
    (pos1, { region with pos := u32 (pos1 + size) })

/-- The function `get_memory_base`. -/
def get_memory_base : Nat := 0x20000000

/-- The function `total_memory_size`. -/
def total_memory_size : Nat := 0x20000000

/-! ## `mach_boot.c`: the handoff to the kernel -/

/-- The size of `struct DriverInfo`: six 32-bit members. -/
def sizeof_DriverInfo : Nat := 24

/-- The size of `boot_args_t` as declared in `boot_args.h`: two 16-bit members, four
words, the six words of `Boot_Video`, three words and the 256 bytes of `args`. -/
def sizeof_boot_args_t : Nat := 312

/-- The constant `kBootArgsRevision`. -/
def kBootArgsRevision : Nat := 1
/-- The constant `kBootArgsVersion3`. -/
def kBootArgsVersion3 : Nat := 3
/-- The constant `kDeviceTreeMagic`. -/
def kDeviceTreeMagic : Nat := 0xBABE5A55

/-- The offset of the member `virt_base` of `boot_args_t`. -/
def boot_args_virt_base : Nat := 4
/-- The offset of the member `phys_base` of `boot_args_t`. -/
def boot_args_phys_base : Nat := 8
/-- The offset of the member `mem_size` of `boot_args_t`. -/
def boot_args_mem_size : Nat := 12
/-- The offset of the member `data_end` of `boot_args_t`. -/
def boot_args_data_end : Nat := 16
/-- The offset of the member `video` of `boot_args_t`. -/
def boot_args_video : Nat := 20
/-- The offset of the member `machine` of `boot_args_t`. -/
def boot_args_machine : Nat := 44
/-- The offset of the member `dt_base` of `boot_args_t`. -/
def boot_args_dt_base : Nat := 48
/-- The offset of the member `dt_size` of `boot_args_t`. -/
def boot_args_dt_size : Nat := 52
/-- The offset of the member `args` of `boot_args_t`. -/
def boot_args_args : Nat := 56

/-- The string `iBoot`. -/
def str_iBoot : List Nat := [105, 66, 111, 111, 116]
/-- The string `BootArgs`. -/
def str_BootArgs : List Nat := [66, 111, 111, 116, 65, 114, 103, 115]
/-- The string `Kernel`. -/
def str_Kernel : List Nat := [75, 101, 114, 110, 101, 108]
/-- The string `RAMDisk`. -/
def str_RAMDisk : List Nat := [82, 65, 77, 68, 105, 115, 107]
/-- The string `Driver`. -/
def str_Driver : List Nat := [68, 114, 105, 118, 101, 114]
/-- The string `chosen`. -/
def str_chosen : List Nat := [99, 104, 111, 115, 101, 110]
/-- The string `memory-map`. -/
def str_memory_map : List Nat := [109, 101, 109, 111, 114, 121, 45, 109, 97, 112]

/-- Little-endian store of the 16-bit value `v` at address `a`. -/
def write16 (m : Mem) (a v : Nat) : Mem :=
  fun x => if x = a then v % 256 else if x = a + 1 then v / 256 % 256 else m x

/-- The bytes `bytes` stored from address `dst` on. -/
def write_bytes (m : Mem) (dst : Nat) (bytes : List Nat) : Mem :=
  fun a => if dst ≤ a ∧ a < dst + bytes.length then bytes.getD (a - dst) 0 % 256 else m a

/-- Modelled from the spec: the C library `strlen` on the memory (`bundlePathLength`):
the number of bytes before the first NUL from address `a` on, `none` when `fuel` bytes
hold no NUL. -/
def strlen (m : Mem) (a : Nat) : Nat → Nat → Option Nat
  | 0, _ => none
  | fuel + 1, n => if m (u32 (a + n)) % 256 = 0 then some n else strlen m a fuel (n + 1)

/-- The macro `ptokv` of `mach_boot.c`, physical to kernel virtual. -/
def ptokv (g : loader_state) (addr : Nat) : Nat :=
  u32 (sub32 addr g.gKernelPhysicalBase + g.gKernelVirtualBase)

/-- The macro `kvtop` of `mach_boot.c`, kernel virtual to physical. -/
def kvtop (g : loader_state) (addr : Nat) : Nat :=
  u32 (sub32 addr g.gKernelVirtualBase + g.gKernelPhysicalBase)

/-- One hexadecimal digit in lower case. -/
def hex_digit (d : Nat) : Nat := if d < 10 then 48 + d else 87 + d

/-- The hexadecimal digits of `n`, most significant first, without leading zero. -/
def hex_digits : Nat → Nat → List Nat
  | 0, _ => []
  | fuel + 1, n =>
    if n < 16 then [hex_digit n] else hex_digits fuel (n / 16) ++ [hex_digit (n % 16)]

/-- Modelled from the spec: the output of the C library `sprintf` for the format
`%s-%x` (`Driver-<hex(DriverInfoAddress)>`). -/
def sprintf_s_x (s : List Nat) (x : Nat) : List Nat := s ++ [45] ++ hex_digits 8 (u32 x)

/-- What `mach_boot.c` takes from outside:

* `iBoot_range` is the content of the local `iBoot_range` of `map_add_info`, which the
  function enters without having written it and which C leaves indeterminate;
* `malloc_ok name` tells whether the two `malloc` calls of `allocate_memory_range` for
  the range of that name succeed;
* `DT__FlattenLength tree` is the length that the first call of the flattener stores;
* `DT__FlattenDeviceTree tree len` is the bytes that the second call writes at the
  buffer and the length that it leaves in `len`;
* `root_after_finalize` is the root under which `create_memory_map` gets its nodes when
  the builder holds no tree, as in a call of `mach_boot` that follows a failed one
  (`DT__Finalize` has run and `gHasDeviceTree` is still set): the builder is not among
  the sources and the spec does not describe it after `finalize`, so what it gives then
  is left open. -/
structure BootEnv where
  iBoot_range : memory_range_t
  malloc_ok : List Nat → Bool
  DT__FlattenLength : Node → Nat
  DT__FlattenDeviceTree : Node → Nat → List Nat × Nat
  root_after_finalize : Node

/-- The function `allocate_memory_range`: its return value and the node `memory_map`. -/
def allocate_memory_range (boot : BootEnv) (memory_map : Node) (rangeName : List Nat)
    (start length : Nat) : Bool × Node :=
  if !boot.malloc_ok rangeName then (false, memory_map)
  else (true, DT__AddProperty memory_map rangeName 8 (le32 start ++ le32 length))

/-- The function `enter_memory_range`. -/
def enter_memory_range (boot : BootEnv) (memory_map : Node) (pfx : List Nat) (id : Nat)
    (range : memory_range_t) : Bool × Node :=
  let range_name := if id ≠ 0 then sprintf_s_x pfx id else pfx
  allocate_memory_range boot memory_map range_name range.base range.size

/-- The function `map_add_ramdisk`. -/
def map_add_ramdisk (boot : BootEnv) (memory_map : Node) (ramdisk_range : memory_range_t) :
    Bool × Node :=
  enter_memory_range boot memory_map str_RAMDisk 0 ramdisk_range

/-- The function `map_booter_extension`: its return value, the node `memory_map` and the
memory; `none` when `strlen` finds no NUL in the address space. -/
def map_booter_extension (boot : BootEnv) (memory_map : Node) (image : loaded_driver_image_t)
    (m : Mem) : Option (Bool × Node × Mem) :=
  if sizeof_DriverInfo + NAME_LEN > DRIVER_PAD_START then some (false, memory_map, m)
  else if image.info_offset = 0 ∧ image.has_exec = true then some (false, memory_map, m)
  else
    let driver := image.range.base
    let bundle_name := u32 (driver + sizeof_DriverInfo)
    let actual_base := u32 (image.range.base + DRIVER_PAD_START)
    let actual_size := sub32 image.range.size DRIVER_PAD_START
    let m1 :=
      if image.has_exec then write32 (write32 m (driver + 8) actual_base) (driver + 12) image.info_offset
      else write32 (write32 m (driver + 8) 0) (driver + 12) 0
    let m2 := write32 m1 driver (u32 (actual_base + image.info_offset))
    let m3 := write32 m2 (driver + 4) (sub32 actual_size image.info_offset)
    let m4 := write_bytes m3 bundle_name
      ((List.range NAME_LEN).map (fun i => image.name.getD i 0))
    let m5 := write32 m4 (driver + 16) bundle_name
    match strlen m5 bundle_name 4294967296 0 with
    | none => none
    | some n =>
      let m6 := write32 m5 (driver + 20) n
      some (true, (enter_memory_range boot memory_map str_Driver driver image.range).2, m6)

/-- The loop of `map_add_drivers` over the list of loaded drivers, from its head. -/
def map_add_drivers_loop (boot : BootEnv) :
    List loaded_driver_image_t → Node → Mem → Option (Bool × Node × Mem)
  | [], memory_map, m => some (true, memory_map, m)
  | this :: next, memory_map, m =>
    match map_booter_extension boot memory_map this m with
    | none => none
    | some (false, map1, m1) => some (false, map1, m1)
    | some (true, map1, m1) => map_add_drivers_loop boot next map1 m1

/-- The function `map_add_drivers`: its return value, the node `memory_map`, the memory
and the list of loaded drivers, which is released when every driver has been entered. -/
def map_add_drivers (boot : BootEnv) (memory_map : Node) (s : machine) :
    Option (Bool × Node × machine) :=
  match map_add_drivers_loop boot s.g.gLoadedDriverImages memory_map s.mem with
  | none => none
  | some (false, map1, m1) => some (false, map1, { s with mem := m1 })
  | some (true, map1, m1) =>
    some (true, map1, { s with mem := m1, g := { s.g with gLoadedDriverImages := [] } })

/-- The function `map_add_info`. The range entered under the name `iBoot` is the local
variable that the function never writes. -/
def map_add_info (boot : BootEnv) (memory_map : Node)
    (boot_args_range kernel_range : memory_range_t) : Bool × Node :=
  match enter_memory_range boot memory_map str_iBoot 0 boot.iBoot_range with
  | (false, map1) => (false, map1)
  | (true, map1) =>
    match enter_memory_range boot map1 str_BootArgs 0 boot_args_range with
    | (false, map2) => (false, map2)
    | (true, map2) =>
      match enter_memory_range boot map2 str_Kernel 0 kernel_range with
      | (false, map3) => (false, map3)
      | (true, map3) => (true, map3)

/-- The function `allocate_boot_args`: the pointer `args`, the range, the region and the
memory. -/
def allocate_boot_args (kernel_mem : memory_region_t) (m : Mem) :
    Nat × memory_range_t × memory_region_t × Mem :=
  let r := memory_reserve kernel_mem sizeof_boot_args_t 0
  let args := r.1
  let m1 := write16 m args kBootArgsRevision
  let m2 := write16 m1 (args + 2) kBootArgsVersion3
  (args, { base := args, size := sizeof_boot_args_t }, r.2, m2)

/-- The function `flatten_device_tree` on the tree `tree` of the builder: the range, the
region and the memory. -/
def flatten_device_tree (boot : BootEnv) (tree : Node) (kernel_mem : memory_region_t)
    (m : Mem) : memory_range_t × memory_region_t × Mem :=
  let len := u32 (boot.DT__FlattenLength tree + 4)
  let r := memory_reserve kernel_mem len 0
  let m1 := write32 m r.1 kDeviceTreeMagic
  let dt_base := u32 (r.1 + 4)
  let flat := boot.DT__FlattenDeviceTree tree len
  ({ base := dt_base, size := flat.2 }, r.2, write_bytes m1 dt_base flat.1)

/-- What a call of `mach_boot` leaves: its return value when it returns, the global
variables, the memory and the tree of the builder, the region `kernel_mem`, the node
`/chosen/memory-map` as it was filled, the pointer `args`, and the two arguments of
`call_kernel` when the kernel is entered. -/
structure mach_boot_result where
  ret : Nat
  state : machine
  kernel_mem : memory_region_t
  memory_map : Option Node
  args : Option Nat
  call_kernel : Option (Nat × Nat)

/-- The label `out_err` of `mach_boot` when `ret` is false: `DT__Finalize`, then
`return 1`. -/
def mach_boot_out_err (s : machine) (kernel_mem : memory_region_t) (memory_map : Node)
    (args : Nat) : mach_boot_result :=
  { ret := 1, state := { s with dt := none }, kernel_mem := kernel_mem,
    memory_map := some memory_map, args := some args, call_kernel := none }

/-- The root of the tree in which `create_memory_map` adds `/chosen/memory-map`: the
root of the tree that the builder holds, or what the builder gives when it holds none. -/
def create_memory_map_root (boot : BootEnv) (s : machine) : Node :=
  match s.dt with
  | some root => root
  | none => boot.root_after_finalize

/-- The function `mach_boot`. The node that `create_memory_map` adds under `/chosen` is
filled apart and put in the tree when the tree is flattened, at the place where
`DT__AddChild` gave it. The call is carried out whenever `gHasDeviceTree` is set, also
when the tree has been finalized by a failed call before. The run goes on only when
`memory_map` is not `NULL` (`assert(memory_map)`), which the model takes for granted.
`none` when a `strlen` finds no NUL. -/
def mach_boot (env : Env) (boot : BootEnv) (kernel_mem : memory_region_t) (s : machine) :
    Option mach_boot_result :=
  if !s.g.gHasDeviceTree then
    some { ret := 1, state := s, kernel_mem := kernel_mem, memory_map := none, args := none,
           call_kernel := none }
  else
    let root := create_memory_map_root boot s
    let km0 : memory_region_t :=
      { pos := s.g.gKernelMemoryTop, base := s.g.gKernelPhysicalBase, down := false }
    let a := allocate_boot_args km0 s.mem
    let args := a.1
    let r_boot_args := a.2.1
    let s1 : machine := { s with mem := a.2.2.2 }
    match map_add_info boot (DT__NewChild (some str_memory_map)) r_boot_args
        s1.g.gKernelMemoryRange with
    | (false, map1) => some (mach_boot_out_err s1 a.2.2.1 map1 args)
    | (true, map1) =>
      match map_add_drivers boot map1 s1 with
      | none => none
      | some (false, map2, s2) => some (mach_boot_out_err s2 a.2.2.1 map2 args)
      | some (true, map2, s2) =>
        let rd :=
          if !(env.RANGE_IS_NULL s2.g.gRAMDiskRange) then
            map_add_ramdisk boot map2 s2.g.gRAMDiskRange
          else (true, map2)
        match rd with
        | (false, map3) => some (mach_boot_out_err s2 a.2.2.1 map3 args)
        | (true, map3) =>
          let tree := DT__AddChild root (DT__AddChild (DT__NewChild (some str_chosen)) map3)
          let f := flatten_device_tree boot tree a.2.2.1 s2.mem
          let r_device_tree := f.1
          let km := { f.2.1 with pos := align_up f.2.1.pos 0x100000 }
          let m1 := write32 f.2.2 (args + boot_args_phys_base) s2.g.gKernelPhysicalBase
          let m2 := write32 m1 (args + boot_args_virt_base) s2.g.gKernelVirtualBase
          let m3 := write32 m2 (args + boot_args_dt_base) (ptokv s2.g r_device_tree.base)
          let m4 := write32 m3 (args + boot_args_dt_size) r_device_tree.size
          let m5 := write32 m4 (args + boot_args_mem_size) total_memory_size
          let m6 := write32 m5 (args + boot_args_data_end) km.pos
          some { ret := 0, state := { s2 with mem := m6, dt := none }, kernel_mem := km,
                 memory_map := some map3, args := some args,
                 call_kernel := some (kvtop s2.g s2.g.gKernelEntryPoint,
                                      ptokv s2.g r_boot_args.base) }

/-- The ranges entered in a memory-map node: for each property the name and the two
little-endian words of its value, `base` and `size`. -/
def memory_map_ranges (memory_map : Node) : List (List Nat × Nat × Nat) :=
  memory_map.properties.map (fun p =>
    (p.name,
      p.value.getD 0 0 + 256 * p.value.getD 1 0 + 65536 * p.value.getD 2 0 +
        16777216 * p.value.getD 3 0,
      p.value.getD 4 0 + 256 * p.value.getD 5 0 + 65536 * p.value.getD 6 0 +
        16777216 * p.value.getD 7 0))

/-! ## `lzss.c`: the LZSS decoder -/

/-- The size of the ring buffer. -/
def N : Nat := 4096

/-- The upper limit of the length of a match. -/
def F : Nat := 18

/-- A match is encoded when it is longer than this. -/
def THRESHOLD : Nat := 2

/-- The variables of `decompress_lzss` during the decoding: the number of source bytes
read (`src` less its first value), `flags`, `r`, the ring buffer `text_buf`, and the
bytes written through `dst`, in the order of the writes (`dst` less its first value is
the length of this list). -/
structure lzss_state where
  src : Nat
  flags : Nat
  r : Nat
  text_buf : Nat → Nat
  out : List Nat

/-- The statements `*dst++ = c; text_buf[r++] = c; r &= (N - 1);`. -/
def lzss_put (st : lzss_state) (c : Nat) : lzss_state :=
  { st with
    out := st.out ++ [c]
    text_buf := fun a => if a = st.r then c else st.text_buf a
    r := (st.r + 1) &&& (N - 1) }

/-- The loop `for (k = 0; k <= j; k++)` that copies a match from the ring buffer: the
first argument is the number of turns left, `j + 1 - k`. -/
def lzss_copy (i : Nat) : Nat → Nat → lzss_state → lzss_state
  | 0, _, st => st
  | turns + 1, k, st =>
    lzss_copy i turns (k + 1) (lzss_put st (st.text_buf ((i + k) &&& (N - 1))))

/-- One turn of the loop `for ( ; ; )` of `decompress_lzss` on the source bytes `src 0`,
`src 1`, ... of a buffer of `srclen` bytes (the test `src < srcend` is the test that the
number of bytes read is below `srclen`); `none` is `break`. -/
def lzss_turn (src : Nat → Nat) (srclen : Nat) (st : lzss_state) : Option lzss_state :=
  let flags1 := st.flags >>> 1
  let rd : Option (Nat × Nat) :=
    if flags1 &&& 0x100 = 0 then
      if st.src < srclen then some ((src st.src % 256) ||| 0xFF00, st.src + 1) else none
    else some (flags1, st.src)
  match rd with
  | none => none
  | some (flags2, p) =>
    if flags2 &&& 1 ≠ 0 then
      if p < srclen then
        some (lzss_put { st with src := p + 1, flags := flags2 } (src p % 256))
      else none
    else
      if p < srclen then
        if p + 1 < srclen then
          let i := src p % 256
          let j := src (p + 1) % 256
          let i1 := i ||| ((j &&& 0xF0) <<< 4)
          let j1 := (j &&& 0x0F) + THRESHOLD
          some (lzss_copy i1 (j1 + 1) 0 { st with src := p + 2, flags := flags2 })
        else none
      else none

/-- The loop `for ( ; ; )` of `decompress_lzss`: the state at the `break`. The first
argument bounds the number of turns, `none` when it is exceeded. -/
def lzss_loop (src : Nat → Nat) (srclen : Nat) : Nat → lzss_state → Option lzss_state
  | 0, _ => none
  | fuel + 1, st =>
    match lzss_turn src srclen st with
    | none => some st
    | some st1 => lzss_loop src srclen fuel st1

/-- The state of `decompress_lzss` before the loop: the first `N - F` bytes of the ring
buffer are blanks, the other bytes are what the stack held (`stack`), `r = N - F` and
`flags = 0`. -/
def lzss_start (stack : Nat → Nat) : lzss_state :=
  { src := 0, flags := 0, r := N - F
    text_buf := fun a => if a < N - F then 32 else stack a % 256
    out := [] }

/-- The value of `dst - dststart` as an `int`, after `count` bytes were written. -/
def lzss_return (count : Nat) : Int :=
  if count % 4294967296 < 2147483648 then (count % 4294967296 : Nat)
  else ((count % 4294967296 : Nat) : Int) - 4294967296

/-- The function `decompress_lzss` on a source buffer of `srclen` bytes: the return value
and the bytes written at `dst`, `dst + 1`, ... in this order. The first argument bounds
the number of turns of the loop, `none` when it is exceeded. -/
def decompress_lzss (fuel : Nat) (stack : Nat → Nat) (src : Nat → Nat) (srclen : Nat) :
    Option (Int × List Nat) :=
  (lzss_loop src srclen fuel (lzss_start stack)).map
    (fun st => (lzss_return st.out.length, st.out))

/-! ## Notions used by the statements -/

/-- The sum of the `vmsize` fields of the segments of a list of load commands. -/
def segments_vmsize : List load_command → Nat
  | [] => 0
  | load_command.LC_SEGMENT cmd :: rest => cmd.vmsize + segments_vmsize rest
  | _ :: rest => segments_vmsize rest

/-- The program counter of the last `LC_UNIXTHREAD` of a list of load commands, `none`
when there is no such command. -/
def last_unixthread_pc : List load_command → Option Nat
  | [] => none
  | load_command.LC_UNIXTHREAD pc :: rest =>
    match last_unixthread_pc rest with
    | some p => some p
    | none => some pc
  | _ :: rest => last_unixthread_pc rest

/-- The image of a Mach-O command as `load_macho_from_command` hands it on: its address
(that of the payload, or of the decompressed copy) and the memory that holds it; `none`
when the command returns before. -/
def command_image (env : Env) (command : Nat) (s : machine) : Option (Nat × Mem) :=
  let flags := command_flags s.mem command
  match load_macho_setup env command flags s with
  | Sum.inl _ => none
  | Sum.inr s1 =>
    match load_macho_decompress env command flags (u32 (command + sizeof_command_macho_t))
        (sub32 (command_size s.mem command) sizeof_command_macho_t)
        (if flags &&& kMachDriver ≠ 0 then u32 (s1.g.gKernelMemoryTop + DRIVER_PAD_START)
         else s1.g.gKernelMemoryTop) s1.mem with
    | Sum.inl _ => none
    | Sum.inr (image_address, _, m1) => some (image_address, m1)

/-- The command at address `cmd` is a Mach-O command that carries the kernel flag. -/
def kernel_flagged (m : Mem) (cmd : Nat) : Bool :=
  decide (read32 m cmd = kCommandMachO) && decide (command_flags m cmd &&& kMachKernel ≠ 0)

/-- The address of the command that follows the `k` first commands of a table of
contents which starts at `cmd`. -/
def toc_cursor (env : Env) : Nat → Nat → machine → Nat
  | 0, cmd, _ => cmd
  | k + 1, cmd, s =>
    toc_cursor env k (u32 (cmd + command_size (toc_command env cmd s).2.mem cmd))
      (toc_command env cmd s).2

/-- The command at address `cmd`, if it is a kernel command, finds the DRAM on a page
boundary and has a load address on a page boundary. -/
def kernel_aligned (env : Env) (m : Mem) (cmd : Nat) : Bool :=
  !(kernel_flagged m cmd) ||
    (decide (env.dram_start % 0x1000 = 0) && decide (command_load_address m cmd % 0x1000 = 0))

/-- Every command that the loop of `parse_table_of_contents` runs is `kernel_aligned`. -/
def toc_aligned (env : Env) : Nat → Nat → machine → Bool
  | 0, _, _ => true
  | left_cmds + 1, cmd, s =>
    kernel_aligned env s.mem cmd &&
      (match toc_command env cmd s with
       | (0, s1) => toc_aligned env left_cmds (u32 (cmd + command_size s1.mem cmd)) s1
       | _ => true)

/-- Every command that the step runs from the state `s` is `kernel_aligned`. -/
def step_aligned (step : loader_step) (s : machine) : Bool :=
  match step with
  | loader_step.imgx env image_address =>
    if read32 s.mem image_address = kTableOfContentsMagic then
      toc_aligned env (read32 s.mem (image_address + 4)) (u32 (image_address + sizeof_command_t)) s
    else kernel_aligned env s.mem image_address
  | loader_step.rdx _ _ => true

/-- Every command that the steps run, one after the other from the state `s`, is
`kernel_aligned`. -/
def steps_aligned : List loader_step → machine → Bool
  | [], _ => true
  | step :: rest, s => step_aligned step s && steps_aligned rest (run_step step s)

/-! ## Notions used by the statements on load commands and relocation records -/

/-- The load command is `LC_DYLD_INFO` or `LC_DYLD_INFO_ONLY`. -/
def is_dyld_info : load_command → Bool
  | load_command.LC_DYLD_INFO => true
  | load_command.LC_DYLD_INFO_ONLY => true
  | _ => false

/-- The load command is an `LC_SEGMENT`. -/
def is_segment : load_command → Bool
  | load_command.LC_SEGMENT _ => true
  | _ => false

/-- The load command is an `LC_SYMTAB`. -/
def is_symtab : load_command → Bool
  | load_command.LC_SYMTAB _ => true
  | _ => false

/-- The load commands include `LC_DYLD_INFO` or `LC_DYLD_INFO_ONLY`. -/
def has_dyld_info (cmds : List load_command) : Bool := cmds.any is_dyld_info

/-- The number of `LC_SEGMENT` commands that stand before the first `LC_DYLD_INFO` or
`LC_DYLD_INFO_ONLY` command. -/
def segments_before_dyld_info : List load_command → Nat
  | [] => 0
  | lc :: rest =>
    if is_dyld_info lc then 0
    else (if is_segment lc then 1 else 0) + segments_before_dyld_info rest

/-- The number of `LC_SEGMENT` commands of the file. -/
def segment_count (cmds : List load_command) : Nat := cmds.countP is_segment

/-- The file has an `LC_SYMTAB` command. -/
def has_symtab_command (cmds : List load_command) : Bool := cmds.any is_symtab

/-- The sum of the `size` fields of the sections of the `LC_SEGMENT` commands. -/
def sections_size : List load_command → Nat
  | [] => 0
  | load_command.LC_SEGMENT cmd :: rest => (cmd.sects.map (fun sect => sect.size)).sum + sections_size rest
  | _ :: rest => sections_size rest

/-- The record is one that `_relocate_sect` refuses with `LOADER_BADRELOC` when its patch
address passes the bounds test: scattered, or not of length 2, or neither PC-relative nor
of type `GENERIC_RELOC_VANILLA`, or of type `GENERIC_RELOC_VANILLA` and external or with
`r_symbolnum = R_ABS`. -/
def refused_record (r : relocation_info) : Prop :=
  r.r_address &&& R_SCATTERED ≠ 0 ∨ r.r_length ≠ 2 ∨
    (r.r_pcrel = 0 ∧ r.r_type ≠ GENERIC_RELOC_VANILLA) ∨
    (r.r_type = GENERIC_RELOC_VANILLA ∧ (r.r_extern ≠ 0 ∨ r.r_symbolnum = R_ABS))

instance refused_record_decidable (r : relocation_info) : Decidable (refused_record r) :=
  inferInstanceAs (Decidable (r.r_address &&& R_SCATTERED ≠ 0 ∨ r.r_length ≠ 2 ∨
    (r.r_pcrel = 0 ∧ r.r_type ≠ GENERIC_RELOC_VANILLA) ∨
    (r.r_type = GENERIC_RELOC_VANILLA ∧ (r.r_extern ≠ 0 ∨ r.r_symbolnum = R_ABS))))

/-- The state in which the first part of `load_macho_from_command` leaves the machine,
whether it returns early or goes on. -/
def setup_state (r : (Nat × machine) ⊕ machine) : machine :=
  match r with
  | Sum.inl e => e.2
  | Sum.inr s => s

/-! ## Notions used by the statements on skipped records, the ramdisk and the table of contents -/

/-- The record is one that `_relocate_sect` skips with `continue`: not scattered, of
length 2, PC-relative and of a type other than `GENERIC_RELOC_VANILLA`. -/
def skipped_record (r : relocation_info) : Prop :=
  r.r_address &&& R_SCATTERED = 0 ∧ r.r_length = 2 ∧ r.r_pcrel ≠ 0 ∧
    r.r_type ≠ GENERIC_RELOC_VANILLA

instance skipped_record_decidable (r : relocation_info) : Decidable (skipped_record r) :=
  inferInstanceAs (Decidable (r.r_address &&& R_SCATTERED = 0 ∧ r.r_length = 2 ∧
    r.r_pcrel ≠ 0 ∧ r.r_type ≠ GENERIC_RELOC_VANILLA))

/-- The signature that `do_rdx` tests: the 16-bit word at byte offset 1024 of the ramdisk,
most significant byte first. -/
def rdx_signature (m : Mem) (addr : Nat) : Nat :=
  m (addr + 1024) % 256 * 256 + m (addr + 1025) % 256

/-- By the words of the spec (`the next command is at cmd + size`): the address of the
command that stands `i` commands after the one at `cmd`, each command located at the
address of the one before plus the `size` field of the one before, and the state of the
loader once the `i` commands before it have been processed from the state `s`. -/
def toc_walk (env : Env) (cmd : Nat) (s : machine) : Nat → Nat × machine
  | 0 => (cmd, s)
  | i + 1 =>
    ((u32 ((toc_walk env cmd s i).1 +
        command_size (toc_command env (toc_walk env cmd s i).1 (toc_walk env cmd s i).2).2.mem
          (toc_walk env cmd s i).1)),
      (toc_command env (toc_walk env cmd s i).1 (toc_walk env cmd s i).2).2)

/-- The return value of the command that stands `i` commands after the one at `cmd`,
processed after them. -/
def toc_ret (env : Env) (cmd : Nat) (s : machine) (i : Nat) : Nat :=
  (toc_command env (toc_walk env cmd s i).1 (toc_walk env cmd s i).2).1

/-! ## Notions used by the statements on the executable relocator -/

/-- The value of a character as a digit: `0` to `9` for the decimal digits, `10` to `35`
for the letters of either case, nothing for any other character. -/
def digit_of_char (c : Nat) : Option Nat :=
  if 48 ≤ c ∧ c ≤ 57 then some (c - 48)
  else if 65 ≤ c ∧ c ≤ 90 then some (c - 65 + 10)
  else if 97 ≤ c ∧ c ≤ 122 then some (c - 97 + 10)
  else none

/-- The values of the characters of the longest run of valid digits of base `base` at
the head of the text. -/
def valid_digits (base : Nat) : List Nat → List Nat
  | [] => []
  | c :: rest =>
    match digit_of_char c with
    | none => []
    | some d => if d < base then d :: valid_digits base rest else []

/-- The number that a list of digit values writes in base `base`, most significant
digit first. -/
def digits_value (base : Nat) (ds : List Nat) : Nat :=
  ds.foldl (fun acc d => acc * base + d) 0

/-- The value of `strtoul(s, NULL, 0)` in the words of the specification, on the
characters of the C string `s` (without the NUL): the white space of `isspace` is skipped,
then an optional sign; the digits are read in base 16 after `0x` or `0X`, in base 2 after
`0b` or `0B`, in base 8 after a leading `0` and in base 10 otherwise; a value above
`ULONG_MAX` gives `ULONG_MAX`, and a leading `-` negates the value modulo `2^32`. -/
def strtoul_base0_spec (l : List Nat) : Nat :=
  let l1 := l.dropWhile isspace
  let neg := decide (l1.head? = some 45)
  let l2 := if l1.head? = some 45 ∨ l1.head? = some 43 then l1.tail else l1
  let hex := l2.take 2 = [48, 120] ∨ l2.take 2 = [48, 88]
  let bin := l2.take 2 = [48, 98] ∨ l2.take 2 = [48, 66]
  let base := if hex then 16 else if bin then 2 else if l2.head? = some 48 then 8 else 10
  let l3 := if hex ∨ bin then l2.drop 2 else l2
  let v := digits_value base (valid_digits base l3)
  if v > ULONG_MAX then ULONG_MAX
  else if neg then (4294967296 - v) % 4294967296
  else v

/-- The update of the state of the digit loop of `strtoul` for one digit of value `d`. -/
def strtoul_digit_step (base : Nat) (st : strtoul_state) (d : Nat) : strtoul_state :=
  if st.any < 0 ∨ st.acc > ULONG_MAX / base ∨ (st.acc = ULONG_MAX / base ∧ d > ULONG_MAX % base) then
    { st with any := -1 }
  else { acc := st.acc * base + d, any := 1 }

/-! ## Notions used by the statement on data arrays -/

/-- The bytes that the specification gives for one element of a data array in a text
whose NUL is at index `n`: the characters of a string followed by one NUL, and for a
primitive the four bytes, least significant first, of the value that `strtoul` with
base 0 reads at the start of the token. -/
def data_array_element (raw : Nat → Nat) (n : Nat) (token : jsmntok_t) : List Nat :=
  if token.type = JSMN_STRING then
    (List.range (token.end_ - token.start).toNat).map (fun k => raw (token.start.toNat + k)) ++ [0]
  else le32 ((strtoul (n + 1) (fun k => raw (token.start.toNat + k)) 0).getD 0)

/-- The bytes of the elements of a data array, one after the other in element order. -/
def data_array_bytes (raw : Nat → Nat) (n : Nat) (elems : List jsmntok_t) : List Nat :=
  (elems.map (data_array_element raw n)).flatten

/-! ## Notions used by the statement on the Image-3 round trip -/

/-- The pointers that the calls of a run of `image3_reserve_tag` return, in call
order. -/
def image3_reserve_ptrs (ctx : img3_context_t) : List (Nat × Nat × Mem) → List (Option Nat)
  | [] => []
  | call :: rest =>
    (image3_reserve_tag ctx call.1 call.2.1 call.2.2).1 ::
      image3_reserve_ptrs (image3_reserve_tag ctx call.1 call.2.1 call.2.2).2 rest

/-! ## Notions used by the statement on the mapped range -/

/-- The segments of a list of load commands, in the order of the commands. -/
def segments_of : List load_command → List segment_command
  | [] => []
  | load_command.LC_SEGMENT cmd :: rest => cmd :: segments_of rest
  | _ :: rest => segments_of rest

/-- The segments are contiguous in virtual memory from the address `start`: the first
one has `vmaddr = start`, each next one starts where the one before ends, and every
segment has `filesize <= vmsize`. -/
def segments_contiguous : Nat → List segment_command → Prop
  | _, [] => True
  | start, cmd :: rest =>
    cmd.vmaddr = start ∧ cmd.filesize ≤ cmd.vmsize ∧
      segments_contiguous (start + cmd.vmsize) rest

instance segments_contiguous_decidable :
    (start : Nat) → (segs : List segment_command) → Decidable (segments_contiguous start segs)
  | _, [] => isTrue trivial
  | start, cmd :: rest =>
    have := segments_contiguous_decidable (start + cmd.vmsize) rest
    inferInstanceAs (Decidable (cmd.vmaddr = start ∧ cmd.filesize ≤ cmd.vmsize ∧
      segments_contiguous (start + cmd.vmsize) rest))

/-- The address `a`, as a 32-bit address, lies in the `n` bytes from `load_addr`. -/
def in_mapped_range (load_addr n a : Nat) : Prop := sub32 a load_addr < n

/-! ## Notions used by the statement on the device-tree flag -/

/-- The device-tree flag implies a loaded kernel: when `gHasDeviceTree` is set,
`gKernelMemoryRange` is not a null range, for the test `null` of a null range. -/
def tree_needs_kernel (null : memory_range_t → Bool) (g : loader_state) : Prop :=
  g.gHasDeviceTree = true → null g.gKernelMemoryRange = false

/-- One step of a session at the prompt: a step of the loader (the verbs `imgx` and
`rdx`) or a call of `mach_boot`, with what it takes from outside and the value of the
region `kernel_mem` before the call. -/
inductive session_step
  | load (step : loader_step)
  | boot (env : Env) (boot : BootEnv) (kernel_mem : memory_region_t)

/-- The state after one step of a session: for `mach_boot`, the state that a failed call
leaves, whether the builder still holds the tree or a failed call has finalized it
before; `none` when the session ends there: the call enters the kernel, or a `strlen`
inside `mach_boot` finds no NUL. -/
def run_session_step (step : session_step) (s : machine) : Option machine :=
  match step with
  | session_step.load st => some (run_step st s)
  | session_step.boot env boot kernel_mem =>
    match mach_boot env boot kernel_mem s with
    | none => none
    | some r => if r.ret = 0 then none else some r.state

/-- The state after the steps of a session, one after the other. -/
def run_session : List session_step → machine → Option machine
  | [], s => some s
  | step :: rest, s =>
    match run_session_step step s with
    | none => none
    | some s1 => run_session rest s1

/-- Every image of the session is loaded with `null` as the test `RANGE_IS_NULL`. -/
def session_null (null : memory_range_t → Bool) : List session_step → Prop
  | [] => True
  | session_step.load (loader_step.imgx env _) :: rest =>
    env.RANGE_IS_NULL = null ∧ session_null null rest
  | _ :: rest => session_null null rest

/-! ## The walk of `mach_file_map` over load commands that no write reaches

When no write of the mapping reaches the header or a load command, every read of the
walk gives what it gave before the call. The definitions of this section are the walk
over the load commands decoded once from the memory before the call; the theorems
`mach_file_map_kept` and `mach_file_map_kept_exec` show that `mach_file_map` is this walk
under `commands_kept`. They serve the proofs only. -/

/-- The `for_each_section` loop of the object branch over section headers decoded
once. -/
def decoded_map_sections (file : mach_loader_context_t) (load_addr : Nat) :
    List macho_section → Mem → Mem
  | [], m => m
  | sect :: rest, m =>
    decoded_map_sections file load_addr rest (_map_section file sect load_addr m)

/-- The executable branch past the `vm_bias` test on a segment command decoded once:
copy the file part of the segment, zero the rest. -/
def decoded_exec_segment (file : mach_loader_context_t) (cmd : segment_command)
    (load_addr : Nat) (m : Mem) : Mem :=
  let delta := sub32 cmd.vmsize cmd.filesize
  let actual_vmaddr := sub32 cmd.vmaddr file.vm_bias
  let m1 :=
    if cmd.filesize ≠ 0 then
      bcopy m (add_ptr2 file.file cmd.fileoff) (add_ptr2 load_addr actual_vmaddr) cmd.filesize
    else m
  if delta ≠ 0 ∧ cmd.vmsize > cmd.filesize then
    bzero m1 (add_ptr3 load_addr actual_vmaddr cmd.filesize) delta
  else m1

/-- One iteration of the `for_each_lc` loop on a load command decoded once. -/
def decoded_map_lc (load_addr : Nat) (lc : load_command) (s : map_state) :
    (loader_return_t × map_state) ⊕ map_state :=
  match lc with
  | load_command.LC_SEGMENT cmd =>
    if s.file.filetype = MH_EXECUTE then
      if s.file.vm_bias = 0 ∧ s.seg_count = 0 ∧ cmd.vmaddr ≠ 0 then
        Sum.inl (LOADER_EXEC_UNSUPPORTED, s)
      else
        let m1 := decoded_exec_segment s.file cmd load_addr s.mem
        let file1 :=
          if strncmp_eq cmd.segname kPrelinkInfoSegment 15 then
            if cmd.vmsize ≠ 0 then { s.file with is_prelinked := true } else s.file
          else s.file
        Sum.inr { file := file1, seg_count := s.seg_count + 1, mem := m1 }
    else if s.file.filetype = MH_OBJECT then
      if s.seg_count ≠ 0 then Sum.inl (LOADER_OBJECT_BADSEGMENT, s)
      else
        let file1 := { s.file with first_segment := cmd }
        Sum.inr { file := file1, seg_count := s.seg_count + 1,
                  mem := decoded_map_sections file1 load_addr cmd.sects s.mem }
    else Sum.inl (LOADER_BADFILETYPE, s)
  | load_command.LC_UNIXTHREAD pc =>
    Sum.inr { s with file := { s.file with entry_point := pc } }
  | load_command.LC_DYSYMTAB cmd =>
    Sum.inr { s with file := { s.file with dsymtab := some cmd } }
  | load_command.LC_DYLD_INFO =>
    Sum.inl (LOADER_EXEC_UNSUPPORTED, { s with file := { s.file with compressed := 1 } })
  | load_command.LC_DYLD_INFO_ONLY =>
    Sum.inl (LOADER_EXEC_UNSUPPORTED, { s with file := { s.file with compressed := 1 } })
  | load_command.LC_SYMTAB cmd =>
    Sum.inr { s with file := { s.file with symtab := some cmd,
                                           string_base := some cmd.strings,
                                           symbol_base := fun i => cmd.symbols.getD i zero_nlist } }
  | load_command.LC_OTHER _ => Sum.inr s

/-- The `for_each_lc` loop over load commands decoded once. -/
def decoded_map_loop (load_addr : Nat) :
    List load_command → map_state → (loader_return_t × map_state) ⊕ map_state
  | [], s => Sum.inr s
  | lc :: rest, s =>
    match decoded_map_lc load_addr lc s with
    | Sum.inl r => Sum.inl r
    | Sum.inr s1 => decoded_map_loop load_addr rest s1

/-- The mapping over the load commands `cmds` decoded once: the return code, the context
and the memory. -/
def decoded_map (cmds : List load_command) (file : mach_loader_context_t)
    (load_addr vmsize : Nat) (m : Mem) : loader_return_t × mach_loader_context_t × Mem :=
  match decoded_map_loop load_addr cmds { file := file, seg_count := 0, mem := m } with
  | Sum.inl (e, s) => (e, s.file, s.mem)
  | Sum.inr s => (LOADER_SUCCESS, { s.file with base := load_addr, vmsize := vmsize }, s.mem)

/-! ## Notions used by the statements on `mach_file_map` and `load_macho` -/

/-- The addresses that `_map_section` writes for a section: `sect->size` bytes at
`load_addr + sect->addr`. -/
def sect_writes (load_addr : Nat) (sect : macho_section) (a : Nat) : Prop :=
  add_ptr2 load_addr sect.addr ≤ a ∧ a < add_ptr2 load_addr sect.addr + sect.size

/-- The addresses that the mapping of the load commands `cmds` writes: for an executable
the `bcopy` and `bzero` targets of its segments, for an object file the targets of the
sections of its segments. -/
def map_writes (filetype vm_bias load_addr : Nat) (cmds : List load_command) (a : Nat) :
    Prop :=
  ∃ cmd, load_command.LC_SEGMENT cmd ∈ cmds ∧
    ((filetype = MH_EXECUTE ∧ seg_writes vm_bias load_addr cmd a) ∨
     (filetype = MH_OBJECT ∧ ∃ sect, sect ∈ cmd.sects ∧ sect_writes load_addr sect a))

/-- No write to the addresses of `W` reaches the header at `head` or one of its load
commands: in every memory that differs from `m` on addresses of `W` only, `head->ncmds`
and, at the address of each load command of the header, the command, its `cmdsize` and
its fields read as a segment command are those read in `m`. It holds when the bytes of
the header and of the load commands lie outside `W`. -/
def commands_kept (rd : macho_reader) (head : Nat) (m : Mem) (W : Nat → Prop) : Prop :=
  ∀ m1 : Mem, (∀ a, ¬ W a → m1 a = m a) →
    rd.ncmds m1 head = rd.ncmds m head ∧
    ∀ lcp, lcp ∈ lc_addrs rd m (u32 (rd.ncmds m head)) (rd.first_lc head) →
      rd.lc m1 lcp = rd.lc m lcp ∧ rd.cmdsize m1 lcp = rd.cmdsize m lcp ∧
        rd.seg m1 lcp = rd.seg m lcp

/-- By the words of the spec (`name[63] is forced to NUL if the producer did not`): the
memory once the name of the command at address `command` is terminated. -/
def name_terminated (m : Mem) (command : Nat) : Mem :=
  fun a => if a = command + 24 + 63 then (if m a % 256 ≠ 0 then 0 else m a) else m a

/-- By the words of the spec (`Decompress (if compressed) to an area past the ultimate
destination (using decomp_size * 4 as scratch headroom) and then invoke the Mach-O
loader`, the destination being `dram_start + slide`): the address of the image that a
kernel command hands to the Mach-O loader and the memory that holds it. The image is the
payload that follows the 88 bytes of the command, or the copy that the decompressor has
made of it `decomp_size * 4` bytes past the destination. -/
def kernel_image (env : Env) (command : Nat) (s : machine) : Nat × Mem :=
  let m0 := name_terminated s.mem command
  let payload := u32 (command + 88)
  let dest := u32 (env.dram_start + (command_load_address s.mem command &&& 0xfffff))
  let scratch := u32 (dest + u32 (command_decomp_size s.mem command * 4))
  if command_flags s.mem command &&& 0x100 ≠ 0 then
    (scratch, env.decompress_lzss m0 scratch payload (sub32 (command_size s.mem command) 88))
  else if command_flags s.mem command &&& 0x400 ≠ 0 then
    (scratch, env.qlz_decompress m0 payload scratch)
  else (payload, m0)

/-- The state `s1` of the walk of `mach_file_map` and the state `s2` of the walk over
decoded commands agree: same context, of file type `ft` and bias `vb`, same segment
count, the memory of `s1` is `m` outside `W`, and for an executable the two memories are
equal. -/
def map_related (m : Mem) (W : Nat → Prop) (ft vb : Nat) (s1 s2 : map_state) : Prop :=
  s1.file = s2.file ∧ s1.seg_count = s2.seg_count ∧ s1.file.filetype = ft ∧
    s1.file.vm_bias = vb ∧ (∀ a, ¬ W a → s1.mem a = m a) ∧
    (ft = MH_EXECUTE → s1.mem = s2.mem)

/-- The results of the two walks agree: both return early with the same code, or both go
on, in states that agree. -/
def map_results_related (m : Mem) (W : Nat → Prop) (ft vb : Nat) :
    (loader_return_t × map_state) ⊕ map_state → (loader_return_t × map_state) ⊕ map_state → Prop
  | Sum.inl r1, Sum.inl r2 => r1.1 = r2.1 ∧ map_related m W ft vb r1.2 r2.2
  | Sum.inr s1, Sum.inr s2 => map_related m W ft vb s1 s2
  | _, _ => False
/-! ## Concrete inputs -/

/-- Modelled from the spec: the size of a load command in a 32-bit Mach-O file of the
format that the absent `bootkit/mach-o/macho.h` declares: 56 bytes and 68 per section for
a segment, 24 for a symbol table, 84 for an ARM thread command, 80 for a dynamic symbol
table, 48 for the `dyld` information, 8 for a command of two words. Used to place the
load commands of the concrete images. -/
def cmdsize_of : load_command → Nat
  | load_command.LC_SEGMENT cmd => 56 + 68 * cmd.sects.length
  | load_command.LC_SYMTAB _ => 24
  | load_command.LC_UNIXTHREAD _ => 84
  | load_command.LC_DYSYMTAB _ => 80
  | load_command.LC_DYLD_INFO => 48
  | load_command.LC_DYLD_INFO_ONLY => 48
  | load_command.LC_OTHER _ => 8

/-- The load command found at address `p` when the commands of a list stand one after
the other from the address `q` on. -/
def lc_lookup : List load_command → Nat → Nat → Option load_command
  | [], _, _ => none
  | c :: rest, q, p => if p = q then some c else lc_lookup rest (q + cmdsize_of c) p

/-- The reads of a run that never writes to the image: the header `h` stands at address
`a`, its load commands one after the other from `a + 28` on, and no other address holds
a header or a load command. The reads do not look at the memory, so that they are the
same before and after any write outside the image. -/
def image_reader (a : Nat) (h : mach_header_t) : macho_reader :=
  { magic := fun _ x => if x = a then h.magic else 0
    filetype := fun _ x => if x = a then h.filetype else 0
    ncmds := fun _ x => if x = a then h.cmds.length else 0
    first_lc := fun x => x + 28
    cmdsize := fun _ p =>
      match lc_lookup h.cmds (a + 28) p with
      | some c => cmdsize_of c
      | none => 0
    lc := fun _ p => (lc_lookup h.cmds (a + 28) p).getD (load_command.LC_OTHER 0)
    seg := fun _ p =>
      match lc_lookup h.cmds (a + 28) p with
      | some (load_command.LC_SEGMENT cmd) => cmd
      | _ => empty_segment }

/-- The reads of the image of a context: the header `file.head` at address `file.file`,
never written to. -/
def file_reader (file : mach_loader_context_t) : macho_reader :=
  image_reader file.file file.head

/-- Input of the C1 counterexample: an executable whose two one-byte segments are both
mapped at offset 0. -/
def c1_file : mach_loader_context_t :=
  { file := 100
    head := { magic := MH_MAGIC, filetype := MH_EXECUTE,
              cmds := [load_command.LC_SEGMENT
                         { segname := [], vmaddr := 0, vmsize := 1, fileoff := 0, filesize := 1,
                           sects := [] },
                       load_command.LC_SEGMENT
                         { segname := [], vmaddr := 0, vmsize := 1, fileoff := 1, filesize := 1,
                           sects := [] }] }
    base := 0, vmsize := 0, filetype := MH_EXECUTE, vm_bias := 0, loader_bias := 0
    symtab := none, dsymtab := none, string_base := none, symbol_base := fun _ => zero_nlist
    entry_point := 0, compressed := 0, is_prelinked := false, first_segment := empty_segment }

/-- Memory of the C1 counterexample: the file bytes 1 and 2 at addresses 100 and 101. -/
def c1_mem : Mem := fun a => if a = 100 then 1 else if a = 101 then 2 else 0


/-- The context of an object file with the given sections, mapped at `base`. -/
def object_context (base vmsize loader_bias : Nat) (sects : List macho_section) :
    mach_loader_context_t :=
  { file := 0
    head := { magic := MH_MAGIC, filetype := MH_OBJECT, cmds := [] }
    base := base, vmsize := vmsize, filetype := MH_OBJECT, vm_bias := 0
    loader_bias := loader_bias
    symtab := none, dsymtab := none, string_base := none, symbol_base := fun _ => zero_nlist
    entry_point := 0, compressed := 0, is_prelinked := false
    first_segment := { empty_segment with sects := sects } }

/-- A plain 32-bit local relocation record at `r_address`, against section 1. -/
def vanilla_reloc (r_address : Nat) : relocation_info :=
  { r_address := r_address, r_symbolnum := 1, r_pcrel := 0, r_length := 2, r_extern := 0,
    r_type := GENERIC_RELOC_VANILLA }

/-- A section at `addr` with the given relocation records. -/
def reloc_section (addr size : Nat) (relocs : List relocation_info) : macho_section :=
  { sectname := [], addr := addr, size := size, offset := 0, reloff := 0, relocs := relocs,
    flags := 0 }

/-- A memory that holds the word `0x1000` at address `0x2000` and zero elsewhere. -/
def s3_mem : Mem := write32 (fun _ => 0) 0x2000 0x1000

/-- Failing input of C3, object path: an object of size 4 mapped at `0x2000`, whose record
addresses the word at `0x2004`, the first byte past the mapped region. -/
def c3_object : mach_loader_context_t :=
  object_context 0x2000 4 0x00010000 [reloc_section 0 4 [vanilla_reloc 4]]

/-- Failing input of C3, executable path: an executable of size 4 mapped at `0x2000`,
whose local relocation record addresses the word at `0x2004`. -/
def c3_executable : mach_loader_context_t :=
  { c1_file with
    base := 0x2000, vmsize := 4, loader_bias := 0x00010000
    dsymtab := some { iextdefsym := 0, nextdefsym := 0, tocoff := 0, locreloff := 0,
                      locrel := [vanilla_reloc 4] } }

/-- Witness input of C1: an executable at address 100 with two segments mapped apart
from each other, at offsets 0 and 8, followed by a thread command. -/
def c1w_file : mach_loader_context_t :=
  { c1_file with
    head := { magic := MH_MAGIC, filetype := MH_EXECUTE,
              cmds := [load_command.LC_SEGMENT
                         { segname := [], vmaddr := 0, vmsize := 4, fileoff := 1, filesize := 1,
                           sects := [] },
                       load_command.LC_SEGMENT
                         { segname := [], vmaddr := 8, vmsize := 4, fileoff := 0, filesize := 2,
                           sects := [] },
                       load_command.LC_UNIXTHREAD 0] } }

/-- The string pool of scenario S5: `_a`, `_m`, `_z`, each followed by a NUL. -/
def s5_pool : List Nat := [95, 97, 0, 95, 109, 0, 95, 122, 0]

/-- The symbols of scenario S5: the three names in order, with values `0x100`, `0x200`
and `0x300`. -/
def s5_symbols : Nat → nlist := fun i =>
  [({ n_strx := 0, n_type := 0, n_sect := 0, n_desc := 0, n_value := 0x100 } : nlist),
   { n_strx := 3, n_type := 0, n_sect := 0, n_desc := 0, n_value := 0x200 },
   { n_strx := 6, n_type := 0, n_sect := 0, n_desc := 0, n_value := 0x300 }].getD i zero_nlist

/-- The context of scenario S5: an executable whose three symbols are its external
definitions, with `loader_bias = 0x1000`. -/
def s5_file : mach_loader_context_t :=
  { c1_file with
    loader_bias := 0x1000
    symtab := some { symoff := 0, stroff := 0, symbols := [], strings := s5_pool }
    string_base := some s5_pool
    symbol_base := s5_symbols
    dsymtab := some { iextdefsym := 0, nextdefsym := 3, tocoff := 0, locreloff := 0,
                      locrel := [] } }

/-- A memory that holds the 32-bit words of a list, least significant byte first, from
the address `base` on, and the memory `rest` elsewhere. -/
def words_mem (base : Nat) (words : List Nat) (rest : Mem) : Mem :=
  fun a =>
    if base ≤ a ∧ a < base + 4 * words.length then
      words.getD ((a - base) / 4) 0 / 256 ^ ((a - base) % 4) % 256
    else rest a

/-- The Mach-O image of scenario S1: one segment `__TEXT` (`vmaddr = 0x80001000`,
`vmsize = 0x1000`, `filesize = 0x200`) and an `LC_UNIXTHREAD` with `PC = 0x80001040`. -/
def s1_header : mach_header_t :=
  { magic := MH_MAGIC, filetype := MH_EXECUTE
    cmds := [load_command.LC_SEGMENT
               { segname := [95, 95, 84, 69, 88, 84], vmaddr := 0x80001000, vmsize := 0x1000,
                 fileoff := 0, filesize := 0x200, sects := [] },
             load_command.LC_UNIXTHREAD 0x80001040] }

/-- The words of a Mach-O command without its payload: magic, size, `decomp_size`,
`info_offset`, `load_address`, `flags` and the 64 bytes of the name, of which the two
first words are given. -/
def macho_command_words (size info_offset load_address flags name0 name1 : Nat) : List Nat :=
  [kCommandMachO, size, 0, info_offset, load_address, flags, name0, name1,
   0, 0, 0, 0, 0, 0, 0, 0, 0, 0, 0, 0, 0, 0]

/-- The memory of the scenarios S1 and S2. At `0x10000000` a table of contents with one
command, the kernel command of S1 (flags `0x002`, load address `0x80001000`, a payload
of `0x200` bytes, name `kernel`). At `0x11000000` the command of S2 as the spec gives it
(flags `0x202`, name `Foo.kext`, `info_offset = 0x400`, a payload of `0x600` bytes). At
`0x12000000` the same command with flags `0x201`. At `0x20003400` the signature `H+` of
an HFS Plus volume. Every other byte is `0xAA`. -/
def s1_mem : Mem :=
  words_mem 0x10000000
    ([kTableOfContentsMagic, 1] ++
      macho_command_words (88 + 0x200) 0 0x80001000 0x002 0x6e72656b 0x00006c65)
    (words_mem 0x11000000 (macho_command_words (88 + 0x600) 0x400 0 0x202 0x2e6f6f46 0x7478656b)
      (words_mem 0x12000000 (macho_command_words (88 + 0x600) 0x400 0 0x201 0x2e6f6f46 0x7478656b)
        (words_mem 0x20003400 [0x2b48] (fun _ => 0xAA))))

/-- The board and the collaborators of the scenarios: DRAM at `0x20000000`, the image of
S1 decoded at the address of its payload, no Mach-O header anywhere else. -/
def s1_env : Env :=
  { dram_start := 0x20000000
    CONFIG_NR_DRAM_BANKS := 1
    RANGE_IS_NULL := fun r => r.base == 0 && r.size == 0
    reader := image_reader 0x10000060 s1_header
    stack_context := c1_file
    decompress_lzss := fun m _ _ _ => m
    qlz_size_decompressed := fun _ _ => 0
    qlz_decompress := fun m _ _ => m
    qlz_state_malloc := true
    parse_xml_device_tree := fun _ _ => (false, none)
    parse_jsdt_device_tree := jsdt_front_end }

/-- The machine at start-up over the memory of the scenarios. -/
def s1_start : machine := { g := initial_loader_state, mem := s1_mem, dt := none }

/-- The machine after scenario S1: the table of contents at `0x10000000` has been handed
to `load_general_image`. -/
def s1_done : machine := (load_general_image s1_env 0x10000000 s1_start).2

/-- The memory of the C8 counterexample: at `0x13000000` a kernel command whose load
address `0x80000800` is not on a page boundary. -/
def c8_mem : Mem :=
  words_mem 0x13000000 (macho_command_words 88 0 0x80000800 0x002 0 0) (fun _ => 0)

/-- The text of scenario S4, as bytes:
`{ "compatible": "foo", "#size": 4, "@": [ { "name": "bar" } ] }`,
followed by NUL bytes. The children key is the quoted string `"@"`. -/
def s4_text : Nat → Nat := fun i =>
  [123, 32, 34, 99, 111, 109, 112, 97, 116, 105, 98, 108, 101, 34, 58, 32, 34, 102, 111, 111,
   34, 44, 32, 34, 35, 115, 105, 122, 101, 34, 58, 32, 52, 44, 32, 34, 64, 34, 58, 32, 91, 32,
   123, 32, 34, 110, 97, 109, 101, 34, 58, 32, 34, 98, 97, 114, 34, 32, 125, 32, 93, 32, 125].getD i 0

/-- The text of scenario S4 with the children key written as the bare character `@`:
`{ "compatible": "foo", "#size": 4, @: [ { "name": "bar" } ] }`,
followed by NUL bytes. -/
def s4_text_bare : Nat → Nat := fun i =>
  [123, 32, 34, 99, 111, 109, 112, 97, 116, 105, 98, 108, 101, 34, 58, 32, 34, 102, 111, 111,
   34, 44, 32, 34, 35, 115, 105, 122, 101, 34, 58, 32, 52, 44, 32, 64, 58, 32, 91, 32, 123, 32,
   34, 110, 97, 109, 101, 34, 58, 32, 34, 98, 97, 114, 34, 32, 125, 32, 93, 32, 125].getD i 0

/-- The sum of the sizes `data_length + 12` that a run of `image3_reserve_tag` calls
asks for. -/
def calls_total (calls : List (Nat × Nat × Mem)) : Nat :=
  (calls.map (fun call => call.2.1 + sizeof_img3_tag_t)).sum

/-- A heap that holds only zero bytes. -/
def zero_heap : Mem := fun _ => 0

/-- A heap that holds only the byte `0x41`. -/
def letter_heap : Mem := fun _ => 0x41

/-- The container that `image3_new(0x6b726e6c)` returns when the heap holds zero bytes. -/
def img3_empty : img3_context_t :=
  (image3_new 0x6b726e6c (some zero_heap) true).getD { dynamic := false, head := zero_heap }

/-- The container that `image3_new(0x6b726e6c)` returns when the heap holds the byte
`0x41` everywhere. -/
def img3_empty_letters : img3_context_t :=
  (image3_new 0x6b726e6c (some letter_heap) true).getD { dynamic := false, head := zero_heap }

/-- The container `img3_empty` after `image3_reserve_tag(ctx, 0x54595045, 4)`: one tag
at offset 20, `full_size = 36`. -/
def img3_one_tag : img3_context_t :=
  (image3_reserve_tag img3_empty 0x54595045 4 zero_heap).2

/-- Input of the C17 counterexample: an object file with two segments followed by an
`LC_DYLD_INFO` command. -/
def c17_file : mach_loader_context_t :=
  { object_context 0 0 0 [] with
    head := { magic := MH_MAGIC, filetype := MH_OBJECT,
              cmds := [load_command.LC_SEGMENT empty_segment,
                       load_command.LC_SEGMENT empty_segment,
                       load_command.LC_DYLD_INFO] } }

/-- Witness input of C17: an executable with one segment followed by an
`LC_DYLD_INFO_ONLY` command. -/
def c17w_file : mach_loader_context_t :=
  { c1_file with
    head := { magic := MH_MAGIC, filetype := MH_EXECUTE,
              cmds := [load_command.LC_SEGMENT empty_segment,
                       load_command.LC_DYLD_INFO_ONLY] } }

/-- An empty symbol table command. -/
def empty_symtab : symtab_command := { symoff := 0, stroff := 0, symbols := [], strings := [] }

/-- Input of the C18 counterexample: an object file with an `LC_SYMTAB` and no segment. -/
def c18_no_segment : mach_loader_context_t :=
  { object_context 0 0 0 [] with
    head := { magic := MH_MAGIC, filetype := MH_OBJECT,
              cmds := [load_command.LC_SYMTAB empty_symtab] } }

/-- Input of the C18 counterexample: an object file with two segments and no
`LC_SYMTAB`. -/
def c18_two_segments : mach_loader_context_t :=
  { object_context 0 0 0 [] with
    head := { magic := MH_MAGIC, filetype := MH_OBJECT,
              cmds := [load_command.LC_SEGMENT empty_segment,
                       load_command.LC_SEGMENT empty_segment] } }

/-- Witness input of C18: an object file with one segment of two sections, of sizes 16
and 4, and an `LC_SYMTAB`. -/
def c18w_file : mach_loader_context_t :=
  { object_context 0 0 0 [] with
    head := { magic := MH_MAGIC, filetype := MH_OBJECT,
              cmds := [load_command.LC_SEGMENT
                         { empty_segment with
                           sects := [reloc_section 0 16 [], reloc_section 16 4 []] },
                       load_command.LC_SYMTAB empty_symtab] } }

/-- The machine after scenario S1 and the driver command at `0x12000000`. -/
def c15_state : machine := (load_general_image s1_env 0x12000000 s1_done).2

/-- The memory `m` with, at `0x14000000`, a JSDT command that holds the text of S4 with
the bare children key. -/
def c14_mem (m : Mem) : Mem :=
  words_mem 0x14000000 [kCommandJSDeviceTree, 8 + 0x100]
    (fun a => if 0x14000008 ≤ a ∧ a < 0x14000108 then s4_text_bare (a - 0x14000008) else m a)

/-- The machine after scenario S1, the driver command at `0x12000000` and the JSDT
command at `0x14000000`: a kernel, one driver and a device tree are loaded. -/
def c14_state : machine :=
  (load_general_image s1_env 0x14000000 { c15_state with mem := c14_mem c15_state.mem }).2

/-- A run of `mach_boot` in which every `malloc` succeeds, the flat tree has 64 bytes,
the stack holds the words `0xfffffff0` and `0x10` where `map_add_info` has its local
`iBoot_range`, and a builder without tree gives the root of a fresh tree. -/
def c14_boot : BootEnv :=
  { iBoot_range := { base := 0xfffffff0, size := 0x10 }
    malloc_ok := fun _ => true
    DT__FlattenLength := fun _ => 64
    DT__FlattenDeviceTree := fun _ _ => (List.replicate 64 0, 64)
    root_after_finalize := DT__RootNode }

/-- The region `kernel_mem` before the first call of `mach_boot`: a static variable,
zero at start-up. -/
def kernel_mem_start : memory_region_t := { base := 0, pos := 0, down := false }

/-- Failing input of C22: an executable of 16 bytes mapped at `0x2000` whose local
relocation table holds one external record on the word at `0x2000`. -/
def c22_file : mach_loader_context_t :=
  { c1_file with
    base := 0x2000, vmsize := 16, loader_bias := 0x00010000
    dsymtab := some { iextdefsym := 0, nextdefsym := 0, tocoff := 0, locreloff := 0,
                      locrel := [{ vanilla_reloc 0 with r_extern := 1 }] } }

/-- The same external record in the only section of the object of S3. -/
def c22_object : mach_loader_context_t :=
  object_context 0x2000 16 0x00010000
    [reloc_section 0 16 [{ vanilla_reloc 0 with r_extern := 1 }]]

/-- The driver that the command at `0x12000000` records after scenario S1: the range
`{0x20002000, 0x700}`, `info_offset = 0x400`, an executable, the name `Foo.kext`. -/
def c28w_image : loaded_driver_image_t :=
  { range := { base := 0x20002000, size := 0x700 }, info_offset := 0x400, has_exec := true
    name := [70, 111, 111, 46, 107, 101, 120, 116] ++ List.replicate 56 0 }

/-- The memory after scenario S1 with, at `0x15000000`, a Mach-O command with the flags
`0x001` (a driver with an executable and without `Info.plist`), the name `Foo.kext` and
an image of `0x600` bytes. -/
def c28_mem : Mem :=
  words_mem 0x15000000 (macho_command_words (88 + 0x600) 0 0 0x001 0x2e6f6f46 0x7478656b)
    s1_done.mem

/-- The machine after scenario S1 and the command at `0x15000000`. -/
def c28_state : machine :=
  (load_general_image s1_env 0x15000000 { s1_done with mem := c28_mem }).2

/-- The machine of `c14_state` after `do_rdx` on a ramdisk of `0x2000` bytes loaded at
`gKernelMemoryTop = 0x20003000`. -/
def c27_state : machine := (do_rdx 0x20003000 0x2000 c14_state).2

/-- A run of `mach_boot` like `c14_boot`, the stack holding the words `0x12345678` and
`0x9abc` where `map_add_info` has its local `iBoot_range`. -/
def c27_boot : BootEnv :=
  { c14_boot with iBoot_range := { base := 0x12345678, size := 0x9abc } }

/-- The text `{"a": ["xy", 0x10, 7]}`. -/
def c31_text : Nat → Nat := fun i =>
  [123, 34, 97, 34, 58, 32, 91, 34, 120, 121, 34, 44, 32, 48, 120, 49, 48, 44, 32, 55, 93,
    125].getD i 0

/-- The tokens of `c31_text`: the object, the key `a`, the array of three elements, the
string `xy` and the primitives `0x10` and `7`. -/
def c31_tokens : jsmn_tokens :=
  [{ type := JSMN_OBJECT, start := 0, end_ := 22, size := 2 },
   { type := JSMN_STRING, start := 2, end_ := 3, size := 0 },
   { type := JSMN_ARRAY, start := 6, end_ := 21, size := 3 },
   { type := JSMN_STRING, start := 8, end_ := 10, size := 0 },
   { type := JSMN_PRIMITIVE, start := 13, end_ := 17, size := 0 },
   { type := JSMN_PRIMITIVE, start := 19, end_ := 20, size := 0 }]

/-- The text `{"a": ["xy", {}, 7]}`, whose array holds an object. -/
def c31_bad_text : Nat → Nat := fun i =>
  [123, 34, 97, 34, 58, 32, 91, 34, 120, 121, 34, 44, 32, 123, 125, 44, 32, 55, 93,
    125].getD i 0

/-- Input of the C33 counterexample: the container `img3_empty` after
`image3_reserve_tag(0x54595045, 0xfffffff0)` in a heap of zero bytes and
`image3_reserve_tag(0x44415441, 4)` in a heap of bytes `0x41`. -/
def c33_calls : List (Nat × Nat × Mem) :=
  [(0x54595045, 0xfffffff0, zero_heap), (0x44415441, 4, letter_heap)]

/-- Witness input of C33: three calls with the types `TYPE`, `DATA` and `KBAG` and the
data lengths 4, 8 and 0. -/
def c33w_calls : List (Nat × Nat × Mem) :=
  [(0x54595045, 4, zero_heap), (0x44415441, 8, letter_heap), (0x4b424147, 0, zero_heap)]

/-- Input of the C36 counterexample: an executable with `vm_bias = 0` whose two segments
of `0x80000000` bytes each are contiguous from address 0 and hold one byte of file data
each. -/
def c36_file : mach_loader_context_t :=
  { c1_file with
    head := { magic := MH_MAGIC, filetype := MH_EXECUTE,
              cmds := [load_command.LC_SEGMENT
                         { segname := [], vmaddr := 0, vmsize := 0x80000000, fileoff := 0,
                           filesize := 1, sects := [] },
                       load_command.LC_SEGMENT
                         { segname := [], vmaddr := 0x80000000, vmsize := 0x80000000,
                           fileoff := 1, filesize := 1, sects := [] }] } }

/-- Witness input of C36: an executable with `vm_bias = 0x1000` whose two segments of 4
bytes each are contiguous from `0x1000`, the first with 2 bytes of file data and the
second with 4, followed by a thread command. -/
def c36w_file : mach_loader_context_t :=
  { c1_file with
    vm_bias := 0x1000
    head := { magic := MH_MAGIC, filetype := MH_EXECUTE,
              cmds := [load_command.LC_SEGMENT
                         { segname := [], vmaddr := 0x1000, vmsize := 4, fileoff := 0,
                           filesize := 2, sects := [] },
                       load_command.LC_SEGMENT
                         { segname := [], vmaddr := 0x1004, vmsize := 4, fileoff := 2,
                           filesize := 4, sects := [] },
                       load_command.LC_UNIXTHREAD 0x1000] } }

/-- A memory that holds the byte `0xaa` everywhere. -/
def c36_mem : Mem := fun _ => 0xaa

/-- Failing input of C34: the text `{ /*/ 'b': 2, */ 'a': 1 }`, whose block comment runs
from index 2 to index 15. -/
def c34_text : Nat → Nat := fun i =>
  [123, 32, 47, 42, 47, 32, 39, 98, 39, 58, 32, 50, 44, 32, 42, 47, 32, 39, 97, 39, 58, 32,
    49, 32, 125].getD i 0

/-- The text `c34_text` with every character of its block comment (indices 2 to 15)
replaced by a space. -/
def c34_blank : Nat → Nat := fun i => if 2 ≤ i ∧ i < 16 then 32 else c34_text i

/-- The text `{ /* b */ 'a': 1 }`, whose block comment runs from index 2 to index 8. -/
def c34_plain : Nat → Nat := fun i =>
  [123, 32, 47, 42, 32, 98, 32, 42, 47, 32, 39, 97, 39, 58, 32, 49, 32, 125].getD i 0

/-- The text `c34_plain` with every character of its block comment replaced by a
space. -/
def c34_plain_blank : Nat → Nat := fun i => if 2 ≤ i ∧ i < 9 then 32 else c34_plain i

/-- Failing input of C37: the empty text. -/
def c37_empty : Nat → Nat := fun _ => 0

/-- Failing input of C37: the text `{'a'}`, an object that holds a key without value. -/
def c37_text : Nat → Nat := fun i => [123, 39, 97, 39, 125].getD i 0

/-- The tokens of `c37_text`: the object, of size 1, and the string `a`. -/
def c37_tokens : jsmn_tokens :=
  [{ type := JSMN_OBJECT, start := 0, end_ := 5, size := 1 },
   { type := JSMN_STRING, start := 2, end_ := 3, size := 0 }]

/-- The memory of scenario S1 with, at `0x14000000`, the JSDT command of `c14_mem`. -/
def c38_mem : Mem := c14_mem s1_mem

/-- A run of `mach_boot` in which every `malloc` of `allocate_memory_range` fails. -/
def c38_boot : BootEnv := { c14_boot with malloc_ok := fun _ => false }

/-- Witness session of C38: the table of contents of S1, the driver command at
`0x12000000`, the JSDT command at `0x14000000`, a call of `mach_boot` that fails, a call
of `do_rdx` that fails, and two more calls of `mach_boot` that fail, on the tree that the
first one has finalized. -/
def c38_steps : List session_step :=
  [session_step.load (loader_step.imgx s1_env 0x10000000),
   session_step.load (loader_step.imgx s1_env 0x12000000),
   session_step.load (loader_step.imgx s1_env 0x14000000),
   session_step.boot s1_env c38_boot kernel_mem_start,
   session_step.load (loader_step.rdx 0 0),
   session_step.boot s1_env c38_boot kernel_mem_start,
   session_step.boot s1_env c38_boot kernel_mem_start]

/-- Input of the C40 counterexample: a source of period 17, a flag byte `0x00` followed
by eight pairs `0xFF 0xFF`, each of which encodes a match of 18 bytes. -/
def c40_src : Nat → Nat := fun p => if p % 17 = 0 then 0 else 0xFF

/-- Witness input of C40: the flag byte `0xFF` and the eight literals `A` to `H`, then
the flag byte `0x00` and two matches of 3 and 4 bytes at offset `0xFEE`. -/
def c40w_src : Nat → Nat := fun p =>
  [0xFF, 65, 66, 67, 68, 69, 70, 71, 72, 0x00, 0xEE, 0xF0, 0xEE, 0xF1].getD p 0
/-- The memory of the C9 witness: the memory `m` with, at `0x15000000`, a table of
contents of two commands, a JSDT command without text and a command of magic zero. -/
def c9_mem (m : Mem) : Mem :=
  words_mem 0x15000000 [kTableOfContentsMagic, 2, kCommandJSDeviceTree, 8, 0, 8] m

/-- The machine of the C9 witness: a kernel, one driver and a device tree are loaded
(`c14_state`), and the memory holds the table of contents of `c9_mem`. -/
def c9_state : machine := { c14_state with mem := c9_mem c14_state.mem }

/-- The memory of the C6 counterexample: the memory of the scenarios with, at
`0x16000000`, a Mach-O command that carries both the kernel and the driver flag
(flags `0x003`, load address `0x80001000`, name `Foo.kext`, a payload of `0x600`
bytes). -/
def c6_mem : Mem :=
  words_mem 0x16000000 (macho_command_words (88 + 0x600) 0x400 0x80001000 0x003 0x2e6f6f46 0x7478656b)
    s1_mem

/-- The machine at start-up over the memory of the C6 counterexample. -/
def c6_state : machine := { g := initial_loader_state, mem := c6_mem, dt := none }

/-- The reads of the image `h` at address `a` as `image_reader` gives them, except for
`head->ncmds`, which is read from the memory: its least significant byte stands at
`a + 16`, after the four words `magic`, `cputype`, `cpusubtype` and `filetype` of the
header, and its other bytes are zero. -/
def ncmds_reader (a : Nat) (h : mach_header_t) : macho_reader :=
  { image_reader a h with ncmds := fun m x => if x = a then m (a + 16) % 256 else 0 }

/-- Input of the C17 counterexample: an executable at address `0x3000` with one segment
of one byte, read at offset `0x100` of the file and mapped at offset 0, followed by an
`LC_DYLD_INFO` command. -/
def c17o_file : mach_loader_context_t :=
  { c1_file with
    file := 0x3000
    head := { magic := MH_MAGIC, filetype := MH_EXECUTE,
              cmds := [load_command.LC_SEGMENT
                         { segname := [], vmaddr := 0, vmsize := 1, fileoff := 0x100,
                           filesize := 1, sects := [] },
                       load_command.LC_DYLD_INFO] } }

/-- Memory of the C17 counterexample: the byte 2 at `0x3010`, where the header at
`0x3000` has the least significant byte of `ncmds`, and the byte 1 at `0x3100`, the file
byte of the segment. -/
def c17o_mem : Mem := fun a => if a = 0x3010 then 2 else if a = 0x3100 then 1 else 0
/-! # Theorems -/

/-! ## Memory lemmas -/

theorem u32_lt (x : Nat) : u32 x < 4294967296 := Nat.mod_lt _ (by norm_num)

theorem u32_of_lt {x : Nat} (h : x < 4294967296) : u32 x = x := Nat.mod_eq_of_lt h

theorem bcopy_inside (m : Mem) (src dst n i : Nat) (h : i < n) :
    bcopy m src dst n (dst + i) = m (src + i) := by
  unfold bcopy
  have h1 : dst ≤ dst + i ∧ dst + i < dst + n := ⟨by omega, by omega⟩
  rw [if_pos h1]
  congr 1
  omega

theorem bcopy_outside (m : Mem) (src dst n a : Nat) (h : ¬ (dst ≤ a ∧ a < dst + n)) :
    bcopy m src dst n a = m a := by
  unfold bcopy
  rw [if_neg h]

theorem bzero_inside (m : Mem) (dst n a : Nat) (h : dst ≤ a ∧ a < dst + n) :
    bzero m dst n a = 0 := by
  unfold bzero
  rw [if_pos h]

theorem bzero_outside (m : Mem) (dst n a : Nat) (h : ¬ (dst ≤ a ∧ a < dst + n)) :
    bzero m dst n a = m a := by
  unfold bzero
  rw [if_neg h]

/-! ## The walk of `mach_file_map` over decoded load commands -/

theorem decoded_exec_segment_frame (file : mach_loader_context_t) (cmd : segment_command)
    (load_addr : Nat) (m : Mem) (a : Nat)
    (h : ¬ seg_writes file.vm_bias load_addr cmd a) :
    decoded_exec_segment file cmd load_addr m a = m a := by
  unfold seg_writes seg_dst at h
  unfold decoded_exec_segment
  push_neg at h
  obtain ⟨h1, h2⟩ := h
  have hcopy : ∀ m0 : Mem,
      (if cmd.filesize ≠ 0 then
        bcopy m0 (add_ptr2 file.file cmd.fileoff)
          (add_ptr2 load_addr (sub32 cmd.vmaddr file.vm_bias)) cmd.filesize
      else m0) a = m0 a := by
    intro m0
    by_cases hf : cmd.filesize ≠ 0
    · rw [if_pos hf, bcopy_outside]
      intro hc
      have := h1 hf hc.1
      omega
    · rw [if_neg hf]
  by_cases hz : sub32 cmd.vmsize cmd.filesize ≠ 0 ∧ cmd.vmsize > cmd.filesize
  · rw [if_pos hz, bzero_outside]
    · exact hcopy m
    · intro hc
      have := h2 hz hc.1
      omega
  · rw [if_neg hz]
    exact hcopy m

theorem decoded_map_lc_fields (load_addr : Nat) (lc : load_command) (s s1 : map_state)
    (h : decoded_map_lc load_addr lc s = Sum.inr s1) :
    s1.file.file = s.file.file ∧ s1.file.vm_bias = s.file.vm_bias ∧
      s1.file.filetype = s.file.filetype := by
  unfold decoded_map_lc at h
  cases lc <;> dsimp only at h
  · split_ifs at h <;> (injection h with h; subst h; exact ⟨rfl, rfl, rfl⟩)
  all_goals first | (injection h with h; subst h; exact ⟨rfl, rfl, rfl⟩) | cases h

theorem decoded_map_lc_frame (load_addr : Nat) (lc : load_command) (s s1 : map_state)
    (hexec : s.file.filetype = MH_EXECUTE)
    (h : decoded_map_lc load_addr lc s = Sum.inr s1) (a : Nat)
    (hw : ∀ cmd, lc = load_command.LC_SEGMENT cmd → ¬ seg_writes s.file.vm_bias load_addr cmd a) :
    s1.mem a = s.mem a := by
  unfold decoded_map_lc at h
  cases lc <;> dsimp only at h
  · rename_i cmd
    rw [if_pos hexec] at h
    split_ifs at h <;>
      (injection h with h; subst h
       exact decoded_exec_segment_frame _ _ _ _ _ (hw cmd rfl))
  all_goals first | (injection h with h; subst h; rfl) | cases h

theorem decoded_map_loop_append (load_addr : Nat) (pre rest : List load_command)
    (s : map_state) :
    decoded_map_loop load_addr (pre ++ rest) s =
      match decoded_map_loop load_addr pre s with
      | Sum.inl r => Sum.inl r
      | Sum.inr s1 => decoded_map_loop load_addr rest s1 := by
  induction pre generalizing s with
  | nil => simp [decoded_map_loop]
  | cons lc pre ih =>
    simp only [List.cons_append, decoded_map_loop]
    cases hlc : decoded_map_lc load_addr lc s with
    | inl r => simp
    | inr s1 => simp [ih]

theorem decoded_map_loop_frame (load_addr : Nat) (cmds : List load_command)
    (s s1 : map_state) (hexec : s.file.filetype = MH_EXECUTE)
    (h : decoded_map_loop load_addr cmds s = Sum.inr s1) :
    (s1.file.file = s.file.file ∧ s1.file.vm_bias = s.file.vm_bias ∧
      s1.file.filetype = s.file.filetype) ∧
    ∀ a, (∀ cmd, load_command.LC_SEGMENT cmd ∈ cmds →
        ¬ seg_writes s.file.vm_bias load_addr cmd a) → s1.mem a = s.mem a := by
  induction cmds generalizing s with
  | nil =>
    simp only [decoded_map_loop] at h
    injection h with h
    subst h
    exact ⟨⟨rfl, rfl, rfl⟩, fun _ _ => rfl⟩
  | cons lc rest ih =>
    simp only [decoded_map_loop] at h
    cases hlc : decoded_map_lc load_addr lc s with
    | inl r => rw [hlc] at h; cases h
    | inr s2 =>
      rw [hlc] at h
      simp only [] at h
      obtain ⟨hf, hb, ht⟩ := decoded_map_lc_fields load_addr lc s s2 hlc
      obtain ⟨⟨hf1, hb1, ht1⟩, hmem⟩ := ih s2 (ht.trans hexec) h
      refine ⟨⟨hf1.trans hf, hb1.trans hb, ht1.trans ht⟩, fun a hw => ?_⟩
      rw [hmem a (fun cmd hc => by rw [hb]; exact hw cmd (List.mem_cons_of_mem _ hc))]
      exact decoded_map_lc_frame load_addr lc s s2 hexec hlc a
        (fun cmd hc => hw cmd (by rw [hc]; exact List.mem_cons_self _ _))

theorem decoded_exec_segment_bytes (file : mach_loader_context_t) (cmd : segment_command)
    (load_addr : Nat) (m : Mem)
    (hword : cmd.filesize < 4294967296 ∧ cmd.vmsize < 4294967296)
    (hnowrap : seg_dst file.vm_bias load_addr cmd + max cmd.filesize cmd.vmsize ≤ 4294967296) :
    (∀ i, i < cmd.filesize →
      decoded_exec_segment file cmd load_addr m (seg_dst file.vm_bias load_addr cmd + i) =
        m (seg_src file.file cmd + i)) ∧
    (∀ i, cmd.filesize ≤ i → i < cmd.vmsize →
      decoded_exec_segment file cmd load_addr m (seg_dst file.vm_bias load_addr cmd + i) = 0) := by
  have hd : seg_dst file.vm_bias load_addr cmd < 4294967296 := u32_lt _
  have hdst : add_ptr2 load_addr (sub32 cmd.vmaddr file.vm_bias) =
      seg_dst file.vm_bias load_addr cmd := rfl
  have hsub : cmd.filesize < cmd.vmsize →
      sub32 cmd.vmsize cmd.filesize = cmd.vmsize - cmd.filesize := by
    intro h
    unfold sub32
    omega
  have hz : cmd.filesize < cmd.vmsize →
      add_ptr3 load_addr (sub32 cmd.vmaddr file.vm_bias) cmd.filesize =
        seg_dst file.vm_bias load_addr cmd + cmd.filesize := by
    intro h
    have h1 : seg_dst file.vm_bias load_addr cmd + cmd.filesize < 4294967296 := by
      have := le_max_right cmd.filesize cmd.vmsize
      omega
    unfold add_ptr3 seg_dst add_ptr2 u32 at *
    omega
  constructor
  · intro i hi
    unfold decoded_exec_segment
    rw [hdst]
    have hf : cmd.filesize ≠ 0 := by omega
    rw [if_pos hf]
    by_cases hc : sub32 cmd.vmsize cmd.filesize ≠ 0 ∧ cmd.vmsize > cmd.filesize
    · rw [if_pos hc, bzero_outside, bcopy_inside _ _ _ _ _ hi]
      · rfl
      · rw [hz hc.2]
        omega
    · rw [if_neg hc, bcopy_inside _ _ _ _ _ hi]
      rfl
  · intro i h1 h2
    have hlt : cmd.filesize < cmd.vmsize := by omega
    unfold decoded_exec_segment
    rw [hdst]
    have hc : sub32 cmd.vmsize cmd.filesize ≠ 0 ∧ cmd.vmsize > cmd.filesize := by
      rw [hsub hlt]
      omega
    rw [if_pos hc, bzero_inside]
    rw [hz hlt, hsub hlt]
    omega

theorem decoded_map_success (cmds : List load_command) (file : mach_loader_context_t)
    (load_addr vmsize : Nat) (m : Mem)
    (h : (decoded_map cmds file load_addr vmsize m).1 = LOADER_SUCCESS) :
    ∃ s, decoded_map_loop load_addr cmds { file := file, seg_count := 0, mem := m } =
        Sum.inr s ∧
      decoded_map cmds file load_addr vmsize m =
        (LOADER_SUCCESS, { s.file with base := load_addr, vmsize := vmsize }, s.mem) := by
  unfold decoded_map at h ⊢
  cases hl : decoded_map_loop load_addr cmds
      { file := file, seg_count := 0, mem := m } with
  | inl r =>
    exfalso
    obtain ⟨e, s⟩ := r
    rw [hl] at h
    dsimp only at h
    subst h
    revert hl
    generalize ({ file := file, seg_count := 0, mem := m } : map_state) = s0
    intro hl
    induction cmds generalizing s0 with
    | nil => simp [decoded_map_loop] at hl
    | cons lc rest ih =>
      simp only [decoded_map_loop] at hl
      cases hlc : decoded_map_lc load_addr lc s0 with
      | inl r =>
        rw [hlc] at hl
        dsimp only at hl
        injection hl with hl
        subst hl
        unfold decoded_map_lc at hlc
        cases lc <;> dsimp only at hlc
        · split_ifs at hlc <;> (injection hlc with hlc; cases hlc)
        all_goals first | (injection hlc with hlc; cases hlc) | cases hlc
      | inr s1 =>
        rw [hlc] at hl
        exact ih s1 hl
  | inr s => exact ⟨s, rfl, rfl⟩


/-! ## `mach_file_map` when no write reaches the load commands -/

theorem _map_section_frame (file : mach_loader_context_t) (sect : macho_section)
    (load_addr : Nat) (m : Mem) (a : Nat) (h : ¬ sect_writes load_addr sect a) :
    _map_section file sect load_addr m a = m a := by
  unfold _map_section
  unfold sect_writes at h
  split_ifs
  · exact bzero_outside _ _ _ _ h
  · exact bcopy_outside _ _ _ _ _ h

theorem map_sections_kept (rd : macho_reader) (head : Nat) (m : Mem) (W : Nat → Prop)
    (hkept : commands_kept rd head m W) (file : mach_loader_context_t) (seg load_addr : Nat)
    (hp : seg ∈ lc_addrs rd m (u32 (rd.ncmds m head)) (rd.first_lc head))
    (hW : ∀ sect, sect ∈ (rd.seg m seg).sects → ∀ a, sect_writes load_addr sect a → W a) :
    ∀ (n i : Nat) (mcur : Mem), (∀ a, ¬ W a → mcur a = m a) →
      ∀ a, ¬ W a → map_sections rd file seg load_addr n i mcur a = m a := by
  intro n
  induction n with
  | zero =>
    intro i mcur hag a ha
    simp only [map_sections]
    exact hag a ha
  | succ n ih =>
    intro i mcur hag a ha
    have e0 : rd.seg mcur seg = rd.seg m seg := ((hkept mcur hag).2 seg hp).2.2
    simp only [map_sections, e0]
    cases hget : (rd.seg m seg).sects[i]? with
    | none => exact hag a ha
    | some sect =>
      dsimp only
      refine ih (i + 1) _ ?_ a ha
      intro b hb
      rw [_map_section_frame _ _ _ _ _ (fun hw => hb (hW sect (List.mem_iff_getElem?.2 ⟨i, hget⟩) b hw))]
      exact hag b hb

theorem decoded_exec_segment_copy_frame (file : mach_loader_context_t) (cmd : segment_command)
    (load_addr : Nat) (m : Mem) (a : Nat)
    (h : ¬ seg_writes file.vm_bias load_addr cmd a) :
    (if cmd.filesize ≠ 0 then
        bcopy m (add_ptr2 file.file cmd.fileoff)
          (add_ptr2 load_addr (sub32 cmd.vmaddr file.vm_bias)) cmd.filesize
      else m) a = m a := by
  unfold seg_writes seg_dst at h
  push_neg at h
  obtain ⟨h1, _⟩ := h
  by_cases hf : cmd.filesize ≠ 0
  · rw [if_pos hf, bcopy_outside]
    intro hc
    have := h1 hf hc.1
    omega
  · rw [if_neg hf]

theorem map_exec_segment_kept (rd : macho_reader) (head : Nat) (m : Mem) (W : Nat → Prop)
    (hkept : commands_kept rd head m W) (file : mach_loader_context_t) (lcp load_addr : Nat)
    (hp : lcp ∈ lc_addrs rd m (u32 (rd.ncmds m head)) (rd.first_lc head))
    (mcur : Mem) (hag : ∀ a, ¬ W a → mcur a = m a)
    (hW : ∀ a, seg_writes file.vm_bias load_addr (rd.seg m lcp) a → W a) :
    map_exec_segment rd file lcp load_addr mcur =
      decoded_exec_segment file (rd.seg m lcp) load_addr mcur := by
  have e0 : rd.seg mcur lcp = rd.seg m lcp := ((hkept mcur hag).2 lcp hp).2.2
  have e1 : rd.seg
      (if (rd.seg m lcp).filesize ≠ 0 then
        bcopy mcur (add_ptr2 file.file (rd.seg m lcp).fileoff)
          (add_ptr2 load_addr (sub32 (rd.seg m lcp).vmaddr file.vm_bias)) (rd.seg m lcp).filesize
      else mcur) lcp = rd.seg m lcp := by
    refine ((hkept _ ?_).2 lcp hp).2.2
    intro a ha
    rw [decoded_exec_segment_copy_frame file (rd.seg m lcp) load_addr mcur a
      (fun hw => ha (hW a hw))]
    exact hag a ha
  unfold map_exec_segment decoded_exec_segment
  simp only [e0, e1]

theorem mach_file_map_lc_kept (rd : macho_reader) (head : Nat) (m : Mem) (W : Nat → Prop)
    (hkept : commands_kept rd head m W) (load_addr lcp : Nat)
    (hp : lcp ∈ lc_addrs rd m (u32 (rd.ncmds m head)) (rd.first_lc head))
    (ft vb : Nat) (s1 s2 : map_state) (hrel : map_related m W ft vb s1 s2)
    (hW : ∀ a, map_writes ft vb load_addr [read_lc rd m lcp] a → W a) :
    map_results_related m W ft vb (mach_file_map_lc rd load_addr lcp s1)
      (decoded_map_lc load_addr (read_lc rd m lcp) s2) := by
  obtain ⟨hf, hc, hft, hvb, hag, hmem⟩ := hrel
  have e_lc : rd.lc s1.mem lcp = rd.lc m lcp := ((hkept s1.mem hag).2 lcp hp).1
  have e_seg : rd.seg s1.mem lcp = rd.seg m lcp := ((hkept s1.mem hag).2 lcp hp).2.2
  unfold mach_file_map_lc decoded_map_lc
  rw [e_lc]
  unfold read_lc at hW ⊢
  cases hlc : rd.lc m lcp with
  | LC_SEGMENT c =>
    rw [hlc] at hW
    dsimp only at hW ⊢
    rw [e_seg, ← hf, ← hc]
    by_cases hexec : s1.file.filetype = MH_EXECUTE
    · rw [if_pos hexec, if_pos hexec]
      have hexec1 : ft = MH_EXECUTE := hft.symm.trans hexec
      by_cases hbias : s1.file.vm_bias = 0 ∧ s1.seg_count = 0 ∧ (rd.seg m lcp).vmaddr ≠ 0
      · rw [if_pos hbias, if_pos hbias]
        exact ⟨rfl, hf, hc, hft, hvb, hag, hmem⟩
      · rw [if_neg hbias, if_neg hbias]
        have hWs : ∀ a, seg_writes s1.file.vm_bias load_addr (rd.seg m lcp) a → W a := by
          intro a hw
          rw [hvb] at hw
          exact hW a ⟨rd.seg m lcp, List.mem_singleton.2 rfl, Or.inl ⟨hexec1, hw⟩⟩
        have em : map_exec_segment rd s1.file lcp load_addr s1.mem =
            decoded_exec_segment s1.file (rd.seg m lcp) load_addr s2.mem := by
          rw [map_exec_segment_kept rd head m W hkept s1.file lcp load_addr hp s1.mem hag hWs,
            hmem hexec1]
        have hag1 : ∀ a, ¬ W a →
            decoded_exec_segment s1.file (rd.seg m lcp) load_addr s2.mem a = m a := by
          intro a ha
          rw [decoded_exec_segment_frame _ _ _ _ _ (fun hw => ha (hWs a hw)), ← hmem hexec1]
          exact hag a ha
        have e1 : rd.seg (decoded_exec_segment s1.file (rd.seg m lcp) load_addr s2.mem) lcp =
            rd.seg m lcp := ((hkept _ hag1).2 lcp hp).2.2
        rw [em, e1]
        refine ⟨rfl, rfl, ?_, ?_, hag1, fun _ => rfl⟩
        · dsimp only
          split_ifs <;> exact hft
        · dsimp only
          split_ifs <;> exact hvb
    · rw [if_neg hexec, if_neg hexec]
      have hexec1 : ¬ ft = MH_EXECUTE := fun h => hexec (hft.trans h)
      by_cases hobj : s1.file.filetype = MH_OBJECT
      · rw [if_pos hobj, if_pos hobj]
        by_cases hcount : s1.seg_count ≠ 0
        · rw [if_pos hcount, if_pos hcount]
          exact ⟨rfl, hf, hc, hft, hvb, hag, hmem⟩
        · rw [if_neg hcount, if_neg hcount]
          refine ⟨rfl, rfl, hft, hvb, ?_, fun h => absurd h hexec1⟩
          refine map_sections_kept rd head m W hkept _ lcp load_addr hp ?_ _ _ _ hag
          intro sect hs a hw
          exact hW a ⟨rd.seg m lcp, List.mem_singleton.2 rfl,
            Or.inr ⟨hft.symm.trans hobj, sect, hs, hw⟩⟩
      · rw [if_neg hobj, if_neg hobj]
        exact ⟨rfl, hf, hc, hft, hvb, hag, hmem⟩
  | LC_SYMTAB c =>
    dsimp only
    rw [← hf]
    exact ⟨rfl, hc, hft, hvb, hag, hmem⟩
  | LC_UNIXTHREAD pc =>
    dsimp only
    rw [← hf]
    exact ⟨rfl, hc, hft, hvb, hag, hmem⟩
  | LC_DYSYMTAB c =>
    dsimp only
    rw [← hf]
    exact ⟨rfl, hc, hft, hvb, hag, hmem⟩
  | LC_DYLD_INFO =>
    dsimp only
    rw [← hf]
    exact ⟨rfl, rfl, hc, hft, hvb, hag, hmem⟩
  | LC_DYLD_INFO_ONLY =>
    dsimp only
    rw [← hf]
    exact ⟨rfl, rfl, hc, hft, hvb, hag, hmem⟩
  | LC_OTHER c =>
    dsimp only
    exact ⟨hf, hc, hft, hvb, hag, hmem⟩

theorem commands_kept_mono (rd : macho_reader) (head : Nat) (m : Mem) (W1 W2 : Nat → Prop)
    (hsub : ∀ a, W1 a → W2 a) (h : commands_kept rd head m W2) : commands_kept rd head m W1 :=
  fun m1 hag => h m1 (fun a ha => hag a (fun hw => ha (hsub a hw)))

theorem map_writes_mono (ft vb load_addr : Nat) (cmds1 cmds2 : List load_command)
    (hsub : ∀ lc, lc ∈ cmds1 → lc ∈ cmds2) (a : Nat)
    (h : map_writes ft vb load_addr cmds1 a) : map_writes ft vb load_addr cmds2 a := by
  obtain ⟨cmd, hc, hw⟩ := h
  exact ⟨cmd, hsub _ hc, hw⟩

theorem mach_file_map_loop_kept (rd : macho_reader) (head : Nat) (m : Mem) (W : Nat → Prop)
    (hkept : commands_kept rd head m W) (load_addr ft vb : Nat)
    (hW : ∀ a, map_writes ft vb load_addr
      ((lc_addrs rd m (u32 (rd.ncmds m head)) (rd.first_lc head)).map (read_lc rd m)) a → W a) :
    ∀ (k fuel i lcp : Nat) (s1 s2 : map_state),
      i + k = u32 (rd.ncmds m head) → k < fuel →
      (∀ p, p ∈ lc_addrs rd m k lcp →
        p ∈ lc_addrs rd m (u32 (rd.ncmds m head)) (rd.first_lc head)) →
      map_related m W ft vb s1 s2 →
      map_results_related m W ft vb (mach_file_map_loop rd head load_addr fuel i lcp s1)
        (decoded_map_loop load_addr ((lc_addrs rd m k lcp).map (read_lc rd m)) s2) := by
  intro k
  induction k with
  | zero =>
    intro fuel i lcp s1 s2 hik hfuel _ hrel
    cases fuel with
    | zero => omega
    | succ f =>
      have en : rd.ncmds s1.mem head = rd.ncmds m head := (hkept s1.mem hrel.2.2.2.2.1).1
      simp only [mach_file_map_loop, lc_addrs, List.map_nil, decoded_map_loop, en]
      rw [if_neg (by omega)]
      exact hrel
  | succ k ih =>
    intro fuel i lcp s1 s2 hik hfuel hsub hrel
    cases fuel with
    | zero => omega
    | succ f =>
      have en : rd.ncmds s1.mem head = rd.ncmds m head := (hkept s1.mem hrel.2.2.2.2.1).1
      have hp : lcp ∈ lc_addrs rd m (u32 (rd.ncmds m head)) (rd.first_lc head) :=
        hsub lcp (by simp [lc_addrs])
      have hstep := mach_file_map_lc_kept rd head m W hkept load_addr lcp hp ft vb s1 s2 hrel
        (fun a hw => hW a (map_writes_mono ft vb load_addr _ _ (by
          intro lc hlc
          rw [List.mem_singleton] at hlc
          subst hlc
          exact List.mem_map.2 ⟨lcp, hp, rfl⟩) a hw))
      simp only [mach_file_map_loop, lc_addrs, List.map_cons, decoded_map_loop, en]
      rw [if_pos (by omega)]
      cases h1 : mach_file_map_lc rd load_addr lcp s1 with
      | inl r1 =>
        cases h2 : decoded_map_lc load_addr (read_lc rd m lcp) s2 with
        | inl r2 =>
          rw [h1, h2] at hstep
          exact hstep
        | inr t2 =>
          rw [h1, h2] at hstep
          exact absurd hstep (by simp [map_results_related])
      | inr t1 =>
        cases h2 : decoded_map_lc load_addr (read_lc rd m lcp) s2 with
        | inl r2 =>
          rw [h1, h2] at hstep
          exact absurd hstep (by simp [map_results_related])
        | inr t2 =>
          rw [h1, h2] at hstep
          have hrel1 : map_related m W ft vb t1 t2 := hstep
          have ec : rd.cmdsize t1.mem lcp = rd.cmdsize m lcp :=
            ((hkept t1.mem hrel1.2.2.2.2.1).2 lcp hp).2.1
          dsimp only
          rw [ec]
          refine ih f (i + 1) _ t1 t2 (by omega) (by omega) ?_ hrel1
          intro p hpk
          exact hsub p (by simp [lc_addrs, hpk])

/-- When no write of the mapping reaches the header or a load command, `mach_file_map`
is the walk over the load commands decoded before the call: same return code, same
context, a memory left as it was outside the written addresses, and for an executable
the same memory. -/
theorem mach_file_map_kept (rd : macho_reader) (file : mach_loader_context_t)
    (load_addr vmsize : Nat) (m : Mem) (W : Nat → Prop)
    (hkept : commands_kept rd file.file m W)
    (hW : ∀ a, map_writes file.filetype file.vm_bias load_addr
      (read_header rd m file.file).cmds a → W a) :
    (mach_file_map rd file load_addr vmsize m).1 =
      (decoded_map (read_header rd m file.file).cmds file load_addr vmsize m).1 ∧
    (mach_file_map rd file load_addr vmsize m).2.1 =
      (decoded_map (read_header rd m file.file).cmds file load_addr vmsize m).2.1 ∧
    (∀ a, ¬ W a → (mach_file_map rd file load_addr vmsize m).2.2 a = m a) ∧
    (file.filetype = MH_EXECUTE →
      mach_file_map rd file load_addr vmsize m =
        decoded_map (read_header rd m file.file).cmds file load_addr vmsize m) := by
  have hsim := mach_file_map_loop_kept rd file.file m W hkept load_addr file.filetype
    file.vm_bias hW (u32 (rd.ncmds m file.file)) 4294967296 0 (rd.first_lc file.file)
    { file := file, seg_count := 0, mem := m } { file := file, seg_count := 0, mem := m }
    (by omega) (u32_lt _) (fun p hp => hp) ⟨rfl, rfl, rfl, rfl, fun _ _ => rfl, fun _ => rfl⟩
  unfold mach_file_map decoded_map read_header
  dsimp only
  cases h1 : mach_file_map_loop rd file.file load_addr 4294967296 0 (rd.first_lc file.file)
      { file := file, seg_count := 0, mem := m } with
  | inl r1 =>
    cases h2 : decoded_map_loop load_addr
        ((lc_addrs rd m (u32 (rd.ncmds m file.file)) (rd.first_lc file.file)).map (read_lc rd m))
        { file := file, seg_count := 0, mem := m } with
    | inl r2 =>
      rw [h1, h2] at hsim
      obtain ⟨he, hf, _, _, _, hag, hmem⟩ := hsim
      obtain ⟨e1, t1⟩ := r1
      obtain ⟨e2, t2⟩ := r2
      dsimp only at he hf hag hmem ⊢
      subst he
      refine ⟨rfl, hf, hag, fun hx => ?_⟩
      rw [hf, hmem hx]
    | inr t2 =>
      rw [h1, h2] at hsim
      exact absurd hsim (by simp [map_results_related])
  | inr t1 =>
    cases h2 : decoded_map_loop load_addr
        ((lc_addrs rd m (u32 (rd.ncmds m file.file)) (rd.first_lc file.file)).map (read_lc rd m))
        { file := file, seg_count := 0, mem := m } with
    | inl r2 =>
      rw [h1, h2] at hsim
      exact absurd hsim (by simp [map_results_related])
    | inr t2 =>
      rw [h1, h2] at hsim
      obtain ⟨hf, _, _, _, hag, hmem⟩ := hsim
      dsimp only
      refine ⟨rfl, by rw [hf], hag, fun hx => ?_⟩
      rw [hf, hmem hx]

/-- The counter of the `for_each_section` loop never runs out either: a segment whose
`nsects` is below `2^32` is mapped the same way with one more turn. -/
theorem map_sections_fuel (rd : macho_reader) (file : mach_loader_context_t)
    (seg load_addr : Nat) (hn : ∀ m, (rd.seg m seg).sects.length < 4294967296) :
    ∀ (n i : Nat) (m : Mem), 4294967296 ≤ i + n →
      map_sections rd file seg load_addr (n + 1) i m = map_sections rd file seg load_addr n i m := by
  intro n
  induction n with
  | zero =>
    intro i m h
    have hlen := hn m
    have hnone : (rd.seg m seg).sects[i]? = none := List.getElem?_eq_none (by omega)
    simp only [map_sections, hnone]
  | succ n ih =>
    intro i m h
    rw [map_sections]
    conv_rhs => rw [map_sections]
    cases (rd.seg m seg).sects[i]? with
    | none => rfl
    | some sect =>
      dsimp only
      exact ih (i + 1) _ (by omega)

/-- The counter of the `for_each_lc` loop of `mach_file_map` never runs out: `head->ncmds`
is below `2^32`, so with the `2^32 - XXi` turns that the model starts from, one more turn
changes nothing. -/
theorem mach_file_map_loop_fuel (rd : macho_reader) (head load_addr : Nat) :
    ∀ (n i lcp : Nat) (s : map_state), 4294967296 ≤ i + n →
      mach_file_map_loop rd head load_addr (n + 1) i lcp s =
        mach_file_map_loop rd head load_addr n i lcp s := by
  intro n
  induction n with
  | zero =>
    intro i lcp s h
    have := u32_lt (rd.ncmds s.mem head)
    simp only [mach_file_map_loop]
    rw [if_neg (by omega)]
  | succ n ih =>
    intro i lcp s h
    rw [mach_file_map_loop]
    conv_rhs => rw [mach_file_map_loop]
    split_ifs
    · cases mach_file_map_lc rd load_addr lcp s with
      | inl r => rfl
      | inr s1 =>
        dsimp only
        exact ih (i + 1) _ s1 (by omega)
    · rfl

theorem decoded_map_segment_bytes (cmds : List load_command) (file : mach_loader_context_t)
    (load_addr vmsize : Nat) (m : Mem) (pre post : List load_command) (cmd : segment_command)
    (hexec : file.filetype = MH_EXECUTE)
    (hcmds : cmds = pre ++ load_command.LC_SEGMENT cmd :: post)
    (hret : (decoded_map cmds file load_addr vmsize m).1 = LOADER_SUCCESS)
    (hword : cmd.filesize < 4294967296 ∧ cmd.vmsize < 4294967296)
    (hnowrap : seg_dst file.vm_bias load_addr cmd + max cmd.filesize cmd.vmsize ≤ 4294967296)
    (hsrc : ∀ t, load_command.LC_SEGMENT t ∈ pre → ∀ i, i < cmd.filesize →
      ¬ seg_writes file.vm_bias load_addr t (seg_src file.file cmd + i))
    (hdst : ∀ t, load_command.LC_SEGMENT t ∈ post → ∀ i, i < max cmd.filesize cmd.vmsize →
      ¬ seg_writes file.vm_bias load_addr t (seg_dst file.vm_bias load_addr cmd + i)) :
    (∀ i, i < cmd.filesize →
      (decoded_map cmds file load_addr vmsize m).2.2 (seg_dst file.vm_bias load_addr cmd + i) =
        m (seg_src file.file cmd + i)) ∧
    (∀ i, cmd.filesize ≤ i → i < cmd.vmsize →
      (decoded_map cmds file load_addr vmsize m).2.2 (seg_dst file.vm_bias load_addr cmd + i) = 0) := by
  obtain ⟨s, hloop, hmap⟩ := decoded_map_success cmds file load_addr vmsize m hret
  rw [hmap]
  dsimp only
  rw [hcmds, decoded_map_loop_append] at hloop
  cases hpre : decoded_map_loop load_addr pre { file := file, seg_count := 0, mem := m } with
  | inl r => rw [hpre] at hloop; cases hloop
  | inr s1 =>
    rw [hpre] at hloop
    dsimp only at hloop
    obtain ⟨⟨hf1, hb1, ht1⟩, hm1⟩ := decoded_map_loop_frame load_addr pre _ s1 hexec hpre
    dsimp only at hf1 hb1 ht1 hm1
    simp only [decoded_map_loop] at hloop
    cases hlc : decoded_map_lc load_addr (load_command.LC_SEGMENT cmd) s1 with
    | inl r => rw [hlc] at hloop; cases hloop
    | inr s2 =>
      rw [hlc] at hloop
      dsimp only at hloop
      obtain ⟨hf2, hb2, ht2⟩ := decoded_map_lc_fields load_addr _ s1 s2 hlc
      obtain ⟨_, hm3⟩ := decoded_map_loop_frame load_addr post s2 s (by rw [ht2, ht1, hexec]) hloop
      have hm2 : s2.mem = decoded_exec_segment s1.file cmd load_addr s1.mem := by
        unfold decoded_map_lc at hlc
        dsimp only at hlc
        rw [if_pos (ht1.trans hexec)] at hlc
        split_ifs at hlc <;> (injection hlc with hlc; subst hlc; rfl)
      obtain ⟨hA, hB⟩ := decoded_exec_segment_bytes s1.file cmd load_addr s1.mem hword
        (by rw [hb1]; exact hnowrap)
      rw [hb1, hf1] at hA
      rw [hb1] at hB
      rw [hb2, hb1] at hm3
      constructor
      · intro i hi
        rw [hm3 _ (fun t ht => hdst t ht i (lt_of_lt_of_le hi (le_max_left _ _))), hm2, hA i hi]
        exact hm1 _ (fun t ht => hsrc t ht i hi)
      · intro i h1 h2
        rw [hm3 _ (fun t ht => hdst t ht i (lt_of_lt_of_le h2 (le_max_right _ _))), hm2]
        exact hB i h1 h2


theorem image_reader_kept (a : Nat) (h : mach_header_t) (head : Nat) (m : Mem)
    (W : Nat → Prop) : commands_kept (image_reader a h) head m W :=
  fun _ _ => ⟨rfl, fun _ _ => ⟨rfl, rfl, rfl⟩⟩

/-- C1 (as amended). After a successful `mach_file_map` of an executable whose header
and load commands no write of the mapping reaches, a segment whose destination range
does not wrap past `2^32`, whose source bytes are not written by the segments mapped
before it and whose destination range is not written by the segments mapped after it
holds, at `load_addr + (vmaddr - vm_bias)`, the `filesize` source bytes of
`file + fileoff` followed by zeros up to `vmsize`. -/
theorem mach_file_map_segment_bytes (rd : macho_reader) (file : mach_loader_context_t)
    (load_addr vmsize : Nat) (m : Mem) (pre post : List load_command) (cmd : segment_command)
    (hexec : file.filetype = MH_EXECUTE)
    (hcmds : (read_header rd m file.file).cmds = pre ++ load_command.LC_SEGMENT cmd :: post)
    (hkept : commands_kept rd file.file m
      (map_writes file.filetype file.vm_bias load_addr (read_header rd m file.file).cmds))
    (hret : (mach_file_map rd file load_addr vmsize m).1 = LOADER_SUCCESS)
    (hword : cmd.filesize < 4294967296 ∧ cmd.vmsize < 4294967296)
    (hnowrap : seg_dst file.vm_bias load_addr cmd + max cmd.filesize cmd.vmsize ≤ 4294967296)
    (hsrc : ∀ t, load_command.LC_SEGMENT t ∈ pre → ∀ i, i < cmd.filesize →
      ¬ seg_writes file.vm_bias load_addr t (seg_src file.file cmd + i))
    (hdst : ∀ t, load_command.LC_SEGMENT t ∈ post → ∀ i, i < max cmd.filesize cmd.vmsize →
      ¬ seg_writes file.vm_bias load_addr t (seg_dst file.vm_bias load_addr cmd + i)) :
    (∀ i, i < cmd.filesize →
      (mach_file_map rd file load_addr vmsize m).2.2 (seg_dst file.vm_bias load_addr cmd + i) =
        m (seg_src file.file cmd + i)) ∧
    (∀ i, cmd.filesize ≤ i → i < cmd.vmsize →
      (mach_file_map rd file load_addr vmsize m).2.2 (seg_dst file.vm_bias load_addr cmd + i) =
        0) := by
  have heq := (mach_file_map_kept rd file load_addr vmsize m _ hkept (fun _ h => h)).2.2.2 hexec
  rw [heq] at hret ⊢
  exact decoded_map_segment_bytes _ file load_addr vmsize m pre post cmd hexec hcmds hret hword
    hnowrap hsrc hdst

/-- C1 (witness). The image `c1w_file` stands at address 100 and is mapped at `0x1000`,
away from its header and load commands. Its second segment (2 file bytes, 4 bytes of
memory) is mapped at `0x1000 + 8` apart from the first one: its two bytes are those of
the file and the next two are zero. -/
theorem mach_file_map_segment_bytes_witness :
    (∀ i, i < 2 →
      (mach_file_map (file_reader c1w_file) c1w_file 0x1000 8 c1_mem).2.2 (0x1008 + i) =
        c1_mem (100 + i)) ∧
    (∀ i, 2 ≤ i → i < 4 →
      (mach_file_map (file_reader c1w_file) c1w_file 0x1000 8 c1_mem).2.2 (0x1008 + i) = 0) :=
  mach_file_map_segment_bytes (file_reader c1w_file) c1w_file 0x1000 8 c1_mem
    [load_command.LC_SEGMENT
      { segname := [], vmaddr := 0, vmsize := 4, fileoff := 1, filesize := 1, sects := [] }]
    [load_command.LC_UNIXTHREAD 0]
    { segname := [], vmaddr := 8, vmsize := 4, fileoff := 0, filesize := 2, sects := [] }
    rfl (by decide!) (image_reader_kept _ _ _ _ _) (by decide!) (by decide) (by decide)
    (by
      intro t ht i hi
      simp only [List.mem_singleton, load_command.LC_SEGMENT.injEq] at ht
      subst ht
      change i < 2 at hi
      simp only [seg_writes, seg_dst, seg_src, add_ptr2, add_ptr3, sub32, u32, c1w_file, c1_file]
      omega)
    (by
      intro t ht
      simp at ht)

/-- C1 (counterexample). The image `c1_file` stands at address 100 and is mapped at
`0x1000` with success; no write reaches its header or its load commands. Yet the
destination byte of its first segment is the source byte of its second segment: both
segments are mapped at the same address and the later copy wins. -/
theorem mach_file_map_overlap_counterexample :
    ¬ (∀ (rd : macho_reader) (file : mach_loader_context_t) (load_addr vmsize : Nat) (m : Mem)
        (cmd : segment_command),
        file.filetype = MH_EXECUTE →
        commands_kept rd file.file m
          (map_writes file.filetype file.vm_bias load_addr (read_header rd m file.file).cmds) →
        (mach_file_map rd file load_addr vmsize m).1 = LOADER_SUCCESS →
        load_command.LC_SEGMENT cmd ∈ (read_header rd m file.file).cmds →
        (∀ i, i < cmd.filesize →
          (mach_file_map rd file load_addr vmsize m).2.2
              (seg_dst file.vm_bias load_addr cmd + i) = m (seg_src file.file cmd + i)) ∧
        (∀ i, cmd.filesize ≤ i → i < cmd.vmsize →
          (mach_file_map rd file load_addr vmsize m).2.2
              (seg_dst file.vm_bias load_addr cmd + i) = 0)) := by
  intro h
  have h1 := (h (file_reader c1_file) c1_file 0x1000 2 c1_mem
    { segname := [], vmaddr := 0, vmsize := 1, fileoff := 0, filesize := 1, sects := [] }
    rfl (image_reader_kept _ _ _ _ _) (by decide!) (by decide!)).1 0 (by decide)
  revert h1
  decide!


/-! ## Relocation -/

theorem read32_write32_same (m : Mem) (a v : Nat) : read32 (write32 m a v) a = u32 v := by
  unfold read32 write32 u32
  simp
  omega

theorem read32_write32_apart (m : Mem) (a b v : Nat) (h : words_apart a b) :
    read32 (write32 m a v) b = read32 m b := by
  unfold words_apart at h
  unfold read32 write32
  have e0 : b ≠ a := by omega
  have e1 : b ≠ a + 1 := by omega
  have e2 : b ≠ a + 2 := by omega
  have e3 : b ≠ a + 3 := by omega
  have f0 : b + 1 ≠ a := by omega
  have f1 : b + 1 ≠ a + 1 := by omega
  have f2 : b + 1 ≠ a + 2 := by omega
  have f3 : b + 1 ≠ a + 3 := by omega
  have g0 : b + 2 ≠ a := by omega
  have g1 : b + 2 ≠ a + 1 := by omega
  have g2 : b + 2 ≠ a + 2 := by omega
  have g3 : b + 2 ≠ a + 3 := by omega
  have k0 : b + 3 ≠ a := by omega
  have k1 : b + 3 ≠ a + 1 := by omega
  have k2 : b + 3 ≠ a + 2 := by omega
  have k3 : b + 3 ≠ a + 3 := by omega
  simp only [if_neg e0, if_neg e1, if_neg e2, if_neg e3, if_neg f0, if_neg f1, if_neg f2,
    if_neg f3, if_neg g0, if_neg g1, if_neg g2, if_neg g3, if_neg k0, if_neg k1, if_neg k2,
    if_neg k3]

/-- C3 (the defect, evaluated). On a region of 4 bytes mapped at `0x2000`, a record whose
patch word starts at `0x2004`, outside the region, is applied by both relocators: they
return `LOADER_SUCCESS` and the word past the region has changed. -/
theorem relocate_patches_past_region :
    is_bad_addr c3_object 0x2004 = false ∧
    (mach_file_relocate_object c3_object s3_mem).1 = LOADER_SUCCESS ∧
    read32 s3_mem 0x2004 = 0 ∧
    read32 (mach_file_relocate_object c3_object s3_mem).2 0x2004 = 0x00010000 ∧
    (mach_file_relocate_executable c3_executable s3_mem).1 = LOADER_SUCCESS ∧
    read32 (mach_file_relocate_executable c3_executable s3_mem).2 0x2004 = 0x00010000 := by
  decide

/-! ## Symbol lookup -/

theorem strcmp_self (a : List Nat) : strcmp a a = 0 := by
  induction a with
  | nil => rfl
  | cons x xs ih => simp [strcmp, ih]

theorem strcmp_eq_zero (a b : List Nat) (h : strcmp a b = 0) : a = b := by
  induction a generalizing b with
  | nil =>
    cases b with
    | nil => rfl
    | cons y ys => simp [strcmp] at h
  | cons x xs ih =>
    cases b with
    | nil => simp [strcmp] at h
    | cons y ys =>
      simp only [strcmp] at h
      by_cases h1 : x < y
      · rw [if_pos h1] at h
        exact absurd h (by decide)
      · rw [if_neg h1] at h
        by_cases h2 : y < x
        · rw [if_pos h2] at h
          exact absurd h (by decide)
        · rw [if_neg h2] at h
          have hxy : x = y := by omega
          rw [hxy, ih ys h]

theorem strcmp_neg_swap (a b : List Nat) (h : strcmp a b < 0) : strcmp b a > 0 := by
  induction a generalizing b with
  | nil =>
    cases b with
    | nil => simp [strcmp] at h
    | cons y ys => simp [strcmp]
  | cons x xs ih =>
    cases b with
    | nil => simp [strcmp] at h
    | cons y ys =>
      simp only [strcmp] at h ⊢
      by_cases h1 : x < y
      · rw [if_neg (by omega), if_pos h1]
        decide
      · rw [if_neg h1] at h
        by_cases h2 : y < x
        · rw [if_pos h2] at h
          exact absurd h (by decide)
        · rw [if_neg h2] at h
          rw [if_neg h2, if_neg h1]
          exact ih ys h

theorem binary_search_loop_sound (key stringPool : List Nat) (symbols : Nat → nlist)
    (fuel base n r : Nat)
    (h : binary_search_loop key stringPool symbols fuel base n = some r) :
    base ≤ r ∧ r < base + n ∧ sym_name stringPool symbols r = key := by
  induction fuel generalizing base n with
  | zero => simp [binary_search_loop] at h
  | succ fuel ih =>
    simp only [binary_search_loop] at h
    split_ifs at h with h0 h1 h2
    · injection h with h
      subst h
      refine ⟨by omega, by omega, ?_⟩
      exact (strcmp_eq_zero _ _ h1).symm
    · have := ih _ _ h
      exact ⟨by omega, by omega, this.2.2⟩
    · have := ih _ _ h
      exact ⟨by omega, by omega, this.2.2⟩

theorem binary_search_loop_complete (key stringPool : List Nat) (symbols : Nat → nlist)
    (fuel base n : Nat) (hfuel : n ≤ fuel)
    (hsorted : ∀ i j, base ≤ i → i < j → j < base + n →
      strcmp (sym_name stringPool symbols i) (sym_name stringPool symbols j) < 0)
    (i : Nat) (hi : base ≤ i ∧ i < base + n) (hkey : sym_name stringPool symbols i = key) :
    ∃ r, binary_search_loop key stringPool symbols fuel base n = some r := by
  induction fuel generalizing base n with
  | zero => omega
  | succ fuel ih =>
    simp only [binary_search_loop]
    have hn : n ≠ 0 := by omega
    rw [if_neg hn]
    have hname : ∀ k, cstr_at stringPool (symbols k).n_strx = sym_name stringPool symbols k :=
      fun _ => rfl
    by_cases h1 : strcmp key (cstr_at stringPool (symbols (base + n / 2)).n_strx) = 0
    · rw [if_pos h1]
      exact ⟨_, rfl⟩
    · rw [if_neg h1]
      rw [hname] at h1
      by_cases h2 : strcmp key (sym_name stringPool symbols (base + n / 2)) > 0
      · rw [hname, if_pos h2]
        have hlt : base + n / 2 < i := by
          by_contra hc
          rcases Nat.lt_or_ge i (base + n / 2) with hl | hg
          · have := hsorted i (base + n / 2) hi.1 hl (by omega)
            rw [hkey] at this
            omega
          · have : i = base + n / 2 := by omega
            subst this
            rw [hkey, strcmp_self] at h2
            omega
        exact ih (base + n / 2 + 1) ((n - 1) / 2) (by omega)
          (fun a b ha hab hb => hsorted a b (by omega) hab (by omega)) ⟨by omega, by omega⟩
      · rw [hname, if_neg h2]
        have hlt : i < base + n / 2 := by
          by_contra hc
          rcases Nat.lt_or_ge (base + n / 2) i with hl | hg
          · have := strcmp_neg_swap _ _ (hsorted (base + n / 2) i (by omega) hl hi.2)
            rw [hkey] at this
            omega
          · have : i = base + n / 2 := by omega
            subst this
            rw [hkey, strcmp_self] at h1
            exact h1 rfl
        exact ih base (n / 2) (by omega)
          (fun a b ha hab hb => hsorted a b ha hab (by omega)) ⟨hi.1, hlt⟩

/-- The bound on the number of turns of `binary_search_loop` does not matter once it
is at least `n`. -/
theorem binary_search_loop_fuel (key stringPool : List Nat) (symbols : Nat → nlist)
    (f g base n : Nat) (hf : n ≤ f) (hg : n ≤ g) :
    binary_search_loop key stringPool symbols f base n =
      binary_search_loop key stringPool symbols g base n := by
  induction f generalizing g base n with
  | zero =>
    have : n = 0 := by omega
    subst this
    cases g <;> simp [binary_search_loop]
  | succ f ih =>
    cases g with
    | zero =>
      have : n = 0 := by omega
      subst this
      simp [binary_search_loop]
    | succ g =>
      simp only [binary_search_loop]
      by_cases hn : n = 0
      · rw [if_pos hn, if_pos hn]
      · rw [if_neg hn, if_neg hn, ih g _ _ (by omega) (by omega), ih g _ _ (by omega) (by omega)]

/-- The specification of `binary_search` on a strictly ascending array, shared by the
lookup theorems. -/
theorem binary_search_spec (key stringPool : List Nat) (symbols : Nat → nlist)
    (symbolCount : Nat)
    (hsorted : ∀ i j, i < j → j < symbolCount →
      strcmp (sym_name stringPool symbols i) (sym_name stringPool symbols j) < 0) :
    ((∃ i, i < symbolCount ∧ sym_name stringPool symbols i = key) →
      ∃ r, binary_search key stringPool symbols symbolCount = some r ∧ r < symbolCount ∧
        sym_name stringPool symbols r = key) ∧
    ((¬ ∃ i, i < symbolCount ∧ sym_name stringPool symbols i = key) →
      binary_search key stringPool symbols symbolCount = none) := by
  unfold binary_search
  constructor
  · rintro ⟨i, hi, hkey⟩
    obtain ⟨r, hr⟩ := binary_search_loop_complete key stringPool symbols symbolCount 0
      symbolCount (le_refl _) (fun a b _ hab hb => hsorted a b hab (by omega)) i
      ⟨Nat.zero_le _, by omega⟩ hkey
    have := binary_search_loop_sound key stringPool symbols _ _ _ r hr
    exact ⟨r, hr, by omega, this.2.2⟩
  · intro hno
    cases hr : binary_search_loop key stringPool symbols symbolCount 0 symbolCount with
    | none => rfl
    | some r =>
      have := binary_search_loop_sound key stringPool symbols _ _ _ r hr
      exact absurd ⟨r, by omega, this.2.2⟩ hno

/-- C4. On a symbol array whose names, read through `n_strx` in the string pool, are in
strictly ascending `strcmp` order, `binary_search` returns an entry whose name is the key
when there is one, and `NULL` when there is none. -/
theorem binary_search_correct (key stringPool : List Nat) (symbols : Nat → nlist)
    (symbolCount : Nat)
    (hsorted : ∀ i j, i < j → j < symbolCount →
      strcmp (sym_name stringPool symbols i) (sym_name stringPool symbols j) < 0) :
    ((∃ i, i < symbolCount ∧ sym_name stringPool symbols i = key) →
      ∃ r, binary_search key stringPool symbols symbolCount = some r ∧ r < symbolCount ∧
        sym_name stringPool symbols r = key) ∧
    ((¬ ∃ i, i < symbolCount ∧ sym_name stringPool symbols i = key) →
      binary_search key stringPool symbols symbolCount = none) := by
  constructor
  · intro hex
    exact (binary_search_spec key stringPool symbols symbolCount hsorted).1 hex
  · intro hno
    exact (binary_search_spec key stringPool symbols symbolCount hsorted).2 hno

theorem s5_sorted : ∀ i j, i < j → j < 3 →
    strcmp (sym_name s5_pool s5_symbols i) (sym_name s5_pool s5_symbols j) < 0 := by
  intro i j hij hj
  interval_cases j <;> interval_cases i <;> decide

/-- C4 (witness, scenario S5). Over the names `_a`, `_m`, `_z` the key `_m` is found, at
the entry of that name, and the key `_q` is a miss. -/
theorem binary_search_s5 :
    (∃ r, binary_search [95, 109] s5_pool s5_symbols 3 = some r ∧ r < 3 ∧
      sym_name s5_pool s5_symbols r = [95, 109]) ∧
    binary_search [95, 113] s5_pool s5_symbols 3 = none :=
  ⟨(binary_search_correct [95, 109] s5_pool s5_symbols 3 s5_sorted).1 ⟨1, by decide, by decide⟩,
   (binary_search_correct [95, 113] s5_pool s5_symbols 3 s5_sorted).2 (by
     rintro ⟨i, hi, h⟩
     interval_cases i <;> revert h <;> decide)⟩

/-- C5. For an executable context with a symbol table, a string pool and a dynamic
symbol table whose `tocoff` is 0 and whose external definitions are sorted by name,
`mach_file_find_symbol` returns `LOADER_SUCCESS` and stores `n_value + loader_bias`
(modulo `2^32`) of the entry of that name when the range holds one, and returns
`LOADER_SYMBOL_NOT_FOUND` and stores nothing otherwise. -/
theorem mach_file_find_symbol_correct (file : mach_loader_context_t) (name : List Nat)
    (st : symtab_command) (pool : List Nat) (d : dysymtab_command)
    (hexec : file.filetype = MH_EXECUTE) (hsym : file.symtab = some st)
    (hstr : file.string_base = some pool) (hd : file.dsymtab = some d) (htoc : d.tocoff = 0)
    (hsorted : ∀ i j, i < j → j < d.nextdefsym →
      strcmp (sym_name pool file.symbol_base (d.iextdefsym + i))
        (sym_name pool file.symbol_base (d.iextdefsym + j)) < 0) :
    (∀ i, i < d.nextdefsym → sym_name pool file.symbol_base (d.iextdefsym + i) = name →
      mach_file_find_symbol file name =
        (LOADER_SUCCESS,
          some (u32 ((file.symbol_base (d.iextdefsym + i)).n_value + file.loader_bias)))) ∧
    ((∀ i, i < d.nextdefsym → sym_name pool file.symbol_base (d.iextdefsym + i) ≠ name) →
      mach_file_find_symbol file name = (LOADER_SYMBOL_NOT_FOUND, none)) := by
  have hspec := binary_search_spec name pool
    (fun k => file.symbol_base (d.iextdefsym + k)) d.nextdefsym hsorted
  have hunfold : mach_file_find_symbol file name =
      match binary_search name pool (fun k => file.symbol_base (d.iextdefsym + k))
          d.nextdefsym with
      | none => (LOADER_SYMBOL_NOT_FOUND, none)
      | some i =>
        (LOADER_SUCCESS,
          some (u32 ((file.symbol_base (d.iextdefsym + i)).n_value + file.loader_bias))) := by
    unfold mach_file_find_symbol
    rw [if_neg (by rw [hexec]; exact fun h => h rfl), hd]
    dsimp only
    rw [hstr, hsym]
    dsimp only
    rw [if_pos htoc]
  constructor
  · intro i hi hname
    obtain ⟨r, hr, hrlt, hrname⟩ := hspec.1 ⟨i, hi, hname⟩
    have hri : r = i := by
      rcases Nat.lt_trichotomy r i with hlt | heq | hgt
      · have := hsorted r i hlt hi
        change sym_name pool file.symbol_base (d.iextdefsym + r) = name at hrname
        rw [hrname, hname, strcmp_self] at this
        omega
      · exact heq
      · have := hsorted i r hgt hrlt
        change sym_name pool file.symbol_base (d.iextdefsym + r) = name at hrname
        rw [hrname, hname, strcmp_self] at this
        omega
    rw [hunfold, hr, hri]
  · intro hno
    rw [hunfold, hspec.2 (by
      rintro ⟨i, hi, hname⟩
      exact hno i hi hname)]

/-- C5 (witness, scenario S5). With the external definitions `_a`, `_m`, `_z` and
`loader_bias = 0x1000`, the lookup of `_m` stores `0x200 + 0x1000` and the lookup of `_q`
returns `LOADER_SYMBOL_NOT_FOUND` and stores nothing. -/
theorem mach_file_find_symbol_s5 :
    mach_file_find_symbol s5_file [95, 109] = (LOADER_SUCCESS, some 0x1200) ∧
    mach_file_find_symbol s5_file [95, 113] = (LOADER_SYMBOL_NOT_FOUND, none) :=
  ⟨(mach_file_find_symbol_correct s5_file [95, 109] _ s5_pool _ rfl rfl rfl rfl rfl
      (by
        intro i j hij hj
        change j < 3 at hj
        interval_cases j <;> interval_cases i <;> decide)).1 1 (by decide) (by decide),
   (mach_file_find_symbol_correct s5_file [95, 113] _ s5_pool _ rfl rfl rfl rfl rfl
      (by
        intro i j hij hj
        change j < 3 at hj
        interval_cases j <;> interval_cases i <;> decide)).2 (by
          intro i hi
          change i < 3 at hi
          interval_cases i <;> decide)⟩

/-! ## The kernel command -/

theorem mach_file_vmsize_loop_execute (cmds : List load_command) (sc seg_count : Nat)
    (has_symtab : Bool) (hsc : sc < 4294967296) :
    ∃ n b, mach_file_vmsize_loop MH_EXECUTE cmds sc seg_count has_symtab =
      Sum.inr (u32 (sc + segments_vmsize cmds), n, b) := by
  induction cmds generalizing sc seg_count has_symtab with
  | nil => exact ⟨seg_count, has_symtab, by simp [mach_file_vmsize_loop, segments_vmsize, u32_of_lt hsc]⟩
  | cons lc rest ih =>
    cases lc with
    | LC_SEGMENT cmd =>
      simp only [mach_file_vmsize_loop, segments_vmsize, if_true]
      obtain ⟨n, b, h⟩ := ih (u32 (sc + cmd.vmsize)) seg_count has_symtab (u32_lt _)
      refine ⟨n, b, ?_⟩
      rw [h]
      congr 2
      unfold u32
      omega
    | LC_SYMTAB cmd =>
      simp only [mach_file_vmsize_loop, segments_vmsize]
      exact ih sc seg_count true hsc
    | LC_UNIXTHREAD pc =>
      simp only [mach_file_vmsize_loop, segments_vmsize]
      exact ih sc seg_count has_symtab hsc
    | LC_DYSYMTAB cmd =>
      simp only [mach_file_vmsize_loop, segments_vmsize]
      exact ih sc seg_count has_symtab hsc
    | LC_DYLD_INFO =>
      simp only [mach_file_vmsize_loop, segments_vmsize]
      exact ih sc seg_count has_symtab hsc
    | LC_DYLD_INFO_ONLY =>
      simp only [mach_file_vmsize_loop, segments_vmsize]
      exact ih sc seg_count has_symtab hsc
    | LC_OTHER c =>
      simp only [mach_file_vmsize_loop, segments_vmsize]
      exact ih sc seg_count has_symtab hsc

theorem mach_file_vmsize_execute (file : mach_loader_context_t)
    (h : file.filetype = MH_EXECUTE) :
    mach_file_vmsize file = (LOADER_SUCCESS, some (u32 (segments_vmsize file.head.cmds))) := by
  unfold mach_file_vmsize
  rw [h]
  obtain ⟨n, b, hl⟩ := mach_file_vmsize_loop_execute file.head.cmds 0 0 false (by norm_num)
  rw [hl]
  simp [MH_EXECUTE, MH_OBJECT]

theorem decoded_map_lc_entry (load_addr : Nat) (lc : load_command) (s s1 : map_state)
    (h : decoded_map_lc load_addr lc s = Sum.inr s1) :
    s1.file.entry_point = (last_unixthread_pc [lc]).getD s.file.entry_point := by
  unfold decoded_map_lc at h
  cases lc <;> dsimp only at h
  · split_ifs at h <;> (injection h with h; subst h; rfl)
  all_goals first | (injection h with h; subst h; rfl) | cases h

theorem last_unixthread_pc_cons (lc : load_command) (rest : List load_command) (d : Nat) :
    (last_unixthread_pc (lc :: rest)).getD d =
      (last_unixthread_pc rest).getD ((last_unixthread_pc [lc]).getD d) := by
  cases lc <;> simp only [last_unixthread_pc, Option.getD_none]
  cases last_unixthread_pc rest <;> rfl

theorem decoded_map_loop_entry (load_addr : Nat) (cmds : List load_command)
    (s s1 : map_state) (h : decoded_map_loop load_addr cmds s = Sum.inr s1) :
    s1.file.entry_point = (last_unixthread_pc cmds).getD s.file.entry_point := by
  induction cmds generalizing s with
  | nil =>
    simp only [decoded_map_loop] at h
    injection h with h
    subst h
    rfl
  | cons lc rest ih =>
    simp only [decoded_map_loop] at h
    cases hlc : decoded_map_lc load_addr lc s with
    | inl r => rw [hlc] at h; cases h
    | inr s2 =>
      rw [hlc] at h
      rw [ih s2 h, decoded_map_lc_entry load_addr lc s s2 hlc]
      exact (last_unixthread_pc_cons lc rest _).symm

theorem mach_file_map_lc_codes (rd : macho_reader) (load_addr lcp : Nat) (s : map_state) :
    (∀ s1, mach_file_map_lc rd load_addr lcp s = Sum.inr s1 →
      s1.file.filetype = s.file.filetype) ∧
    (∀ r, mach_file_map_lc rd load_addr lcp s = Sum.inl r → r.1 ≠ LOADER_SUCCESS) := by
  unfold mach_file_map_lc
  cases rd.lc s.mem lcp <;> dsimp only
  · constructor
    · intro s1 h
      split_ifs at h <;> (injection h with h; subst h; rfl)
    · intro r h
      split_ifs at h <;> (injection h with h; subst h; intro hh; cases hh)
  all_goals
    constructor
    · intro s1 h
      first | (injection h with h; subst h; rfl) | cases h
    · intro r h
      first | (injection h with h; subst h; intro hh; cases hh) | cases h

theorem mach_file_map_loop_codes (rd : macho_reader) (head load_addr : Nat) :
    ∀ (fuel i lcp : Nat) (s : map_state),
      (∀ s1, mach_file_map_loop rd head load_addr fuel i lcp s = Sum.inr s1 →
        s1.file.filetype = s.file.filetype) ∧
      (∀ r, mach_file_map_loop rd head load_addr fuel i lcp s = Sum.inl r →
        r.1 ≠ LOADER_SUCCESS) := by
  intro fuel
  induction fuel with
  | zero =>
    intro i lcp s
    rw [mach_file_map_loop]
    exact ⟨fun s1 h => by injection h with h; subst h; rfl, fun r h => by cases h⟩
  | succ n ih =>
    intro i lcp s
    rw [mach_file_map_loop]
    split_ifs
    · obtain ⟨c1, c2⟩ := mach_file_map_lc_codes rd load_addr lcp s
      cases hlc : mach_file_map_lc rd load_addr lcp s with
      | inl r =>
        show (∀ s1, Sum.inl r = Sum.inr s1 → _) ∧ (∀ r1, Sum.inl r = Sum.inl r1 → _)
        exact ⟨fun s1 h => (by cases h), fun r1 h => (by injection h with h; subst h; exact c2 r hlc)⟩
      | inr s2 =>
        dsimp only
        obtain ⟨d1, d2⟩ := ih (i + 1) (add_ptr2 lcp (rd.cmdsize s2.mem lcp)) s2
        exact ⟨fun s1 h => (d1 s1 h).trans (c1 s2 hlc), d2⟩
    · exact ⟨fun s1 h => by injection h with h; subst h; rfl, fun r h => by cases h⟩

/-- Whatever the mapping writes, a successful `mach_file_map` leaves the file type of
the context as it was. -/
theorem mach_file_map_filetype (rd : macho_reader) (file : mach_loader_context_t)
    (load_addr vmsize : Nat) (m : Mem)
    (h : (mach_file_map rd file load_addr vmsize m).1 = LOADER_SUCCESS) :
    (mach_file_map rd file load_addr vmsize m).2.1.filetype = file.filetype := by
  obtain ⟨c1, c2⟩ := mach_file_map_loop_codes rd file.file load_addr 4294967296 0
    (rd.first_lc file.file) { file := file, seg_count := 0, mem := m }
  unfold mach_file_map at h ⊢
  cases hl : mach_file_map_loop rd file.file load_addr 4294967296 0 (rd.first_lc file.file)
      { file := file, seg_count := 0, mem := m } with
  | inl r =>
    rw [hl] at h
    exact absurd h (c2 r hl)
  | inr s1 =>
    exact c1 s1 hl

theorem load_macho_success (env : Env) (m : Mem) (image_address load_bias load_address : Nat)
    (entry_point size : Nat) (m1 : Mem)
    (h : load_macho env m image_address load_bias load_address = (some (entry_point, size), m1)) :
    size = u32 (segments_vmsize (env.mach_header_at m image_address).cmds) ∧
    (commands_kept env.reader image_address m
        (map_writes MH_EXECUTE load_bias load_address
          (env.mach_header_at m image_address).cmds) →
      entry_point = (last_unixthread_pc (env.mach_header_at m image_address).cmds).getD
        env.stack_context.entry_point) := by
  unfold load_macho at h
  have hdef : env.mach_header_at m image_address = read_header env.reader m image_address := rfl
  generalize hhead : env.mach_header_at m image_address = head at h hdef ⊢
  unfold mach_file_init at h
  by_cases hmagic : head.magic ≠ MH_MAGIC
  · rw [if_pos hmagic] at h
    cases h
  · rw [if_neg hmagic] at h
    by_cases htype : head.filetype ≠ MH_EXECUTE ∧ head.filetype ≠ MH_OBJECT
    · rw [if_pos htype] at h
      cases h
    · rw [if_neg htype] at h
      dsimp only at h
      by_cases hexec : head.filetype = MH_EXECUTE
      · rw [mach_file_vmsize_execute _ hexec] at h
        dsimp only [Option.getD_some] at h
        have hft := mach_file_map_filetype env.reader
            (mach_file_set_vm_bias
              { env.stack_context with filetype := head.filetype, file := image_address,
                                       head := head, vm_bias := 0, is_prelinked := false }
              load_bias)
            load_address (u32 (segments_vmsize head.cmds)) m
        have hkeptmap := mach_file_map_kept env.reader
            (mach_file_set_vm_bias
              { env.stack_context with filetype := head.filetype, file := image_address,
                                       head := head, vm_bias := 0, is_prelinked := false }
              load_bias)
            load_address (u32 (segments_vmsize head.cmds)) m
        cases hmap : mach_file_map env.reader
            (mach_file_set_vm_bias
              { env.stack_context with filetype := head.filetype, file := image_address,
                                       head := head, vm_bias := 0, is_prelinked := false }
              load_bias)
            load_address (u32 (segments_vmsize head.cmds)) m with
        | mk ret rest =>
          obtain ⟨ctx3, m2⟩ := rest
          rw [hmap] at h hft hkeptmap
          cases ret <;> try (cases h)
          dsimp only at h hft
          have hft3 : ctx3.filetype = MH_EXECUTE := (hft rfl).trans hexec
          unfold mach_file_get_entry_point at h
          rw [if_neg (by rw [hft3]; exact fun hh => hh rfl)] at h
          injection h with h1 h2
          injection h1 with h1
          injection h1 with h1 h3
          refine ⟨h3.symm, ?_⟩
          intro hkept
          have heq := (hkeptmap _ (by
            dsimp only [mach_file_set_vm_bias]
            rw [← hdef, hexec]
            exact hkept) (fun _ hw => hw)).2.2.2 hexec
          dsimp only [mach_file_set_vm_bias] at heq
          rw [← hdef] at heq
          obtain ⟨s, hloop, hmap2⟩ := decoded_map_success _ _ _ _ _
            (show (decoded_map head.cmds _ load_address (u32 (segments_vmsize head.cmds)) m).1 =
              LOADER_SUCCESS by rw [← heq])
          rw [← heq] at hmap2
          injection hmap2 with _ hmap2
          injection hmap2 with hctx _
          have hentry := decoded_map_loop_entry _ _ _ _ hloop
          rw [← h1, hctx]
          dsimp only
          rw [hentry]
      · exfalso
        cases hv : mach_file_vmsize
            { env.stack_context with filetype := head.filetype, file := image_address,
                                     head := head, vm_bias := 0, is_prelinked := false } with
        | mk ret sz =>
          rw [hv] at h
          cases ret <;> try (cases h)
          dsimp only at h
          have hft := mach_file_map_filetype env.reader
              (mach_file_set_vm_bias
                { env.stack_context with filetype := head.filetype, file := image_address,
                                         head := head, vm_bias := 0, is_prelinked := false }
                load_bias)
              load_address (sz.getD 0) m
          cases hmap : mach_file_map env.reader
              (mach_file_set_vm_bias
                { env.stack_context with filetype := head.filetype, file := image_address,
                                         head := head, vm_bias := 0, is_prelinked := false }
                load_bias)
              load_address (sz.getD 0) m with
          | mk ret rest =>
            obtain ⟨ctx3, m2⟩ := rest
            rw [hmap] at h hft
            cases ret <;> try (cases h)
            dsimp only at h hft
            unfold mach_file_get_entry_point at h
            have hft3 : ctx3.filetype ≠ MH_EXECUTE := by
              rw [hft rfl]
              exact hexec
            rw [if_pos hft3] at h
            cases h

theorem command_load_address_sanitized (m : Mem) (command : Nat) :
    command_load_address (fun a => if a = command + 24 + (NAME_LEN - 1) then 0 else m a) command =
      command_load_address m command := by
  unfold command_load_address read32 NAME_LEN
  have h0 : command + 16 ≠ command + 24 + (64 - 1) := by omega
  have h1 : command + 16 + 1 ≠ command + 24 + (64 - 1) := by omega
  have h2 : command + 16 + 2 ≠ command + 24 + (64 - 1) := by omega
  have h3 : command + 16 + 3 ≠ command + 24 + (64 - 1) := by omega
  simp only [if_neg h0, if_neg h1, if_neg h2, if_neg h3]

theorem load_macho_setup_kernel (env : Env) (command flags : Nat) (s s1 : machine)
    (hk : flags &&& kMachKernel ≠ 0)
    (h : load_macho_setup env command flags s = Sum.inr s1) :
    s1.g.gKernelMemoryTop = u32 (env.dram_start + (command_load_address s.mem command &&& 0xfffff)) ∧
    s1.g.gKernelVirtualBase = command_load_address s.mem command &&& 0xfff00000 ∧
    s1.g.gKernelPhysicalBase = env.dram_start := by
  unfold load_macho_setup at h
  dsimp only at h
  rw [if_pos hk] at h
  split_ifs at h with h1 h2 h3 <;>
    (injection h with h; subst h; dsimp only
     first
     | exact ⟨rfl, rfl, rfl⟩
     | (rw [command_load_address_sanitized]; exact ⟨rfl, rfl, rfl⟩))

theorem read32_name_terminated (m : Mem) (command off : Nat) (h : off + 3 < 87) :
    read32 (name_terminated m command) (command + off) = read32 m (command + off) := by
  unfold read32 name_terminated
  have h0 : command + off ≠ command + 24 + 63 := by omega
  have h1 : command + off + 1 ≠ command + 24 + 63 := by omega
  have h2 : command + off + 2 ≠ command + 24 + 63 := by omega
  have h3 : command + off + 3 ≠ command + 24 + 63 := by omega
  simp only [if_neg h0, if_neg h1, if_neg h2, if_neg h3]

theorem load_macho_setup_mem (env : Env) (command flags : Nat) (s s1 : machine)
    (h : load_macho_setup env command flags s = Sum.inr s1) :
    s1.mem = name_terminated s.mem command := by
  have hs0 : (if s.mem (command + 24 + (NAME_LEN - 1)) % 256 ≠ 0 then
        ({ s with mem := fun a => if a = command + 24 + (NAME_LEN - 1) then 0 else s.mem a } :
          machine)
      else s).mem = name_terminated s.mem command := by
    funext a
    unfold name_terminated NAME_LEN
    by_cases hn : s.mem (command + 24 + (64 - 1)) % 256 ≠ 0
    · rw [if_pos hn]
      dsimp only
      by_cases ha : a = command + 24 + 63
      · subst ha
        rw [if_pos rfl, if_pos rfl, if_pos hn]
      · rw [if_neg ha, if_neg ha]
    · rw [if_neg hn]
      by_cases ha : a = command + 24 + 63
      · subst ha
        rw [if_pos rfl, if_neg hn]
      · rw [if_neg ha]
  unfold load_macho_setup at h
  dsimp only at h
  rw [← hs0]
  split_ifs at h ⊢ <;> (injection h with h; subst h; rfl)

theorem and_or_eq_zero (x a b : Nat) : x &&& (a ||| b) = 0 ↔ x &&& a = 0 ∧ x &&& b = 0 := by
  rw [Nat.and_or_distrib_left]
  constructor
  · intro h
    constructor
    · apply Nat.eq_of_testBit_eq
      intro i
      have := congrArg (fun n => n.testBit i) h
      simp only [Nat.testBit_or, Nat.zero_testBit, Bool.or_eq_false_iff] at this
      simpa using this.1
    · apply Nat.eq_of_testBit_eq
      intro i
      have := congrArg (fun n => n.testBit i) h
      simp only [Nat.testBit_or, Nat.zero_testBit, Bool.or_eq_false_iff] at this
      simpa using this.2
  · rintro ⟨h1, h2⟩
    rw [h1, h2]
    rfl

/-- The image that the Mach-O loader receives from a kernel command is the one that the
spec describes: the payload, or its decompressed copy past the destination. -/
theorem load_macho_decompress_kernel_image (env : Env) (command : Nat) (s s1 : machine)
    (image_address1 image_size : Nat) (m1 : Mem)
    (hk : command_flags s.mem command &&& kMachKernel ≠ 0)
    (hd : command_flags s.mem command &&& kMachDriver = 0)
    (hsetup : load_macho_setup env command (command_flags s.mem command) s = Sum.inr s1)
    (hdec : load_macho_decompress env command (command_flags s.mem command)
      (u32 (command + sizeof_command_macho_t))
      (sub32 (command_size s.mem command) sizeof_command_macho_t) s1.g.gKernelMemoryTop
      s1.mem = Sum.inr (image_address1, image_size, m1)) :
    kernel_image env command s = (image_address1, m1) := by
  have hmem := load_macho_setup_mem env command _ s s1 hsetup
  obtain ⟨htop, _, _⟩ := load_macho_setup_kernel env command _ s s1 hk hsetup
  have hds : command_decomp_size (name_terminated s.mem command) command =
      command_decomp_size s.mem command := by
    unfold command_decomp_size
    exact read32_name_terminated s.mem command 8 (by omega)
  have hd1 : ¬ command_flags s.mem command &&& kMachDriver ≠ 0 := fun h => h hd
  unfold load_macho_decompress at hdec
  unfold kernel_image
  rw [hmem, htop] at hdec
  simp only [hds, if_neg hd1] at hdec
  unfold sizeof_command_macho_t at hdec
  unfold kCommandMachOFlags_CompressedLZSS kCommandMachOFlags_CompressedQLZ at hdec
  by_cases hL : command_flags s.mem command &&& 0x100 ≠ 0
  · have hany : command_flags s.mem command &&& (0x100 ||| 0x400) ≠ 0 := by
      intro h0
      exact hL ((and_or_eq_zero _ _ _).1 h0).1
    rw [if_pos hany, if_pos hL] at hdec
    rw [if_pos hL]
    have hdec := Sum.inr.inj hdec
    have h1 := (Prod.mk.inj hdec).1
    have h3 := (Prod.mk.inj (Prod.mk.inj hdec).2).2
    rw [← h1, ← h3]
  · by_cases hQ : command_flags s.mem command &&& 0x400 ≠ 0
    · have hany : command_flags s.mem command &&& (0x100 ||| 0x400) ≠ 0 := by
        intro h0
        exact hQ ((and_or_eq_zero _ _ _).1 h0).2
      rw [if_pos hany, if_neg hL, if_pos hQ] at hdec
      rw [if_neg hL, if_pos hQ]
      split_ifs at hdec
      have hdec := Sum.inr.inj hdec
      have h1 := (Prod.mk.inj hdec).1
      have h3 := (Prod.mk.inj (Prod.mk.inj hdec).2).2
      rw [← h1, ← h3]
    · have hnone : ¬ command_flags s.mem command &&& (0x100 ||| 0x400) ≠ 0 := by
        intro h0
        apply h0
        rw [and_or_eq_zero]
        exact ⟨not_not.1 hL, not_not.1 hQ⟩
      rw [if_neg hnone] at hdec
      rw [if_neg hL, if_neg hQ]
      have hdec := Sum.inr.inj hdec
      have h1 := (Prod.mk.inj hdec).1
      have h3 := (Prod.mk.inj (Prod.mk.inj hdec).2).2
      rw [← h1, ← h3]

/-- C6 (as amended). A successful command with the kernel flag set and the driver flag
clear, with load address `L`, on a board whose first DRAM bank starts at `D`, leaves
`gKernelVirtualBase = L & ~0xfffff`, `gKernelPhysicalBase = D`,
`gKernelMemoryRange = {D + (L & 0xfffff), sum of the vmsize of the segments}` and
`gKernelMemoryTop` the range base plus the size rounded up to `0x1000`; all values are
32-bit words. The segments are those of the image that the spec describes
(`kernel_image`): the payload that follows the command, or its decompressed copy. When
no write of the mapping reaches the header or the load commands of that image,
`gKernelEntryPoint` is the program counter of its last `LC_UNIXTHREAD`. -/
theorem load_macho_from_command_kernel (env : Env) (command : Nat) (s : machine)
    (hk : command_flags s.mem command &&& kMachKernel ≠ 0)
    (hd : command_flags s.mem command &&& kMachDriver = 0)
    (hret : (load_macho_from_command env command s).1 = 0) :
    (load_macho_from_command env command s).2.g.gKernelVirtualBase =
      command_load_address s.mem command &&& 0xfff00000 ∧
    (load_macho_from_command env command s).2.g.gKernelPhysicalBase = env.dram_start ∧
    (load_macho_from_command env command s).2.g.gKernelMemoryRange =
      { base := u32 (env.dram_start + (command_load_address s.mem command &&& 0xfffff))
        size := u32 (segments_vmsize
          (env.mach_header_at (kernel_image env command s).2
            (kernel_image env command s).1).cmds) } ∧
    (load_macho_from_command env command s).2.g.gKernelMemoryTop =
      u32 ((load_macho_from_command env command s).2.g.gKernelMemoryRange.base +
        align_up (load_macho_from_command env command s).2.g.gKernelMemoryRange.size 0x1000) ∧
    (commands_kept env.reader (kernel_image env command s).1 (kernel_image env command s).2
        (map_writes MH_EXECUTE (command_load_address (kernel_image env command s).2 command)
          (u32 (env.dram_start + (command_load_address s.mem command &&& 0xfffff)))
          (env.mach_header_at (kernel_image env command s).2
            (kernel_image env command s).1).cmds) →
      ∀ pc, last_unixthread_pc
          (env.mach_header_at (kernel_image env command s).2
            (kernel_image env command s).1).cmds = some pc →
        (load_macho_from_command env command s).2.g.gKernelEntryPoint = pc) := by
  unfold load_macho_from_command at *
  dsimp only at hret ⊢
  have hd1 : ¬ command_flags s.mem command &&& kMachDriver ≠ 0 := fun h => h hd
  cases hsetup : load_macho_setup env command (command_flags s.mem command) s with
  | inl r =>
    exfalso
    rw [hsetup] at hret
    dsimp only at hret
    unfold load_macho_setup at hsetup
    dsimp only at hsetup
    rw [if_pos hk] at hsetup
    split_ifs at hsetup <;> (injection hsetup with hsetup; subst hsetup; cases hret)
  | inr s1 =>
    rw [hsetup] at hret
    dsimp only at hret ⊢
    rw [if_neg hd1] at hret ⊢
    obtain ⟨htop, hvirt, hphys⟩ := load_macho_setup_kernel env command _ s s1 hk hsetup
    cases hdec : load_macho_decompress env command (command_flags s.mem command)
        (u32 (command + sizeof_command_macho_t))
        (sub32 (command_size s.mem command) sizeof_command_macho_t) s1.g.gKernelMemoryTop
        s1.mem with
    | inl m1 =>
      rw [hdec] at hret
      cases hret
    | inr r =>
      obtain ⟨image_address1, image_size, m1⟩ := r
      have hki := load_macho_decompress_kernel_image env command s s1 image_address1 image_size
        m1 hk hd hsetup hdec
      rw [hki]
      rw [hdec] at hret
      dsimp only at hret ⊢
      rw [if_neg hd1, if_pos hk] at hret ⊢
      unfold load_macho_kernel at hret ⊢
      dsimp only at hret ⊢
      cases hload : load_macho env m1 image_address1 (command_load_address m1 command)
          s1.g.gKernelMemoryTop with
      | mk res m2 =>
        rw [hload] at hret
        cases res with
        | none => cases hret
        | some es =>
          obtain ⟨entry_point, size⟩ := es
          obtain ⟨hsize, hentry⟩ := load_macho_success env m1 image_address1 _ _ _ _ _ hload
          dsimp only [increment_kernel_memory]
          refine ⟨hvirt, hphys, ?_, rfl, ?_⟩
          · rw [htop, hsize]
          · intro hkept pc hpc
            rw [htop] at hentry
            rw [hentry hkept, hpc]
            rfl

theorem s1_done_zero : ∀ i, i < 0xe00 → s1_done.mem (0x20001200 + i) = 0 := by
  decide!

/-- C6 (witness, scenario S1). The kernel command of S1 (`L = 0x80001000`, one segment
of `vmsize = 0x1000` and `filesize = 0x200`, `PC = 0x80001040`) on a board with DRAM at
`0x20000000`: its image is the payload at `0x10000060`, which the mapping at
`0x20001000` does not reach; the range size is `0x1000`, the entry point is
`0x80001040`, the destination bytes `0x200 .. 0xFFF` are zero and the memory pointer has
advanced by `0x1000`, alone or inside the table of contents of S1. -/
theorem load_macho_from_command_kernel_s1 :
    (kernel_image s1_env 0x10000008 s1_start).1 = 0x10000060 ∧
    ((load_macho_from_command s1_env 0x10000008 s1_start).2.g.gKernelVirtualBase =
        command_load_address s1_start.mem 0x10000008 &&& 0xfff00000 ∧
      (load_macho_from_command s1_env 0x10000008 s1_start).2.g.gKernelPhysicalBase =
        s1_env.dram_start ∧
      (load_macho_from_command s1_env 0x10000008 s1_start).2.g.gKernelMemoryRange =
        { base := u32 (s1_env.dram_start +
            (command_load_address s1_start.mem 0x10000008 &&& 0xfffff))
          size := u32 (segments_vmsize
            (s1_env.mach_header_at (kernel_image s1_env 0x10000008 s1_start).2
              (kernel_image s1_env 0x10000008 s1_start).1).cmds) } ∧
      (load_macho_from_command s1_env 0x10000008 s1_start).2.g.gKernelMemoryTop =
        u32 ((load_macho_from_command s1_env 0x10000008 s1_start).2.g.gKernelMemoryRange.base +
          align_up
            (load_macho_from_command s1_env 0x10000008 s1_start).2.g.gKernelMemoryRange.size
            0x1000) ∧
      (load_macho_from_command s1_env 0x10000008 s1_start).2.g.gKernelEntryPoint =
        0x80001040) ∧
    (load_general_image s1_env 0x10000000 s1_start).1 = 0 ∧
    s1_done.g = (load_macho_from_command s1_env 0x10000008 s1_start).2.g ∧
    s1_done.g.gKernelMemoryRange = { base := 0x20001000, size := 0x1000 } ∧
    s1_done.g.gKernelEntryPoint = 0x80001040 ∧
    s1_done.g.gKernelVirtualBase = 0x80000000 ∧
    s1_done.g.gKernelPhysicalBase = 0x20000000 ∧
    s1_done.g.gKernelMemoryTop = 0x20001000 + 0x1000 ∧
    (∀ i, 0x200 ≤ i → i < 0x1000 → s1_done.mem (0x20001000 + i) = 0) :=
  have h := load_macho_from_command_kernel s1_env 0x10000008 s1_start (by decide!) (by decide!)
    (by decide!)
  ⟨by decide!,
   ⟨h.1, h.2.1, h.2.2.1, h.2.2.2.1,
    h.2.2.2.2 (image_reader_kept _ _ _ _ _) 0x80001040 (by decide!)⟩,
   by decide!, by decide!, by decide!, by decide!, by decide!, by decide!, by decide!,
   by
    intro i h1 h2
    have h := s1_done_zero (i - 0x200) (by omega)
    have e : 0x20001200 + (i - 0x200) = 0x20001000 + i := by omega
    rw [e] at h
    exact h⟩

/-- C6 (as stated, refuted). The command at `0x16000000` carries the kernel flag `0x002`
together with the driver flag `0x001`. Handed over at start-up it returns zero, having
set the bases and the memory pointer of a kernel command and then taken the driver
branch: one driver is recorded, `gKernelMemoryRange` is left null instead of starting at
`D + (L & 0xfffff) = 0x20001000`, and no entry point is set. -/
theorem kernel_flag_with_driver_flag :
    command_flags c6_state.mem 0x16000000 = 0x003 ∧
    command_flags c6_state.mem 0x16000000 &&& kMachKernel ≠ 0 ∧
    (load_macho_from_command s1_env 0x16000000 c6_state).1 = 0 ∧
    u32 (s1_env.dram_start + (command_load_address c6_state.mem 0x16000000 &&& 0xfffff)) =
      0x20001000 ∧
    (load_macho_from_command s1_env 0x16000000 c6_state).2.g.gKernelMemoryRange =
      { base := 0, size := 0 } ∧
    (load_macho_from_command s1_env 0x16000000 c6_state).2.g.gKernelEntryPoint = 0 ∧
    (load_macho_from_command s1_env 0x16000000 c6_state).2.g.gLoadedDriverImages.length = 1 ∧
    (load_macho_from_command s1_env 0x16000000 c6_state).2.g.gKernelMemoryTop = 0x20002000 := by
  decide!

/-! ## Scenario S2 -/

theorem load_macho_setup_drivers (env : Env) (command flags : Nat) (s : machine) :
    (∀ r, load_macho_setup env command flags s = Sum.inl r →
      r.2.g.gLoadedDriverImages = s.g.gLoadedDriverImages ∨ r.2.g.gLoadedDriverImages = []) ∧
    (∀ s1, load_macho_setup env command flags s = Sum.inr s1 →
      s1.g.gLoadedDriverImages = s.g.gLoadedDriverImages ∨ s1.g.gLoadedDriverImages = []) := by
  unfold load_macho_setup
  dsimp only
  constructor
  · intro r h
    split_ifs at h <;>
      (injection h with h; subst h; first | exact Or.inl rfl | exact Or.inr rfl)
  · intro s1 h
    split_ifs at h <;>
      (injection h with h; subst h; first | exact Or.inl rfl | exact Or.inr rfl)

/-- A Mach-O command without the driver flag, whatever its image and its other flags,
records no driver: the driver list is left as it was or emptied by the teardown. -/
theorem load_macho_from_command_no_driver (env : Env) (command : Nat) (s : machine)
    (hd : command_flags s.mem command &&& kMachDriver = 0) :
    (load_macho_from_command env command s).2.g.gLoadedDriverImages = s.g.gLoadedDriverImages ∨
    (load_macho_from_command env command s).2.g.gLoadedDriverImages = [] := by
  unfold load_macho_from_command
  dsimp only
  obtain ⟨hl, hr⟩ := load_macho_setup_drivers env command (command_flags s.mem command) s
  cases hsetup : load_macho_setup env command (command_flags s.mem command) s with
  | inl r => exact hl r hsetup
  | inr s1 =>
    dsimp only
    have hg := hr s1 hsetup
    rw [if_neg (fun h => h hd)]
    cases hdec : load_macho_decompress env command (command_flags s.mem command)
        (u32 (command + sizeof_command_macho_t))
        (sub32 (command_size s.mem command) sizeof_command_macho_t) s1.g.gKernelMemoryTop
        s1.mem with
    | inl m1 => exact hg
    | inr r =>
      obtain ⟨image_address1, image_size, m1⟩ := r
      dsimp only
      rw [if_neg (fun h => h hd)]
      split_ifs
      · unfold load_macho_kernel
        dsimp only
        cases hload : load_macho env m1 image_address1 (command_load_address m1 command)
            s1.g.gKernelMemoryTop with
        | mk res m2 =>
          cases res with
          | none => exact hg
          | some es => exact hg
      · exact hg

/-- C7 (counterexample). The command of S2 as stated, with `flags = 0x202`, carries the
kernel bit `0x002` and not the driver bit `0x001`: handed over after S1 it is taken as a
kernel, the loaded kernel is torn down, the command fails and no driver is recorded. -/
theorem s2_as_stated_is_no_driver :
    command_flags s1_done.mem 0x11000000 = 0x202 ∧
    command_info_offset s1_done.mem 0x11000000 = 0x400 ∧
    (command_name s1_done.mem 0x11000000).take 9 = [70, 111, 111, 46, 107, 101, 120, 116, 0] ∧
    sub32 (command_size s1_done.mem 0x11000000) sizeof_command_macho_t = 0x600 ∧
    0x202 &&& kMachDriver = 0 ∧
    (load_general_image s1_env 0x11000000 s1_done).1 = 1 ∧
    (load_general_image s1_env 0x11000000 s1_done).2.g.gLoadedDriverImages = [] ∧
    (load_general_image s1_env 0x11000000 s1_done).2.g.gKernelMemoryRange =
      { base := 0, size := 0 } := by
  decide!

/-- C7 (as amended). After the kernel of S1 is loaded, a Mach-O command with
`flags = 0x201`, name `Foo.kext`, `info_offset = 0x400` and an uncompressed image of
`0x600` bytes is accepted as a driver: the driver list is that one entry, with
`range.size = 0x700`, `has_exec = true` and `info_offset = 0x400`, placed at the old
`gKernelMemoryTop`, which has advanced by `0x1000`. -/
theorem s2_driver_after_kernel :
    command_flags s1_done.mem 0x12000000 = 0x201 ∧
    command_info_offset s1_done.mem 0x12000000 = 0x400 ∧
    sub32 (command_size s1_done.mem 0x12000000) sizeof_command_macho_t = 0x600 ∧
    (load_general_image s1_env 0x12000000 s1_done).1 = 0 ∧
    (load_general_image s1_env 0x12000000 s1_done).2.g.gLoadedDriverImages.map
        (fun d => (d.range, d.has_exec, d.info_offset, d.name.take 9)) =
      [({ base := s1_done.g.gKernelMemoryTop, size := 0x700 }, true, 0x400,
        [70, 111, 111, 46, 107, 101, 120, 116, 0])] ∧
    (load_general_image s1_env 0x12000000 s1_done).2.g.gKernelMemoryTop =
      s1_done.g.gKernelMemoryTop + 0x1000 := by
  decide!

/-! ## Failed commands -/

theorem load_macho_setup_other (env : Env) (command flags : Nat) (s : machine)
    (hk : flags &&& kMachKernel = 0) :
    (∀ r, load_macho_setup env command flags s = Sum.inl r → r.2.g = s.g) ∧
    (∀ s1, load_macho_setup env command flags s = Sum.inr s1 → s1.g = s.g) := by
  unfold load_macho_setup
  dsimp only
  rw [if_neg (fun h => h hk)]
  constructor
  · intro r h
    split_ifs at h <;> (injection h with h; subst h; rfl)
  · intro s1 h
    split_ifs at h <;> (injection h with h; subst h; rfl)

theorem load_macho_driver_failed (command flags image_address image_size raw_image_dest : Nat)
    (is_compressed : Bool) (s : machine)
    (h : (load_macho_driver command flags image_address image_size raw_image_dest is_compressed
      s).1 ≠ 0) :
    (load_macho_driver command flags image_address image_size raw_image_dest is_compressed
      s).2.g = s.g := by
  unfold load_macho_driver at h ⊢
  dsimp only at h ⊢
  split_ifs at h ⊢ <;> first | rfl | exact absurd rfl h

theorem load_macho_from_command_failed (env : Env) (command : Nat) (s : machine)
    (hk : command_flags s.mem command &&& kMachKernel = 0)
    (hret : (load_macho_from_command env command s).1 ≠ 0) :
    (load_macho_from_command env command s).2.g = s.g := by
  unfold load_macho_from_command at hret ⊢
  dsimp only at hret ⊢
  obtain ⟨hl, hr⟩ := load_macho_setup_other env command _ s hk
  cases hsetup : load_macho_setup env command (command_flags s.mem command) s with
  | inl r => exact hl r hsetup
  | inr s1 =>
    rw [hsetup] at hret
    dsimp only at hret ⊢
    have hg := hr s1 hsetup
    generalize (if command_flags s.mem command &&& kMachDriver ≠ 0 then
        u32 (s1.g.gKernelMemoryTop + DRIVER_PAD_START) else s1.g.gKernelMemoryTop) = raw at hret ⊢
    cases hdec : load_macho_decompress env command (command_flags s.mem command)
        (u32 (command + sizeof_command_macho_t))
        (sub32 (command_size s.mem command) sizeof_command_macho_t) raw s1.mem with
    | inl m1 => exact hg
    | inr r =>
      obtain ⟨image_address1, image_size, m1⟩ := r
      rw [hdec] at hret
      dsimp only at hret ⊢
      by_cases hd : command_flags s.mem command &&& kMachDriver ≠ 0
      · rw [if_pos hd] at hret ⊢
        rw [load_macho_driver_failed _ _ _ _ _ _ _ hret]
        exact hg
      · rw [if_neg hd, if_neg (fun h => h hk)] at hret ⊢
        exact hg

theorem parse_dt_command_failed (env : Env) (parser : Mem → Nat → Bool × Option Node)
    (cmd : Nat) (s : machine) (hret : (parse_dt_command env parser cmd s).1 ≠ 0) :
    (parse_dt_command env parser cmd s).2.g = s.g := by
  unfold parse_dt_command at hret ⊢
  dsimp only at hret ⊢
  split_ifs at hret ⊢
  · exact absurd rfl hret
  · rfl
  · cases hp : parser s.mem (u32 (cmd + sizeof_command_t)) with
    | mk b dt =>
      rw [hp] at hret
      cases b
      · rfl
      · exact absurd rfl hret

theorem toc_command_failed (env : Env) (cmd : Nat) (s : machine)
    (hk : kernel_flagged s.mem cmd = false) (hret : (toc_command env cmd s).1 ≠ 0) :
    (toc_command env cmd s).2.g = s.g := by
  unfold toc_command at hret ⊢
  dsimp only at hret ⊢
  split_ifs at hret ⊢ with h1 h2 h3 h4
  · rfl
  · refine load_macho_from_command_failed env cmd s ?_ hret
    unfold kernel_flagged at hk
    simpa [h2] using hk
  · exact parse_dt_command_failed env _ cmd s hret
  · exact parse_dt_command_failed env _ cmd s hret
  · rfl

theorem toc_loop_failed (env : Env) (n cmd : Nat) (s : machine)
    (hret : (toc_loop env n cmd s).1 ≠ 0) :
    ∃ k, k < n ∧ (toc_loop env k cmd s).1 = 0 ∧
      (kernel_flagged (toc_loop env k cmd s).2.mem (toc_cursor env k cmd s) = false →
        (toc_loop env n cmd s).2.g = (toc_loop env k cmd s).2.g) := by
  induction n generalizing cmd s with
  | zero => exact absurd rfl hret
  | succ n ih =>
    cases hc : toc_command env cmd s with
    | mk r s1 =>
      cases r with
      | zero =>
        have hstep : ∀ j, toc_loop env (j + 1) cmd s =
            toc_loop env j (u32 (cmd + command_size s1.mem cmd)) s1 := by
          intro j
          simp only [toc_loop, hc]
        have hcur : ∀ j, toc_cursor env (j + 1) cmd s =
            toc_cursor env j (u32 (cmd + command_size s1.mem cmd)) s1 := by
          intro j
          simp only [toc_cursor, hc]
        rw [hstep] at hret ⊢
        obtain ⟨k, hk, h0, hg⟩ := ih _ s1 hret
        refine ⟨k + 1, by omega, ?_, ?_⟩
        · rw [hstep]
          exact h0
        · rw [hstep, hcur]
          exact hg
      | succ r =>
        refine ⟨0, by omega, rfl, ?_⟩
        intro hk
        have hfail := toc_command_failed env cmd s hk (by rw [hc]; exact Nat.succ_ne_zero r)
        simp only [toc_loop, hc] at hfail ⊢
        exact hfail

/-- C9 (counterexample). The kernel command at `0x11000000`, handed over after S1,
returns nonzero, yet the loaded kernel is gone: the global variables have changed. -/
theorem failed_kernel_command_changes_state :
    ¬ (∀ (env : Env) (image_address : Nat) (s : machine),
        (load_general_image env image_address s).1 ≠ 0 →
        (load_general_image env image_address s).2.g = s.g) := by
  intro h
  have h1 := h s1_env 0x11000000 s1_done (by decide!)
  revert h1
  decide!

/-! ## Alignment of `gKernelMemoryTop` -/

theorem and_fffff (L : Nat) : L &&& 0xfffff = L % 0x100000 := by
  have := Nat.and_pow_two_sub_one_eq_mod L 20
  simpa using this

theorem increment_kernel_memory_aligned (g : loader_state) (by_ : Nat)
    (h : g.gKernelMemoryTop % 0x1000 = 0) :
    (increment_kernel_memory g by_).gKernelMemoryTop % 0x1000 = 0 := by
  unfold increment_kernel_memory align_up u32
  dsimp only
  omega

theorem load_macho_setup_aligned (env : Env) (command flags : Nat) (s : machine)
    (htop : s.g.gKernelMemoryTop % 0x1000 = 0)
    (hal : flags &&& kMachKernel ≠ 0 →
      env.dram_start % 0x1000 = 0 ∧ command_load_address s.mem command % 0x1000 = 0) :
    (∀ r, load_macho_setup env command flags s = Sum.inl r →
      r.2.g.gKernelMemoryTop % 0x1000 = 0) ∧
    (∀ s1, load_macho_setup env command flags s = Sum.inr s1 →
      s1.g.gKernelMemoryTop % 0x1000 = 0) := by
  unfold load_macho_setup
  dsimp only
  by_cases hk : flags &&& kMachKernel ≠ 0
  · rw [if_pos hk]
    obtain ⟨hD, hL⟩ := hal hk
    have hslide : ∀ m : Mem, command_load_address m command = command_load_address s.mem command →
        u32 (env.dram_start + (command_load_address m command &&& 0xfffff)) % 0x1000 = 0 := by
      intro m hm
      rw [hm, and_fffff]
      unfold u32
      omega
    constructor
    · intro r h
      split_ifs at h <;> (injection h with h; subst h; first | exact htop | rfl)
    · intro s1 h
      split_ifs at h <;>
        (injection h with h; subst h; dsimp only
         first
         | exact hslide _ rfl
         | exact hslide _ (command_load_address_sanitized _ _))
  · rw [if_neg hk]
    constructor
    · intro r h
      split_ifs at h <;> (injection h with h; subst h; exact htop)
    · intro s1 h
      split_ifs at h <;> (injection h with h; subst h; exact htop)

theorem load_macho_driver_aligned (command flags image_address image_size raw_image_dest : Nat)
    (is_compressed : Bool) (s : machine) (htop : s.g.gKernelMemoryTop % 0x1000 = 0) :
    (load_macho_driver command flags image_address image_size raw_image_dest is_compressed
      s).2.g.gKernelMemoryTop % 0x1000 = 0 := by
  unfold load_macho_driver
  dsimp only
  split_ifs <;> first | exact htop | exact increment_kernel_memory_aligned _ _ htop

theorem load_macho_kernel_aligned (env : Env) (command image_address : Nat) (s : machine)
    (htop : s.g.gKernelMemoryTop % 0x1000 = 0) :
    (load_macho_kernel env command image_address s).2.g.gKernelMemoryTop % 0x1000 = 0 := by
  unfold load_macho_kernel
  cases hload : load_macho env s.mem image_address (command_load_address s.mem command)
      s.g.gKernelMemoryTop with
  | mk res m1 =>
    cases res with
    | none => exact htop
    | some es => exact increment_kernel_memory_aligned _ _ htop

theorem load_macho_from_command_aligned (env : Env) (command : Nat) (s : machine)
    (htop : s.g.gKernelMemoryTop % 0x1000 = 0)
    (hal : command_flags s.mem command &&& kMachKernel ≠ 0 →
      env.dram_start % 0x1000 = 0 ∧ command_load_address s.mem command % 0x1000 = 0) :
    (load_macho_from_command env command s).2.g.gKernelMemoryTop % 0x1000 = 0 := by
  unfold load_macho_from_command
  dsimp only
  obtain ⟨hl, hr⟩ := load_macho_setup_aligned env command _ s htop hal
  cases hsetup : load_macho_setup env command (command_flags s.mem command) s with
  | inl r => exact hl r hsetup
  | inr s1 =>
    dsimp only
    have hg := hr s1 hsetup
    generalize (if command_flags s.mem command &&& kMachDriver ≠ 0 then
        u32 (s1.g.gKernelMemoryTop + DRIVER_PAD_START) else s1.g.gKernelMemoryTop) = raw
    cases hdec : load_macho_decompress env command (command_flags s.mem command)
        (u32 (command + sizeof_command_macho_t))
        (sub32 (command_size s.mem command) sizeof_command_macho_t) raw s1.mem with
    | inl m1 => exact hg
    | inr r =>
      obtain ⟨image_address1, image_size, m1⟩ := r
      dsimp only
      split_ifs
      · exact load_macho_driver_aligned _ _ _ _ _ _ _ hg
      · exact load_macho_kernel_aligned _ _ _ _ hg
      · exact hg

theorem parse_dt_command_top (env : Env) (parser : Mem → Nat → Bool × Option Node)
    (cmd : Nat) (s : machine) :
    (parse_dt_command env parser cmd s).2.g.gKernelMemoryTop = s.g.gKernelMemoryTop := by
  unfold parse_dt_command
  dsimp only
  split_ifs
  · rfl
  · rfl
  · cases hp : parser s.mem (u32 (cmd + sizeof_command_t)) with
    | mk b dt => cases b <;> rfl

theorem kernel_aligned_spec (env : Env) (m : Mem) (cmd : Nat)
    (hal : kernel_aligned env m cmd = true) (hm : read32 m cmd = kCommandMachO) :
    command_flags m cmd &&& kMachKernel ≠ 0 →
      env.dram_start % 0x1000 = 0 ∧ command_load_address m cmd % 0x1000 = 0 := by
  intro hk
  unfold kernel_aligned kernel_flagged at hal
  simpa [hm, hk] using hal

theorem toc_command_aligned (env : Env) (cmd : Nat) (s : machine)
    (htop : s.g.gKernelMemoryTop % 0x1000 = 0) (hal : kernel_aligned env s.mem cmd = true) :
    (toc_command env cmd s).2.g.gKernelMemoryTop % 0x1000 = 0 := by
  unfold toc_command
  dsimp only
  split_ifs with h1 h2 h3 h4
  · exact htop
  · exact load_macho_from_command_aligned env cmd s htop (kernel_aligned_spec env _ _ hal h2)
  · unfold parse_xdt_command
    rw [parse_dt_command_top]
    exact htop
  · unfold parse_jsdt_command
    rw [parse_dt_command_top]
    exact htop
  · exact htop

theorem toc_loop_aligned (env : Env) (n cmd : Nat) (s : machine)
    (htop : s.g.gKernelMemoryTop % 0x1000 = 0) (hal : toc_aligned env n cmd s = true) :
    (toc_loop env n cmd s).2.g.gKernelMemoryTop % 0x1000 = 0 := by
  induction n generalizing cmd s with
  | zero => exact htop
  | succ n ih =>
    simp only [toc_aligned, Bool.and_eq_true] at hal
    have hstep := toc_command_aligned env cmd s htop hal.1
    simp only [toc_loop]
    cases hc : toc_command env cmd s with
    | mk r s1 =>
      rw [hc] at hstep hal
      cases r with
      | zero => exact ih _ s1 hstep hal.2
      | succ r => exact hstep

theorem run_step_aligned (step : loader_step) (s : machine)
    (htop : s.g.gKernelMemoryTop % 0x1000 = 0) (hal : step_aligned step s = true) :
    (run_step step s).g.gKernelMemoryTop % 0x1000 = 0 := by
  cases step with
  | imgx env image_address =>
    unfold step_aligned at hal
    dsimp only at hal
    unfold run_step load_general_image
    dsimp only
    by_cases htoc : read32 s.mem image_address = kTableOfContentsMagic
    · rw [if_pos htoc] at hal
      have hne : kTableOfContentsMagic ≠ kCommandMachO ∧
          kTableOfContentsMagic ≠ kCommandXMLDeviceTree ∧
          kTableOfContentsMagic ≠ kCommandJSDeviceTree := by decide
      rw [htoc, if_neg hne.1, if_neg hne.2.1, if_neg hne.2.2, if_pos rfl]
      unfold parse_table_of_contents
      exact toc_loop_aligned env _ _ s htop hal
    · rw [if_neg htoc] at hal
      split_ifs with h1 h2 h3
      · exact load_macho_from_command_aligned env image_address s htop
          (kernel_aligned_spec env _ _ hal h1)
      · unfold parse_xdt_command
        rw [parse_dt_command_top]
        exact htop
      · unfold parse_jsdt_command
        rw [parse_dt_command_top]
        exact htop
      · exact htop
  | rdx addr size =>
    unfold run_step do_rdx
    dsimp only
    split_ifs <;> first | exact htop | exact increment_kernel_memory_aligned _ _ htop

theorem run_steps_aligned_from (steps : List loader_step) (s : machine)
    (htop : s.g.gKernelMemoryTop % 0x1000 = 0) (hal : steps_aligned steps s = true) :
    (steps.foldl (fun s step => run_step step s) s).g.gKernelMemoryTop % 0x1000 = 0 := by
  induction steps generalizing s with
  | nil => exact htop
  | cons step rest ih =>
    simp only [steps_aligned, Bool.and_eq_true] at hal
    simp only [List.foldl_cons]
    exact ih _ (run_step_aligned step s htop hal.1) hal.2

/-- C8 (as amended). In every state reached from the initial loader state by a sequence
of boot-stream commands and `rdx` calls, successful or failed, `gKernelMemoryTop` is a
multiple of `0x1000`, provided every kernel command that is run finds the first DRAM
bank on a page boundary and has a load address that is a multiple of `0x1000`. -/
theorem gKernelMemoryTop_page_aligned (m : Mem) (steps : List loader_step)
    (hal : steps_aligned steps { g := initial_loader_state, mem := m, dt := none } = true) :
    (run_steps m steps).g.gKernelMemoryTop % 0x1000 = 0 := by
  unfold run_steps
  exact run_steps_aligned_from steps _ rfl hal

/-- C8 (witness). The table of contents of S1, the driver command at `0x12000000` and
an `rdx` call for a ramdisk of `0x1234` bytes, in this order, are aligned and leave
`gKernelMemoryTop` on a page boundary. -/
theorem gKernelMemoryTop_page_aligned_s1 :
    (run_steps s1_mem [loader_step.imgx s1_env 0x10000000, loader_step.imgx s1_env 0x12000000,
      loader_step.rdx 0x20003000 0x1234]).g.gKernelMemoryTop % 0x1000 = 0 :=
  gKernelMemoryTop_page_aligned s1_mem _ (by decide!)

/-- C8 (counterexample). A kernel command whose load address is `0x80000800` sets
`gKernelMemoryTop` to `0x20000800`, which is not a multiple of `0x1000`. -/
theorem gKernelMemoryTop_unaligned :
    ¬ (∀ (m : Mem) (steps : List loader_step),
        (run_steps m steps).g.gKernelMemoryTop % 0x1000 = 0) := by
  intro h
  have h1 := h c8_mem [loader_step.imgx s1_env 0x13000000]
  revert h1
  decide!

/-! ## Scenario S4 -/

/-- C10 (counterexample). On the text of S4 the tokenizer succeeds and makes the quoted
`"@"` a string token (index 5), not a children token; the builder then takes the array
that follows as property data, meets an object in it, and `parse_jsdt_device_tree`
returns 0: the root has got its two properties and no child. -/
theorem parse_jsdt_s4_fails :
    (jsmn_parse 4294967296 jsmn_init s4_text [] 40).map
        (fun r => (r.1, (r.2.2.get? 5).map (fun t => t.type))) =
      some (JSMN_SUCCESS, some JSMN_STRING) ∧
    (parse_jsdt_device_tree 4294967296 s4_text).map
        (fun r => (r.1, r.2.map (fun st => (st.node.properties.length, st.node.children.length)))) =
      some (0, some (2, 0)) := by
  decide!

/-- C10 (as amended). On the text of S4 with the children key written as the bare
character `@`, `parse_jsdt_device_tree` returns 1 and the tree is a root with the
properties `compatible = "foo\0"` (4 bytes) and `#size = 4` (4 bytes, least significant
first) and exactly one child, which has no child and whose only property is
`name = "bar\0"`. -/
theorem parse_jsdt_s4_bare :
    (parse_jsdt_device_tree 4294967296 s4_text_bare).map
        (fun r => (r.1, r.2.map (fun st =>
          (st.node.properties,
            st.node.children.map (fun c => (c.properties, c.children.length)))))) =
      some (1, some
        ([{ name := [99, 111, 109, 112, 97, 116, 105, 98, 108, 101], length := 4,
            value := [102, 111, 111, 0] },
          { name := [35, 115, 105, 122, 101], length := 4, value := [4, 0, 0, 0] }],
         [([{ name := [110, 97, 109, 101], length := 4, value := [98, 97, 114, 0] }], 0)])) := by
  decide!

/-! ## The Image-3 container -/

theorem read32_lt (m : Mem) (a : Nat) : read32 m a < 4294967296 := by
  unfold read32
  omega

theorem read32_congr (m m' : Mem) (a : Nat)
    (h : ∀ i, i < 4 → m' (a + i) = m (a + i)) : read32 m' a = read32 m a := by
  unfold read32
  have h0 := h 0 (by omega)
  have h1 := h 1 (by omega)
  have h2 := h 2 (by omega)
  have h3 := h 3 (by omega)
  simp only [Nat.add_zero] at h0
  rw [h0, h1, h2, h3]

theorem read32_realloc (head fresh : Mem) (old size a : Nat) (h1 : a + 4 ≤ old)
    (h2 : a + 4 ≤ size) : read32 (realloc head old size fresh) a = read32 head a := by
  apply read32_congr
  intro i hi
  unfold realloc
  rw [if_pos (Nat.lt_min.mpr ⟨by omega, by omega⟩)]

theorem image3_reserve_tag_eq (ctx : img3_context_t) (t L : Nat) (fresh : Mem)
    (hdyn : ctx.dynamic = true) (h20 : 20 ≤ image3_sz ctx)
    (hfit : image3_sz ctx + (L + 12) < 4294967296) :
    image3_reserve_tag ctx t L fresh =
      (some (image3_sz ctx + 12),
        { ctx with head :=
            write32 (write32 (write32 (write32 (write32
              (realloc ctx.head (image3_sz ctx) (image3_sz ctx + (L + 12)) fresh)
              (image3_sz ctx + 8) L) (image3_sz ctx + 4) (L + 12)) (image3_sz ctx) t)
              4 (image3_sz ctx + (L + 12))) 8 (u32 (img3_unpacked_size ctx.head + (L + 12))) }) := by
  have e1 : u32 (L + sizeof_img3_tag_t) = L + 12 := u32_of_lt (by unfold sizeof_img3_tag_t; omega)
  have e2 : u32 (image3_sz ctx + (L + 12)) = image3_sz ctx + (L + 12) := u32_of_lt hfit
  have e3 : img3_full_size
      (realloc ctx.head (image3_sz ctx) (image3_sz ctx + (L + 12)) fresh) = image3_sz ctx := by
    exact read32_realloc ctx.head fresh (image3_sz ctx) (image3_sz ctx + (L + 12)) 4
      (by omega) (by omega)
  have e4 : u32 (image3_sz ctx) = image3_sz ctx := u32_of_lt (by omega)
  have e5 : u32 (image3_sz ctx + sizeof_img3_tag_t) = image3_sz ctx + 12 :=
    u32_of_lt (by unfold sizeof_img3_tag_t; omega)
  have e6 : ∀ v, img3_unpacked_size (write32 (write32 (write32 (write32
              (realloc ctx.head (image3_sz ctx) (image3_sz ctx + (L + 12)) fresh)
              (image3_sz ctx + 8) L) (image3_sz ctx + 4) (L + 12)) (image3_sz ctx) t)
              4 v) = img3_unpacked_size ctx.head := by
    intro v
    unfold img3_unpacked_size
    rw [read32_write32_apart _ _ _ _ (by unfold words_apart; omega),
      read32_write32_apart _ _ _ _ (by unfold words_apart; omega),
      read32_write32_apart _ _ _ _ (by unfold words_apart; omega),
      read32_write32_apart _ _ _ _ (by unfold words_apart; omega)]
    exact read32_realloc ctx.head fresh (image3_sz ctx) (image3_sz ctx + (L + 12)) 8
      (by omega) (by omega)
  unfold image3_reserve_tag
  rw [hdyn]
  simp only [Bool.not_true, Bool.false_eq_true, if_false, e1, e2, e3, e4, e5, e6]

theorem image3_reserve_tag_spec (ctx : img3_context_t) (t L : Nat) (fresh : Mem)
    (hdyn : ctx.dynamic = true) (h20 : 20 ≤ image3_sz ctx)
    (hfit : image3_sz ctx + (L + 12) < 4294967296) :
    (image3_reserve_tag ctx t L fresh).1 = some (image3_sz ctx + 12) ∧
    (image3_reserve_tag ctx t L fresh).2.dynamic = true ∧
    image3_sz (image3_reserve_tag ctx t L fresh).2 = image3_sz ctx + (L + 12) ∧
    img3_unpacked_size (image3_reserve_tag ctx t L fresh).2.head =
      u32 (img3_unpacked_size ctx.head + (L + 12)) ∧
    tag_type (image3_reserve_tag ctx t L fresh).2.head (image3_sz ctx) = u32 t ∧
    tag_total_length (image3_reserve_tag ctx t L fresh).2.head (image3_sz ctx) = L + 12 ∧
    tag_data_length (image3_reserve_tag ctx t L fresh).2.head (image3_sz ctx) = L ∧
    ∀ a, 12 ≤ a → a + 4 ≤ image3_sz ctx →
      read32 (image3_reserve_tag ctx t L fresh).2.head a = read32 ctx.head a := by
  rw [image3_reserve_tag_eq ctx t L fresh hdyn h20 hfit]
  refine ⟨rfl, hdyn, ?_, ?_, ?_, ?_, ?_, ?_⟩
  · show read32 _ 4 = _
    rw [read32_write32_apart _ _ _ _ (by unfold words_apart; omega), read32_write32_same]
    exact u32_of_lt hfit
  · show read32 _ 8 = _
    rw [read32_write32_same]
    exact Nat.mod_mod _ _
  · show read32 _ (image3_sz ctx) = _
    rw [read32_write32_apart _ _ _ _ (by unfold words_apart; omega),
      read32_write32_apart _ _ _ _ (by unfold words_apart; omega), read32_write32_same]
  · show read32 _ (image3_sz ctx + 4) = _
    rw [read32_write32_apart _ _ _ _ (by unfold words_apart; omega),
      read32_write32_apart _ _ _ _ (by unfold words_apart; omega),
      read32_write32_apart _ _ _ _ (by unfold words_apart; omega), read32_write32_same]
    exact u32_of_lt (by omega)
  · show read32 _ (image3_sz ctx + 8) = _
    rw [read32_write32_apart _ _ _ _ (by unfold words_apart; omega),
      read32_write32_apart _ _ _ _ (by unfold words_apart; omega),
      read32_write32_apart _ _ _ _ (by unfold words_apart; omega),
      read32_write32_apart _ _ _ _ (by unfold words_apart; omega), read32_write32_same]
    exact u32_of_lt (by omega)
  · intro a ha1 ha2
    show read32 _ a = _
    rw [read32_write32_apart _ _ _ _ (by unfold words_apart; omega),
      read32_write32_apart _ _ _ _ (by unfold words_apart; omega),
      read32_write32_apart _ _ _ _ (by unfold words_apart; omega),
      read32_write32_apart _ _ _ _ (by unfold words_apart; omega),
      read32_write32_apart _ _ _ _ (by unfold words_apart; omega)]
    exact read32_realloc ctx.head fresh (image3_sz ctx) (image3_sz ctx + (L + 12)) a
      (by omega) (by omega)

theorem tags_tile_frame (head head2 : Mem) (full : Nat)
    (h : ∀ a, 12 ≤ a → a + 4 ≤ full → read32 head2 a = read32 head a) :
    ∀ (tags : List Nat) (off : Nat), 12 ≤ off → tags_tile head full off tags →
      tags_tile head2 full off tags ∧ tags_total head2 tags = tags_total head tags ∧
      ∀ o ∈ tags, tag_type head2 o = tag_type head o := by
  intro tags
  induction tags with
  | nil =>
    intro off _ ht
    exact ⟨ht, rfl, fun o ho => by cases ho⟩
  | cons t rest ih =>
    intro off h12 ht
    obtain ⟨e, h1, h2, h3⟩ := ht
    unfold sizeof_img3_tag_t at h1
    have hl : tag_total_length head2 off = tag_total_length head off :=
      h (off + 4) (by omega) (by omega)
    have hty : tag_type head2 off = tag_type head off := h off (by omega) (by omega)
    obtain ⟨i1, i2, i3⟩ := ih (off + tag_total_length head off) (by omega) h3
    refine ⟨⟨e, ?_, ?_, ?_⟩, ?_, ?_⟩
    · rw [hl]; exact h1
    · rw [hl]; exact h2
    · rw [hl]; exact i1
    · unfold tags_total at i2 ⊢
      simp only [List.map_cons, List.sum_cons]
      rw [i2, e, hl]
    · intro o ho
      rcases List.mem_cons.mp ho with ho | ho
      · rw [ho, e]; exact hty
      · exact i3 o ho

theorem tags_tile_snoc (head : Mem) (full full2 : Nat)
    (hlen : tag_total_length head full = full2 - full) (h12 : full + 12 ≤ full2) :
    ∀ (tags : List Nat) (off : Nat), tags_tile head full off tags →
      tags_tile head full2 off (tags ++ [full]) := by
  intro tags
  induction tags with
  | nil =>
    intro off ht
    have e : off = full := ht
    subst e
    refine ⟨rfl, ?_, ?_, ?_⟩
    · rw [hlen]; unfold sizeof_img3_tag_t; omega
    · rw [hlen]; omega
    · show off + tag_total_length head off = full2
      rw [hlen]; omega
  | cons t rest ih =>
    intro off ht
    obtain ⟨e, h1, h2, h3⟩ := ht
    exact ⟨e, h1, by omega, ih _ h3⟩

theorem tags_total_snoc (head : Mem) (tags : List Nat) (t : Nat) :
    tags_total head (tags ++ [t]) = tags_total head tags + tag_total_length head t := by
  unfold tags_total
  simp

theorem image3_find_tag_loop_first (ctx : img3_context_t) (type target : Nat)
    (post : List Nat) (htarget : tag_type ctx.head target = type) :
    ∀ (pre : List Nat) (off fuel : Nat),
      tags_tile ctx.head (img3_full_size ctx.head) off (pre ++ target :: post) →
      (∀ o ∈ pre, tag_type ctx.head o ≠ type) → pre.length < fuel →
      image3_find_tag_loop ctx type fuel off = some (some target) := by
  intro pre
  induction pre with
  | nil =>
    intro off fuel ht _ hf
    obtain ⟨e, -⟩ := ht
    obtain ⟨f, rfl⟩ : ∃ f, fuel = f + 1 := ⟨fuel - 1, by simp at hf; omega⟩
    unfold image3_find_tag_loop
    rw [← e, if_pos htarget]
  | cons p rest ih =>
    intro off fuel ht hne hf
    obtain ⟨e, h1, h2, h3⟩ := ht
    obtain ⟨f, rfl⟩ : ∃ f, fuel = f + 1 := ⟨fuel - 1, by simp at hf; omega⟩
    have hfull : img3_full_size ctx.head < 4294967296 := read32_lt _ _
    have hp : tag_type ctx.head off ≠ type := by
      rw [← e]; exact hne p (List.mem_cons_self _ _)
    have hnext : add_ptr2 off (tag_total_length ctx.head off) =
        off + tag_total_length ctx.head off := u32_of_lt (by omega)
    unfold image3_find_tag_loop
    rw [if_neg hp]
    dsimp only
    rw [hnext]
    unfold image3_off
    rw [u32_of_lt (by omega), if_neg (by omega)]
    exact ih _ f h3 (fun o ho => hne o (List.mem_cons_of_mem _ ho)) (by simp at hf; omega)

theorem tags_tile_le (head : Mem) (full : Nat) :
    ∀ (tags : List Nat) (off : Nat), tags_tile head full off tags → off ≤ full := by
  intro tags
  induction tags with
  | nil => intro off ht; exact Nat.le_of_eq ht
  | cons t rest ih =>
    intro off ht
    obtain ⟨-, -, h2, -⟩ := ht
    omega

theorem image3_new_spec (type : Nat) (fresh : Mem) (ctx : img3_context_t)
    (h : image3_new type (some fresh) true = some ctx) :
    ctx.dynamic = true ∧ image3_sz ctx = 20 ∧ img3_unpacked_size ctx.head = 0 := by
  unfold image3_new at h
  simp only [Bool.not_true, Bool.false_eq_true, if_false, Option.some.injEq] at h
  subst h
  refine ⟨rfl, ?_, ?_⟩
  · show read32 _ 4 = 20
    rw [read32_write32_apart _ _ _ _ (by unfold words_apart; omega),
      read32_write32_apart _ _ _ _ (by unfold words_apart; omega),
      read32_write32_apart _ _ _ _ (by unfold words_apart; omega),
      read32_write32_apart _ _ _ _ (by unfold words_apart; omega), read32_write32_same]
    rfl
  · show read32 _ 8 = 0
    rw [read32_write32_same]
    rfl

theorem image3_reserve_tag_inv (ctx : img3_context_t) (t L : Nat) (fresh : Mem)
    (tags : List Nat) (hdyn : ctx.dynamic = true)
    (htile : tags_tile ctx.head (image3_sz ctx) sizeof_img3_header_t tags)
    (hsz : image3_sz ctx = 20 + tags_total ctx.head tags)
    (hun : img3_unpacked_size ctx.head = tags_total ctx.head tags)
    (hfit : image3_sz ctx + (L + 12) < 4294967296) :
    (image3_reserve_tag ctx t L fresh).2.dynamic = true ∧
    tags_tile (image3_reserve_tag ctx t L fresh).2.head
      (image3_sz (image3_reserve_tag ctx t L fresh).2) sizeof_img3_header_t
      (tags ++ [image3_sz ctx]) ∧
    image3_sz (image3_reserve_tag ctx t L fresh).2 =
      20 + tags_total (image3_reserve_tag ctx t L fresh).2.head (tags ++ [image3_sz ctx]) ∧
    img3_unpacked_size (image3_reserve_tag ctx t L fresh).2.head =
      tags_total (image3_reserve_tag ctx t L fresh).2.head (tags ++ [image3_sz ctx]) ∧
    image3_sz (image3_reserve_tag ctx t L fresh).2 = image3_sz ctx + (L + 12) := by
  have h20 : 20 ≤ image3_sz ctx := tags_tile_le _ _ _ _ htile
  obtain ⟨-, s2, s3, s4, -, s6, -, s8⟩ := image3_reserve_tag_spec ctx t L fresh hdyn h20 hfit
  obtain ⟨f1, f2, -⟩ := tags_tile_frame ctx.head (image3_reserve_tag ctx t L fresh).2.head
    (image3_sz ctx) s8 tags sizeof_img3_header_t (by unfold sizeof_img3_header_t; omega) htile
  have htot : tags_total (image3_reserve_tag ctx t L fresh).2.head (tags ++ [image3_sz ctx]) =
      tags_total ctx.head tags + (L + 12) := by
    rw [tags_total_snoc, f2, s6]
  refine ⟨s2, ?_, ?_, ?_, s3⟩
  · rw [s3]
    exact tags_tile_snoc _ _ _ (by rw [s6]; omega) (by omega) tags _ f1
  · rw [htot, s3]; omega
  · rw [htot, s4, hun]
    exact u32_of_lt (by omega)

theorem image3_reserve_tags_inv :
    ∀ (calls : List (Nat × Nat × Mem)) (ctx : img3_context_t) (tags : List Nat),
      ctx.dynamic = true →
      tags_tile ctx.head (image3_sz ctx) sizeof_img3_header_t tags →
      image3_sz ctx = 20 + tags_total ctx.head tags →
      img3_unpacked_size ctx.head = tags_total ctx.head tags →
      image3_sz ctx + calls_total calls < 4294967296 →
      ∃ tags2 : List Nat, tags2.length = tags.length + calls.length ∧
        (image3_reserve_tags ctx calls).dynamic = true ∧
        tags_tile (image3_reserve_tags ctx calls).head (image3_sz (image3_reserve_tags ctx calls))
          sizeof_img3_header_t tags2 ∧
        image3_sz (image3_reserve_tags ctx calls) =
          20 + tags_total (image3_reserve_tags ctx calls).head tags2 ∧
        img3_unpacked_size (image3_reserve_tags ctx calls).head =
          tags_total (image3_reserve_tags ctx calls).head tags2 := by
  intro calls
  induction calls with
  | nil =>
    intro ctx tags hdyn htile hsz hun _
    exact ⟨tags, rfl, hdyn, htile, hsz, hun⟩
  | cons call rest ih =>
    intro ctx tags hdyn htile hsz hun hfit
    have hc : calls_total (call :: rest) = call.2.1 + 12 + calls_total rest := by
      unfold calls_total sizeof_img3_tag_t
      simp
    rw [hc] at hfit
    obtain ⟨i1, i2, i3, i4, i5⟩ :=
      image3_reserve_tag_inv ctx call.1 call.2.1 call.2.2 tags hdyn htile hsz hun (by omega)
    obtain ⟨tags2, j1, j2⟩ := ih _ _ i1 i2 i3 i4 (by rw [i5]; omega)
    refine ⟨tags2, ?_, j2⟩
    rw [j1]
    simp
    omega

/-- C11 (amended): on a dynamic container whose tags tile the bytes after the header,
when the new size `full_size + L + 12` fits in 32 bits, `image3_reserve_tag(t, L)`
returns the data pointer of a tag at the old `full_size`, makes `full_size` grow by
`L + 12`, gives the tag the type `t`, the data length `L` and the total length `L + 12`,
leaves it as the last tag of the tiling, and, when no tag before had the type `t`,
`image3_find_tag(t)` returns that tag. -/
theorem image3_reserve_tag_appends (ctx : img3_context_t) (t L : Nat) (fresh : Mem)
    (tags : List Nat) (hdyn : ctx.dynamic = true)
    (htile : tags_tile ctx.head (image3_sz ctx) sizeof_img3_header_t tags)
    (ht : t < 4294967296)
    (hfit : image3_sz ctx + (L + 12) < 4294967296) :
    (image3_reserve_tag ctx t L fresh).1 = some (image3_sz ctx + sizeof_img3_tag_t) ∧
    image3_sz (image3_reserve_tag ctx t L fresh).2 = image3_sz ctx + (L + 12) ∧
    tag_type (image3_reserve_tag ctx t L fresh).2.head (image3_sz ctx) = t ∧
    tag_data_length (image3_reserve_tag ctx t L fresh).2.head (image3_sz ctx) = L ∧
    tag_total_length (image3_reserve_tag ctx t L fresh).2.head (image3_sz ctx) = L + 12 ∧
    tags_tile (image3_reserve_tag ctx t L fresh).2.head
      (image3_sz (image3_reserve_tag ctx t L fresh).2) sizeof_img3_header_t
      (tags ++ [image3_sz ctx]) ∧
    ((∀ o ∈ tags, tag_type ctx.head o ≠ t) →
      ∀ fuel, tags.length < fuel →
        image3_find_tag fuel (image3_reserve_tag ctx t L fresh).2 t =
          some (some (image3_sz ctx))) := by
  have h20 : 20 ≤ image3_sz ctx := tags_tile_le _ _ _ _ htile
  obtain ⟨s1, -, s3, -, s5, s6, s7, s8⟩ := image3_reserve_tag_spec ctx t L fresh hdyn h20 hfit
  obtain ⟨f1, -, f3⟩ := tags_tile_frame ctx.head (image3_reserve_tag ctx t L fresh).2.head
    (image3_sz ctx) s8 tags sizeof_img3_header_t (by unfold sizeof_img3_header_t; omega) htile
  rw [u32_of_lt ht] at s5
  have hT : tags_tile (image3_reserve_tag ctx t L fresh).2.head
      (image3_sz (image3_reserve_tag ctx t L fresh).2) sizeof_img3_header_t
      (tags ++ [image3_sz ctx]) := by
    rw [s3]
    exact tags_tile_snoc _ _ _ (by rw [s6]; omega) (by omega) tags _ f1
  refine ⟨s1, s3, s5, s7, s6, hT, ?_⟩
  intro hnew fuel hfuel
  unfold image3_find_tag
  exact image3_find_tag_loop_first _ t (image3_sz ctx) [] s5 tags _ fuel hT
    (fun o ho => by rw [f3 o ho]; exact hnew o ho) hfuel

theorem image3_reserve_tag_appends_witness :
    img3_one_tag.dynamic = true ∧
    tags_tile img3_one_tag.head (image3_sz img3_one_tag) sizeof_img3_header_t [20] ∧
    image3_sz img3_one_tag + (8 + 12) < 4294967296 ∧
    (image3_reserve_tag img3_one_tag 0x44415441 8 zero_heap).1 =
      some (image3_sz img3_one_tag + sizeof_img3_tag_t) ∧
    image3_sz (image3_reserve_tag img3_one_tag 0x44415441 8 zero_heap).2 =
      image3_sz img3_one_tag + (8 + 12) ∧
    image3_find_tag 2 (image3_reserve_tag img3_one_tag 0x44415441 8 zero_heap).2 0x44415441 =
      some (some (image3_sz img3_one_tag)) :=
  have h := image3_reserve_tag_appends img3_one_tag 0x44415441 8 zero_heap [20]
    (by decide!) (by decide!) (by decide!) (by decide!)
  ⟨by decide!, by decide!, by decide!, h.1, h.2.1, h.2.2.2.2.2.2 (by decide!) 2 (by decide!)⟩

/-- C11 (as stated, refuted): on the container with one tag of type `0x54595045`,
`image3_reserve_tag(0x54595045, 8)` puts the new tag at offset 36 and
`image3_find_tag(0x54595045)` returns the tag at offset 20; and
`image3_reserve_tag(0x44415441, 0xfffffff0)` takes `full_size` from 36 to 32. -/
theorem image3_find_tag_returns_earlier_tag :
    image3_sz img3_one_tag = 36 ∧
    (image3_reserve_tag img3_one_tag 0x54595045 8 zero_heap).1 = some 48 ∧
    tag_type (image3_reserve_tag img3_one_tag 0x54595045 8 zero_heap).2.head 36 = 0x54595045 ∧
    image3_find_tag 4294967296 (image3_reserve_tag img3_one_tag 0x54595045 8 zero_heap).2
      0x54595045 = some (some 20) ∧
    image3_sz (image3_reserve_tag img3_one_tag 0x44415441 0xfffffff0 zero_heap).2 = 32 := by
  decide!

theorem image3_find_tag_loop_stuck :
    ∀ fuel, image3_find_tag_loop img3_one_tag 0x44415441 fuel 36 = none := by
  have h1 : tag_type img3_one_tag.head 36 = 0 := by decide!
  have h2 : tag_total_length img3_one_tag.head 36 = 0 := by decide!
  have h3 : img3_full_size img3_one_tag.head = 36 := by decide!
  intro fuel
  induction fuel with
  | zero => rfl
  | succ n ih =>
    unfold image3_find_tag_loop
    rw [h1, h2, h3, if_neg (by decide)]
    dsimp only
    rw [if_neg (by decide)]
    exact ih

/-- C12 (code evaluated at failing inputs): on the container without tag that
`image3_new` returns in a heap of bytes `0x41`, `image3_find_tag(0x41414141)` returns
the pointer at offset 20, which is `full_size`; on the container with one tag of type
`0x54595045` in a heap of zero bytes, `image3_find_tag(0)` returns the pointer at
`full_size = 36`, and `image3_find_tag(0x44415441)` never returns. -/
theorem image3_find_tag_past_end :
    image3_sz img3_empty_letters = 20 ∧
    image3_find_tag 4294967296 img3_empty_letters 0x41414141 = some (some 20) ∧
    image3_sz img3_one_tag = 36 ∧
    tags_tile img3_one_tag.head (image3_sz img3_one_tag) sizeof_img3_header_t [20] ∧
    tag_type img3_one_tag.head 20 = 0x54595045 ∧
    image3_find_tag 4294967296 img3_one_tag 0 = some (some 36) ∧
    ∀ fuel, image3_find_tag fuel img3_one_tag 0x44415441 = none := by
  refine ⟨by decide!, by decide!, by decide!, by decide!, by decide!, by decide!, ?_⟩
  intro fuel
  have h1 : tag_type img3_one_tag.head 20 = 0x54595045 := by decide!
  have h2 : tag_total_length img3_one_tag.head 20 = 16 := by decide!
  have h3 : img3_full_size img3_one_tag.head = 36 := by decide!
  unfold image3_find_tag
  cases fuel with
  | zero => rfl
  | succ n =>
    unfold image3_find_tag_loop
    rw [show sizeof_img3_header_t = 20 from rfl, h1, h2, h3, if_neg (by decide)]
    dsimp only
    rw [if_neg (by decide)]
    exact image3_find_tag_loop_stuck n

/-- C13 (amended): in the container that a run of `image3_reserve_tag` calls leaves
from the one `image3_new` returns, when the sizes asked for keep `20 + sum (L + 12)`
below `2^32`, one tag per call tiles the bytes after the header, `full_size` is 20 plus
the sum of the total lengths of these tags, and `unpacked_size` is that sum. -/
theorem image3_sizes_invariant (type : Nat) (fresh : Mem) (ctx0 : img3_context_t)
    (calls : List (Nat × Nat × Mem))
    (hnew : image3_new type (some fresh) true = some ctx0)
    (hfit : 20 + calls_total calls < 4294967296) :
    ∃ tags : List Nat, tags.length = calls.length ∧
      tags_tile (image3_reserve_tags ctx0 calls).head (image3_sz (image3_reserve_tags ctx0 calls))
        sizeof_img3_header_t tags ∧
      image3_sz (image3_reserve_tags ctx0 calls) =
        20 + tags_total (image3_reserve_tags ctx0 calls).head tags ∧
      img3_unpacked_size (image3_reserve_tags ctx0 calls).head =
        tags_total (image3_reserve_tags ctx0 calls).head tags ∧
      image3_sz (image3_reserve_tags ctx0 calls) =
        20 + img3_unpacked_size (image3_reserve_tags ctx0 calls).head := by
  obtain ⟨n1, n2, n3⟩ := image3_new_spec type fresh ctx0 hnew
  obtain ⟨tags, t1, -, t3, t4, t5⟩ := image3_reserve_tags_inv calls ctx0 [] n1
    (by show sizeof_img3_header_t = image3_sz ctx0; rw [n2]; rfl)
    (by rw [n2]; rfl) (by rw [n3]; rfl) (by rw [n2]; exact hfit)
  refine ⟨tags, by simpa using t1, t3, t4, t5, ?_⟩
  rw [t5]
  exact t4

theorem image3_sizes_invariant_witness :
    20 + calls_total [(0x54595045, 4, zero_heap), (0x44415441, 8, zero_heap)] < 4294967296 ∧
    ∃ tags : List Nat, tags.length = [(0x54595045, 4, zero_heap), (0x44415441, 8, zero_heap)].length ∧
      tags_tile (image3_reserve_tags img3_empty
          [(0x54595045, 4, zero_heap), (0x44415441, 8, zero_heap)]).head
        (image3_sz (image3_reserve_tags img3_empty
          [(0x54595045, 4, zero_heap), (0x44415441, 8, zero_heap)]))
        sizeof_img3_header_t tags ∧
      image3_sz (image3_reserve_tags img3_empty
          [(0x54595045, 4, zero_heap), (0x44415441, 8, zero_heap)]) =
        20 + tags_total (image3_reserve_tags img3_empty
          [(0x54595045, 4, zero_heap), (0x44415441, 8, zero_heap)]).head tags ∧
      img3_unpacked_size (image3_reserve_tags img3_empty
          [(0x54595045, 4, zero_heap), (0x44415441, 8, zero_heap)]).head =
        tags_total (image3_reserve_tags img3_empty
          [(0x54595045, 4, zero_heap), (0x44415441, 8, zero_heap)]).head tags ∧
      image3_sz (image3_reserve_tags img3_empty
          [(0x54595045, 4, zero_heap), (0x44415441, 8, zero_heap)]) =
        20 + img3_unpacked_size (image3_reserve_tags img3_empty
          [(0x54595045, 4, zero_heap), (0x44415441, 8, zero_heap)]).head :=
  ⟨by decide, image3_sizes_invariant 0x6b726e6c zero_heap img3_empty
    [(0x54595045, 4, zero_heap), (0x44415441, 8, zero_heap)] rfl (by decide)⟩

/-- C13 (as stated, refuted): after `image3_new` and
`image3_reserve_tag(0x54595045, 0xfffffff0)` the member `full_size` is 16, below the 20
bytes of the header, and `unpacked_size` is `0xfffffffc`. -/
theorem image3_sizes_overflow :
    image3_sz (image3_reserve_tags img3_empty [(0x54595045, 0xfffffff0, zero_heap)]) = 16 ∧
    img3_unpacked_size
      (image3_reserve_tags img3_empty [(0x54595045, 0xfffffff0, zero_heap)]).head = 4294967292 ∧
    ∀ s : Nat, image3_sz (image3_reserve_tags img3_empty
      [(0x54595045, 0xfffffff0, zero_heap)]) ≠ 20 + s := by
  have h : image3_sz (image3_reserve_tags img3_empty
      [(0x54595045, 0xfffffff0, zero_heap)]) = 16 := by decide!
  refine ⟨h, by decide!, ?_⟩
  intro s
  rw [h]
  omega

/-! ## Mach-O set-up, size of an object, dyld information, refused records -/

/-- C19. `mach_file_init` returns `LOADER_BADMAGIC` exactly when the magic of the header
is not `MH_MAGIC`; with the right magic it returns `LOADER_BADFILETYPE` exactly when the
file type is neither `MH_EXECUTE` nor `MH_OBJECT`; otherwise it returns `LOADER_SUCCESS`
and the context has the file type of the header, `file` set to the buffer, `vm_bias = 0`
and `is_prelinked = false`, its other members as before. On an error the context is the
one it was given. -/
theorem mach_file_init_codes (file : mach_loader_context_t) (head : mach_header_t)
    (fbase : Nat) :
    ((mach_file_init file head fbase).1 = LOADER_BADMAGIC ↔ head.magic ≠ MH_MAGIC) ∧
    (head.magic = MH_MAGIC →
      ((mach_file_init file head fbase).1 = LOADER_BADFILETYPE ↔
        (head.filetype ≠ MH_EXECUTE ∧ head.filetype ≠ MH_OBJECT))) ∧
    (head.magic = MH_MAGIC → (head.filetype = MH_EXECUTE ∨ head.filetype = MH_OBJECT) →
      mach_file_init file head fbase =
        (LOADER_SUCCESS,
          { file with filetype := head.filetype, file := fbase, head := head, vm_bias := 0,
                      is_prelinked := false })) ∧
    ((mach_file_init file head fbase).1 ≠ LOADER_SUCCESS →
      (mach_file_init file head fbase).2 = file) := by
  unfold mach_file_init
  refine ⟨?_, ?_, ?_, ?_⟩
  · split_ifs with h1 h2
    · exact ⟨fun _ => h1, fun _ => rfl⟩
    · exact ⟨fun h => (by cases h), fun h => absurd h h1⟩
    · exact ⟨fun h => (by cases h), fun h => absurd h h1⟩
  · intro hm
    rw [if_neg (fun h => h hm)]
    split_ifs with h2
    · exact ⟨fun _ => h2, fun _ => rfl⟩
    · exact ⟨fun h => (by cases h), fun h => absurd h h2⟩
  · intro hm ht
    have h2 : ¬ (head.filetype ≠ MH_EXECUTE ∧ head.filetype ≠ MH_OBJECT) := by
      intro h
      rcases ht with ht | ht
      · exact h.1 ht
      · exact h.2 ht
    rw [if_neg (fun h => h hm), if_neg h2]
  · intro h
    split_ifs at h ⊢ with h1 h2
    · rfl
    · rfl
    · exact absurd rfl h

/-! ## The size of an object file -/

theorem vmsize_sections_sum (sects : List macho_section) :
    ∀ sc, sc < 4294967296 →
      vmsize_sections sc sects = u32 (sc + (sects.map (fun sect => sect.size)).sum) := by
  induction sects with
  | nil => intro sc h; simp [vmsize_sections, u32_of_lt h]
  | cons s rest ih =>
    intro sc _
    simp only [vmsize_sections, List.map_cons, List.sum_cons]
    rw [ih _ (u32_lt _)]
    unfold u32
    omega

theorem mach_file_vmsize_loop_object :
    ∀ (cmds : List load_command) (sc seg_count : Nat) (has_symtab : Bool),
      sc < 4294967296 →
      mach_file_vmsize_loop MH_OBJECT cmds sc seg_count has_symtab =
        if (if seg_count = 0 then 2 else 1) ≤ segment_count cmds then
          Sum.inl LOADER_OBJECT_BADSEGMENT
        else
          Sum.inr (u32 (sc + sections_size cmds), seg_count + segment_count cmds,
            has_symtab || has_symtab_command cmds) := by
  intro cmds
  induction cmds with
  | nil =>
    intro sc seg_count has_symtab h
    have : ¬ (if seg_count = 0 then 2 else 1) ≤ 0 := by split_ifs <;> omega
    simp [mach_file_vmsize_loop, segment_count, sections_size, has_symtab_command, u32_of_lt h,
      this]
  | cons lc rest ih =>
    intro sc seg_count has_symtab h
    cases lc with
    | LC_SEGMENT cmd =>
      have hc : segment_count (load_command.LC_SEGMENT cmd :: rest) = segment_count rest + 1 := by
        simp [segment_count, is_segment]
      have hs : has_symtab_command (load_command.LC_SEGMENT cmd :: rest) =
          has_symtab_command rest := by
        simp [has_symtab_command, is_symtab]
      rw [hc, hs]
      simp only [mach_file_vmsize_loop, sections_size]
      rw [if_neg (show ¬ MH_OBJECT = MH_EXECUTE by decide), if_pos trivial]
      by_cases h0 : seg_count = 0
      · subst h0
        have hv : vmsize_sections sc cmd.sects < 4294967296 := by
          rw [vmsize_sections_sum _ _ h]; exact u32_lt _
        rw [if_neg (fun h => h rfl), ih _ _ _ hv, vmsize_sections_sum _ _ h]
        rw [if_pos rfl, if_neg (show ¬ (0 + 1 = 0) by decide)]
        by_cases h2 : 1 ≤ segment_count rest
        · rw [if_pos h2, if_pos (by omega)]
        · rw [if_neg h2, if_neg (by omega)]
          have e1 : u32 (u32 (sc + (cmd.sects.map (fun sect => sect.size)).sum) +
              sections_size rest) =
              u32 (sc + ((cmd.sects.map (fun sect => sect.size)).sum + sections_size rest)) := by
            unfold u32; omega
          have e2 : 0 + 1 + segment_count rest = 0 + (segment_count rest + 1) := by omega
          rw [e1, e2]
      · rw [if_pos h0, if_neg h0, if_pos (by omega)]
    | LC_SYMTAB cmd =>
      have hc : segment_count (load_command.LC_SYMTAB cmd :: rest) = segment_count rest := by
        simp [segment_count, is_segment]
      have hs : has_symtab_command (load_command.LC_SYMTAB cmd :: rest) = true := by
        simp [has_symtab_command, is_symtab]
      rw [hc, hs]
      simp only [mach_file_vmsize_loop, sections_size]
      rw [ih _ _ _ h]
      simp
    | LC_UNIXTHREAD pc =>
      have hc : segment_count (load_command.LC_UNIXTHREAD pc :: rest) = segment_count rest := by
        simp [segment_count, is_segment]
      have hs : has_symtab_command (load_command.LC_UNIXTHREAD pc :: rest) =
          has_symtab_command rest := by
        simp [has_symtab_command, is_symtab]
      rw [hc, hs]
      simp only [mach_file_vmsize_loop, sections_size]
      exact ih _ _ _ h
    | LC_DYSYMTAB cmd =>
      have hc : segment_count (load_command.LC_DYSYMTAB cmd :: rest) = segment_count rest := by
        simp [segment_count, is_segment]
      have hs : has_symtab_command (load_command.LC_DYSYMTAB cmd :: rest) =
          has_symtab_command rest := by
        simp [has_symtab_command, is_symtab]
      rw [hc, hs]
      simp only [mach_file_vmsize_loop, sections_size]
      exact ih _ _ _ h
    | LC_DYLD_INFO =>
      have hc : segment_count (load_command.LC_DYLD_INFO :: rest) = segment_count rest := by
        simp [segment_count, is_segment]
      have hs : has_symtab_command (load_command.LC_DYLD_INFO :: rest) =
          has_symtab_command rest := by
        simp [has_symtab_command, is_symtab]
      rw [hc, hs]
      simp only [mach_file_vmsize_loop, sections_size]
      exact ih _ _ _ h
    | LC_DYLD_INFO_ONLY =>
      have hc : segment_count (load_command.LC_DYLD_INFO_ONLY :: rest) = segment_count rest := by
        simp [segment_count, is_segment]
      have hs : has_symtab_command (load_command.LC_DYLD_INFO_ONLY :: rest) =
          has_symtab_command rest := by
        simp [has_symtab_command, is_symtab]
      rw [hc, hs]
      simp only [mach_file_vmsize_loop, sections_size]
      exact ih _ _ _ h
    | LC_OTHER c =>
      have hc : segment_count (load_command.LC_OTHER c :: rest) = segment_count rest := by
        simp [segment_count, is_segment]
      have hs : has_symtab_command (load_command.LC_OTHER c :: rest) =
          has_symtab_command rest := by
        simp [has_symtab_command, is_symtab]
      rw [hc, hs]
      simp only [mach_file_vmsize_loop, sections_size]
      exact ih _ _ _ h

/-- C18 (amended): for an object file `mach_file_vmsize` returns
`LOADER_OBJECT_BADSEGMENT` when the file has more than one `LC_SEGMENT`; with at most one
segment it returns `LOADER_NOSYMTAB` when there is no `LC_SYMTAB`, and otherwise
`LOADER_SUCCESS` with the sum of the section sizes of the segment, modulo `2^32` (zero
when the file has no segment). -/
theorem mach_file_vmsize_object (file : mach_loader_context_t)
    (hobj : file.filetype = MH_OBJECT) :
    mach_file_vmsize file =
      if 2 ≤ segment_count file.head.cmds then (LOADER_OBJECT_BADSEGMENT, none)
      else if has_symtab_command file.head.cmds = false then (LOADER_NOSYMTAB, none)
      else (LOADER_SUCCESS, some (u32 (sections_size file.head.cmds))) := by
  unfold mach_file_vmsize
  rw [hobj, mach_file_vmsize_loop_object _ 0 0 false (by norm_num)]
  simp only [if_true, Nat.zero_add, Bool.false_or]
  by_cases h2 : 2 ≤ segment_count file.head.cmds
  · rw [if_pos h2, if_pos h2]
  · rw [if_neg h2, if_neg h2]
    dsimp only
    by_cases hs : has_symtab_command file.head.cmds = false
    · rw [if_pos ⟨trivial, hs⟩, if_pos hs]
    · rw [if_neg (fun h => hs h.2), if_neg hs]

theorem mach_file_vmsize_object_witness :
    mach_file_vmsize c18w_file =
      (if 2 ≤ segment_count c18w_file.head.cmds then (LOADER_OBJECT_BADSEGMENT, none)
       else if has_symtab_command c18w_file.head.cmds = false then (LOADER_NOSYMTAB, none)
       else (LOADER_SUCCESS, some (u32 (sections_size c18w_file.head.cmds)))) ∧
    mach_file_vmsize c18w_file = (LOADER_SUCCESS, some 20) :=
  ⟨mach_file_vmsize_object c18w_file rfl, by decide⟩

/-- C18 (as stated, refuted): an object file with an `LC_SYMTAB` and no `LC_SEGMENT` at
all gets `LOADER_SUCCESS` with the size 0, and an object file with two segments and no
`LC_SYMTAB` gets `LOADER_OBJECT_BADSEGMENT`, not `LOADER_NOSYMTAB`. -/
theorem mach_file_vmsize_object_edge_cases :
    c18_no_segment.filetype = MH_OBJECT ∧ segment_count c18_no_segment.head.cmds = 0 ∧
    mach_file_vmsize c18_no_segment = (LOADER_SUCCESS, some 0) ∧
    c18_two_segments.filetype = MH_OBJECT ∧
    has_symtab_command c18_two_segments.head.cmds = false ∧
    mach_file_vmsize c18_two_segments = (LOADER_OBJECT_BADSEGMENT, none) := by
  decide

/-! ## Files with dyld information -/

theorem is_segment_not_dyld_info (lc : load_command) (h : is_segment lc = true) :
    is_dyld_info lc = false := by
  cases lc <;> first | rfl | cases h

theorem decoded_map_lc_inr (load_addr : Nat) (lc : load_command) (s s1 : map_state)
    (h : decoded_map_lc load_addr lc s = Sum.inr s1) :
    is_dyld_info lc = false ∧ s1.file.filetype = s.file.filetype ∧
    s1.seg_count = s.seg_count + (if is_segment lc then 1 else 0) ∧
    (is_segment lc = true → s.file.filetype = MH_OBJECT → s.seg_count = 0) := by
  unfold decoded_map_lc at h
  cases lc <;> dsimp only at h
  · split_ifs at h with h1 h2 h3 h4 h5 h6 <;> injection h with h <;> subst h <;>
      refine ⟨rfl, rfl, rfl, ?_⟩ <;> intro _ ho
    · rw [h1] at ho; exact absurd ho (by decide)
    · rw [h1] at ho; exact absurd ho (by decide)
    · rw [h1] at ho; exact absurd ho (by decide)
    · omega
  all_goals first
    | (injection h with h; subst h; exact ⟨rfl, rfl, rfl, fun hs => by cases hs⟩)
    | cases h

theorem decoded_map_lc_inl (load_addr : Nat) (lc : load_command) (s s1 : map_state)
    (e : loader_return_t) (h : decoded_map_lc load_addr lc s = Sum.inl (e, s1)) :
    e ≠ LOADER_SUCCESS ∧
    (s.file.filetype = MH_EXECUTE → e = LOADER_EXEC_UNSUPPORTED) ∧
    (s.file.filetype = MH_OBJECT →
      (is_dyld_info lc = true ∧ e = LOADER_EXEC_UNSUPPORTED) ∨
      (is_segment lc = true ∧ s.seg_count ≠ 0 ∧ e = LOADER_OBJECT_BADSEGMENT)) := by
  unfold decoded_map_lc at h
  cases lc <;> dsimp only at h
  · split_ifs at h with h1 h2 h3 h4 <;> injection h with h <;> injection h with he hs <;>
      subst he
    · exact ⟨by decide, fun _ => rfl, fun ho => by rw [h1] at ho; exact absurd ho (by decide)⟩
    · exact ⟨by decide, fun hx => absurd hx h1, fun _ => Or.inr ⟨rfl, by assumption, rfl⟩⟩
    · exact ⟨by decide, fun hx => absurd hx h1, fun ho => absurd ho (by assumption)⟩
  all_goals first
    | (injection h with h; injection h with he hs; subst he
       exact ⟨by decide, fun _ => rfl, fun _ => Or.inl ⟨rfl, rfl⟩⟩)
    | cases h

theorem decoded_map_loop_dyld_info (load_addr : Nat) :
    ∀ (cmds : List load_command) (s : map_state), has_dyld_info cmds = true →
      ∃ e s1, decoded_map_loop load_addr cmds s = Sum.inl (e, s1) ∧
        e ≠ LOADER_SUCCESS ∧
        (s.file.filetype = MH_EXECUTE → e = LOADER_EXEC_UNSUPPORTED) ∧
        (s.file.filetype = MH_OBJECT →
          e = if (if s.seg_count = 0 then 2 else 1) ≤ segments_before_dyld_info cmds
              then LOADER_OBJECT_BADSEGMENT else LOADER_EXEC_UNSUPPORTED) := by
  intro cmds
  induction cmds with
  | nil => intro s h; cases h
  | cons lc rest ih =>
    intro s h
    cases hlc : decoded_map_lc load_addr lc s with
    | inl r =>
      obtain ⟨e, s1⟩ := r
      obtain ⟨a1, a2, a3⟩ := decoded_map_lc_inl load_addr lc s s1 e hlc
      refine ⟨e, s1, by simp only [decoded_map_loop, hlc], a1, a2, ?_⟩
      intro ho
      rcases a3 ho with ⟨hd, he⟩ | ⟨hsg, hc, he⟩
      · have hn : segments_before_dyld_info (lc :: rest) = 0 := by
          simp [segments_before_dyld_info, hd]
        rw [hn, he, if_neg (by split_ifs <;> omega)]
      · have hn : segments_before_dyld_info (lc :: rest) =
            1 + segments_before_dyld_info rest := by
          simp [segments_before_dyld_info, hsg, is_segment_not_dyld_info lc hsg]
        rw [hn, he, if_neg hc, if_pos (by omega)]
    | inr s1 =>
      obtain ⟨b1, b2, b3, b4⟩ := decoded_map_lc_inr load_addr lc s s1 hlc
      have hrest : has_dyld_info rest = true := by
        simpa [has_dyld_info, b1] using h
      obtain ⟨e, s2, c1, c2, c3, c4⟩ := ih s1 hrest
      refine ⟨e, s2, by simp only [decoded_map_loop, hlc]; exact c1, c2,
        fun hx => c3 (by rw [b2]; exact hx), ?_⟩
      intro ho
      rw [c4 (by rw [b2]; exact ho)]
      have hn : segments_before_dyld_info (lc :: rest) =
          (if is_segment lc then 1 else 0) + segments_before_dyld_info rest := by
        simp [segments_before_dyld_info, b1]
      rw [hn, b3]
      by_cases hsg : is_segment lc = true
      · have h0 := b4 hsg ho
        rw [if_pos hsg, h0]
        simp only [if_true, Nat.zero_add, if_neg (show ¬ (1 : Nat) = 0 by decide)]
        by_cases hle : 1 ≤ segments_before_dyld_info rest
        · rw [if_pos hle, if_pos (by omega)]
        · rw [if_neg hle, if_neg (by omega)]
      · rw [if_neg hsg]
        simp only [Nat.add_zero, Nat.zero_add]

theorem decoded_map_dyld_info (cmds : List load_command) (file : mach_loader_context_t)
    (load_addr vmsize : Nat) (m : Mem) (h : has_dyld_info cmds = true) :
    (decoded_map cmds file load_addr vmsize m).1 ≠ LOADER_SUCCESS ∧
    (file.filetype = MH_EXECUTE →
      (decoded_map cmds file load_addr vmsize m).1 = LOADER_EXEC_UNSUPPORTED) ∧
    (file.filetype = MH_OBJECT →
      (decoded_map cmds file load_addr vmsize m).1 =
        if 2 ≤ segments_before_dyld_info cmds then LOADER_OBJECT_BADSEGMENT
        else LOADER_EXEC_UNSUPPORTED) := by
  obtain ⟨e, s1, h1, h2, h3, h4⟩ :=
    decoded_map_loop_dyld_info load_addr cmds { file := file, seg_count := 0, mem := m } h
  unfold decoded_map
  rw [h1]
  exact ⟨h2, h3, h4⟩

/-- C17 (as amended). On a file whose load commands include `LC_DYLD_INFO` or
`LC_DYLD_INFO_ONLY` and whose header and load commands no write of the mapping reaches,
`mach_file_map` never returns `LOADER_SUCCESS`; it returns `LOADER_EXEC_UNSUPPORTED`
when the file is an executable, and when it is an object with at most one `LC_SEGMENT`
before the first such command; an object with two segments or more before it gets
`LOADER_OBJECT_BADSEGMENT`. -/
theorem mach_file_map_dyld_info (rd : macho_reader) (file : mach_loader_context_t)
    (load_addr vmsize : Nat) (m : Mem)
    (h : has_dyld_info (read_header rd m file.file).cmds = true)
    (hkept : commands_kept rd file.file m
      (map_writes file.filetype file.vm_bias load_addr (read_header rd m file.file).cmds)) :
    (mach_file_map rd file load_addr vmsize m).1 ≠ LOADER_SUCCESS ∧
    (file.filetype = MH_EXECUTE →
      (mach_file_map rd file load_addr vmsize m).1 = LOADER_EXEC_UNSUPPORTED) ∧
    (file.filetype = MH_OBJECT →
      (mach_file_map rd file load_addr vmsize m).1 =
        if 2 ≤ segments_before_dyld_info (read_header rd m file.file).cmds then
          LOADER_OBJECT_BADSEGMENT
        else LOADER_EXEC_UNSUPPORTED) := by
  rw [(mach_file_map_kept rd file load_addr vmsize m _ hkept (fun _ hw => hw)).1]
  exact decoded_map_dyld_info _ file load_addr vmsize m h

/-- C17 (witness). The executable `c17w_file`, one segment followed by an
`LC_DYLD_INFO_ONLY` command, mapped at `0x2000` away from its load commands:
`mach_file_map` returns `LOADER_EXEC_UNSUPPORTED`. -/
theorem mach_file_map_dyld_info_witness :
    has_dyld_info (read_header (file_reader c17w_file) s3_mem c17w_file.file).cmds = true ∧
    c17w_file.filetype = MH_EXECUTE ∧
    (mach_file_map (file_reader c17w_file) c17w_file 0x2000 0 s3_mem).1 =
      LOADER_EXEC_UNSUPPORTED :=
  ⟨by decide!, by decide,
    (mach_file_map_dyld_info (file_reader c17w_file) c17w_file 0x2000 0 s3_mem (by decide!)
      (image_reader_kept _ _ _ _ _)).2.1 (by decide)⟩

/-- C17 (as stated, refuted). For an object file with two segments followed by an
`LC_DYLD_INFO` command, none of which writes a byte, `mach_file_map` returns
`LOADER_OBJECT_BADSEGMENT`. And for the executable `c17o_file`, whose header at `0x3000`
holds `ncmds = 2`, a segment and an `LC_DYLD_INFO` command, mapped at `0x3010`: the copy
of the segment writes the byte 1 over `ncmds`, the loop reads `ncmds` again, ends before
the `LC_DYLD_INFO` command, and `mach_file_map` returns `LOADER_SUCCESS`. -/
theorem mach_file_map_dyld_info_after_segments :
    (has_dyld_info (read_header (file_reader c17_file) s3_mem c17_file.file).cmds = true ∧
      (mach_file_map (file_reader c17_file) c17_file 0x2000 0 s3_mem).1 =
        LOADER_OBJECT_BADSEGMENT) ∧
    ((read_header (ncmds_reader 0x3000 c17o_file.head) c17o_mem c17o_file.file).cmds =
        c17o_file.head.cmds ∧
      has_dyld_info (read_header (ncmds_reader 0x3000 c17o_file.head) c17o_mem
        c17o_file.file).cmds = true ∧
      (mach_file_map (ncmds_reader 0x3000 c17o_file.head) c17o_file 0x3010 1 c17o_mem).2.2
        0x3010 = 1 ∧
      (mach_file_map (ncmds_reader 0x3000 c17o_file.head) c17o_file 0x3010 1 c17o_mem).1 =
        LOADER_SUCCESS) := by
  decide!

/-! ## Records that the object relocator refuses -/

theorem load_macho_setup_teardown (env : Env) (command flags : Nat) (s : machine)
    (hk : flags &&& kMachKernel ≠ 0)
    (hloaded : env.RANGE_IS_NULL s.g.gKernelMemoryRange = false) :
    (setup_state (load_macho_setup env command flags s)).g.gLoadedDriverImages = [] ∧
    (setup_state (load_macho_setup env command flags s)).g.gHasDeviceTree = false ∧
    (s.g.gHasDeviceTree = true →
      (setup_state (load_macho_setup env command flags s)).dt = none) ∧
    (setup_state (load_macho_setup env command flags s)).g.gRAMDiskRange = ZERO_RANGE ∧
    (setup_state (load_macho_setup env command flags s)).g.gKernelMemoryRange = ZERO_RANGE := by
  unfold load_macho_setup
  dsimp only
  rw [if_pos hk]
  split_ifs with c1 c2 c3 c4 c5 <;>
    simp_all [setup_state, teardown_old_loader_context]

/-- C15. A Mach-O command with the kernel flag that arrives while a kernel is loaded
tears the old context down before anything of the new image is decompressed or mapped:
the state that the first part of `load_macho_from_command` hands on has an empty driver
list, the device-tree flag false and the tree of a loaded device tree finalized, and the
kernel and ramdisk ranges zeroed. When the command has no driver flag and the new kernel
loads, the driver list is still empty, the ramdisk range is empty and the device-tree
flag is false. -/
theorem kernel_command_tears_down (env : Env) (command : Nat) (s : machine)
    (hk : command_flags s.mem command &&& kMachKernel ≠ 0)
    (hloaded : env.RANGE_IS_NULL s.g.gKernelMemoryRange = false) :
    ((setup_state (load_macho_setup env command (command_flags s.mem command) s)).g.gLoadedDriverImages
        = [] ∧
      (setup_state (load_macho_setup env command (command_flags s.mem command) s)).g.gHasDeviceTree
        = false ∧
      (s.g.gHasDeviceTree = true →
        (setup_state (load_macho_setup env command (command_flags s.mem command) s)).dt = none) ∧
      (setup_state (load_macho_setup env command (command_flags s.mem command) s)).g.gRAMDiskRange
        = ZERO_RANGE ∧
      (setup_state (load_macho_setup env command (command_flags s.mem command) s)).g.gKernelMemoryRange
        = ZERO_RANGE) ∧
    (command_flags s.mem command &&& kMachDriver = 0 →
      (load_macho_from_command env command s).1 = 0 →
      (load_macho_from_command env command s).2.g.gLoadedDriverImages = [] ∧
      (load_macho_from_command env command s).2.g.gRAMDiskRange = ZERO_RANGE ∧
      (load_macho_from_command env command s).2.g.gHasDeviceTree = false) := by
  have ht := load_macho_setup_teardown env command (command_flags s.mem command) s hk hloaded
  refine ⟨ht, ?_⟩
  intro hd hret
  obtain ⟨t1, t2, -, t4, -⟩ := ht
  unfold load_macho_from_command at hret ⊢
  dsimp only at hret ⊢
  cases hsetup : load_macho_setup env command (command_flags s.mem command) s with
  | inl r =>
    rw [hsetup] at t1 t2 t4
    exact ⟨t1, t4, t2⟩
  | inr s1 =>
    rw [hsetup] at t1 t2 t4 hret
    dsimp only [setup_state] at t1 t2 t4
    dsimp only at hret ⊢
    rw [if_neg (fun h => h hd)] at hret ⊢
    cases hdec : load_macho_decompress env command (command_flags s.mem command)
        (u32 (command + sizeof_command_macho_t))
        (sub32 (command_size s.mem command) sizeof_command_macho_t) s1.g.gKernelMemoryTop
        s1.mem with
    | inl m1 => exact ⟨t1, t4, t2⟩
    | inr res =>
      obtain ⟨a1, sz, m1⟩ := res
      rw [hdec] at hret
      dsimp only at hret ⊢
      rw [if_neg (fun h => h hd), if_pos hk] at hret ⊢
      unfold load_macho_kernel at hret ⊢
      dsimp only at hret ⊢
      cases hload : load_macho env m1 a1 (command_load_address m1 command)
          s1.g.gKernelMemoryTop with
      | mk res m2 =>
        cases res with
        | none => exact ⟨t1, t4, t2⟩
        | some es => exact ⟨t1, t4, t2⟩

theorem kernel_command_tears_down_witness :
    c15_state.g.gLoadedDriverImages.length = 1 ∧
    command_flags c15_state.mem 0x10000008 &&& kMachDriver = 0 ∧
    (load_macho_from_command s1_env 0x10000008 c15_state).1 = 0 ∧
    (load_macho_from_command s1_env 0x10000008 c15_state).2.g.gLoadedDriverImages = [] ∧
    (load_macho_from_command s1_env 0x10000008 c15_state).2.g.gRAMDiskRange = ZERO_RANGE ∧
    (load_macho_from_command s1_env 0x10000008 c15_state).2.g.gHasDeviceTree = false :=
  ⟨by decide!, by decide!, by decide!,
    (kernel_command_tears_down s1_env 0x10000008 c15_state (by decide!) (by decide!)).2
      (by decide!) (by decide!)⟩

/-- C16. A Mach-O command without the kernel flag, with the driver flag or not,
processed while no kernel is loaded, returns 1 and leaves the global variables as they
were: no entry is added to the driver list and `gKernelMemoryTop` does not move. -/
theorem driver_command_without_kernel (env : Env) (command : Nat) (s : machine)
    (hk : command_flags s.mem command &&& kMachKernel = 0)
    (hnone : env.RANGE_IS_NULL s.g.gKernelMemoryRange = true) :
    (load_macho_from_command env command s).1 = 1 ∧
    (load_macho_from_command env command s).2.g.gLoadedDriverImages = s.g.gLoadedDriverImages ∧
    (load_macho_from_command env command s).2.g.gKernelMemoryTop = s.g.gKernelMemoryTop ∧
    (load_macho_from_command env command s).2.g = s.g := by
  have hsetup : ∃ s0 : machine, s0.g = s.g ∧
      load_macho_setup env command (command_flags s.mem command) s = Sum.inl (1, s0) := by
    unfold load_macho_setup assert_kernel_load
    dsimp only
    rw [if_neg (fun h => h hk)]
    split_ifs with c1 c2 c3
    · exact ⟨_, by rfl, rfl⟩
    · simp_all
    · exact ⟨_, by rfl, rfl⟩
    · simp_all
  obtain ⟨s0, hg, hs⟩ := hsetup
  unfold load_macho_from_command
  dsimp only
  rw [hs]
  exact ⟨rfl, by rw [hg], by rw [hg], hg⟩

theorem driver_command_without_kernel_witness :
    command_flags s1_start.mem 0x12000000 = 0x201 ∧
    s1_start.g.gKernelMemoryRange = { base := 0, size := 0 } ∧
    (load_macho_from_command s1_env 0x12000000 s1_start).1 = 1 ∧
    (load_macho_from_command s1_env 0x12000000 s1_start).2.g.gLoadedDriverImages =
      s1_start.g.gLoadedDriverImages ∧
    (load_macho_from_command s1_env 0x12000000 s1_start).2.g.gKernelMemoryTop =
      s1_start.g.gKernelMemoryTop :=
  have h := driver_command_without_kernel s1_env 0x12000000 s1_start (by decide!) (by decide!)
  ⟨by decide!, by decide!, h.1, h.2.1, h.2.2.1⟩

/-! ## The memory map of `mach_boot` -/

/-- C14 (code evaluated at a failing input): with a kernel, one driver and a device tree
loaded, and the words `0xfffffff0` and `0x10` on the stack where `map_add_info` has its
local `iBoot_range`, `mach_boot` enters the kernel with `data_end = 0x20100000` and a
memory map whose ranges are `iBoot = {0xfffffff0, 0x10}`, `BootArgs`, `Kernel` and
`Driver-20002000`: the range `iBoot` ends at `0x100000000`, above `data_end`. -/
theorem mach_boot_iBoot_range :
    c14_state.g.gHasDeviceTree = true ∧
    (mach_boot s1_env c14_boot kernel_mem_start c14_state).map (fun r => r.ret) = some 0 ∧
    (mach_boot s1_env c14_boot kernel_mem_start c14_state).map
        (fun r => r.memory_map.map memory_map_ranges) =
      some (some [(str_iBoot, 0xfffffff0, 0x10), (str_BootArgs, 0x20003000, 312),
                  (str_Kernel, 0x20001000, 0x1000),
                  (sprintf_s_x str_Driver 0x20002000, 0x20002000, 0x700)]) ∧
    (mach_boot s1_env c14_boot kernel_mem_start c14_state).map
        (fun r => r.args.map (fun a => read32 r.state.mem (a + boot_args_data_end))) =
      some (some 0x20100000) ∧
    ¬ (c14_boot.iBoot_range.base + c14_boot.iBoot_range.size ≤ 0x20100000) := by
  refine ⟨by decide!, by decide!, by decide!, by decide!, by decide!⟩

/-! ## Skipped records -/

/-- C22 (code evaluated at a failing input): on an executable mapped at `0x2000` whose
local relocation table holds one record with `r_extern = 1` on the word at `0x2000`,
`mach_file_relocate_executable` returns `LOADER_SUCCESS` and the word has gone from
`0x1000` to `0x11000`; `mach_file_relocate_object` refuses the same record of an object
with `LOADER_BADRELOC`. -/
theorem mach_file_relocate_executable_patches_external :
    c22_file.dsymtab.map (fun d => d.locrel.map (fun r => r.r_extern)) = some [1] ∧
    read32 s3_mem 0x2000 = 0x1000 ∧
    (mach_file_relocate_executable c22_file s3_mem).1 = LOADER_SUCCESS ∧
    read32 (mach_file_relocate_executable c22_file s3_mem).2 0x2000 = 0x00011000 ∧
    (mach_file_relocate_object c22_object s3_mem).1 = LOADER_BADRELOC := by
  decide

/-! ## The bump allocator -/

theorem align_up_spec (x a : Nat) (ha : a ≠ 0) (hfit : x + (a - 1) < 4294967296) :
    align_up x a % a = 0 ∧ x ≤ align_up x a ∧ align_up x a < x + a := by
  unfold align_up
  have h1 : (x + (a - 1)) / a * a ≤ x + (a - 1) := Nat.div_mul_le_self _ _
  rw [u32_of_lt (by omega)]
  have h2 := Nat.div_add_mod (x + (a - 1)) a
  have h3 : (x + (a - 1)) % a < a := Nat.mod_lt _ (Nat.pos_of_ne_zero ha)
  rw [Nat.mul_comm] at h2
  refine ⟨Nat.mul_mod_left _ _, ?_, ?_⟩ <;> omega

/-- C23. For a region with `down = false` and without 32-bit wraparound,
`memory_reserve(size, align)` returns the old `pos` when `align = 0` and otherwise the
least multiple of `align` that is not below the old `pos`; it leaves
`pos = returned address + size`, which is not below the old `pos`, and `base` and `down`
as they were. -/
theorem memory_reserve_up (region : memory_region_t) (size align_boundary : Nat)
    (hdown : region.down = false)
    (hfit : region.pos + (align_boundary - 1) + size < 4294967296) :
    (align_boundary = 0 → (memory_reserve region size align_boundary).1 = region.pos) ∧
    (align_boundary ≠ 0 →
      (memory_reserve region size align_boundary).1 % align_boundary = 0 ∧
      region.pos ≤ (memory_reserve region size align_boundary).1 ∧
      (memory_reserve region size align_boundary).1 < region.pos + align_boundary) ∧
    (memory_reserve region size align_boundary).2.pos =
      (memory_reserve region size align_boundary).1 + size ∧
    (memory_reserve region size align_boundary).2.base = region.base ∧
    (memory_reserve region size align_boundary).2.down = region.down ∧
    region.pos ≤ (memory_reserve region size align_boundary).2.pos := by
  have e1 : (memory_reserve region size align_boundary).1 =
      (if align_boundary ≠ 0 then align_up region.pos align_boundary else region.pos) := by
    unfold memory_reserve
    rw [hdown]
    rfl
  have e2 : (memory_reserve region size align_boundary).2 =
      { region with pos := u32 ((memory_reserve region size align_boundary).1 + size) } := by
    unfold memory_reserve
    rw [hdown]
    rfl
  rw [e2]
  dsimp only
  rw [e1]
  by_cases ha : align_boundary = 0
  · rw [if_neg (fun c => c ha)]
    rw [ha] at hfit
    rw [u32_of_lt (by omega)]
    exact ⟨fun _ => rfl, fun h => absurd ha h, rfl, rfl, rfl, by omega⟩
  · rw [if_pos ha]
    obtain ⟨a1, a2, a3⟩ := align_up_spec region.pos align_boundary ha (by omega)
    rw [u32_of_lt (by omega)]
    exact ⟨fun h => absurd h ha, fun _ => ⟨a1, a2, a3⟩, rfl, rfl, rfl, by omega⟩

theorem memory_reserve_up_witness :
    (memory_reserve { base := 0x20000000, pos := 0x20003138, down := false } 0x44 0x1000).1 %
        0x1000 = 0 ∧
    (memory_reserve { base := 0x20000000, pos := 0x20003138, down := false } 0x44 0x1000).1 =
      0x20004000 ∧
    (memory_reserve { base := 0x20000000, pos := 0x20003138, down := false } 0x44 0x1000).2.pos =
      (memory_reserve { base := 0x20000000, pos := 0x20003138, down := false } 0x44 0x1000).1 +
        0x44 :=
  have h := memory_reserve_up { base := 0x20000000, pos := 0x20003138, down := false } 0x44
    0x1000 rfl (by decide)
  ⟨(h.2.1 (by decide)).1, by decide, h.2.2.1⟩

/-- C24 (amended): for a region with `down = true`, `memory_reserve(size, align)` first
takes `size` off the cursor, then rounds the cursor down to `align` (no rounding when
`align = 0`), and returns that cursor: afterwards `pos` is the returned address, `base`
and `down` are as they were, and when `size` is not above the old `pos` the block of
`size` bytes at the returned address ends at or below the old `pos`. -/
theorem memory_reserve_down (region : memory_region_t) (size align_boundary : Nat)
    (hdown : region.down = true) :
    (memory_reserve region size align_boundary).1 =
      (if align_boundary ≠ 0 then align_down (sub32 region.pos size) align_boundary
       else sub32 region.pos size) ∧
    (memory_reserve region size align_boundary).2.pos =
      (memory_reserve region size align_boundary).1 ∧
    (memory_reserve region size align_boundary).2.base = region.base ∧
    (memory_reserve region size align_boundary).2.down = region.down ∧
    (size ≤ region.pos → region.pos < 4294967296 →
      (memory_reserve region size align_boundary).1 + size ≤ region.pos ∧
      (align_boundary ≠ 0 →
        (memory_reserve region size align_boundary).1 % align_boundary = 0 ∧
        region.pos < (memory_reserve region size align_boundary).1 + size + align_boundary)) := by
  have e1 : (memory_reserve region size align_boundary).1 =
      (if align_boundary ≠ 0 then align_down (sub32 region.pos size) align_boundary
       else sub32 region.pos size) := by
    unfold memory_reserve
    rw [hdown]
    rfl
  have e2 : (memory_reserve region size align_boundary).2 =
      { region with pos := (memory_reserve region size align_boundary).1 } := by
    unfold memory_reserve
    rw [hdown]
    rfl
  rw [e2]
  dsimp only
  refine ⟨e1, rfl, rfl, rfl, ?_⟩
  rw [e1]
  intro hs hp
  have hsub : sub32 region.pos size = region.pos - size := by
    unfold sub32
    omega
  rw [hsub]
  by_cases ha : align_boundary = 0
  · rw [if_neg (fun c => c ha)]
    exact ⟨by omega, fun h => absurd ha h⟩
  · rw [if_pos ha]
    unfold align_down
    have h1 : (region.pos - size) / align_boundary * align_boundary ≤ region.pos - size :=
      Nat.div_mul_le_self _ _
    have h2 := Nat.div_add_mod (region.pos - size) align_boundary
    have h3 : (region.pos - size) % align_boundary < align_boundary :=
      Nat.mod_lt _ (Nat.pos_of_ne_zero ha)
    rw [Nat.mul_comm] at h2
    exact ⟨by omega, fun _ => ⟨Nat.mul_mod_left _ _, by omega⟩⟩

theorem memory_reserve_down_witness :
    (memory_reserve { base := 0x30000000, pos := 0x30000000, down := true } 0x138 0x1000).1 =
      0x2ffff000 ∧
    (memory_reserve { base := 0x30000000, pos := 0x30000000, down := true } 0x138 0x1000).2.pos =
      (memory_reserve { base := 0x30000000, pos := 0x30000000, down := true } 0x138 0x1000).1 :=
  ⟨by decide,
    (memory_reserve_down { base := 0x30000000, pos := 0x30000000, down := true } 0x138 0x1000
      rfl).2.1⟩

/-- C24 (as stated, refuted): on a downward region with `pos = 0x1000`,
`memory_reserve(0x100, 0)` returns `0xf00`, not the cursor `0x1000`, and leaves
`pos = 0xf00`, which is the returned address and not the returned address less `0x100`. -/
theorem memory_reserve_down_returns_new_pos :
    (memory_reserve { base := 0x1000, pos := 0x1000, down := true } 0x100 0).1 = 0xf00 ∧
    (memory_reserve { base := 0x1000, pos := 0x1000, down := true } 0x100 0).2.pos = 0xf00 ∧
    (memory_reserve { base := 0x1000, pos := 0x1000, down := true } 0x100 0).2.pos ≠
      (memory_reserve { base := 0x1000, pos := 0x1000, down := true } 0x100 0).1 - 0x100 := by
  decide

/-! ## Physical and kernel virtual addresses -/

/-- C25. The macros `ptokv` and `kvtop` are inverse of each other on 32-bit words,
whatever the physical and the virtual base. -/
theorem kvtop_ptokv (g : loader_state) (x : Nat) :
    kvtop g (ptokv g x) = u32 x ∧ ptokv g (kvtop g x) = u32 x := by
  unfold kvtop ptokv sub32 u32
  constructor <;> omega

/-! ## The ramdisk -/

/-- C30. `do_rdx` returns 0 or 1. When it returns 0 the size is at least
`1024 + sizeof(HFSPlusVolumeHeader)`, the 16-bit signature at byte offset 1024, most
significant byte first, is `H+` or `BD`, `gRAMDiskRange` is `{addr, size}` and
`gKernelMemoryTop` has advanced by the size rounded up to `0x1000`. For a smaller size
or another signature it returns 1, and whenever it returns 1 the state is the one
before the call. With an address that is not null and equals `gKernelMemoryTop`, a
size that is large enough and one of the two signatures, it returns 0. -/
theorem do_rdx_registers (addr size : Nat) (s : machine) :
    ((do_rdx addr size s).1 = 0 →
      1024 + sizeof_HFSPlusVolumeHeader ≤ size ∧
      (rdx_signature s.mem addr = kHFSPlusSigWord ∨ rdx_signature s.mem addr = kHFSSigWord) ∧
      (do_rdx addr size s).2.g.gRAMDiskRange = { base := addr, size := size } ∧
      (do_rdx addr size s).2.g.gKernelMemoryTop =
        u32 (s.g.gKernelMemoryTop + align_up size 0x1000)) ∧
    ((size < 1024 + sizeof_HFSPlusVolumeHeader ∨
        (rdx_signature s.mem addr ≠ kHFSPlusSigWord ∧ rdx_signature s.mem addr ≠ kHFSSigWord)) →
      (do_rdx addr size s).1 = 1 ∧
      (do_rdx addr size s).2.g.gRAMDiskRange = s.g.gRAMDiskRange ∧
      (do_rdx addr size s).2.g.gKernelMemoryTop = s.g.gKernelMemoryTop) ∧
    ((do_rdx addr size s).1 ≠ 0 → (do_rdx addr size s).1 = 1 ∧ (do_rdx addr size s).2 = s) ∧
    (addr ≠ 0 → addr = s.g.gKernelMemoryTop → 1024 + sizeof_HFSPlusVolumeHeader ≤ size →
      (rdx_signature s.mem addr = kHFSPlusSigWord ∨ rdx_signature s.mem addr = kHFSSigWord) →
      (do_rdx addr size s).1 = 0) := by
  unfold do_rdx rdx_signature increment_kernel_memory
  dsimp only
  refine ⟨?_, ?_, ?_, ?_⟩
  · intro h
    split_ifs at h ⊢ with h1 h2 h3 h4 h5
    all_goals first
      | exact absurd h (by decide)
      | exact ⟨by omega, by tauto, rfl, rfl⟩
  · intro h
    split_ifs with h1 h2 h3 h4 h5
    all_goals first
      | exact ⟨rfl, rfl, rfl⟩
      | (exfalso; rcases h with h | h
         · omega
         · exact h5 h)
  · intro h
    split_ifs at h ⊢ with h1 h2 h3 h4 h5
    all_goals first
      | exact ⟨rfl, rfl⟩
      | exact absurd rfl h
  · intro ha ht hs hsig
    have hsz : sizeof_HFSPlusVolumeHeader = 112 := rfl
    rw [if_neg ha, if_neg (by omega), if_neg (fun c => c ht), if_neg (by omega),
      if_neg (by tauto)]

/-! ## The table of contents -/

theorem toc_walk_shift (env : Env) (cmd : Nat) (s : machine) (i : Nat) :
    toc_walk env cmd s (i + 1) =
      toc_walk env (u32 (cmd + command_size (toc_command env cmd s).2.mem cmd))
        (toc_command env cmd s).2 i := by
  induction i with
  | zero => rfl
  | succ j ih =>
    rw [toc_walk, ih]
    rfl

theorem toc_loop_spec (env : Env) :
    ∀ (n cmd : Nat) (s : machine),
      ((toc_loop env n cmd s).1 = 0 ↔ ∀ i, i < n → toc_ret env cmd s i = 0) ∧
      ((toc_loop env n cmd s).1 = 0 → (toc_loop env n cmd s).2 = (toc_walk env cmd s n).2) ∧
      (∀ k, k < n → (∀ i, i < k → toc_ret env cmd s i = 0) → toc_ret env cmd s k ≠ 0 →
        toc_loop env n cmd s = toc_command env (toc_walk env cmd s k).1 (toc_walk env cmd s k).2) := by
  intro n
  induction n with
  | zero =>
    intro cmd s
    refine ⟨⟨fun _ i hi => absurd hi (Nat.not_lt_zero i), fun _ => rfl⟩, fun _ => rfl, ?_⟩
    intro k hk
    exact absurd hk (Nat.not_lt_zero k)
  | succ n ih =>
    intro cmd s
    have hshift : ∀ i, toc_ret env cmd s (i + 1) =
        toc_ret env (u32 (cmd + command_size (toc_command env cmd s).2.mem cmd))
          (toc_command env cmd s).2 i := by
      intro i
      unfold toc_ret
      rw [toc_walk_shift]
    have h0 : toc_ret env cmd s 0 = (toc_command env cmd s).1 := rfl
    cases hc : toc_command env cmd s with
    | mk ret s1 =>
      rw [hc] at hshift h0
      dsimp only at hshift h0
      cases ret with
      | zero =>
        have hl : toc_loop env (n + 1) cmd s =
            toc_loop env n (u32 (cmd + command_size s1.mem cmd)) s1 := by
          simp only [toc_loop, hc]
        obtain ⟨i1, i2, i3⟩ := ih (u32 (cmd + command_size s1.mem cmd)) s1
        rw [hl]
        refine ⟨⟨?_, ?_⟩, ?_, ?_⟩
        · intro h i hi
          cases i with
          | zero => exact h0
          | succ j => rw [hshift]; exact i1.mp h j (by omega)
        · intro h
          exact i1.mpr (fun i hi => by rw [← hshift]; exact h (i + 1) (by omega))
        · intro h
          rw [i2 h, toc_walk_shift, hc]
        · intro k hk hall hk0
          cases k with
          | zero => exact absurd h0 hk0
          | succ j =>
            rw [toc_walk_shift, hc]
            exact i3 j (by omega)
              (fun i hi => by rw [← hshift]; exact hall (i + 1) (by omega))
              (by rw [← hshift]; exact hk0)
      | succ r =>
        have hl : toc_loop env (n + 1) cmd s = (r + 1, s1) := by
          simp only [toc_loop, hc]
        rw [hl]
        refine ⟨⟨?_, ?_⟩, ?_, ?_⟩
        · intro h
          exact absurd h (Nat.succ_ne_zero r)
        · intro h
          have := h 0 (by omega)
          rw [h0] at this
          exact absurd this (Nat.succ_ne_zero r)
        · intro h
          exact absurd h (Nat.succ_ne_zero r)
        · intro k hk hall hk0
          cases k with
          | zero => exact hc.symm
          | succ j =>
            have := hall 0 (by omega)
            rw [h0] at this
            exact absurd this (Nat.succ_ne_zero r)

/-- C29. `parse_table_of_contents` takes the `ncmds` commands in order, the first one
after the header of the table and each next one at the address of the one before plus
the `size` field of the one before. It returns 0 exactly when every one of them returns
0, and then the state is the one after the last command. When a command fails after the
ones before it have succeeded, the return value and the state are those of that command:
no later command is processed. A nested table and an unknown magic are failing commands
that return 1 and change nothing. -/
theorem parse_table_of_contents_in_order (env : Env) (toc : Nat) (s : machine) :
    ((parse_table_of_contents env toc s).1 = 0 ↔
      ∀ i, i < read32 s.mem (toc + 4) → toc_ret env (u32 (toc + sizeof_command_t)) s i = 0) ∧
    ((parse_table_of_contents env toc s).1 = 0 →
      (parse_table_of_contents env toc s).2 =
        (toc_walk env (u32 (toc + sizeof_command_t)) s (read32 s.mem (toc + 4))).2) ∧
    (∀ k, k < read32 s.mem (toc + 4) →
      (∀ i, i < k → toc_ret env (u32 (toc + sizeof_command_t)) s i = 0) →
      toc_ret env (u32 (toc + sizeof_command_t)) s k ≠ 0 →
      parse_table_of_contents env toc s =
        toc_command env (toc_walk env (u32 (toc + sizeof_command_t)) s k).1
          (toc_walk env (u32 (toc + sizeof_command_t)) s k).2 ∧
      (parse_table_of_contents env toc s).1 ≠ 0) ∧
    (∀ cmd s0, (read32 s0.mem cmd = kTableOfContentsMagic ∨
        (read32 s0.mem cmd ≠ kCommandMachO ∧ read32 s0.mem cmd ≠ kCommandXMLDeviceTree ∧
          read32 s0.mem cmd ≠ kCommandJSDeviceTree)) →
      toc_command env cmd s0 = (1, s0)) := by
  obtain ⟨h1, h2, h3⟩ :=
    toc_loop_spec env (read32 s.mem (toc + 4)) (u32 (toc + sizeof_command_t)) s
  refine ⟨h1, h2, ?_, ?_⟩
  · intro k hk hall hk0
    have e := h3 k hk hall hk0
    unfold parse_table_of_contents
    exact ⟨e, by rw [e]; exact hk0⟩
  · intro cmd s0 h
    unfold toc_command
    dsimp only
    rcases h with h | ⟨a, b, c⟩
    · rw [if_pos h]
    · split_ifs <;> rfl

/-! ## The driver information of `map_booter_extension` -/

theorem strlen_spec (m : Mem) (a k : Nat) (h0 : m (u32 (a + k)) % 256 = 0) :
    ∀ (fuel n : Nat), n ≤ k → k - n < fuel →
      (∀ j, n ≤ j → j < k → m (u32 (a + j)) % 256 ≠ 0) → strlen m a fuel n = some k := by
  intro fuel
  induction fuel with
  | zero => intro n _ h; omega
  | succ f ih =>
    intro n hn hf hne
    unfold strlen
    by_cases e : n = k
    · subst e
      rw [if_pos h0]
    · rw [if_neg (hne n (le_refl n) (by omega))]
      exact ih (n + 1) (by omega) (by omega) (fun j hj hjk => hne j (by omega) hjk)

theorem write_bytes_outside (m : Mem) (dst : Nat) (bytes : List Nat) (a : Nat)
    (h : a < dst ∨ dst + bytes.length ≤ a) : write_bytes m dst bytes a = m a := by
  unfold write_bytes
  rw [if_neg (by omega)]

theorem write_bytes_inside (m : Mem) (dst : Nat) (bytes : List Nat) (i : Nat)
    (h : i < bytes.length) : write_bytes m dst bytes (dst + i) = bytes.getD i 0 % 256 := by
  unfold write_bytes
  rw [if_pos ⟨by omega, by omega⟩, Nat.add_sub_cancel_left]

theorem write32_outside (m : Mem) (a v x : Nat) (h : x < a ∨ a + 4 ≤ x) :
    write32 m a v x = m x := by
  unfold write32
  rw [if_neg (by omega), if_neg (by omega), if_neg (by omega), if_neg (by omega)]

theorem read32_write_bytes_apart (m : Mem) (dst : Nat) (bytes : List Nat) (a : Nat)
    (h : a + 4 ≤ dst ∨ dst + bytes.length ≤ a) :
    read32 (write_bytes m dst bytes) a = read32 m a := by
  apply read32_congr
  intro i hi
  exact write_bytes_outside m dst bytes (a + i) (by omega)

theorem name_bytes_getD (name : List Nat) (i : Nat) (h : i < NAME_LEN) :
    ((List.range NAME_LEN).map (fun i => name.getD i 0)).getD i 0 = name.getD i 0 := by
  rw [List.getD_eq_getElem _ _ (by simpa using h)]
  simp

theorem map_booter_extension_eq (boot : BootEnv) (memory_map : Node)
    (image : loaded_driver_image_t) (m : Mem) (k : Nat)
    (hguard : ¬ (image.info_offset = 0 ∧ image.has_exec = true))
    (hfit : image.range.base + 88 ≤ 4294967296)
    (hk : k < NAME_LEN) (hnul : image.name.getD k 0 % 256 = 0)
    (hne : ∀ j, j < k → image.name.getD j 0 % 256 ≠ 0) :
    map_booter_extension boot memory_map image m =
      some (true,
        (enter_memory_range boot memory_map str_Driver image.range.base image.range).2,
        write32 (write32 (write_bytes (write32 (write32
          (if image.has_exec then
            write32 (write32 m (image.range.base + 8) (u32 (image.range.base + DRIVER_PAD_START)))
              (image.range.base + 12) image.info_offset
           else write32 (write32 m (image.range.base + 8) 0) (image.range.base + 12) 0)
          image.range.base (u32 (u32 (image.range.base + DRIVER_PAD_START) + image.info_offset)))
          (image.range.base + 4)
          (sub32 (sub32 image.range.size DRIVER_PAD_START) image.info_offset))
          (image.range.base + 24) ((List.range NAME_LEN).map (fun i => image.name.getD i 0)))
          (image.range.base + 16) (image.range.base + 24))
          (image.range.base + 20) k) := by
  have hN : NAME_LEN = 64 := rfl
  have hb : u32 (image.range.base + sizeof_DriverInfo) = image.range.base + 24 :=
    u32_of_lt (by unfold sizeof_DriverInfo; omega)
  unfold map_booter_extension
  rw [if_neg (by decide), if_neg hguard]
  dsimp only
  rw [hb]
  have hbyte : ∀ j, j < NAME_LEN →
      (write32 (write_bytes (write32 (write32
          (if image.has_exec then
            write32 (write32 m (image.range.base + 8) (u32 (image.range.base + DRIVER_PAD_START)))
              (image.range.base + 12) image.info_offset
           else write32 (write32 m (image.range.base + 8) 0) (image.range.base + 12) 0)
          image.range.base (u32 (u32 (image.range.base + DRIVER_PAD_START) + image.info_offset)))
          (image.range.base + 4)
          (sub32 (sub32 image.range.size DRIVER_PAD_START) image.info_offset))
          (image.range.base + 24) ((List.range NAME_LEN).map (fun i => image.name.getD i 0)))
          (image.range.base + 16) (image.range.base + 24))
        (u32 (image.range.base + 24 + j)) = image.name.getD j 0 % 256 := by
    intro j hj
    have hlen : ((List.range NAME_LEN).map (fun i => image.name.getD i 0)).length = 64 := by
      simp [hN]
    rw [show u32 (image.range.base + 24 + j) = image.range.base + 24 + j from
      u32_of_lt (by omega)]
    rw [write32_outside _ _ _ _ (by omega),
      write_bytes_inside _ _ _ _ (by omega), name_bytes_getD _ _ hj]
  rw [strlen_spec _ (image.range.base + 24) k
    (by rw [hbyte k hk, Nat.mod_mod]; exact hnul) 4294967296 0
    (by omega) (by omega)
    (fun j _ hj => by rw [hbyte j (by omega), Nat.mod_mod]; exact hne j hj)]

/-- C28 (amended): for a driver with range `{base, size}` that is not a driver with an
executable and `info_offset = 0` (for which `map_booter_extension` returns false and
writes nothing), whose 88 bytes at `base` lie in the address space and whose name holds
a NUL among its 64 bytes, `map_booter_extension` returns true and writes at `base` a
`DriverInfo` with `plistAddr = base + 256 + info_offset` and
`plistLength = (size - 256) - info_offset` modulo `2^32`, with `executableAddr = 0` and
`executableLength = 0` for a driver without executable and `executableAddr = base + 256`
and `executableLength = info_offset` otherwise, with `bundlePathAddr = base + 24`, the
64 bytes of the name copied there, and `bundlePathLength` the number of bytes of the
name before its first NUL; no other byte of the memory changes. -/
theorem map_booter_extension_writes (boot : BootEnv) (memory_map : Node)
    (image : loaded_driver_image_t) (m : Mem) (k : Nat)
    (hguard : ¬ (image.info_offset = 0 ∧ image.has_exec = true))
    (hfit : image.range.base + 88 ≤ 4294967296)
    (hk : k < NAME_LEN) (hnul : image.name.getD k 0 % 256 = 0)
    (hne : ∀ j, j < k → image.name.getD j 0 % 256 ≠ 0) :
    ∃ (map1 : Node) (m1 : Mem),
      map_booter_extension boot memory_map image m = some (true, map1, m1) ∧
      read32 m1 image.range.base =
        u32 (u32 (image.range.base + DRIVER_PAD_START) + image.info_offset) ∧
      read32 m1 (image.range.base + 4) =
        sub32 (sub32 image.range.size DRIVER_PAD_START) image.info_offset ∧
      (image.has_exec = false →
        read32 m1 (image.range.base + 8) = 0 ∧ read32 m1 (image.range.base + 12) = 0) ∧
      (image.has_exec = true →
        read32 m1 (image.range.base + 8) = u32 (image.range.base + DRIVER_PAD_START) ∧
        read32 m1 (image.range.base + 12) = u32 image.info_offset) ∧
      read32 m1 (image.range.base + 16) = image.range.base + sizeof_DriverInfo ∧
      read32 m1 (image.range.base + 20) = k ∧
      (∀ i, i < NAME_LEN →
        m1 (image.range.base + sizeof_DriverInfo + i) = image.name.getD i 0 % 256) ∧
      (∀ a, a < image.range.base ∨ image.range.base + sizeof_DriverInfo + NAME_LEN ≤ a →
        m1 a = m a) := by
  have hN : NAME_LEN = 64 := rfl
  have hD : sizeof_DriverInfo = 24 := rfl
  have hlen : ((List.range NAME_LEN).map (fun i => image.name.getD i 0)).length = 64 := by
    simp [hN]
  refine ⟨_, _, map_booter_extension_eq boot memory_map image m k hguard hfit hk hnul hne,
    ?_, ?_, ?_, ?_, ?_, ?_, ?_, ?_⟩
  · rw [read32_write32_apart _ _ _ _ (by unfold words_apart; omega),
      read32_write32_apart _ _ _ _ (by unfold words_apart; omega),
      read32_write_bytes_apart _ _ _ _ (by omega),
      read32_write32_apart _ _ _ _ (by unfold words_apart; omega), read32_write32_same]
    exact Nat.mod_mod _ _
  · rw [read32_write32_apart _ _ _ _ (by unfold words_apart; omega),
      read32_write32_apart _ _ _ _ (by unfold words_apart; omega),
      read32_write_bytes_apart _ _ _ _ (by omega), read32_write32_same]
    unfold sub32 u32
    omega
  · intro hx
    rw [hx]
    simp only [Bool.false_eq_true, if_false]
    constructor
    · rw [read32_write32_apart _ _ _ _ (by unfold words_apart; omega),
        read32_write32_apart _ _ _ _ (by unfold words_apart; omega),
        read32_write_bytes_apart _ _ _ _ (by omega),
        read32_write32_apart _ _ _ _ (by unfold words_apart; omega),
        read32_write32_apart _ _ _ _ (by unfold words_apart; omega),
        read32_write32_apart _ _ _ _ (by unfold words_apart; omega), read32_write32_same]
      rfl
    · rw [read32_write32_apart _ _ _ _ (by unfold words_apart; omega),
        read32_write32_apart _ _ _ _ (by unfold words_apart; omega),
        read32_write_bytes_apart _ _ _ _ (by omega),
        read32_write32_apart _ _ _ _ (by unfold words_apart; omega),
        read32_write32_apart _ _ _ _ (by unfold words_apart; omega), read32_write32_same]
      rfl
  · intro hx
    rw [hx]
    simp only [if_true]
    constructor
    · rw [read32_write32_apart _ _ _ _ (by unfold words_apart; omega),
        read32_write32_apart _ _ _ _ (by unfold words_apart; omega),
        read32_write_bytes_apart _ _ _ _ (by omega),
        read32_write32_apart _ _ _ _ (by unfold words_apart; omega),
        read32_write32_apart _ _ _ _ (by unfold words_apart; omega),
        read32_write32_apart _ _ _ _ (by unfold words_apart; omega), read32_write32_same]
      exact Nat.mod_mod _ _
    · rw [read32_write32_apart _ _ _ _ (by unfold words_apart; omega),
        read32_write32_apart _ _ _ _ (by unfold words_apart; omega),
        read32_write_bytes_apart _ _ _ _ (by omega),
        read32_write32_apart _ _ _ _ (by unfold words_apart; omega),
        read32_write32_apart _ _ _ _ (by unfold words_apart; omega), read32_write32_same]
  · rw [read32_write32_apart _ _ _ _ (by unfold words_apart; omega), read32_write32_same]
    exact u32_of_lt (by omega)
  · rw [read32_write32_same]
    exact u32_of_lt (by omega)
  · intro i hi
    rw [write32_outside _ _ _ _ (by omega), write32_outside _ _ _ _ (by omega), hD,
      write_bytes_inside _ _ _ _ (by omega), name_bytes_getD _ _ hi]
  · intro a ha
    rw [write32_outside _ _ _ _ (by omega), write32_outside _ _ _ _ (by omega),
      write_bytes_outside _ _ _ _ (by omega), write32_outside _ _ _ _ (by omega),
      write32_outside _ _ _ _ (by omega)]
    split_ifs <;>
      rw [write32_outside _ _ _ _ (by omega), write32_outside _ _ _ _ (by omega)]

theorem map_booter_extension_writes_witness :
    c15_state.g.gLoadedDriverImages = [c28w_image] ∧
    ∃ (map1 : Node) (m1 : Mem),
      map_booter_extension c14_boot (DT__NewChild (some str_memory_map)) c28w_image
        c15_state.mem = some (true, map1, m1) ∧
      read32 m1 c28w_image.range.base =
        u32 (u32 (c28w_image.range.base + DRIVER_PAD_START) + c28w_image.info_offset) ∧
      read32 m1 (c28w_image.range.base + 4) =
        sub32 (sub32 c28w_image.range.size DRIVER_PAD_START) c28w_image.info_offset ∧
      (c28w_image.has_exec = false →
        read32 m1 (c28w_image.range.base + 8) = 0 ∧
        read32 m1 (c28w_image.range.base + 12) = 0) ∧
      (c28w_image.has_exec = true →
        read32 m1 (c28w_image.range.base + 8) = u32 (c28w_image.range.base + DRIVER_PAD_START) ∧
        read32 m1 (c28w_image.range.base + 12) = u32 c28w_image.info_offset) ∧
      read32 m1 (c28w_image.range.base + 16) = c28w_image.range.base + sizeof_DriverInfo ∧
      read32 m1 (c28w_image.range.base + 20) = 8 ∧
      (∀ i, i < NAME_LEN →
        m1 (c28w_image.range.base + sizeof_DriverInfo + i) = c28w_image.name.getD i 0 % 256) ∧
      (∀ a, a < c28w_image.range.base ∨
          c28w_image.range.base + sizeof_DriverInfo + NAME_LEN ≤ a →
        m1 a = c15_state.mem a) :=
  ⟨by decide!,
    map_booter_extension_writes c14_boot (DT__NewChild (some str_memory_map)) c28w_image
      c15_state.mem 8 (by decide) (by decide) (by decide) (by decide) (by decide)⟩

/-- C28 (as stated, refuted): after scenario S1, a Mach-O command with the flags `0x001`
is accepted as a driver with an executable and `info_offset = 0`; for that driver
`map_booter_extension` returns false and the word at its `base` is the one it was. -/
theorem map_booter_extension_without_plist :
    (load_general_image s1_env 0x15000000 { s1_done with mem := c28_mem }).1 = 0 ∧
    c28_state.g.gLoadedDriverImages.map (fun d => (d.range, d.has_exec, d.info_offset)) =
      [({ base := 0x20002000, size := 0x700 }, true, 0)] ∧
    c28_state.g.gLoadedDriverImages.map
        (fun d => (map_booter_extension c14_boot (DT__NewChild (some str_memory_map)) d
          c28_state.mem).map (fun r => (r.1, read32 r.2.2 d.range.base))) =
      [some (false, read32 c28_state.mem 0x20002000)] := by
  refine ⟨by decide!, by decide!, by decide!⟩

/-! ## The boot arguments and the memory map of `mach_boot` -/

/-- C26 (code evaluated at a failing input): with a kernel, one driver and a device tree
loaded and the byte `0xaa` in the memory from `gKernelMemoryTop = 0x20003000` on,
`mach_boot` enters the kernel with a boot-args record at `0x20003000` in which the six
words of `video` and the word `machine` are `0xaaaaaaaa` and the 256 bytes of `args`
are `0xaa`. -/
theorem mach_boot_leaves_video_machine_args :
    (∀ i, i < 312 → c14_state.mem (0x20003000 + i) = 0xaa) ∧
    (mach_boot s1_env c14_boot kernel_mem_start c14_state).map
        (fun r => (r.ret, r.args, r.call_kernel.map (fun c => c.2))) =
      some (0, some 0x20003000, some 0x80003000) ∧
    (mach_boot s1_env c14_boot kernel_mem_start c14_state).map
        (fun r => (List.range 6).map
          (fun i => read32 r.state.mem (0x20003000 + boot_args_video + 4 * i))) =
      some [0xaaaaaaaa, 0xaaaaaaaa, 0xaaaaaaaa, 0xaaaaaaaa, 0xaaaaaaaa, 0xaaaaaaaa] ∧
    (mach_boot s1_env c14_boot kernel_mem_start c14_state).map
        (fun r => read32 r.state.mem (0x20003000 + boot_args_machine)) = some 0xaaaaaaaa ∧
    (mach_boot s1_env c14_boot kernel_mem_start c14_state).map
        (fun r => (List.range 256).all
          (fun i => r.state.mem (0x20003000 + boot_args_args + i) == 0xaa)) = some true := by
  refine ⟨by decide!, by decide!, by decide!, by decide!, by decide!⟩

/-- C27 (code evaluated at a failing input): with a kernel, one driver, a device tree
and a ramdisk loaded, and the words `0x12345678` and `0x9abc` on the stack where
`map_add_info` has its local `iBoot_range`, `mach_boot` enters the kernel with the
memory map `iBoot = {0x12345678, 0x9abc}`, `BootArgs`, `Kernel`, `Driver-20002000` and
`RAMDisk`: the range `iBoot` is not an empty range. -/
theorem mach_boot_memory_map_iBoot :
    c27_state.g.gRAMDiskRange = { base := 0x20003000, size := 0x2000 } ∧
    (mach_boot s1_env c27_boot kernel_mem_start c27_state).map (fun r => r.ret) = some 0 ∧
    (mach_boot s1_env c27_boot kernel_mem_start c27_state).map
        (fun r => r.memory_map.map memory_map_ranges) =
      some (some [(str_iBoot, 0x12345678, 0x9abc), (str_BootArgs, 0x20005000, 312),
                  (str_Kernel, 0x20001000, 0x1000),
                  (sprintf_s_x str_Driver 0x20002000, 0x20002000, 0x700),
                  (str_RAMDisk, 0x20003000, 0x2000)]) ∧
    (mach_boot s1_env c27_boot kernel_mem_start c27_state).map
        (fun r => r.memory_map.map
          (fun n => n.properties.map (fun p => (p.length, p.value.length)))) =
      some (some [(8, 8), (8, 8), (8, 8), (8, 8), (8, 8)]) := by
  refine ⟨by decide!, by decide!, by decide!, by decide!⟩

/-! ## Successive reservations -/

/-- C39. Two successive calls `memory_reserve(s1, a1)` then `memory_reserve(s2, a2)` on
the same region hand out blocks that do not overlap, in either direction and absent
32-bit wraparound (upward: the roundings and the first block stay below `2^32`;
downward: each size is at most the cursor it is taken from). Upward the first block ends
at or below the start of the second one, downward the second block ends at or below the
start of the first one, so no address lies in both `[r1, r1 + s1)` and `[r2, r2 + s2)`. -/
theorem memory_reserve_disjoint (region : memory_region_t) (s1 a1 s2 a2 : Nat)
    (hup : region.down = false →
      region.pos + (a1 - 1) < 4294967296 ∧
      (memory_reserve region s1 a1).1 + s1 + (a2 - 1) < 4294967296)
    (hdown : region.down = true →
      s1 ≤ region.pos ∧ region.pos < 4294967296 ∧ s2 ≤ (memory_reserve region s1 a1).1) :
    (region.down = false →
      (memory_reserve region s1 a1).1 + s1 ≤
        (memory_reserve (memory_reserve region s1 a1).2 s2 a2).1) ∧
    (region.down = true →
      (memory_reserve (memory_reserve region s1 a1).2 s2 a2).1 + s2 ≤
        (memory_reserve region s1 a1).1) ∧
    ∀ x, ¬ (((memory_reserve region s1 a1).1 ≤ x ∧ x < (memory_reserve region s1 a1).1 + s1) ∧
      ((memory_reserve (memory_reserve region s1 a1).2 s2 a2).1 ≤ x ∧
        x < (memory_reserve (memory_reserve region s1 a1).2 s2 a2).1 + s2)) := by
  have key : (region.down = false →
      (memory_reserve region s1 a1).1 + s1 ≤
        (memory_reserve (memory_reserve region s1 a1).2 s2 a2).1) ∧
    (region.down = true →
      (memory_reserve (memory_reserve region s1 a1).2 s2 a2).1 + s2 ≤
        (memory_reserve region s1 a1).1) := by
    constructor
    · intro hd
      obtain ⟨h1, h2⟩ := hup hd
      have e1 : (memory_reserve region s1 a1).1 =
          (if a1 ≠ 0 then align_up region.pos a1 else region.pos) := by
        unfold memory_reserve
        rw [hd]
        rfl
      have e2 : (memory_reserve region s1 a1).2 =
          { region with pos := u32 ((memory_reserve region s1 a1).1 + s1) } := by
        unfold memory_reserve
        rw [hd]
        rfl
      have e3 : (memory_reserve (memory_reserve region s1 a1).2 s2 a2).1 =
          (if a2 ≠ 0 then align_up (u32 ((memory_reserve region s1 a1).1 + s1)) a2
           else u32 ((memory_reserve region s1 a1).1 + s1)) := by
        rw [e2]
        unfold memory_reserve
        simp only [hd]
        rfl
      rw [e3, u32_of_lt (by omega)]
      by_cases ha : a2 = 0
      · simp [ha]
      · rw [if_pos ha]
        exact (align_up_spec _ a2 ha (by omega)).2.1
    · intro hd
      obtain ⟨h1, h2, h3⟩ := hdown hd
      have e2 : (memory_reserve region s1 a1).2 =
          { region with pos := (memory_reserve region s1 a1).1 } := by
        unfold memory_reserve
        rw [hd]
        rfl
      have e3 : (memory_reserve (memory_reserve region s1 a1).2 s2 a2).1 =
          (if a2 ≠ 0 then align_down (sub32 (memory_reserve region s1 a1).1 s2) a2
           else sub32 (memory_reserve region s1 a1).1 s2) := by
        rw [e2]
        unfold memory_reserve
        simp only [hd]
        rfl
      have hr1 : (memory_reserve region s1 a1).1 < 4294967296 := by
        have e1 : (memory_reserve region s1 a1).1 =
            (if a1 ≠ 0 then align_down (sub32 region.pos s1) a1 else sub32 region.pos s1) := by
          unfold memory_reserve
          rw [hd]
          rfl
        have hs : sub32 region.pos s1 < 4294967296 := by
          unfold sub32
          omega
        rw [e1]
        split_ifs
        · unfold align_down
          have := Nat.div_mul_le_self (sub32 region.pos s1) a1
          omega
        · exact hs
      have hs2 : sub32 (memory_reserve region s1 a1).1 s2 = (memory_reserve region s1 a1).1 - s2 := by
        unfold sub32
        omega
      rw [e3, hs2]
      split_ifs
      · unfold align_down
        have := Nat.div_mul_le_self ((memory_reserve region s1 a1).1 - s2) a2
        omega
      · omega
  refine ⟨key.1, key.2, ?_⟩
  intro x hx
  cases hd : region.down
  · have := key.1 hd
    omega
  · have := key.2 hd
    omega

/-- C39 (witness). Upward from `pos = 0x1001`: `memory_reserve(0x10, 0x100)` gives
`0x1100` and `memory_reserve(0x20, 0x1000)` gives `0x2000`. Downward from
`pos = 0x3000`: `memory_reserve(0x10, 0x100)` gives `0x2f00` and
`memory_reserve(0x20, 0x1000)` gives `0x2000`. -/
theorem memory_reserve_disjoint_witness :
    ((memory_reserve { base := 0x1000, pos := 0x1001, down := false } 0x10 0x100).1 + 0x10 ≤
      (memory_reserve (memory_reserve { base := 0x1000, pos := 0x1001, down := false }
        0x10 0x100).2 0x20 0x1000).1) ∧
    ((memory_reserve (memory_reserve { base := 0x1000, pos := 0x3000, down := true }
        0x10 0x100).2 0x20 0x1000).1 + 0x20 ≤
      (memory_reserve { base := 0x1000, pos := 0x3000, down := true } 0x10 0x100).1) :=
  ⟨(memory_reserve_disjoint { base := 0x1000, pos := 0x1001, down := false } 0x10 0x100 0x20
      0x1000 (fun _ => by decide) (fun h => by cases h)).1 rfl,
   (memory_reserve_disjoint { base := 0x1000, pos := 0x3000, down := true } 0x10 0x100 0x20
      0x1000 (fun h => by cases h) (fun _ => by decide)).2.1 rfl⟩

/-! ## The records of the local relocation table of an executable -/

theorem strtoul_skip_eq (s : Nat → Nat) :
    ∀ (l : List Nat) (j fuel : Nat), (∀ k, k ≤ l.length → s (j + k) = l.getD k 0) →
      l.length < fuel →
      ∃ j1, strtoul_skip s fuel j = some j1 ∧
        ∀ k, k ≤ (l.dropWhile isspace).length → s (j1 + k) = (l.dropWhile isspace).getD k 0 := by
  intro l
  induction l with
  | nil =>
    intro j fuel h hf
    obtain ⟨f, rfl⟩ := Nat.exists_eq_succ_of_ne_zero (Nat.pos_iff_ne_zero.mp hf)
    have h0 := h 0 (Nat.le_refl _)
    simp only [Nat.add_zero, List.getD_nil] at h0
    refine ⟨j, ?_, ?_⟩
    · simp [strtoul_skip, h0, isspace]
    · intro k hk
      simpa using h k hk
  | cons c rest ih =>
    intro j fuel h hf
    obtain ⟨f, rfl⟩ := Nat.exists_eq_succ_of_ne_zero (Nat.pos_iff_ne_zero.mp (Nat.lt_of_le_of_lt (Nat.zero_le _) hf))
    have h0 : s j = c := by simpa using h 0 (Nat.zero_le _)
    have hrest : ∀ k, k ≤ rest.length → s (j + 1 + k) = rest.getD k 0 := by
      intro k hk
      have := h (k + 1) (by simp only [List.length_cons]; omega)
      simpa [Nat.add_assoc, Nat.add_comm 1 k] using this
    by_cases hc : isspace c = true
    · obtain ⟨j1, i1, i2⟩ := ih (j + 1) f hrest (by simp only [List.length_cons] at hf; omega)
      refine ⟨j1, ?_, ?_⟩
      · simp only [strtoul_skip, h0, hc, if_true]
        exact i1
      · simpa only [List.dropWhile_cons, hc, if_true] using i2
    · refine ⟨j, ?_, ?_⟩
      · simp [strtoul_skip, h0, hc]
      · simpa only [List.dropWhile_cons, hc, Bool.false_eq_true, if_false] using h

theorem strtoul_digit_of_char (c : Nat) :
    (if isdigit c then some (c - 48)
      else if isalpha c then some (c - (if isupper c then 65 - 10 else 97 - 10))
      else none) = digit_of_char c := by
  unfold isdigit isalpha isupper digit_of_char
  simp only [decide_eq_true_eq]
  split_ifs <;> first | rfl | (congr 1; omega)

theorem strtoul_digits_eq (s : Nat → Nat) (base : Nat) :
    ∀ (l : List Nat) (j fuel : Nat) (st : strtoul_state),
      (∀ k, k ≤ l.length → s (j + k) = l.getD k 0) → l.length < fuel →
      strtoul_digits s base fuel (l.getD 0 0) (j + 1) st =
        some ((valid_digits base l).foldl (strtoul_digit_step base) st) := by
  intro l
  induction l with
  | nil =>
    intro j fuel st _ hf
    obtain ⟨f, rfl⟩ := Nat.exists_eq_succ_of_ne_zero (Nat.pos_iff_ne_zero.mp hf)
    simp [strtoul_digits, valid_digits, isdigit, isalpha]
  | cons c rest ih =>
    intro j fuel st h hf
    obtain ⟨f, rfl⟩ := Nat.exists_eq_succ_of_ne_zero (Nat.pos_iff_ne_zero.mp (Nat.lt_of_le_of_lt (Nat.zero_le _) hf))
    have h1 : s (j + 1) = rest.getD 0 0 := by
      simpa using h 1 (by simp)
    have hrest : ∀ k, k ≤ rest.length → s (j + 1 + k) = rest.getD k 0 := by
      intro k hk
      have := h (k + 1) (by simp only [List.length_cons]; omega)
      simpa [Nat.add_assoc, Nat.add_comm 1 k] using this
    have hf1 : rest.length < f := by simp only [List.length_cons] at hf; omega
    simp only [List.getD_cons_zero]
    unfold strtoul_digits
    simp only [strtoul_digit_of_char]
    unfold valid_digits
    cases hd : digit_of_char c with
    | none => simp
    | some d =>
      by_cases hb : d < base
      · simp only [hb, if_true, List.foldl_cons, ge_iff_le, Nat.not_le.mpr hb, if_false]
        rw [h1]
        exact ih (j + 1) f _ hrest hf1
      · simp [hb, Nat.not_lt.mp hb]

theorem valid_digits_lt (base : Nat) : ∀ (l : List Nat) (d : Nat), d ∈ valid_digits base l → d < base := by
  intro l
  induction l with
  | nil =>
    intro d hd
    simp [valid_digits] at hd
  | cons c rest ih =>
    intro d hd
    unfold valid_digits at hd
    cases hc : digit_of_char c with
    | none => simp [hc] at hd
    | some d0 =>
      simp only [hc] at hd
      by_cases hb : d0 < base
      · simp only [hb, if_true, List.mem_cons] at hd
        rcases hd with rfl | hd
        · exact hb
        · exact ih d hd
      · simp [hb] at hd

theorem digits_foldl_ge (base : Nat) (hb : 1 ≤ base) :
    ∀ (ds : List Nat) (a : Nat), a ≤ ds.foldl (fun acc d => acc * base + d) a := by
  intro ds
  induction ds with
  | nil => intro a; exact Nat.le_refl _
  | cons d rest ih =>
    intro a
    simp only [List.foldl_cons]
    refine Nat.le_trans ?_ (ih _)
    have : a * 1 ≤ a * base := Nat.mul_le_mul_left a hb
    omega

theorem strtoul_digit_step_spec (base : Nat) (hb : base = 2 ∨ base = 8 ∨ base = 10 ∨ base = 16)
    (st : strtoul_state) (d : Nat) (hd : d < base) :
    (st.any < 0 → (strtoul_digit_step base st d).any < 0) ∧
    (0 ≤ st.any → ULONG_MAX < st.acc * base + d → (strtoul_digit_step base st d).any < 0) ∧
    (0 ≤ st.any → st.acc * base + d ≤ ULONG_MAX →
      strtoul_digit_step base st d = { acc := st.acc * base + d, any := 1 }) := by
  unfold strtoul_digit_step ULONG_MAX
  rcases hb with rfl | rfl | rfl | rfl
  all_goals
    refine ⟨?_, ?_, ?_⟩
    · intro h
      rw [if_pos (Or.inl h)]
      show (-1 : Int) < 0
      decide
    · intro h0 h
      rw [if_pos (by norm_num; omega)]
      show (-1 : Int) < 0
      decide
    · intro h0 h
      rw [if_neg (by norm_num; omega)]

theorem strtoul_fold_spec (base : Nat) (hb : base = 2 ∨ base = 8 ∨ base = 10 ∨ base = 16) :
    ∀ (ds : List Nat) (st : strtoul_state), (∀ d, d ∈ ds → d < base) →
      (st.any < 0 → (ds.foldl (strtoul_digit_step base) st).any < 0) ∧
      (0 ≤ st.any →
        (ds.foldl (fun acc d => acc * base + d) st.acc ≤ ULONG_MAX →
          (ds.foldl (strtoul_digit_step base) st).acc =
            ds.foldl (fun acc d => acc * base + d) st.acc ∧
          0 ≤ (ds.foldl (strtoul_digit_step base) st).any) ∧
        (ULONG_MAX < ds.foldl (fun acc d => acc * base + d) st.acc → st.acc ≤ ULONG_MAX →
          (ds.foldl (strtoul_digit_step base) st).any < 0)) := by
  have hb1 : 1 ≤ base := by rcases hb with rfl | rfl | rfl | rfl <;> decide
  intro ds
  induction ds with
  | nil =>
    intro st _
    refine ⟨fun h => h, fun h0 => ⟨fun _ => ⟨rfl, h0⟩, ?_⟩⟩
    intro h1 h2
    simp only [List.foldl_nil] at h1
    omega
  | cons d rest ih =>
    intro st hds
    have hd : d < base := hds d (List.mem_cons_self _ _)
    have hrest : ∀ x, x ∈ rest → x < base := fun x hx => hds x (List.mem_cons_of_mem _ hx)
    obtain ⟨s1, s2, s3⟩ := strtoul_digit_step_spec base hb st d hd
    simp only [List.foldl_cons]
    refine ⟨fun h => (ih _ hrest).1 (s1 h), fun h0 => ?_⟩
    by_cases hov : ULONG_MAX < st.acc * base + d
    · have hge := digits_foldl_ge base hb1 rest (st.acc * base + d)
      refine ⟨fun h => ?_, fun _ _ => (ih _ hrest).1 (s2 h0 hov)⟩
      omega
    · have e := s3 h0 (Nat.not_lt.mp hov)
      rw [e]
      have i2 := (ih { acc := st.acc * base + d, any := 1 } hrest).2 (show (0 : Int) ≤ 1 by decide)
      exact ⟨i2.1, fun h _ => i2.2 h (Nat.not_lt.mp hov)⟩

theorem strtoul_finish (s : Nat → Nat) (base : Nat)
    (hb : base = 2 ∨ base = 8 ∨ base = 10 ∨ base = 16) (l : List Nat) (j fuel : Nat)
    (neg : Bool) (h : ∀ k, k ≤ l.length → s (j + k) = l.getD k 0) (hf : l.length < fuel) :
    (match strtoul_digits s base fuel (l.getD 0 0) (j + 1) { acc := 0, any := 0 } with
      | none => none
      | some st =>
        if st.any < 0 then some ULONG_MAX
        else if neg then some (sub32 0 st.acc)
        else some st.acc) =
      some (if digits_value base (valid_digits base l) > ULONG_MAX then ULONG_MAX
        else if neg then (4294967296 - digits_value base (valid_digits base l)) % 4294967296
        else digits_value base (valid_digits base l)) := by
  rw [strtoul_digits_eq s base l j fuel _ h hf]
  obtain ⟨_, f2⟩ := strtoul_fold_spec base hb (valid_digits base l) { acc := 0, any := 0 }
    (valid_digits_lt base l)
  have f3 := f2 (show (0 : Int) ≤ 0 by decide)
  simp only at f3
  unfold digits_value
  by_cases hv : List.foldl (fun acc d => acc * base + d) 0 (valid_digits base l) ≤ ULONG_MAX
  · obtain ⟨e1, e2⟩ := f3.1 hv
    simp only [if_neg (Int.not_lt.mpr e2), if_neg (Nat.not_lt.mpr hv), e1]
    cases neg
    · simp
    · simp only [if_true]
      congr 1
      unfold sub32
      unfold ULONG_MAX at hv
      omega
  · have e := f3.2 (Nat.not_le.mp hv) (by decide)
    simp only [if_pos e, if_pos (Nat.not_le.mp hv)]

theorem strtoul_after_sign (s : Nat → Nat) (l2 : List Nat) (j2 fuel : Nat) (neg : Bool)
    (h : ∀ k, k ≤ l2.length → s (j2 + k) = l2.getD k 0) (hf : l2.length < fuel) :
    (let c1 := l2.getD 0 0
     let i2 := j2 + 1
     let hex := c1 = 48 ∧ (s i2 = 120 ∨ s i2 = 88)
     let bin := c1 = 48 ∧ (s i2 = 98 ∨ s i2 = 66)
     let c2 := if hex then s (i2 + 1) else if bin then s (i2 + 1) else c1
     let i3 := if hex then i2 + 2 else if bin then i2 + 2 else i2
     let base1 := if hex then 16 else if bin then 2 else 0
     let base2 := if base1 = 0 then (if c2 = 48 then 8 else 10) else base1
     match strtoul_digits s base2 fuel c2 i3 { acc := 0, any := 0 } with
     | none => none
     | some st =>
       if st.any < 0 then some ULONG_MAX
       else if neg then some (sub32 0 st.acc)
       else some st.acc) =
    some
      (let hex := l2.take 2 = [48, 120] ∨ l2.take 2 = [48, 88]
       let bin := l2.take 2 = [48, 98] ∨ l2.take 2 = [48, 66]
       let base := if hex then 16 else if bin then 2 else if l2.head? = some 48 then 8 else 10
       let l3 := if hex ∨ bin then l2.drop 2 else l2
       let v := digits_value base (valid_digits base l3)
       if v > ULONG_MAX then ULONG_MAX
       else if neg then (4294967296 - v) % 4294967296
       else v) := by
  rcases l2 with _ | ⟨a, _ | ⟨b, t⟩⟩
  · have := strtoul_finish s 10 (by decide) [] j2 fuel neg h hf
    simpa using this
  · have h1 : s (j2 + 1) = 0 := by simpa using h 1 (by simp)
    by_cases ha : a = 48
    · subst ha
      have := strtoul_finish s 8 (by decide) [48] j2 fuel neg h hf
      simpa [h1] using this
    · have := strtoul_finish s 10 (by decide) [a] j2 fuel neg h hf
      simpa [h1, ha] using this
  · have h1 : s (j2 + 1) = b := by simpa using h 1 (by simp)
    have h2 : s (j2 + 1 + 1) = t.getD 0 0 := by simpa using h 2 (by simp)
    have ht : ∀ k, k ≤ t.length → s (j2 + 2 + k) = t.getD k 0 := by
      intro k hk
      have := h (k + 2) (by simp only [List.length_cons]; omega)
      simpa [Nat.add_assoc, Nat.add_comm 2 k] using this
    have hft : t.length < fuel := by simp only [List.length_cons] at hf; omega
    by_cases ha : a = 48
    · subst ha
      by_cases hx : b = 120 ∨ b = 88
      · have := strtoul_finish s 16 (by decide) t (j2 + 2) fuel neg ht hft
        rcases hx with rfl | rfl <;> simpa [h1, h2] using this
      · by_cases hbn : b = 98 ∨ b = 66
        · have := strtoul_finish s 2 (by decide) t (j2 + 2) fuel neg ht hft
          rcases hbn with rfl | rfl <;> simpa [h1, h2] using this
        · have := strtoul_finish s 8 (by decide) (48 :: b :: t) j2 fuel neg h hf
          simp only [not_or] at hx hbn
          simpa [h1, h2, hx.1, hx.2, hbn.1, hbn.2] using this
    · have := strtoul_finish s 10 (by decide) (a :: b :: t) j2 fuel neg h hf
      simpa [h1, h2, ha] using this

theorem strtoul_base0_eq (s : Nat → Nat) (l : List Nat) (fuel : Nat)
    (h : ∀ k, k ≤ l.length → s k = l.getD k 0) (hf : l.length < fuel) :
    strtoul fuel s 0 = some (strtoul_base0_spec l) := by
  obtain ⟨j1, e1, a1⟩ := strtoul_skip_eq s l 0 fuel (by simpa using h) hf
  have hl1 : (l.dropWhile isspace).length ≤ l.length := (List.dropWhile_suffix isspace).length_le
  unfold strtoul strtoul_base0_spec
  rw [e1]
  generalize l.dropWhile isspace = l1 at a1 hl1 ⊢
  rcases l1 with _ | ⟨c, t⟩
  · have h0 : s j1 = 0 := by simpa using a1 0 (Nat.le_refl _)
    have := strtoul_after_sign s [] j1 fuel false a1 (by simp; omega)
    simpa [h0] using this
  · have h0 : s j1 = c := by simpa using a1 0 (Nat.zero_le _)
    have ht : ∀ k, k ≤ t.length → s (j1 + 1 + k) = t.getD k 0 := by
      intro k hk
      have := a1 (k + 1) (by simp only [List.length_cons]; omega)
      simpa [Nat.add_assoc, Nat.add_comm 1 k] using this
    have hft : t.length < fuel := by simp only [List.length_cons] at hl1; omega
    have hfc : (c :: t).length < fuel := by omega
    have h1 : s (j1 + 1) = t.getD 0 0 := by simpa using ht 0 (Nat.zero_le _)
    by_cases hm : c = 45
    · subst hm
      have := strtoul_after_sign s t (j1 + 1) fuel true ht hft
      simpa [h0, h1] using this
    · by_cases hp : c = 43
      · subst hp
        have := strtoul_after_sign s t (j1 + 1) fuel false ht hft
        simpa [h0, h1] using this
      · have := strtoul_after_sign s (c :: t) j1 fuel false a1 hfc
        simpa [h0, hm, hp] using this

/-- C35. On a C string `l` (the characters before the NUL), `strtoul(s, NULL, 0)` returns,
for every bound on the characters read that exceeds the length of the string, the value
that the specification describes: the white space of `isspace` (blank, tab, newline) and
an optional sign are skipped; the longest run of valid digits is read in base 16 after
`0x` or `0X`, in base 2 after `0b` or `0B`, in base 8 after a leading `0` and in base 10
otherwise; a value above `ULONG_MAX` gives `ULONG_MAX`, and a leading `-` negates the
value modulo `2^32`. -/
theorem strtoul_base0 (l : List Nat) (fuel : Nat) (hfuel : l.length < fuel) :
    strtoul fuel (fun i => l.getD i 0) 0 = some (strtoul_base0_spec l) :=
  strtoul_base0_eq _ l fuel (fun _ _ => rfl) hfuel

/-- C35 (witness). `strtoul("0b101", NULL, 0)` is 5; the specification gives 5 for
`0b101`, 31 for `0x1F`, 15 for `017`, 12 for `12`, `2^32 - 1` for `-1` and `ULONG_MAX`
for `4294967296`. -/
theorem strtoul_base0_witness :
    strtoul 6 (fun i => [48, 98, 49, 48, 49].getD i 0) 0 =
      some (strtoul_base0_spec [48, 98, 49, 48, 49]) ∧
    strtoul_base0_spec [48, 98, 49, 48, 49] = 5 ∧
    strtoul_base0_spec [48, 120, 49, 70] = 31 ∧
    strtoul_base0_spec [48, 49, 55] = 15 ∧
    strtoul_base0_spec [49, 50] = 12 ∧
    strtoul_base0_spec [45, 49] = 4294967295 ∧
    strtoul_base0_spec [52, 50, 57, 52, 57, 54, 55, 50, 57, 54] = ULONG_MAX :=
  ⟨strtoul_base0 [48, 98, 49, 48, 49] 6 (by decide), by decide, by decide, by decide,
    by decide, by decide, by decide⟩

/-! ## Data arrays -/

theorem strtoul_at_token (raw : Nat → Nat) (n start fuel : Nat) (hnul : raw n = 0)
    (hstart : start ≤ n) (hfuel : n < fuel) :
    strtoul fuel (fun k => raw (start + k)) 0 = strtoul (n + 1) (fun k => raw (start + k)) 0 ∧
    (strtoul (n + 1) (fun k => raw (start + k)) 0).isSome = true := by
  have key : ∀ f, n < f → strtoul f (fun k => raw (start + k)) 0 =
      some (strtoul_base0_spec ((List.range (n - start)).map (fun k => raw (start + k)))) := by
    intro f hf
    apply strtoul_base0_eq
    · intro k hk
      simp only [List.length_map, List.length_range] at hk
      by_cases hlt : k < n - start
      · simp [List.getD_eq_getElem?_getD, hlt]
      · have hk2 : k = n - start := by omega
        subst hk2
        have e : start + (n - start) = n := by omega
        have e2 : (List.range (n - start))[n - start]? = none :=
          List.getElem?_eq_none (by simp)
        simp [List.getD_eq_getElem?_getD, e, hnul, e2]
    · simp only [List.length_map, List.length_range]
      omega
  rw [key fuel hfuel, key (n + 1) (by omega)]
  exact ⟨rfl, rfl⟩

theorem parse_data_array_count_ok (tokens : jsmn_tokens) (t : Nat) :
    ∀ (elems : List jsmntok_t) (i cnt fuel : Nat),
      (∀ k, k < elems.length → tokens.get? (t + i + k) = elems.get? k) →
      (∀ e, e ∈ elems → e.type = JSMN_STRING ∨ e.type = JSMN_PRIMITIVE) →
      elems.length < fuel →
      ∃ c, parse_data_array_count tokens t fuel (elems.length : Int) i cnt = jsdt_result.skip c := by
  intro elems
  induction elems with
  | nil =>
    intro i cnt fuel _ _ hf
    obtain ⟨f, rfl⟩ := Nat.exists_eq_succ_of_ne_zero (Nat.pos_iff_ne_zero.mp hf)
    exact ⟨cnt, by simp [parse_data_array_count]⟩
  | cons e rest ih =>
    intro i cnt fuel h hty hf
    obtain ⟨f, rfl⟩ := Nat.exists_eq_succ_of_ne_zero (Nat.pos_iff_ne_zero.mp (Nat.lt_of_le_of_lt (Nat.zero_le _) hf))
    have h0 : tokens.get? (t + i) = some e := by simpa using h 0 (by simp)
    have hrest : ∀ k, k < rest.length → tokens.get? (t + (i + 1) + k) = rest.get? k := by
      intro k hk
      have := h (k + 1) (by simp only [List.length_cons]; omega)
      simpa [Nat.add_assoc, Nat.add_comm 1 k] using this
    have hf1 : rest.length < f := by simp only [List.length_cons] at hf; omega
    have hne : ((rest.length : Int) + 1) ≠ 0 := by omega
    have hsub : ((rest.length : Int) + 1) - 1 = (rest.length : Int) := by omega
    have tyr : ∀ x, x ∈ rest → x.type = JSMN_STRING ∨ x.type = JSMN_PRIMITIVE :=
      fun x hx => hty x (List.mem_cons_of_mem _ hx)
    unfold parse_data_array_count
    simp only [List.length_cons, Nat.cast_add, Nat.cast_one, hne, if_false, h0, hsub]
    rcases hty e (List.mem_cons_self _ _) with hs | hp
    · simp only [hs, if_true]
      exact ih (i + 1) _ f hrest tyr hf1
    · have hns : ¬ e.type = JSMN_STRING := by rw [hp]; decide
      simp only [hns, hp, if_false, if_true]
      exact ih (i + 1) _ f hrest tyr hf1

theorem parse_data_array_count_bad (tokens : jsmn_tokens) (t : Nat) :
    ∀ (elems : List jsmntok_t) (i cnt fuel : Nat),
      (∀ k, k < elems.length → tokens.get? (t + i + k) = elems.get? k) →
      (∃ e, e ∈ elems ∧ e.type ≠ JSMN_STRING ∧ e.type ≠ JSMN_PRIMITIVE) →
      elems.length < fuel →
      parse_data_array_count tokens t fuel (elems.length : Int) i cnt = jsdt_result.PARSER_ERROR := by
  intro elems
  induction elems with
  | nil =>
    intro i cnt fuel _ hbad _
    obtain ⟨e, he, _⟩ := hbad
    simp at he
  | cons e rest ih =>
    intro i cnt fuel h hbad hf
    obtain ⟨f, rfl⟩ := Nat.exists_eq_succ_of_ne_zero (Nat.pos_iff_ne_zero.mp (Nat.lt_of_le_of_lt (Nat.zero_le _) hf))
    have h0 : tokens.get? (t + i) = some e := by simpa using h 0 (by simp)
    have hrest : ∀ k, k < rest.length → tokens.get? (t + (i + 1) + k) = rest.get? k := by
      intro k hk
      have := h (k + 1) (by simp only [List.length_cons]; omega)
      simpa [Nat.add_assoc, Nat.add_comm 1 k] using this
    have hf1 : rest.length < f := by simp only [List.length_cons] at hf; omega
    have hne : ((rest.length : Int) + 1) ≠ 0 := by omega
    have hsub : ((rest.length : Int) + 1) - 1 = (rest.length : Int) := by omega
    unfold parse_data_array_count
    simp only [List.length_cons, Nat.cast_add, Nat.cast_one, hne, if_false, h0, hsub]
    by_cases hs : e.type = JSMN_STRING
    · have hb : ∃ x, x ∈ rest ∧ x.type ≠ JSMN_STRING ∧ x.type ≠ JSMN_PRIMITIVE := by
        obtain ⟨x, hx, hx1, hx2⟩ := hbad
        rcases List.mem_cons.mp hx with rfl | hx
        · exact absurd hs hx1
        · exact ⟨x, hx, hx1, hx2⟩
      simp only [hs, if_true]
      exact ih (i + 1) _ f hrest hb hf1
    · by_cases hp : e.type = JSMN_PRIMITIVE
      · have hb : ∃ x, x ∈ rest ∧ x.type ≠ JSMN_STRING ∧ x.type ≠ JSMN_PRIMITIVE := by
          obtain ⟨x, hx, hx1, hx2⟩ := hbad
          rcases List.mem_cons.mp hx with rfl | hx
          · exact absurd hp hx2
          · exact ⟨x, hx, hx1, hx2⟩
        simp only [hs, hp, if_false, if_true]
        exact ih (i + 1) _ f hrest hb hf1
      · simp only [hs, hp, if_false]

theorem parse_data_array_fill_ok (raw : Nat → Nat) (tokens : jsmn_tokens) (t n : Nat)
    (hnul : raw n = 0) :
    ∀ (elems : List jsmntok_t) (i fuel : Nat) (buf : List Nat),
      (∀ k, k < elems.length → tokens.get? (t + i + k) = elems.get? k) →
      (∀ e, e ∈ elems → e.type = JSMN_STRING ∨ e.type = JSMN_PRIMITIVE) →
      (∀ e, e ∈ elems → e.start.toNat ≤ n) →
      elems.length + n + 1 ≤ fuel →
      parse_data_array_fill raw tokens t fuel (elems.length : Int) i buf =
        (jsdt_result.skip (i + elems.length), buf ++ data_array_bytes raw n elems) := by
  intro elems
  induction elems with
  | nil =>
    intro i fuel buf _ _ _ hf
    obtain ⟨f, rfl⟩ := Nat.exists_eq_succ_of_ne_zero (Nat.pos_iff_ne_zero.mp (Nat.lt_of_lt_of_le (Nat.succ_pos _) hf))
    simp [parse_data_array_fill, data_array_bytes]
  | cons e rest ih =>
    intro i fuel buf h hty hst hf
    obtain ⟨f, rfl⟩ := Nat.exists_eq_succ_of_ne_zero (Nat.pos_iff_ne_zero.mp (Nat.lt_of_lt_of_le (Nat.succ_pos _) hf))
    have h0 : tokens.get? (t + i) = some e := by simpa using h 0 (by simp)
    have hrest : ∀ k, k < rest.length → tokens.get? (t + (i + 1) + k) = rest.get? k := by
      intro k hk
      have := h (k + 1) (by simp only [List.length_cons]; omega)
      simpa [Nat.add_assoc, Nat.add_comm 1 k] using this
    have hf1 : rest.length + n + 1 ≤ f := by simp only [List.length_cons] at hf; omega
    have hne : ((rest.length : Int) + 1) ≠ 0 := by omega
    have hsub : ((rest.length : Int) + 1) - 1 = (rest.length : Int) := by omega
    have tyr : ∀ x, x ∈ rest → x.type = JSMN_STRING ∨ x.type = JSMN_PRIMITIVE :=
      fun x hx => hty x (List.mem_cons_of_mem _ hx)
    have str : ∀ x, x ∈ rest → x.start.toNat ≤ n :=
      fun x hx => hst x (List.mem_cons_of_mem _ hx)
    have hbytes : data_array_bytes raw n (e :: rest) =
        data_array_element raw n e ++ data_array_bytes raw n rest := by
      simp [data_array_bytes]
    have hidx : i + 1 + rest.length = i + (rest.length + 1) := by omega
    unfold parse_data_array_fill
    simp only [List.length_cons, Nat.cast_add, Nat.cast_one, hne, if_false, h0, hsub]
    rcases hty e (List.mem_cons_self _ _) with hs | hp
    · simp only [hs, if_true]
      have e2 := ih (i + 1) f (buf ++ token_to_string raw e) hrest tyr str hf1
      rw [e2, hbytes, hidx]
      simp [data_array_element, hs, token_to_string]
    · have hns : ¬ e.type = JSMN_STRING := by rw [hp]; decide
      obtain ⟨s1, s2⟩ := strtoul_at_token raw n e.start.toNat f hnul
        (hst e (List.mem_cons_self _ _)) (by omega)
      simp only [hns, hp, if_false, if_true, token_to_integer_data, s1]
      obtain ⟨v, hv⟩ := Option.isSome_iff_exists.mp s2
      simp only [hv]
      have e2 := ih (i + 1) f (buf ++ le32 v) hrest tyr str hf1
      rw [e2, hbytes, hidx]
      simp [data_array_element, hns, hv]

/-- C31. For a property whose key is a string token and whose value is an array token of
`size` elements, all produced by the tokenizer and starting inside the text (whose NUL is
at index `n`), and for a bound on the turns of at least `size + n + 3`:
when every element is a string or a primitive, `parse_in_node_token` returns `size + 2`
and appends to the node one property whose data is the concatenation, in element order,
of the characters of each string followed by one NUL and of the four bytes, least
significant first, of the value that `strtoul` with base 0 reads at each primitive (a
value that no larger bound changes), and whose length is the number of these bytes;
when an element is of another kind, it returns `PARSER_ERROR`. A `PARSER_ERROR` of
`parse_in_node_token` is returned as it is by the loop of `build_node`, one of
`build_node` by the loop of `walk_children` and by `parse_in_node_token`, and
`build_device_tree` then returns 0. -/
theorem parse_in_node_token_data_array (raw : Nat → Nat) (tokens : jsmn_tokens) (t : Nat)
    (s : jsdt_state) (key value : jsmntok_t) (elems : List jsmntok_t) (n fuel : Nat)
    (hkey : tokens.get? t = some key) (hks : key.type = JSMN_STRING)
    (hval : tokens.get? (t + 1) = some value) (hva : value.type = JSMN_ARRAY)
    (hsize : elems.length = value.size)
    (helems : ∀ k, k < elems.length → tokens.get? (t + 2 + k) = elems.get? k)
    (hnul : raw n = 0) (hstart : ∀ e, e ∈ elems → e.start.toNat ≤ n)
    (hfuel : value.size + n + 3 ≤ fuel) :
    ((∀ e, e ∈ elems → e.type = JSMN_STRING ∨ e.type = JSMN_PRIMITIVE) →
      parse_in_node_token raw tokens fuel t s =
        (jsdt_result.skip (value.size + 2),
          { s with node := (DT__AddProperty s.node (cstr_at (token_to_string raw key) 0)
              (data_array_bytes raw n elems).length (data_array_bytes raw n elems)) }) ∧
      ∀ e, e ∈ elems → e.type = JSMN_PRIMITIVE → ∀ f, n < f →
        strtoul f (fun k => raw (e.start.toNat + k)) 0 =
          strtoul (n + 1) (fun k => raw (e.start.toNat + k)) 0 ∧
        (strtoul (n + 1) (fun k => raw (e.start.toNat + k)) 0).isSome = true) ∧
    ((∃ e, e ∈ elems ∧ e.type ≠ JSMN_STRING ∧ e.type ≠ JSMN_PRIMITIVE) →
      parse_in_node_token raw tokens fuel t s = (jsdt_result.PARSER_ERROR, s)) ∧
    (∀ f t0 nested i s0, nested ≠ 0 →
      (parse_in_node_token raw tokens f (t0 + i) s0).1 = jsdt_result.PARSER_ERROR →
      (build_node_loop raw tokens (f + 1) t0 nested i s0).1 = jsdt_result.PARSER_ERROR) ∧
    (∀ f t0 s0 tok0, tokens.get? t0 = some tok0 → tok0.type = JSMN_OBJECT →
      (build_node_loop raw tokens f t0 tok0.size 1 s0).1 = jsdt_result.PARSER_ERROR →
      (build_node raw tokens (f + 1) t0 s0).1 = jsdt_result.PARSER_ERROR) ∧
    (∀ f t0 nested i s0, nested ≠ 0 →
      (build_node raw tokens f (t0 + i)
        { node := DT__NewChild none, node_count := s0.node_count }).1 = jsdt_result.PARSER_ERROR →
      (walk_children_loop raw tokens (f + 1) t0 nested i s0).1 = jsdt_result.PARSER_ERROR) ∧
    (∀ f t0 s0 k0 v0, tokens.get? t0 = some k0 → k0.type = JSMN_CHILDREN_TOKEN →
      tokens.get? (t0 + 1) = some v0 → v0.type = JSMN_ARRAY →
      (walk_children_loop raw tokens f (t0 + 1) v0.size 1 s0).1 = jsdt_result.PARSER_ERROR →
      (parse_in_node_token raw tokens (f + 1) t0 s0).1 = jsdt_result.PARSER_ERROR) ∧
    (∀ f, (build_node raw tokens f 0 { node := DT__RootNode, node_count := 0 }).1 =
        jsdt_result.PARSER_ERROR →
      (build_device_tree f raw tokens).map (fun r => r.1) = some 0) := by
  obtain ⟨f, rfl⟩ : ∃ f, fuel = f + 1 := ⟨fuel - 1, by omega⟩
  have hel2 : ∀ k, k < elems.length → tokens.get? (t + 1 + 1 + k) = elems.get? k := helems
  refine ⟨?_, ?_, ?_, ?_, ?_, ?_, ?_⟩
  · intro hty
    refine ⟨?_, ?_⟩
    · obtain ⟨c, hc⟩ := parse_data_array_count_ok tokens (t + 1) elems 1 0 f hel2 hty (by omega)
      have hfill := parse_data_array_fill_ok raw tokens (t + 1) n hnul elems 1 f [] hel2 hty
        hstart (by omega)
      have hpda : parse_data_array f raw tokens (t + 1) =
          (jsdt_result.skip (1 + elems.length), data_array_bytes raw n elems) := by
        unfold parse_data_array
        rw [hval]
        simp only [← hsize, hc, hfill, List.nil_append]
      have hns : ¬ value.type = JSMN_STRING := by rw [hva]; decide
      have hnp : ¬ value.type = JSMN_PRIMITIVE := by rw [hva]; decide
      unfold parse_in_node_token
      have h1 : ¬ JSMN_ARRAY = JSMN_STRING := by decide
      have h2 : ¬ JSMN_ARRAY = JSMN_PRIMITIVE := by decide
      simp only [hkey, hks, if_true, hval, hns, hnp, if_false, hva, hpda, h1, h2]
      rw [← hsize]
      congr 2
      omega
    · intro e he _ f1 hf1
      exact strtoul_at_token raw n e.start.toNat f1 hnul (hstart e he) hf1
  · intro hbad
    have hc := parse_data_array_count_bad tokens (t + 1) elems 1 0 f hel2 hbad (by omega)
    have hpda : parse_data_array f raw tokens (t + 1) = (jsdt_result.PARSER_ERROR, []) := by
      unfold parse_data_array
      rw [hval]
      simp only [← hsize, hc]
    have hns : ¬ value.type = JSMN_STRING := by rw [hva]; decide
    have hnp : ¬ value.type = JSMN_PRIMITIVE := by rw [hva]; decide
    have h1 : ¬ JSMN_ARRAY = JSMN_STRING := by decide
    have h2 : ¬ JSMN_ARRAY = JSMN_PRIMITIVE := by decide
    unfold parse_in_node_token
    simp only [hkey, hks, if_true, hval, hns, hnp, if_false, hva, hpda, h1, h2]
  · intro f1 t0 nested i s0 hn h
    unfold build_node_loop
    simp only [hn, if_false]
    revert h
    cases parse_in_node_token raw tokens f1 (t0 + i) s0 with
    | mk r s1 =>
      intro h
      simp only at h
      subst h
      rfl
  · intro f1 t0 s0 tok0 h0 hty h
    unfold build_node
    simp only [h0, hty, ne_eq, not_true_eq_false, if_false]
    exact h
  · intro f1 t0 nested i s0 hn h
    unfold walk_children_loop
    simp only [hn, if_false]
    revert h
    cases build_node raw tokens f1 (t0 + i)
        { node := DT__NewChild none, node_count := s0.node_count } with
    | mk r s1 =>
      intro h
      simp only at h
      subst h
      rfl
  · intro f1 t0 s0 k0 v0 h0 hk h1 hv h
    have hns : ¬ k0.type = JSMN_STRING := by rw [hk]; decide
    unfold parse_in_node_token
    simp only [h0, hns, if_false, hk, if_true, h1, hv]
    revert h
    cases walk_children_loop raw tokens f1 (t0 + 1) v0.size 1 s0 with
    | mk r s1 =>
      intro h
      simp only at h
      subst h
      rfl
  · intro f1 h
    unfold build_device_tree
    revert h
    cases build_node raw tokens f1 0 { node := DT__RootNode, node_count := 0 } with
    | mk r s1 =>
      intro h
      simp only at h
      subst h
      rfl

/-- C31 (witness). The tokenizer makes `c31_tokens` of the text `{"a": ["xy", 0x10, 7]}`;
on the key `a`, `parse_in_node_token` returns 5 and appends the property `a` of 11 bytes
`x y NUL 10 00 00 00 07 00 00 00`. On the text `{"a": ["xy", {}, 7]}`, whose array holds
an object, `parse_jsdt_device_tree` returns 0. -/
theorem parse_in_node_token_data_array_witness :
    (jsmn_parse 64 jsmn_init c31_text [] 40).map (fun r => (r.1, r.2.2)) =
      some (JSMN_SUCCESS, c31_tokens) ∧
    data_array_bytes c31_text 22 (c31_tokens.drop 3) = [120, 121, 0, 16, 0, 0, 0, 7, 0, 0, 0] ∧
    parse_in_node_token c31_text c31_tokens 28 1 { node := DT__RootNode, node_count := 0 } =
      (jsdt_result.skip 5,
        { node := (DT__AddProperty DT__RootNode [97]
            (data_array_bytes c31_text 22 (c31_tokens.drop 3)).length
            (data_array_bytes c31_text 22 (c31_tokens.drop 3))), node_count := 0 }) ∧
    (parse_jsdt_device_tree 64 c31_bad_text).map (fun r => r.1) = some 0 :=
  ⟨by decide!, by decide!,
    ((parse_in_node_token_data_array c31_text c31_tokens 1
      { node := DT__RootNode, node_count := 0 }
      { type := JSMN_STRING, start := 2, end_ := 3, size := 0 }
      { type := JSMN_ARRAY, start := 6, end_ := 21, size := 3 }
      (c31_tokens.drop 3) 22 28 rfl rfl rfl rfl rfl (by decide) rfl (by decide)
      (by decide)).1 (by decide)).1,
    by decide!⟩

/-! ## The Image-3 round trip -/

theorem image3_reserve_tags_append (c1 c2 : List (Nat × Nat × Mem)) :
    ∀ ctx : img3_context_t,
      image3_reserve_tags ctx (c1 ++ c2) = image3_reserve_tags (image3_reserve_tags ctx c1) c2 ∧
      image3_reserve_ptrs ctx (c1 ++ c2) =
        image3_reserve_ptrs ctx c1 ++ image3_reserve_ptrs (image3_reserve_tags ctx c1) c2 ∧
      (image3_reserve_ptrs ctx c1).length = c1.length := by
  induction c1 with
  | nil => intro ctx; exact ⟨rfl, rfl, rfl⟩
  | cons c rest ih =>
    intro ctx
    obtain ⟨i1, i2, i3⟩ := ih (image3_reserve_tag ctx c.1 c.2.1 c.2.2).2
    refine ⟨?_, ?_, ?_⟩
    · exact i1
    · show _ :: image3_reserve_ptrs _ (rest ++ c2) = _ :: (_ ++ _)
      rw [i2]
      rfl
    · simp only [image3_reserve_ptrs, List.length_cons, i3]

theorem image3_reserve_tags_frame :
    ∀ (calls : List (Nat × Nat × Mem)) (ctx : img3_context_t) (tags : List Nat),
      ctx.dynamic = true →
      tags_tile ctx.head (image3_sz ctx) sizeof_img3_header_t tags →
      image3_sz ctx = 20 + tags_total ctx.head tags →
      img3_unpacked_size ctx.head = tags_total ctx.head tags →
      image3_sz ctx + calls_total calls < 4294967296 →
      ∃ more : List Nat, more.length = calls.length ∧
        (image3_reserve_tags ctx calls).dynamic = true ∧
        tags_tile (image3_reserve_tags ctx calls).head (image3_sz (image3_reserve_tags ctx calls))
          sizeof_img3_header_t (tags ++ more) ∧
        image3_sz (image3_reserve_tags ctx calls) =
          20 + tags_total (image3_reserve_tags ctx calls).head (tags ++ more) ∧
        img3_unpacked_size (image3_reserve_tags ctx calls).head =
          tags_total (image3_reserve_tags ctx calls).head (tags ++ more) ∧
        image3_sz (image3_reserve_tags ctx calls) = image3_sz ctx + calls_total calls ∧
        (∀ a, 12 ≤ a → a + 4 ≤ image3_sz ctx →
          read32 (image3_reserve_tags ctx calls).head a = read32 ctx.head a) ∧
        (∀ o, o ∈ more → ∃ c, c ∈ calls ∧
          tag_type (image3_reserve_tags ctx calls).head o = u32 c.1) := by
  intro calls
  induction calls with
  | nil =>
    intro ctx tags hdyn htile hsz hun _
    refine ⟨[], rfl, hdyn, ?_, ?_, ?_, ?_, fun _ _ _ => rfl, fun o ho => by cases ho⟩
    · simpa using htile
    · simpa using hsz
    · simpa using hun
    · simp [calls_total, image3_reserve_tags]
  | cons call rest ih =>
    intro ctx tags hdyn htile hsz hun hfit
    have hc : calls_total (call :: rest) = call.2.1 + 12 + calls_total rest := by
      unfold calls_total sizeof_img3_tag_t
      simp
    rw [hc] at hfit
    have h20 : 20 ≤ image3_sz ctx := tags_tile_le _ _ _ _ htile
    obtain ⟨-, -, -, -, s5, -, -, s8⟩ :=
      image3_reserve_tag_spec ctx call.1 call.2.1 call.2.2 hdyn h20 (by omega)
    obtain ⟨i1, i2, i3, i4, i5⟩ :=
      image3_reserve_tag_inv ctx call.1 call.2.1 call.2.2 tags hdyn htile hsz hun (by omega)
    obtain ⟨more, j1, j2, j3, j4, j5, j6, j7, j8⟩ := ih _ _ i1 i2 i3 i4 (by rw [i5]; omega)
    refine ⟨image3_sz ctx :: more, ?_, j2, ?_, ?_, ?_, ?_, ?_, ?_⟩
    · simp [j1]
    · simpa using j3
    · simpa using j4
    · simpa using j5
    · show image3_sz (image3_reserve_tags _ rest) = _
      rw [j6, i5, hc]
      omega
    · intro a ha1 ha2
      show read32 (image3_reserve_tags _ rest).head a = _
      rw [j7 a ha1 (by rw [i5]; omega)]
      exact s8 a ha1 ha2
    · intro o ho
      rcases List.mem_cons.mp ho with rfl | ho
      · refine ⟨call, List.mem_cons_self _ _, ?_⟩
        show read32 (image3_reserve_tags _ rest).head (image3_sz ctx) = _
        rw [j7 _ (by omega) (by rw [i5]; omega)]
        exact s5
      · obtain ⟨c, hc1, hc2⟩ := j8 o ho
        exact ⟨c, List.mem_cons_of_mem _ hc1, hc2⟩

theorem tags_tile_mem (head : Mem) (full : Nat) :
    ∀ (tags : List Nat) (off : Nat), tags_tile head full off tags →
      ∀ o, o ∈ tags → off ≤ o ∧ o + 12 ≤ full := by
  intro tags
  induction tags with
  | nil => intro off _ o ho; cases ho
  | cons t rest ih =>
    intro off ht o ho
    obtain ⟨e, h1, h2, h3⟩ := ht
    unfold sizeof_img3_tag_t at h1
    rcases List.mem_cons.mp ho with rfl | ho
    · omega
    · have := ih _ h3 o ho
      omega

/-- C33 (as amended). In the container that `image3_new` returns, after a run of
`image3_reserve_tag` calls with pairwise distinct types whose sizes do not wrap 32 bits
(20 plus the sum of `data_length + 12` stays below `2^32`), for each call `(t, L)` of the
run: the call returned the pointer 12 bytes past the start of its tag, which is at
offset 20 plus the sizes of the calls before it; `image3_find_tag(t)` returns that tag;
and `image3_get_tag_data(t)` returns true with the same pointer and the size `L`, for
every bound on the turns of the search above the number of calls made before. -/
theorem image3_round_trip (type : Nat) (fresh : Mem) (ctx : img3_context_t)
    (hnew : image3_new type (some fresh) true = some ctx)
    (c1 c2 : List (Nat × Nat × Mem)) (call : Nat × Nat × Mem)
    (hdist : ((c1 ++ call :: c2).map (fun c => c.1)).Nodup)
    (h32 : ∀ c, c ∈ c1 ++ call :: c2 → c.1 < 4294967296)
    (hfit : 20 + calls_total (c1 ++ call :: c2) < 4294967296)
    (fuel : Nat) (hfuel : c1.length < fuel) :
    (image3_reserve_ptrs ctx (c1 ++ call :: c2)).get? c1.length =
      some (some (20 + calls_total c1 + 12)) ∧
    image3_find_tag fuel (image3_reserve_tags ctx (c1 ++ call :: c2)) call.1 =
      some (some (20 + calls_total c1)) ∧
    image3_get_tag_data fuel (image3_reserve_tags ctx (c1 ++ call :: c2)) call.1 =
      some (some (20 + calls_total c1 + 12, call.2.1)) := by
  obtain ⟨n1, n2, n3⟩ := image3_new_spec type fresh ctx hnew
  have htot : calls_total (c1 ++ call :: c2) =
      calls_total c1 + (call.2.1 + 12 + calls_total c2) := by
    unfold calls_total sizeof_img3_tag_t
    simp
  rw [htot] at hfit
  have ht0 : tags_tile ctx.head (image3_sz ctx) sizeof_img3_header_t [] := by
    show sizeof_img3_header_t = image3_sz ctx
    rw [n2]
    rfl
  obtain ⟨more1, a1, a2, a3, a4, a5, a6, -, a8⟩ := image3_reserve_tags_frame c1 ctx [] n1 ht0
    (by rw [n2]; rfl) (by rw [n3]; rfl) (by rw [n2]; omega)
  rw [List.nil_append] at a3 a4 a5
  rw [n2] at a6
  obtain ⟨p1, p2, p3⟩ := image3_reserve_tags_append c1 (call :: c2) ctx
  generalize image3_reserve_tags ctx c1 = ctx1 at a2 a3 a4 a5 a6 a8 p1 p2
  have h20 : 20 ≤ image3_sz ctx1 := by omega
  obtain ⟨s1, -, -, -, s5, -, s7, s8⟩ :=
    image3_reserve_tag_spec ctx1 call.1 call.2.1 call.2.2 a2 h20 (by omega)
  obtain ⟨i1, i2, i3, i4, i5⟩ :=
    image3_reserve_tag_inv ctx1 call.1 call.2.1 call.2.2 more1 a2 a3 a4 a5 (by omega)
  obtain ⟨more2, -, -, b3, -, -, -, b7, -⟩ := image3_reserve_tags_frame c2 _ _ i1 i2 i3 i4
    (by rw [i5]; omega)
  have hfinal : image3_reserve_tags ctx (c1 ++ call :: c2) =
      image3_reserve_tags (image3_reserve_tag ctx1 call.1 call.2.1 call.2.2).2 c2 := p1
  rw [hfinal]
  generalize image3_reserve_tags (image3_reserve_tag ctx1 call.1 call.2.1 call.2.2).2 c2 = fin
    at b3 b7
  rw [i5] at b7
  have hm1 := tags_tile_mem _ _ _ _ a3
  unfold sizeof_img3_header_t at hm1
  have hcall := h32 call (by simp)
  have htype : tag_type fin.head (image3_sz ctx1) = call.1 := by
    show read32 _ _ = _
    rw [b7 _ (by omega) (by omega)]
    rw [u32_of_lt hcall] at s5
    exact s5
  have hlen : tag_data_length fin.head (image3_sz ctx1) = call.2.1 := by
    show read32 _ _ = _
    rw [b7 _ (by omega) (by omega)]
    exact s7
  have hne : ∀ o, o ∈ more1 → tag_type fin.head o ≠ call.1 := by
    intro o ho
    obtain ⟨c, hc1, hc2⟩ := a8 o ho
    have hb := hm1 o ho
    have e : tag_type fin.head o = u32 c.1 := by
      show read32 _ _ = _
      rw [b7 _ (by omega) (by omega), s8 _ (by omega) (by omega)]
      exact hc2
    rw [e, u32_of_lt (h32 c (by simp [hc1]))]
    intro heq
    rw [List.map_append, List.map_cons, List.nodup_append] at hdist
    exact hdist.2.2 (List.mem_map_of_mem (fun c => c.1) hc1) (by rw [heq]; simp)
  have htile : tags_tile fin.head (img3_full_size fin.head) sizeof_img3_header_t
      (more1 ++ image3_sz ctx1 :: more2) := by
    have := b3
    rw [List.append_assoc] at this
    exact this
  have hfind : image3_find_tag fuel fin call.1 = some (some (image3_sz ctx1)) := by
    unfold image3_find_tag
    exact image3_find_tag_loop_first fin call.1 (image3_sz ctx1) more2 htype more1 _ fuel htile
      hne (by omega)
  refine ⟨?_, ?_, ?_⟩
  · rw [p2, List.get?_eq_getElem?, List.getElem?_append_right (by omega), p3, Nat.sub_self]
    simp only [image3_reserve_ptrs, List.getElem?_cons_zero]
    rw [s1, a6]
  · rw [hfind, a6]
  · unfold image3_get_tag_data
    rw [hfind, a6]
    simp only [Option.map_some']
    rw [← a6, hlen, a6]
    congr 3
    exact u32_of_lt (by unfold sizeof_img3_tag_t; omega)

/-- C33 (witness). After `image3_new` and the calls `image3_reserve_tag(TYPE, 4)`,
`image3_reserve_tag(DATA, 8)` and `image3_reserve_tag(KBAG, 0)`, the second call has
returned the pointer at offset 48, the tag `DATA` is found at offset 36 and
`image3_get_tag_data(DATA)` gives the pointer at offset 48 and the size 8. -/
theorem image3_round_trip_witness :
    (image3_reserve_ptrs img3_empty c33w_calls).get? 1 = some (some 48) ∧
    image3_find_tag 2 (image3_reserve_tags img3_empty c33w_calls) 0x44415441 =
      some (some 36) ∧
    image3_get_tag_data 2 (image3_reserve_tags img3_empty c33w_calls) 0x44415441 =
      some (some (48, 8)) :=
  image3_round_trip 0x6b726e6c zero_heap _ rfl [(0x54595045, 4, zero_heap)]
    [(0x4b424147, 0, zero_heap)] (0x44415441, 8, letter_heap) (by decide) (by decide)
    (by decide) 2 (by decide)

/-- C33 (as stated, refuted). With sizes that wrap 32 bits the round trip is lost: after
`image3_reserve_tag(TYPE, 0xfffffff0)` and `image3_reserve_tag(DATA, 4)`, which returned
the pointers at offsets 32 and 28, `image3_get_tag_data` returns false for both types.
For a type that was never reserved the search reads the tag header at `full_size`, past
the last tag: on the container without tag in a heap of bytes `0x41`,
`image3_get_tag_data(0x41414141)` returns true with the pointer at offset 32, and on the
container with the one tag `TYPE` in a heap of zero bytes `image3_get_tag_data(0)`
returns true with the pointer at offset 48. -/
theorem image3_get_tag_data_fails :
    (c33_calls.map (fun c => c.1)).Nodup ∧
    image3_reserve_ptrs img3_empty c33_calls = [some 32, some 28] ∧
    image3_get_tag_data 4294967296 (image3_reserve_tags img3_empty c33_calls) 0x54595045 =
      some none ∧
    image3_get_tag_data 4294967296 (image3_reserve_tags img3_empty c33_calls) 0x44415441 =
      some none ∧
    image3_get_tag_data 4294967296 img3_empty_letters 0x41414141 =
      some (some (32, 0x41414141)) ∧
    image3_get_tag_data 4294967296 img3_one_tag 0 = some (some (48, 0)) := by
  refine ⟨by decide, by decide!, by decide!, by decide!, by decide!, by decide!⟩

/-! ## The range that `mach_file_map` writes -/

theorem segments_of_mem (cmd : segment_command) :
    ∀ cmds : List load_command, load_command.LC_SEGMENT cmd ∈ cmds ↔ cmd ∈ segments_of cmds := by
  intro cmds
  induction cmds with
  | nil => simp [segments_of]
  | cons lc rest ih =>
    cases lc <;> simp [segments_of, ih]

theorem segments_vmsize_of :
    ∀ cmds : List load_command,
      segments_vmsize cmds = ((segments_of cmds).map (fun c => c.vmsize)).sum := by
  intro cmds
  induction cmds with
  | nil => rfl
  | cons lc rest ih =>
    cases lc <;> simp [segments_of, segments_vmsize, ih]

theorem segments_contiguous_mem :
    ∀ (segs : List segment_command) (start : Nat), segments_contiguous start segs →
      ∀ cmd, cmd ∈ segs → start ≤ cmd.vmaddr ∧ cmd.filesize ≤ cmd.vmsize ∧
        cmd.vmaddr + cmd.vmsize ≤ start + (segs.map (fun c => c.vmsize)).sum := by
  intro segs
  induction segs with
  | nil => intro _ _ cmd h; cases h
  | cons c rest ih =>
    intro start hc cmd hmem
    obtain ⟨h1, h2, h3⟩ := hc
    simp only [List.map_cons, List.sum_cons]
    rcases List.mem_cons.mp hmem with rfl | hmem
    · omega
    · have := ih _ h3 cmd hmem
      omega

theorem seg_writes_in_range (vm_bias load_addr n : Nat) (cmd : segment_command) (a : Nat)
    (h1 : vm_bias ≤ cmd.vmaddr) (h2 : cmd.filesize ≤ cmd.vmsize)
    (h3 : cmd.vmaddr + cmd.vmsize ≤ vm_bias + n) (h4 : vm_bias + n ≤ 4294967296)
    (h5 : cmd.vmsize < 4294967296)
    (hw : seg_writes vm_bias load_addr cmd a) :
    in_mapped_range load_addr n a ∧
    (load_addr + n ≤ 4294967296 → load_addr ≤ a ∧ a < load_addr + n) := by
  unfold in_mapped_range
  unfold seg_writes seg_dst add_ptr3 add_ptr2 at hw
  have hsub : sub32 cmd.vmaddr vm_bias = cmd.vmaddr - vm_bias := by
    unfold sub32
    omega
  rw [hsub] at hw
  rcases hw with ⟨hf, hlo, hhi⟩ | ⟨⟨hd, hgt⟩, hlo, hhi⟩
  · unfold u32 at hlo hhi
    unfold sub32
    constructor
    · omega
    · intro hfit
      omega
  · have hdelta : sub32 cmd.vmsize cmd.filesize = cmd.vmsize - cmd.filesize := by
      unfold sub32
      omega
    rw [hdelta] at hhi
    unfold u32 at hlo hhi
    unfold sub32
    constructor
    · omega
    · intro hfit
      omega

/-- C36 (as amended). For an executable whose segments are contiguous in virtual memory
from `vm_bias`, each with `filesize <= vmsize`, and end below `2^32`
(`vm_bias` plus the sum of the `vmsize` fields is below `2^32`), and whose header and
load commands do not depend on the `N` bytes from `load_addr`, `mach_file_vmsize`
reports the sum `N` of the `vmsize` fields, every address that `mach_file_map` writes
for a segment lies, as a 32-bit address, in the `N` bytes from `load_addr`, and every
byte outside these `N` bytes is left as it was, whatever `mach_file_map` returns. When
`load_addr + N` does not pass `2^32` these are the addresses of `[load_addr,
load_addr + N)`. The context holds the header as `mach_file_init` found it. -/
theorem mach_file_map_within_vmsize (rd : macho_reader) (file : mach_loader_context_t)
    (load_addr vmsize : Nat) (m : Mem) (hexec : file.filetype = MH_EXECUTE)
    (hhead : file.head = read_header rd m file.file)
    (hcont : segments_contiguous file.vm_bias (segments_of file.head.cmds))
    (hspace : file.vm_bias + segments_vmsize file.head.cmds < 4294967296)
    (hkept : commands_kept rd file.file m
      (in_mapped_range load_addr (segments_vmsize file.head.cmds))) :
    mach_file_vmsize file = (LOADER_SUCCESS, some (segments_vmsize file.head.cmds)) ∧
    (∀ cmd a, cmd ∈ segments_of file.head.cmds → seg_writes file.vm_bias load_addr cmd a →
      in_mapped_range load_addr (segments_vmsize file.head.cmds) a ∧
      (load_addr + segments_vmsize file.head.cmds ≤ 4294967296 →
        load_addr ≤ a ∧ a < load_addr + segments_vmsize file.head.cmds)) ∧
    (∀ a, ¬ in_mapped_range load_addr (segments_vmsize file.head.cmds) a →
      (mach_file_map rd file load_addr vmsize m).2.2 a = m a) ∧
    (load_addr + segments_vmsize file.head.cmds ≤ 4294967296 →
      ∀ a, ¬ (load_addr ≤ a ∧ a < load_addr + segments_vmsize file.head.cmds) →
        (mach_file_map rd file load_addr vmsize m).2.2 a = m a) := by
  have hsum := segments_vmsize_of file.head.cmds
  have hmem := segments_contiguous_mem _ _ hcont
  have hw : ∀ cmd a, cmd ∈ segments_of file.head.cmds → seg_writes file.vm_bias load_addr cmd a →
      in_mapped_range load_addr (segments_vmsize file.head.cmds) a ∧
      (load_addr + segments_vmsize file.head.cmds ≤ 4294967296 →
        load_addr ≤ a ∧ a < load_addr + segments_vmsize file.head.cmds) := by
    intro cmd a hc hwr
    obtain ⟨h1, h2, h3⟩ := hmem cmd hc
    rw [← hsum] at h3
    exact seg_writes_in_range file.vm_bias load_addr _ cmd a h1 h2 h3 (by omega) (by omega) hwr
  have hW : ∀ a, map_writes file.filetype file.vm_bias load_addr
      (read_header rd m file.file).cmds a →
      in_mapped_range load_addr (segments_vmsize file.head.cmds) a := by
    rintro a ⟨cmd, hc, hwr⟩
    rw [← hhead] at hc
    rcases hwr with ⟨_, hwr⟩ | ⟨hobj, _⟩
    · exact (hw cmd a ((segments_of_mem cmd _).mp hc) hwr).1
    · rw [hexec] at hobj
      exact absurd hobj (by decide)
  have hframe := (mach_file_map_kept rd file load_addr vmsize m _ hkept hW).2.2.1
  refine ⟨?_, hw, hframe, ?_⟩
  · rw [mach_file_vmsize_execute file hexec, u32_of_lt (by omega)]
  · intro hfit a ha
    have hkept2 : commands_kept rd file.file m
        (fun x => load_addr ≤ x ∧ x < load_addr + segments_vmsize file.head.cmds) :=
      commands_kept_mono rd file.file m _ _ (by
        intro x hx
        unfold in_mapped_range sub32
        omega) hkept
    have hW2 : ∀ x, map_writes file.filetype file.vm_bias load_addr
        (read_header rd m file.file).cmds x →
        load_addr ≤ x ∧ x < load_addr + segments_vmsize file.head.cmds := by
      rintro x ⟨cmd, hc, hwr⟩
      rw [← hhead] at hc
      rcases hwr with ⟨_, hwr⟩ | ⟨hobj, _⟩
      · exact (hw cmd x ((segments_of_mem cmd _).mp hc) hwr).2 hfit
      · rw [hexec] at hobj
        exact absurd hobj (by decide)
    exact (mach_file_map_kept rd file load_addr vmsize m _ hkept2 hW2).2.2.1 a ha

/-- C36 (witness). The executable `c36w_file` stands at address 100 and has two segments
of 4 bytes contiguous from `vm_bias = 0x1000`; `mach_file_vmsize` reports 8 and
`mach_file_map` at `0x2000` leaves every byte outside `[0x2000, 0x2008)` as it was. -/
theorem mach_file_map_within_vmsize_witness :
    mach_file_vmsize c36w_file = (LOADER_SUCCESS, some 8) ∧
    ∀ a, ¬ (0x2000 ≤ a ∧ a < 0x2000 + 8) →
      (mach_file_map (file_reader c36w_file) c36w_file 0x2000 8 c36_mem).2.2 a = c36_mem a :=
  have h := mach_file_map_within_vmsize (file_reader c36w_file) c36w_file 0x2000 8 c36_mem rfl
    (by decide!) (by decide) (by decide) (image_reader_kept _ _ _ _ _)
  ⟨h.1, h.2.2.2 (by decide)⟩

/-- C36 (as stated, refuted). The two segments of `c36_file` are contiguous from
`vm_bias = 0` and have `filesize <= vmsize`, but their sizes add up to `2^32`:
`mach_file_vmsize` reports the size 0 while `mach_file_map` at `0x20000000` returns
`LOADER_SUCCESS` and writes the bytes at `0x20000000`, `0x20000001` and `0xa0000000`.
The image stands at address 100, below the addresses written. -/
theorem mach_file_map_outside_vmsize :
    c36_file.filetype = MH_EXECUTE ∧
    c36_file.head = read_header (file_reader c36_file) c36_mem c36_file.file ∧
    segments_contiguous c36_file.vm_bias (segments_of c36_file.head.cmds) ∧
    mach_file_vmsize c36_file = (LOADER_SUCCESS, some 0) ∧
    (mach_file_map (file_reader c36_file) c36_file 0x20000000 0 c36_mem).1 = LOADER_SUCCESS ∧
    c36_mem 0x20000001 = 0xaa ∧
    (mach_file_map (file_reader c36_file) c36_file 0x20000000 0 c36_mem).2.2 0x20000001 = 0 ∧
    (mach_file_map (file_reader c36_file) c36_file 0x20000000 0 c36_mem).2.2 0xa0000001 = 0 := by
  decide!

/-! ## Block comments in the tokenizer -/

/-- C34 (code evaluated at a failing input). In the text `{ /*/ 'b': 2, */ 'a': 1 }` the
block comment opens at index 2 and the first `*/` after its opening is at index 14. The
scan of `jsmn_comment_length` starts at the `/` that opens the comment, so it takes the
`*` of the opening and the `/` that follows as the end: `jsmn_parse` goes on at index 5,
inside the comment, and returns six tokens, among them `b`, `2` and `*/`, with an object
of size 5. With the comment replaced by spaces it returns three tokens and an object of
size 2. A comment whose text does not start with `/` is skipped: `{ /* b */ 'a': 1 }`
gives the same three tokens as the text with spaces. -/
theorem jsmn_parse_comment_slash :
    (c34_text 2 = 47 ∧ c34_text 3 = 42 ∧ c34_text 14 = 42 ∧ c34_text 15 = 47 ∧
      ∀ i, i < 14 → 4 ≤ i → ¬ (c34_text i = 42 ∧ c34_text (i + 1) = 47)) ∧
    jsmn_comment_length 64 (fun i => c34_text (2 + i)) = some 2 ∧
    (jsmn_parse 64 jsmn_init c34_text [] 40).map (fun r => (r.1, r.2.2)) =
      some (JSMN_SUCCESS,
        [{ type := JSMN_OBJECT, start := 0, end_ := 25, size := 5 },
         { type := JSMN_STRING, start := 7, end_ := 8, size := 0 },
         { type := JSMN_PRIMITIVE, start := 11, end_ := 12, size := 0 },
         { type := JSMN_PRIMITIVE, start := 14, end_ := 16, size := 0 },
         { type := JSMN_STRING, start := 18, end_ := 19, size := 0 },
         { type := JSMN_PRIMITIVE, start := 22, end_ := 23, size := 0 }]) ∧
    (jsmn_parse 64 jsmn_init c34_blank [] 40).map (fun r => (r.1, r.2.2)) =
      some (JSMN_SUCCESS,
        [{ type := JSMN_OBJECT, start := 0, end_ := 25, size := 2 },
         { type := JSMN_STRING, start := 18, end_ := 19, size := 0 },
         { type := JSMN_PRIMITIVE, start := 22, end_ := 23, size := 0 }]) ∧
    (jsmn_parse 64 jsmn_init c34_plain [] 40).map (fun r => (r.1, r.2.2)) =
      (jsmn_parse 64 jsmn_init c34_plain_blank [] 40).map (fun r => (r.1, r.2.2)) ∧
    (jsmn_parse 64 jsmn_init c34_plain [] 40).map (fun r => (r.1, r.2.2)) =
      some (JSMN_SUCCESS,
        [{ type := JSMN_OBJECT, start := 0, end_ := 18, size := 2 },
         { type := JSMN_STRING, start := 11, end_ := 12, size := 0 },
         { type := JSMN_PRIMITIVE, start := 15, end_ := 16, size := 0 }]) := by
  refine ⟨by decide, by decide!, by decide!, by decide!, by decide!, by decide!⟩

/-! ## The tree builder and the token count -/

/-- C37 (code evaluated at failing inputs). On the empty text `jsmn_parse` returns
`JSMN_SUCCESS` without producing a token, and `build_node` reads the token of index 0.
On the text `{'a'}` it returns `JSMN_SUCCESS` with two tokens, an object of size 1 and
the string `a`; `build_node` takes the string as a key and `parse_in_node_token` reads
the token of index 2 as its value. In both runs the builder reads a token that the
tokenizer did not produce. -/
theorem build_node_reads_past_tokens :
    (jsmn_parse 64 jsmn_init c37_empty [] 40).map (fun r => (r.1, r.2.2)) =
      some (JSMN_SUCCESS, []) ∧
    (build_node c37_empty [] 64 0 { node := DT__RootNode, node_count := 0 }).1 =
      jsdt_result.bad_token ∧
    (jsmn_parse 64 jsmn_init c37_text [] 40).map (fun r => (r.1, r.2.2)) =
      some (JSMN_SUCCESS, c37_tokens) ∧
    c37_tokens.length = 2 ∧
    (parse_in_node_token c37_text c37_tokens 64 1 { node := DT__RootNode, node_count := 0 }).1 =
      jsdt_result.bad_token ∧
    (build_node c37_text c37_tokens 64 0 { node := DT__RootNode, node_count := 0 }).1 =
      jsdt_result.bad_token := by
  refine ⟨by decide!, by decide!, by decide!, by decide!, by decide!, by decide!⟩

/-! ## The device-tree flag and the kernel range -/

theorem load_macho_setup_kernel_flag (env : Env) (command flags : Nat) (s : machine)
    (hk : flags &&& kMachKernel ≠ 0)
    (hinv : tree_needs_kernel env.RANGE_IS_NULL s.g) :
    (setup_state (load_macho_setup env command flags s)).g.gHasDeviceTree = false := by
  unfold tree_needs_kernel at hinv
  unfold load_macho_setup
  dsimp only
  rw [if_pos hk]
  cases hf : s.g.gHasDeviceTree
  · split_ifs <;> simp_all [setup_state, teardown_old_loader_context]
  · have := hinv hf
    split_ifs <;> simp_all [setup_state, teardown_old_loader_context]

theorem load_macho_driver_tree (command flags image_address image_size raw_image_dest : Nat)
    (is_compressed : Bool) (s : machine) :
    (load_macho_driver command flags image_address image_size raw_image_dest is_compressed
      s).2.g.gHasDeviceTree = s.g.gHasDeviceTree ∧
    (load_macho_driver command flags image_address image_size raw_image_dest is_compressed
      s).2.g.gKernelMemoryRange = s.g.gKernelMemoryRange := by
  unfold load_macho_driver
  dsimp only
  split_ifs <;> exact ⟨rfl, rfl⟩

theorem load_macho_kernel_tree (env : Env) (command image_address : Nat) (s : machine) :
    (load_macho_kernel env command image_address s).2.g.gHasDeviceTree =
      s.g.gHasDeviceTree := by
  unfold load_macho_kernel
  cases hload : load_macho env s.mem image_address (command_load_address s.mem command)
      s.g.gKernelMemoryTop with
  | mk res m1 =>
    cases res with
    | none => rfl
    | some es => rfl

theorem load_macho_from_command_tree (env : Env) (command : Nat) (s : machine)
    (hinv : tree_needs_kernel env.RANGE_IS_NULL s.g) :
    tree_needs_kernel env.RANGE_IS_NULL (load_macho_from_command env command s).2.g := by
  by_cases hk : command_flags s.mem command &&& kMachKernel ≠ 0
  · have hflag := load_macho_setup_kernel_flag env command _ s hk hinv
    have hfalse : (load_macho_from_command env command s).2.g.gHasDeviceTree = false := by
      unfold load_macho_from_command
      dsimp only
      cases hsetup : load_macho_setup env command (command_flags s.mem command) s with
      | inl r =>
        rw [hsetup] at hflag
        exact hflag
      | inr s1 =>
        rw [hsetup] at hflag
        dsimp only
        generalize (if command_flags s.mem command &&& kMachDriver ≠ 0 then
            u32 (s1.g.gKernelMemoryTop + DRIVER_PAD_START) else s1.g.gKernelMemoryTop) = raw
        cases hdec : load_macho_decompress env command (command_flags s.mem command)
            (u32 (command + sizeof_command_macho_t))
            (sub32 (command_size s.mem command) sizeof_command_macho_t) raw s1.mem with
        | inl m1 => exact hflag
        | inr r =>
          obtain ⟨image_address1, image_size, m1⟩ := r
          dsimp only
          split_ifs
          · rw [(load_macho_driver_tree _ _ _ _ _ _ _).1]
            exact hflag
          · rw [load_macho_kernel_tree]
            exact hflag
    intro h
    rw [hfalse] at h
    cases h
  · have hk0 : command_flags s.mem command &&& kMachKernel = 0 := by
      by_contra h
      exact hk h
    obtain ⟨hl, hr⟩ := load_macho_setup_other env command (command_flags s.mem command) s hk0
    have hg : (load_macho_from_command env command s).2.g.gHasDeviceTree = s.g.gHasDeviceTree ∧
        (load_macho_from_command env command s).2.g.gKernelMemoryRange =
          s.g.gKernelMemoryRange := by
      unfold load_macho_from_command
      dsimp only
      cases hsetup : load_macho_setup env command (command_flags s.mem command) s with
      | inl r =>
        rw [hl r hsetup]
        exact ⟨rfl, rfl⟩
      | inr s1 =>
        have hs1 := hr s1 hsetup
        dsimp only
        generalize (if command_flags s.mem command &&& kMachDriver ≠ 0 then
            u32 (s1.g.gKernelMemoryTop + DRIVER_PAD_START) else s1.g.gKernelMemoryTop) = raw
        cases hdec : load_macho_decompress env command (command_flags s.mem command)
            (u32 (command + sizeof_command_macho_t))
            (sub32 (command_size s.mem command) sizeof_command_macho_t) raw s1.mem with
        | inl m1 =>
          dsimp only
          rw [hs1]
          exact ⟨rfl, rfl⟩
        | inr r =>
          obtain ⟨image_address1, image_size, m1⟩ := r
          dsimp only
          rw [if_neg hk]
          split_ifs
          · obtain ⟨d1, d2⟩ := load_macho_driver_tree command (command_flags s.mem command)
              image_address1 image_size raw
              (decide (command_flags s.mem command &&&
                (kCommandMachOFlags_CompressedLZSS ||| kCommandMachOFlags_CompressedQLZ) ≠ 0))
              { s1 with mem := m1 }
            rw [d1, d2]
            dsimp only
            rw [hs1]
            exact ⟨rfl, rfl⟩
          · dsimp only
            rw [hs1]
            exact ⟨rfl, rfl⟩
    unfold tree_needs_kernel at hinv ⊢
    rw [hg.1, hg.2]
    exact hinv

theorem parse_dt_command_tree (env : Env) (parser : Mem → Nat → Bool × Option Node)
    (cmd : Nat) (s : machine) (hinv : tree_needs_kernel env.RANGE_IS_NULL s.g) :
    tree_needs_kernel env.RANGE_IS_NULL (parse_dt_command env parser cmd s).2.g := by
  unfold tree_needs_kernel at hinv ⊢
  unfold parse_dt_command assert_kernel_load
  dsimp only
  split_ifs with h1 h2
  · exact hinv
  · exact hinv
  · cases hp : parser s.mem (u32 (cmd + sizeof_command_t)) with
    | mk b dt =>
      cases b
      · exact hinv
      · intro _
        dsimp only
        simpa using h2

theorem toc_command_tree (env : Env) (cmd : Nat) (s : machine)
    (hinv : tree_needs_kernel env.RANGE_IS_NULL s.g) :
    tree_needs_kernel env.RANGE_IS_NULL (toc_command env cmd s).2.g := by
  unfold toc_command
  dsimp only
  split_ifs
  · exact hinv
  · exact load_macho_from_command_tree env cmd s hinv
  · exact parse_dt_command_tree env _ cmd s hinv
  · exact parse_dt_command_tree env _ cmd s hinv
  · exact hinv

theorem toc_loop_tree (env : Env) (n cmd : Nat) (s : machine)
    (hinv : tree_needs_kernel env.RANGE_IS_NULL s.g) :
    tree_needs_kernel env.RANGE_IS_NULL (toc_loop env n cmd s).2.g := by
  induction n generalizing cmd s with
  | zero => exact hinv
  | succ n ih =>
    have hstep := toc_command_tree env cmd s hinv
    simp only [toc_loop]
    cases hc : toc_command env cmd s with
    | mk r s1 =>
      rw [hc] at hstep
      cases r with
      | zero => exact ih _ s1 hstep
      | succ r => exact hstep

theorem run_step_tree (null : memory_range_t → Bool) (step : loader_step) (s : machine)
    (hnull : ∀ env a, step = loader_step.imgx env a → env.RANGE_IS_NULL = null)
    (hinv : tree_needs_kernel null s.g) :
    tree_needs_kernel null (run_step step s).g := by
  cases step with
  | imgx env image_address =>
    have e := hnull env image_address rfl
    subst e
    unfold run_step load_general_image
    dsimp only
    split_ifs
    · exact load_macho_from_command_tree env image_address s hinv
    · exact parse_dt_command_tree env _ image_address s hinv
    · exact parse_dt_command_tree env _ image_address s hinv
    · exact toc_loop_tree env _ _ s hinv
    · exact hinv
  | rdx addr size =>
    unfold run_step do_rdx
    dsimp only
    split_ifs <;> exact hinv

theorem map_add_drivers_tree (boot : BootEnv) (memory_map : Node) (s : machine)
    (b : Bool) (map1 : Node) (s1 : machine)
    (h : map_add_drivers boot memory_map s = some (b, map1, s1)) :
    s1.g.gHasDeviceTree = s.g.gHasDeviceTree ∧
    s1.g.gKernelMemoryRange = s.g.gKernelMemoryRange := by
  unfold map_add_drivers at h
  cases hl : map_add_drivers_loop boot s.g.gLoadedDriverImages memory_map s.mem with
  | none => rw [hl] at h; cases h
  | some r =>
    obtain ⟨b1, map2, m1⟩ := r
    rw [hl] at h
    cases b1 <;>
      (simp only [Option.some.injEq, Prod.mk.injEq] at h
       obtain ⟨_, _, h3⟩ := h
       subst h3
       exact ⟨rfl, rfl⟩)

theorem mach_boot_tree (env : Env) (boot : BootEnv) (kernel_mem : memory_region_t)
    (s : machine) (r : mach_boot_result) (h : mach_boot env boot kernel_mem s = some r) :
    r.state.g.gHasDeviceTree = s.g.gHasDeviceTree ∧
    r.state.g.gKernelMemoryRange = s.g.gKernelMemoryRange := by
  unfold mach_boot at h
  split_ifs at h with hflag
  · injection h with h
    subst h
    exact ⟨rfl, rfl⟩
  · dsimp only at h
    split at h
    · injection h with h
      subst h
      exact ⟨rfl, rfl⟩
    · split at h
      · cases h
      · rename_i map2 s2 hadd
        obtain ⟨d1, d2⟩ := map_add_drivers_tree _ _ _ _ _ _ hadd
        injection h with h
        subst h
        exact ⟨d1, d2⟩
      · rename_i map2 s2 hadd
        obtain ⟨d1, d2⟩ := map_add_drivers_tree _ _ _ _ _ _ hadd
        split at h
        · injection h with h
          subst h
          exact ⟨d1, d2⟩
        · injection h with h
          subst h
          exact ⟨d1, d2⟩

theorem run_session_tree (null : memory_range_t → Bool) :
    ∀ (steps : List session_step) (s s1 : machine), session_null null steps →
      tree_needs_kernel null s.g → run_session steps s = some s1 →
      tree_needs_kernel null s1.g := by
  intro steps
  induction steps with
  | nil =>
    intro s s1 _ hinv hrun
    simp only [run_session, Option.some.injEq] at hrun
    subst hrun
    exact hinv
  | cons step rest ih =>
    intro s s1 hnull hinv hrun
    simp only [run_session] at hrun
    cases step with
    | load st =>
      simp only [run_session_step] at hrun
      cases st with
      | imgx env a =>
        obtain ⟨h1, h2⟩ := hnull
        exact ih _ s1 h2
          (run_step_tree null _ s (fun env1 a1 he => by cases he; exact h1) hinv) hrun
      | rdx addr size =>
        exact ih _ s1 hnull
          (run_step_tree null _ s (fun env1 a1 he => by cases he) hinv) hrun
    | boot env boot kernel_mem =>
      simp only [run_session_step] at hrun
      cases hb : mach_boot env boot kernel_mem s with
      | none => rw [hb] at hrun; cases hrun
      | some r =>
        rw [hb] at hrun
        dsimp only at hrun
        split_ifs at hrun
        obtain ⟨b1, b2⟩ := mach_boot_tree env boot kernel_mem s r hb
        refine ih _ s1 hnull ?_ hrun
        unfold tree_needs_kernel at hinv ⊢
        rw [b1, b2]
        exact hinv

/-- C38. In every state that a session reaches from the state at start-up by boot-stream
images handed to `load_general_image`, calls of `do_rdx` and calls of `mach_boot` that
return 1, in any number and any order and whatever the steps return, a set device-tree
flag implies that `gKernelMemoryRange` is not a null range (`RANGE_IS_NULL` is the same
test in every step). A call of `mach_boot` that follows a failed one, on the finalized
tree, is a step like the others. -/
theorem device_tree_flag_needs_kernel (null : memory_range_t → Bool) (m : Mem)
    (steps : List session_step) (s : machine) (hnull : session_null null steps)
    (hrun : run_session steps { g := initial_loader_state, mem := m, dt := none } = some s) :
    s.g.gHasDeviceTree = true → null s.g.gKernelMemoryRange = false :=
  run_session_tree null steps _ s hnull (fun h => by cases h) hrun

/-- C38 (witness). After the table of contents of S1, the driver command, the JSDT
command, a call of `mach_boot` that fails, a call of `do_rdx` that fails and two more
calls of `mach_boot` that fail on the finalized tree, the session is in a state in which
the device-tree flag is set, the tree is finalized and the kernel range is not null. -/
theorem device_tree_flag_needs_kernel_witness :
    (run_session c38_steps { g := initial_loader_state, mem := c38_mem, dt := none }).map
      (fun s => (s.g.gHasDeviceTree, s.dt.isNone,
        s1_env.RANGE_IS_NULL s.g.gKernelMemoryRange)) =
      some (true, true, false) := by
  have hflag : (run_session c38_steps
      { g := initial_loader_state, mem := c38_mem, dt := none }).map
      (fun s => (s.g.gHasDeviceTree, s.dt.isNone)) = some (true, true) := by decide!
  cases h : run_session c38_steps { g := initial_loader_state, mem := c38_mem, dt := none } with
  | none => rw [h] at hflag; cases hflag
  | some s =>
    rw [h] at hflag
    have hf : s.g.gHasDeviceTree = true ∧ s.dt.isNone = true := by simpa using hflag
    have hk := device_tree_flag_needs_kernel s1_env.RANGE_IS_NULL c38_mem c38_steps s
      ⟨rfl, rfl, rfl, trivial⟩ h hf.1
    simp [hf.1, hf.2, hk]

/-! ## The LZSS decoder -/

theorem lzss_put_spec (st : lzss_state) (c : Nat) :
    (lzss_put st c).out = st.out ++ [c] ∧ (lzss_put st c).src = st.src ∧
    (lzss_put st c).flags = st.flags :=
  ⟨rfl, rfl, rfl⟩

theorem lzss_copy_spec (i : Nat) :
    ∀ (turns k : Nat) (st : lzss_state),
      ∃ more : List Nat, (lzss_copy i turns k st).out = st.out ++ more ∧
        more.length = turns ∧ (lzss_copy i turns k st).src = st.src ∧
        (lzss_copy i turns k st).flags = st.flags := by
  intro turns
  induction turns with
  | zero => intro k st; exact ⟨[], by simp [lzss_copy], rfl, rfl, rfl⟩
  | succ n ih =>
    intro k st
    obtain ⟨more, h1, h2, h3, h4⟩ := ih (k + 1) (lzss_put st (st.text_buf ((i + k) &&& (N - 1))))
    refine ⟨st.text_buf ((i + k) &&& (N - 1)) :: more, ?_, ?_, ?_, ?_⟩
    · simp only [lzss_copy]
      rw [h1]
      simp [lzss_put]
    · simp [h2]
    · simp only [lzss_copy]
      rw [h3]
      rfl
    · simp only [lzss_copy]
      rw [h4]
      rfl

theorem and_0x0F_le (j : Nat) : j &&& 0x0F ≤ 15 := by
  have := @Nat.and_le_right j 0x0F
  simpa using this

theorem lzss_turn_spec (src : Nat → Nat) (n : Nat) (st st1 : lzss_state)
    (h : lzss_turn src n st = some st1) :
    (∃ more : List Nat, st1.out = st.out ++ more ∧
      more.length ≤ 9 * (st1.src - st.src)) ∧
    st.src < st1.src ∧ st1.src ≤ n := by
  unfold lzss_turn at h
  dsimp only at h
  split at h
  · cases h
  · rename_i flags2 p hrd
    have hp : st.src ≤ p ∧ p ≤ st.src + 1 := by
      split_ifs at hrd <;>
        (simp only [Option.some.injEq, Prod.mk.injEq] at hrd
         obtain ⟨_, hrd⟩ := hrd
         omega)
    split_ifs at h with h1 h2 h3 h4
    · injection h with h
      subst h
      refine ⟨⟨[src p % 256], rfl, ?_⟩, ?_, ?_⟩
      · show 1 ≤ 9 * (p + 1 - st.src)
        omega
      · show st.src < p + 1
        omega
      · show p + 1 ≤ n
        omega
    · injection h with h
      subst h
      obtain ⟨more, c1, c2, c3, _⟩ := lzss_copy_spec
        (src p % 256 ||| (src (p + 1) % 256 &&& 0xF0) <<< 4)
        ((src (p + 1) % 256 &&& 0x0F) + THRESHOLD + 1) 0
        { st with src := p + 2, flags := flags2 }
      have hle := and_0x0F_le (src (p + 1) % 256)
      refine ⟨⟨more, c1, ?_⟩, ?_, ?_⟩
      · rw [c2, c3]
        show _ ≤ 9 * (p + 2 - st.src)
        unfold THRESHOLD
        omega
      · rw [c3]
        show st.src < p + 2
        omega
      · rw [c3]
        show p + 2 ≤ n
        omega

theorem lzss_turn_mono (src : Nat → Nat) (k n : Nat) (hkn : k ≤ n) (st st1 : lzss_state)
    (h : lzss_turn src k st = some st1) : lzss_turn src n st = some st1 := by
  unfold lzss_turn at h ⊢
  dsimp only at h ⊢
  by_cases hf : (st.flags >>> 1) &&& 0x100 = 0
  · rw [if_pos hf] at h ⊢
    by_cases hs : st.src < k
    · rw [if_pos hs] at h
      rw [if_pos (by omega : st.src < n)]
      dsimp only at h ⊢
      split_ifs at h with h1 h2 h3 h4
      · rw [if_pos h1, if_pos (by omega : st.src + 1 < n)]
        exact h
      · rw [if_neg h1, if_pos (by omega : st.src + 1 < n),
          if_pos (by omega : st.src + 1 + 1 < n)]
        exact h
    · rw [if_neg hs] at h
      cases h
  · rw [if_neg hf] at h ⊢
    dsimp only at h ⊢
    split_ifs at h with h1 h2 h3 h4
    · rw [if_pos h1, if_pos (by omega : st.src < n)]
      exact h
    · rw [if_neg h1, if_pos (by omega : st.src < n), if_pos (by omega : st.src + 1 < n)]
      exact h

theorem lzss_turn_congr (src src2 : Nat → Nat) (n : Nat)
    (hsrc : ∀ i, i < n → src i = src2 i) (st : lzss_state) :
    lzss_turn src n st = lzss_turn src2 n st := by
  unfold lzss_turn
  dsimp only
  by_cases hf : (st.flags >>> 1) &&& 0x100 = 0
  · rw [if_pos hf, if_pos hf]
    by_cases hs : st.src < n
    · rw [if_pos hs, if_pos hs, hsrc _ hs]
      dsimp only
      by_cases h1 : st.src + 1 < n
      · rw [hsrc _ h1]
        by_cases h2 : st.src + 1 + 1 < n
        · rw [hsrc _ h2]
        · simp only [h2, if_false]
      · simp only [h1, if_false]
    · rw [if_neg hs, if_neg hs]
  · rw [if_neg hf, if_neg hf]
    dsimp only
    by_cases h1 : st.src < n
    · rw [hsrc _ h1]
      by_cases h2 : st.src + 1 < n
      · rw [hsrc _ h2]
      · simp only [h2, if_false]
    · simp only [h1, if_false]

theorem lzss_loop_spec (src : Nat → Nat) (n : Nat) :
    ∀ (fuel : Nat) (st r : lzss_state), st.src ≤ n → lzss_loop src n fuel st = some r →
      (∃ more : List Nat, r.out = st.out ++ more ∧ more.length ≤ 9 * (r.src - st.src)) ∧
      st.src ≤ r.src ∧ r.src ≤ n := by
  intro fuel
  induction fuel with
  | zero => intro st r _ h; cases h
  | succ f ih =>
    intro st r hst h
    simp only [lzss_loop] at h
    cases ht : lzss_turn src n st with
    | none =>
      rw [ht] at h
      injection h with h
      subst h
      exact ⟨⟨[], by simp, by simp⟩, Nat.le_refl _, hst⟩
    | some st1 =>
      rw [ht] at h
      obtain ⟨⟨m1, a1, a2⟩, a3, a4⟩ := lzss_turn_spec src n st st1 ht
      obtain ⟨⟨m2, b1, b2⟩, b3, b4⟩ := ih st1 r a4 h
      refine ⟨⟨m1 ++ m2, ?_, ?_⟩, by omega, b4⟩
      · rw [b1, a1, List.append_assoc]
      · rw [List.length_append]
        omega

theorem lzss_loop_total (src : Nat → Nat) (n : Nat) :
    ∀ (fuel : Nat) (st : lzss_state), st.src ≤ n → n - st.src < fuel →
      ∃ r, lzss_loop src n fuel st = some r := by
  intro fuel
  induction fuel with
  | zero => intro st _ h; omega
  | succ f ih =>
    intro st hst hf
    simp only [lzss_loop]
    cases ht : lzss_turn src n st with
    | none => exact ⟨st, rfl⟩
    | some st1 =>
      obtain ⟨_, a3, a4⟩ := lzss_turn_spec src n st st1 ht
      exact ih st1 a4 (by omega)

theorem lzss_loop_prefix (src : Nat → Nat) (k n : Nat) (hkn : k ≤ n) :
    ∀ (fuel1 fuel2 : Nat) (st r1 r2 : lzss_state), st.src ≤ n →
      lzss_loop src k fuel1 st = some r1 → lzss_loop src n fuel2 st = some r2 →
      r1.out <+: r2.out := by
  intro fuel1
  induction fuel1 with
  | zero => intro fuel2 st r1 r2 _ h; cases h
  | succ f ih =>
    intro fuel2 st r1 r2 hst h1 h2
    simp only [lzss_loop] at h1
    cases ht : lzss_turn src k st with
    | none =>
      rw [ht] at h1
      injection h1 with h1
      subst h1
      obtain ⟨⟨more, e, _⟩, _, _⟩ := lzss_loop_spec src n fuel2 _ r2 hst h2
      exact ⟨more, e.symm⟩
    | some st1 =>
      rw [ht] at h1
      have ht2 := lzss_turn_mono src k n hkn st st1 ht
      cases fuel2 with
      | zero => cases h2
      | succ g =>
        simp only [lzss_loop, ht2] at h2
        obtain ⟨_, _, a4⟩ := lzss_turn_spec src n st st1 ht2
        exact ih g st1 r1 r2 a4 h1 h2

theorem lzss_loop_fuel (src : Nat → Nat) (n : Nat) :
    ∀ (fuel1 fuel2 : Nat) (st r : lzss_state), lzss_loop src n fuel1 st = some r →
      fuel1 ≤ fuel2 → lzss_loop src n fuel2 st = some r := by
  intro fuel1
  induction fuel1 with
  | zero => intro fuel2 st r h; cases h
  | succ f ih =>
    intro fuel2 st r h hle
    obtain ⟨g, rfl⟩ : ∃ g, fuel2 = g + 1 := ⟨fuel2 - 1, by omega⟩
    simp only [lzss_loop] at h ⊢
    cases ht : lzss_turn src n st with
    | none => rw [ht] at h; exact h
    | some st1 =>
      rw [ht] at h
      exact ih g st1 r h (by omega)

theorem lzss_loop_congr (src src2 : Nat → Nat) (n : Nat)
    (hsrc : ∀ i, i < n → src i = src2 i) :
    ∀ (fuel : Nat) (st : lzss_state), lzss_loop src n fuel st = lzss_loop src2 n fuel st := by
  intro fuel
  induction fuel with
  | zero => intro st; rfl
  | succ f ih =>
    intro st
    simp only [lzss_loop]
    rw [lzss_turn_congr src src2 n hsrc st]
    cases lzss_turn src2 n st with
    | none => rfl
    | some st1 => exact ih st1

theorem lzss_return_small (count : Nat) (h : count < 2147483648) :
    lzss_return count = (count : Int) := by
  unfold lzss_return
  have e : count % 4294967296 = count := Nat.mod_eq_of_lt (by omega)
  rw [e, if_pos h]

theorem lzss_turn_c40_first (n : Nat) (st : lzss_state)
    (hf : (st.flags >>> 1) &&& 0x100 = 0) (hs : st.src % 17 = 0) (hn : st.src + 2 < n) :
    ∃ st1, lzss_turn c40_src n st = some st1 ∧ st1.src = st.src + 3 ∧ st1.flags = 0xFF00 ∧
      st1.out.length = st.out.length + 18 := by
  have e0 : c40_src st.src = 0 := by unfold c40_src; rw [if_pos hs]
  have e1 : c40_src (st.src + 1) = 0xFF := by unfold c40_src; rw [if_neg (by omega)]
  have e2 : c40_src (st.src + 1 + 1) = 0xFF := by unfold c40_src; rw [if_neg (by omega)]
  obtain ⟨more, c1, c2, c3, c4⟩ := lzss_copy_spec
    (0xFF % 256 ||| (0xFF % 256 &&& 0xF0) <<< 4) ((0xFF % 256 &&& 0x0F) + THRESHOLD + 1) 0
    { st with src := st.src + 1 + 2, flags := 0 % 256 ||| 0xFF00 }
  refine ⟨_, ?_, c3, c4, ?_⟩
  · unfold lzss_turn
    dsimp only
    rw [if_pos hf, if_pos (by omega), e0]
    dsimp only
    rw [if_neg (by decide), if_pos (by omega), if_pos (by omega), e1, e2]
  · rw [c1, List.length_append, c2]
    rfl

theorem lzss_turn_c40_next (n : Nat) (st : lzss_state)
    (hf1 : (st.flags >>> 1) &&& 0x100 ≠ 0) (hf2 : (st.flags >>> 1) &&& 1 = 0)
    (hs1 : st.src % 17 ≠ 0) (hs2 : (st.src + 1) % 17 ≠ 0) (hn : st.src + 1 < n) :
    ∃ st1, lzss_turn c40_src n st = some st1 ∧ st1.src = st.src + 2 ∧
      st1.flags = st.flags >>> 1 ∧ st1.out.length = st.out.length + 18 := by
  have e1 : c40_src st.src = 0xFF := by unfold c40_src; rw [if_neg hs1]
  have e2 : c40_src (st.src + 1) = 0xFF := by unfold c40_src; rw [if_neg hs2]
  obtain ⟨more, c1, c2, c3, c4⟩ := lzss_copy_spec
    (0xFF % 256 ||| (0xFF % 256 &&& 0xF0) <<< 4) ((0xFF % 256 &&& 0x0F) + THRESHOLD + 1) 0
    { st with src := st.src + 2, flags := st.flags >>> 1 }
  refine ⟨_, ?_, c3, c4, ?_⟩
  · unfold lzss_turn
    dsimp only
    rw [if_neg hf1]
    dsimp only
    rw [if_neg (by rw [hf2]; decide), if_pos (by omega), if_pos (by omega), e1, e2]
  · rw [c1, List.length_append, c2]
    rfl

theorem lzss_loop_c40_period (n : Nat) (st : lzss_state)
    (hf : (st.flags >>> 1) &&& 0x100 = 0) (hs : st.src % 17 = 0) (hn : st.src + 17 ≤ n)
    (fuel : Nat) :
    ∃ st8, lzss_loop c40_src n (fuel + 1 + 1 + 1 + 1 + 1 + 1 + 1 + 1) st =
        lzss_loop c40_src n fuel st8 ∧
      st8.src = st.src + 17 ∧ (st8.flags >>> 1) &&& 0x100 = 0 ∧
      st8.out.length = st.out.length + 144 := by
  obtain ⟨s1, t1, a1, b1, c1⟩ := lzss_turn_c40_first n st hf hs (by omega)
  obtain ⟨s2, t2, a2, b2, c2⟩ := lzss_turn_c40_next n s1 (by rw [b1]; decide)
    (by rw [b1]; decide) (by omega) (by omega) (by omega)
  rw [b1] at b2
  obtain ⟨s3, t3, a3, b3, c3⟩ := lzss_turn_c40_next n s2 (by rw [b2]; decide)
    (by rw [b2]; decide) (by omega) (by omega) (by omega)
  rw [b2] at b3
  obtain ⟨s4, t4, a4, b4, c4⟩ := lzss_turn_c40_next n s3 (by rw [b3]; decide)
    (by rw [b3]; decide) (by omega) (by omega) (by omega)
  rw [b3] at b4
  obtain ⟨s5, t5, a5, b5, c5⟩ := lzss_turn_c40_next n s4 (by rw [b4]; decide)
    (by rw [b4]; decide) (by omega) (by omega) (by omega)
  rw [b4] at b5
  obtain ⟨s6, t6, a6, b6, c6⟩ := lzss_turn_c40_next n s5 (by rw [b5]; decide)
    (by rw [b5]; decide) (by omega) (by omega) (by omega)
  rw [b5] at b6
  obtain ⟨s7, t7, a7, b7, c7⟩ := lzss_turn_c40_next n s6 (by rw [b6]; decide)
    (by rw [b6]; decide) (by omega) (by omega) (by omega)
  rw [b6] at b7
  obtain ⟨s8, t8, a8, b8, c8⟩ := lzss_turn_c40_next n s7 (by rw [b7]; decide)
    (by rw [b7]; decide) (by omega) (by omega) (by omega)
  rw [b7] at b8
  refine ⟨s8, ?_, by omega, by rw [b8]; decide, by omega⟩
  simp only [lzss_loop, t1, t2, t3, t4, t5, t6, t7, t8]

theorem lzss_loop_c40 :
    ∀ (m : Nat) (n : Nat) (st : lzss_state), (st.flags >>> 1) &&& 0x100 = 0 →
      st.src % 17 = 0 → st.src + 17 * m = n → ∀ fuel, 8 * m < fuel →
      ∃ r, lzss_loop c40_src n fuel st = some r ∧ r.out.length = st.out.length + 144 * m := by
  intro m
  induction m with
  | zero =>
    intro n st hf _ hn fuel hfuel
    obtain ⟨f, rfl⟩ : ∃ f, fuel = f + 1 := ⟨fuel - 1, by omega⟩
    refine ⟨st, ?_, by simp⟩
    have ht : lzss_turn c40_src n st = none := by
      unfold lzss_turn
      dsimp only
      rw [if_pos hf, if_neg (by omega)]
    simp only [lzss_loop, ht]
  | succ m ih =>
    intro n st hf hs hn fuel hfuel
    obtain ⟨f, rfl⟩ : ∃ f, fuel = f + 1 + 1 + 1 + 1 + 1 + 1 + 1 + 1 := ⟨fuel - 8, by omega⟩
    obtain ⟨st8, e, a, b, c⟩ := lzss_loop_c40_period n st hf hs (by omega) f
    obtain ⟨r, hr, hlen⟩ := ih n st8 b (by omega) (by omega) f (by omega)
    exact ⟨r, by rw [e, hr], by omega⟩

/-- C40 (as amended). `decompress_lzss` on a source buffer of `n` bytes returns, for
every bound on the turns above `n`: it reads no source byte of index `n` or more (two
sources that agree below `n` give the same result), the bytes written when decoding the
first `k <= n` source bytes are a prefix of the bytes written when decoding the first
`n`, from the same ring buffer, at most `9 * n` bytes are written, and the return value
is the `int` that the number of bytes written gives modulo `2^32`, which is that number
when it is below `2^31`. -/
theorem decompress_lzss_streaming (stack src : Nat → Nat) (k n fuel1 fuel2 : Nat)
    (hkn : k ≤ n) (hf1 : k < fuel1) (hf2 : n < fuel2) :
    ∃ outk outn : List Nat,
      decompress_lzss fuel1 stack src k = some (lzss_return outk.length, outk) ∧
      decompress_lzss fuel2 stack src n = some (lzss_return outn.length, outn) ∧
      outk <+: outn ∧
      outn.length ≤ 9 * n ∧
      (outn.length < 2147483648 → lzss_return outn.length = (outn.length : Int)) ∧
      (∀ src2 : Nat → Nat, (∀ i, i < n → src i = src2 i) →
        decompress_lzss fuel2 stack src2 n = decompress_lzss fuel2 stack src n) := by
  have h0 : (lzss_start stack).src = 0 := rfl
  obtain ⟨r1, e1⟩ := lzss_loop_total src k fuel1 (lzss_start stack) (by rw [h0]; omega)
    (by rw [h0]; omega)
  obtain ⟨r2, e2⟩ := lzss_loop_total src n fuel2 (lzss_start stack) (by rw [h0]; omega)
    (by rw [h0]; omega)
  obtain ⟨⟨more, m1, m2⟩, m3, m4⟩ := lzss_loop_spec src n fuel2 _ r2 (by rw [h0]; omega) e2
  refine ⟨r1.out, r2.out, ?_, ?_, ?_, ?_, ?_, ?_⟩
  · unfold decompress_lzss
    rw [e1]
    rfl
  · unfold decompress_lzss
    rw [e2]
    rfl
  · exact lzss_loop_prefix src k n hkn fuel1 fuel2 _ r1 r2 (by rw [h0]; omega) e1 e2
  · rw [m1]
    have : (lzss_start stack).out = [] := rfl
    rw [this, List.nil_append]
    rw [h0] at m2
    omega
  · exact lzss_return_small _
  · intro src2 hsrc
    unfold decompress_lzss
    rw [lzss_loop_congr src src2 n hsrc]

/-- C40 (witness). On the source `c40w_src` with a ring buffer of zero bytes after the
blanks, the first 11 source bytes give the 8 bytes `A` to `H` and the return value 8, the
14 source bytes give 15 bytes and the return value 15, and the first output is a prefix
of the second. -/
theorem decompress_lzss_streaming_witness :
    decompress_lzss 12 zero_heap c40w_src 11 = some (8, [65, 66, 67, 68, 69, 70, 71, 72]) ∧
    decompress_lzss 15 zero_heap c40w_src 14 =
      some (15, [65, 66, 67, 68, 69, 70, 71, 72, 65, 66, 67, 65, 66, 67, 68]) ∧
    ((decompress_lzss 12 zero_heap c40w_src 11).map (fun r => r.2)).getD [] <+:
      ((decompress_lzss 15 zero_heap c40w_src 14).map (fun r => r.2)).getD [] := by
  refine ⟨by decide!, by decide!, ?_⟩
  obtain ⟨outk, outn, h1, h2, h3, _⟩ :=
    decompress_lzss_streaming zero_heap c40w_src 11 14 12 15 (by decide) (by decide)
      (by decide)
  rw [h1, h2]
  exact h3

/-- C40 (as stated, refuted). The source `c40_src` of 253522377 bytes (14913081 periods of
a flag byte `0x00` and eight pairs `0xFF 0xFF`) makes `decompress_lzss` write
2147483664 bytes, and the `int` that it returns is -2147483632. -/
theorem decompress_lzss_return_overflows :
    (decompress_lzss 253522378 zero_heap c40_src 253522377).map
      (fun r => (r.1, r.2.length)) = some (-2147483632, 2147483664) := by
  obtain ⟨r, hr, hlen⟩ := lzss_loop_c40 14913081 253522377 (lzss_start zero_heap)
    (by decide) (by decide) (by decide) 253522378 (by decide)
  have hlen2 : r.out.length = 2147483664 := by
    rw [hlen]
    rfl
  unfold decompress_lzss
  rw [hr]
  simp only [Option.map_some', hlen2]
  rfl
/-! ## A failed command inside a table of contents -/

theorem toc_loop_first_failure (env : Env) (n cmd : Nat) (s : machine)
    (hret : (toc_loop env n cmd s).1 ≠ 0) :
    ∃ k, k < n ∧ (∀ i, i < k → toc_ret env cmd s i = 0) ∧ toc_ret env cmd s k ≠ 0 ∧
      toc_loop env n cmd s = toc_command env (toc_walk env cmd s k).1 (toc_walk env cmd s k).2 := by
  obtain ⟨h1, _, h3⟩ := toc_loop_spec env n cmd s
  have hex : ∃ k, k < n ∧ toc_ret env cmd s k ≠ 0 := by
    by_contra hno
    apply hret
    rw [h1]
    intro i hi
    by_contra hne
    exact hno ⟨i, hi, hne⟩
  classical
  refine ⟨Nat.find hex, (Nat.find_spec hex).1, ?_, (Nat.find_spec hex).2, ?_⟩
  · intro i hi
    by_contra hne
    exact Nat.find_min hex hi ⟨lt_trans hi (Nat.find_spec hex).1, hne⟩
  · refine h3 _ (Nat.find_spec hex).1 ?_ (Nat.find_spec hex).2
    intro i hi
    by_contra hne
    exact Nat.find_min hex hi ⟨lt_trans hi (Nat.find_spec hex).1, hne⟩

/-- C9 (as amended). A command handed to `load_general_image` that returns nonzero and
is neither a table of contents nor a Mach-O command with the kernel flag leaves the
global variables of the loader exactly as they were. When a table of contents returns
nonzero, there is a failing command, the one of index `k`: the `k` commands before it
have returned zero, it has returned nonzero, the return value and the state of
`load_general_image` are those that it leaves after the `k` commands before it, and if
it does not carry the kernel flag the global variables are those left by these `k`
commands. -/
theorem load_general_image_failed (env : Env) (image_address : Nat) (s : machine)
    (hret : (load_general_image env image_address s).1 ≠ 0) :
    (read32 s.mem image_address ≠ kTableOfContentsMagic →
      kernel_flagged s.mem image_address = false →
      (load_general_image env image_address s).2.g = s.g) ∧
    (read32 s.mem image_address = kTableOfContentsMagic →
      ∃ k, k < read32 s.mem (image_address + 4) ∧
        (∀ i, i < k → toc_ret env (u32 (image_address + sizeof_command_t)) s i = 0) ∧
        toc_ret env (u32 (image_address + sizeof_command_t)) s k ≠ 0 ∧
        load_general_image env image_address s =
          toc_command env (toc_walk env (u32 (image_address + sizeof_command_t)) s k).1
            (toc_walk env (u32 (image_address + sizeof_command_t)) s k).2 ∧
        (kernel_flagged (toc_walk env (u32 (image_address + sizeof_command_t)) s k).2.mem
            (toc_walk env (u32 (image_address + sizeof_command_t)) s k).1 = false →
          (load_general_image env image_address s).2.g =
            (toc_walk env (u32 (image_address + sizeof_command_t)) s k).2.g)) := by
  constructor
  · intro htoc hk
    unfold load_general_image at hret ⊢
    dsimp only at hret ⊢
    split_ifs at hret ⊢ with h1 h2 h3
    · refine load_macho_from_command_failed env image_address s ?_ hret
      unfold kernel_flagged at hk
      simpa [h1] using hk
    · exact parse_dt_command_failed env _ image_address s hret
    · exact parse_dt_command_failed env _ image_address s hret
    · rfl
  · intro htoc
    have hne : kTableOfContentsMagic ≠ kCommandMachO ∧
        kTableOfContentsMagic ≠ kCommandXMLDeviceTree ∧
        kTableOfContentsMagic ≠ kCommandJSDeviceTree := by decide
    have hrun : load_general_image env image_address s =
        toc_loop env (read32 s.mem (image_address + 4))
          (u32 (image_address + sizeof_command_t)) s := by
      unfold load_general_image parse_table_of_contents
      dsimp only
      rw [htoc, if_neg hne.1, if_neg hne.2.1, if_neg hne.2.2, if_pos rfl]
    rw [hrun] at hret ⊢
    obtain ⟨k, hk, hbefore, hfail, heq⟩ := toc_loop_first_failure env _ _ s hret
    refine ⟨k, hk, hbefore, hfail, heq, ?_⟩
    intro hflag
    rw [heq]
    exact toc_command_failed env _ _ hflag hfail

/-- C9 (witness). The driver command at `0x12000000`, handed over before any kernel is
loaded, returns nonzero and leaves the global variables as they were. The table of
contents at `0x15000000`, handed over once a kernel, a driver and a device tree are
loaded, returns nonzero: its JSDT command returns zero, its second command is the
failing one and the global variables are left as they were. -/
theorem load_general_image_failed_driver :
    ((load_general_image s1_env 0x12000000 s1_start).1 ≠ 0 ∧
      (load_general_image s1_env 0x12000000 s1_start).2.g = s1_start.g) ∧
    toc_ret s1_env (u32 (0x15000000 + sizeof_command_t)) c9_state 0 = 0 ∧
    toc_ret s1_env (u32 (0x15000000 + sizeof_command_t)) c9_state 1 ≠ 0 ∧
    (load_general_image s1_env 0x15000000 c9_state).2.g = c9_state.g ∧
    (∃ k, k < read32 c9_state.mem (0x15000000 + 4) ∧
      (∀ i, i < k → toc_ret s1_env (u32 (0x15000000 + sizeof_command_t)) c9_state i = 0) ∧
      toc_ret s1_env (u32 (0x15000000 + sizeof_command_t)) c9_state k ≠ 0 ∧
      load_general_image s1_env 0x15000000 c9_state =
        toc_command s1_env (toc_walk s1_env (u32 (0x15000000 + sizeof_command_t)) c9_state k).1
          (toc_walk s1_env (u32 (0x15000000 + sizeof_command_t)) c9_state k).2 ∧
      (kernel_flagged (toc_walk s1_env (u32 (0x15000000 + sizeof_command_t)) c9_state k).2.mem
          (toc_walk s1_env (u32 (0x15000000 + sizeof_command_t)) c9_state k).1 = false →
        (load_general_image s1_env 0x15000000 c9_state).2.g =
          (toc_walk s1_env (u32 (0x15000000 + sizeof_command_t)) c9_state k).2.g)) :=
  ⟨⟨by decide!,
    (load_general_image_failed s1_env 0x12000000 s1_start (by decide!)).1 (by decide!)
      (by decide!)⟩,
   by decide!, by decide!, by decide!,
   (load_general_image_failed s1_env 0x15000000 c9_state (by decide!)).2 (by decide!)⟩

end XnuUboot
